import Mathlib

/-!
# FlexGridGraph: the detailed-routing grid graph (src/drt/src/dr/FlexGridGraph.h)

A shallow embedding of the node store and coordinate index of `FlexGridGraph`, followed
by one of the sink clustering of clock-tree synthesis (src/cts/src/SinkClustering.cpp).

Conventions of the embedding.
* `frMIdx`, `frCoord` and `frLayerNum` are C++ `int`; they are embedded as `Int`.
  Conversions from an unsigned type to `int` are written with `toInt32`, unsigned
  32-bit arithmetic with `% 2 ^ 32`.
* `frUInt4` is `unsigned int`; the cost counters of a `Node` are bit-fields of
  `cost_bits` bits of that type, embedded as `Nat`; a store into a counter keeps the
  value modulo `2 ^ cost_bits`.
* The vectors of the class are lists.  An access `v[i]` outside the vector is
  undefined behaviour in the source and `none` in the embedding, so every function
  that indexes a vector without a check returns an `Option`.
* Functions that change the grid return the new grid (and the returned value, when
  the source function returns one).
-/

namespace fr

/-! ## Base types -/

/-- Modelled from the spec: the enumeration frDirEnum, declared in frBaseTypes.h, which is
not among the sources at hand.  The six directions of an edge and UNKNOWN, in the order of
their values (UNKNOWN = 0, D = 1, S = 2, W = 3, E = 4, N = 5, U = 6). -/
inductive frDirEnum where
  | UNKNOWN
  | D
  | S
  | W
  | E
  | N
  | U
  deriving DecidableEq, Repr

/-- Modelled from the spec: the preferred wiring direction of a layer (dbTechLayerDir of the
layout database, not among the sources at hand), with the three values the grid
distinguishes. -/
inductive dbTechLayerDir where
  | NONE
  | HORIZONTAL
  | VERTICAL
  deriving DecidableEq, Repr

/-- Modelled from the spec: a point of the layout plane (Point of the geometry library, not
among the sources at hand). -/
structure Point where
  x : Int
  y : Int
  deriving DecidableEq, Repr

/-- Modelled from the spec: an axis-parallel rectangle of the layout plane (Rect of the
geometry library, not among the sources at hand). -/
structure Rect where
  xMin : Int
  yMin : Int
  xMax : Int
  yMax : Int
  deriving DecidableEq, Repr

/-- Modelled from the spec: Rect::intersects(Point) of the geometry library, which is not
part of the sources at hand; the box contains the point, borders included. -/
def Rect.intersects (box : Rect) (p : Point) : Bool :=
  decide (box.xMin ≤ p.x) && decide (p.x ≤ box.xMax)
    && decide (box.yMin ≤ p.y) && decide (p.y ≤ box.yMax)

/-- Number of bits of a cost counter in the production configuration
(DEBUG_DRT_UNDERFLOW not defined). -/
def cost_bits : Nat := 8

/-- One grid point: the bit-fields of `struct Node`. -/
structure Node where
  hasEastEdge : Bool
  hasNorthEdge : Bool
  hasUpEdge : Bool
  isBlockedEast : Bool
  isBlockedNorth : Bool
  isBlockedUp : Bool
  hasSpecialVia : Bool
  overrideShapeCostVia : Bool
  hasGridCostEast : Bool
  hasGridCostNorth : Bool
  hasGridCostUp : Bool
  routeShapeCostPlanar : Nat
  routeShapeCostVia : Nat
  markerCostPlanar : Nat
  markerCostVia : Nat
  fixedShapeCostVia : Nat
  fixedShapeCostPlanarHorz : Nat
  fixedShapeCostPlanarVert : Nat
  deriving DecidableEq, Repr

/-- The constructor `Node()`: every field is zero. -/
def Node.zero : Node :=
  { hasEastEdge := false, hasNorthEdge := false, hasUpEdge := false,
    isBlockedEast := false, isBlockedNorth := false, isBlockedUp := false,
    hasSpecialVia := false, overrideShapeCostVia := false,
    hasGridCostEast := false, hasGridCostNorth := false, hasGridCostUp := false,
    routeShapeCostPlanar := 0, routeShapeCostVia := 0,
    markerCostPlanar := 0, markerCostVia := 0,
    fixedShapeCostVia := 0, fixedShapeCostPlanarHorz := 0, fixedShapeCostPlanarVert := 0 }

/-- Every counter of the node fits its bit-field. -/
def Node.inRange (n : Node) : Prop :=
  n.routeShapeCostPlanar < 2 ^ cost_bits ∧ n.routeShapeCostVia < 2 ^ cost_bits
    ∧ n.markerCostPlanar < 2 ^ cost_bits ∧ n.markerCostVia < 2 ^ cost_bits
    ∧ n.fixedShapeCostVia < 2 ^ cost_bits ∧ n.fixedShapeCostPlanarHorz < 2 ^ cost_bits
    ∧ n.fixedShapeCostPlanarVert < 2 ^ cost_bits

instance (n : Node) : Decidable n.inRange := by
  unfold Node.inRange; infer_instance

/-- The data members of `FlexGridGraph` that hold the grid. -/
structure FlexGridGraph where
  nodes_ : List Node
  prevDirs_ : List Bool
  srcs_ : List Bool
  dsts_ : List Bool
  guides_ : List Bool
  xCoords_ : List Int
  yCoords_ : List Int
  zCoords_ : List Int
  zHeights_ : List Int
  layerRouteDirections_ : List dbTechLayerDir
  deriving DecidableEq, Repr

/-! ## Machine arithmetic and vector access -/

/-- Conversion of an integer value to C++ `int`: the value modulo 2^32, read as a
two's-complement number. -/
def toInt32 (v : Int) : Int :=
  if v % 2 ^ 32 < 2 ^ 31 then v % 2 ^ 32 else v % 2 ^ 32 - 2 ^ 32

/-- Read `v[i]`; `none` when `i` is not an index of `v`. -/
def vecGet? {α : Type} (v : List α) (i : Int) : Option α :=
  if 0 ≤ i then v[i.toNat]? else none

/-- Write `v[i] = a`; `none` when `i` is not an index of `v`. -/
def vecSet? {α : Type} (v : List α) (i : Int) (a : α) : Option (List α) :=
  if 0 ≤ i ∧ i.toNat < v.length then some (v.set i.toNat a) else none

/-! ## Direction utilities -/

/-- `correct(x, y, z, dir)`: the canonical (East/North/Up) form of a directed edge. -/
def correct (x y z : Int) (dir : frDirEnum) : Int × Int × Int × frDirEnum :=
  match dir with
  | frDirEnum.W => (x - 1, y, z, frDirEnum.E)
  | frDirEnum.S => (x, y - 1, z, frDirEnum.N)
  | frDirEnum.D => (x, y, z - 1, frDirEnum.U)
  | _ => (x, y, z, dir)

/-- `correctU(x, y, z, dir)`: canonical form of a vertical edge only. -/
def correctU (x y z : Int) (dir : frDirEnum) : Int × Int × Int × frDirEnum :=
  match dir with
  | frDirEnum.D => (x, y, z - 1, frDirEnum.U)
  | _ => (x, y, z, dir)

/-- `reverse(x, y, z, dir)`: the same edge seen from its other end point. -/
def reverse (x y z : Int) (dir : frDirEnum) : Int × Int × Int × frDirEnum :=
  match dir with
  | frDirEnum.E => (x + 1, y, z, frDirEnum.W)
  | frDirEnum.S => (x, y - 1, z, frDirEnum.N)
  | frDirEnum.W => (x - 1, y, z, frDirEnum.E)
  | frDirEnum.N => (x, y + 1, z, frDirEnum.S)
  | frDirEnum.U => (x, y, z + 1, frDirEnum.D)
  | frDirEnum.D => (x, y, z - 1, frDirEnum.U)
  | frDirEnum.UNKNOWN => (x, y, z, dir)

/-! ## Internal getters -/

/-- `getZDir(in)`: unchecked read of `layerRouteDirections_`. -/
def getZDir (g : FlexGridGraph) (z : Int) : Option dbTechLayerDir :=
  vecGet? g.layerRouteDirections_ z

/-- `isValid(x, y, z)`: the point lies in the grid; the sizes are cast to `frMIdx`. -/
def isValid (g : FlexGridGraph) (x y z : Int) : Bool :=
  if x < 0 ∨ y < 0 ∨ z < 0 ∨ x ≥ toInt32 g.xCoords_.length
      ∨ y ≥ toInt32 g.yCoords_.length ∨ z ≥ toInt32 g.zCoords_.length then
    false
  else
    true

/-- `isValid(x, y, z, dir)`: both end points of the edge lie in the grid. -/
def isValidDir (g : FlexGridGraph) (x y z : Int) (dir : frDirEnum) : Bool :=
  let sol := isValid g x y z
  let r := reverse x y z dir
  sol && isValid g r.1 r.2.1 r.2.2.1

/-- `getIdx(xIdx, yIdx, zIdx)`: offset of a grid point in `nodes_`.  The two products are
computed in `size_t` and converted to `frMIdx`; their sum is an `int` addition, whose
overflow is undefined (`none`). -/
def getIdx (g : FlexGridGraph) (xIdx yIdx zIdx : Int) : Option Int :=
  match getZDir g zIdx with
  | none => none
  | some zDir =>
    let xSize : Int := g.xCoords_.length
    let ySize : Int := g.yCoords_.length
    let zDirModifier : Int :=
      toInt32 (if zDir = dbTechLayerDir.HORIZONTAL then xIdx + yIdx * xSize
               else yIdx + xIdx * ySize)
    let partCoordinates : Int := toInt32 (zIdx * xSize * ySize)
    if - 2 ^ 31 ≤ zDirModifier + partCoordinates ∧ zDirModifier + partCoordinates < 2 ^ 31 then
      some (zDirModifier + partCoordinates)
    else
      none

/-- The read `nodes_[getIdx(x, y, z)]`. -/
def nodeAt (g : FlexGridGraph) (x y z : Int) : Option Node :=
  match getIdx g x y z with
  | none => none
  | some i => vecGet? g.nodes_ i

/-- The grid with `nodes_[i]` replaced by `node`, everything else as it was. -/
def writeNode (g : FlexGridGraph) (i : Int) (node : Node) : FlexGridGraph :=
  { g with nodes_ := g.nodes_.set i.toNat node }

/-- The pattern `Node& node = nodes_[getIdx(x, y, z)]; node = f(node);`. -/
def updNode (g : FlexGridGraph) (x y z : Int) (f : Node → Node) : Option FlexGridGraph :=
  match getIdx g x y z with
  | none => none
  | some i =>
    match vecGet? g.nodes_ i with
    | none => none
    | some node => some (writeNode g i (f node))

/-- `getPoint(in, x, y)`: unchecked read of the physical point of a grid column. -/
def getPoint (g : FlexGridGraph) (x y : Int) : Option Point :=
  match vecGet? g.xCoords_ x, vecGet? g.yCoords_ y with
  | some px, some py => some { x := px, y := py }
  | _, _ => none

/-- `getLayerNum(z)`: unchecked read of `zCoords_`. -/
def getLayerNum (g : FlexGridGraph) (z : Int) : Option Int := vecGet? g.zCoords_ z

/-- `xCoord(x)`: unchecked read of `xCoords_`. -/
def xCoord (g : FlexGridGraph) (x : Int) : Option Int := vecGet? g.xCoords_ x

/-- `yCoord(y)`: unchecked read of `yCoords_`. -/
def yCoord (g : FlexGridGraph) (y : Int) : Option Int := vecGet? g.yCoords_ y

/-- `getDim(xDim, yDim, zDim)`: the three sizes, converted to `frMIdx`. -/
def getDim (g : FlexGridGraph) : Int × Int × Int :=
  (toInt32 g.xCoords_.length, toInt32 g.yCoords_.length, toInt32 g.zCoords_.length)

/-! ## Binary search -/

/-- The loop of `std::lower_bound` on the range `[first, first + len)` of `v`: `fuel`
bounds the number of iterations, and `len` iterations are never exceeded. -/
def lowerBoundLoop (v : List Int) (val : Int) : Nat → Nat → Nat → Nat
  | 0, first, _ => first
  | fuel + 1, first, len =>
    if 0 < len then
      let half := len / 2
      let middle := first + half
      if v.getD middle 0 < val then
        lowerBoundLoop v val fuel (middle + 1) (len - half - 1)
      else
        lowerBoundLoop v val fuel first half
    else
      first

/-- `std::lower_bound(v.begin(), v.end(), val) - v.begin()`. -/
def lower_bound (v : List Int) (val : Int) : Nat :=
  lowerBoundLoop v val v.length 0 v.length

/-- `getMazeXIdx(in)`. -/
def getMazeXIdx (g : FlexGridGraph) (c : Int) : Int := toInt32 (lower_bound g.xCoords_ c)

/-- `getMazeYIdx(in)`. -/
def getMazeYIdx (g : FlexGridGraph) (c : Int) : Int := toInt32 (lower_bound g.yCoords_ c)

/-- `getMazeZIdx(in)`. -/
def getMazeZIdx (g : FlexGridGraph) (l : Int) : Int := toInt32 (lower_bound g.zCoords_ l)

/-! ## Edges and blockages -/

/-- `isBlocked(x, y, z, dir)`. -/
def isBlocked (g : FlexGridGraph) (x y z : Int) (dir : frDirEnum) : Option Bool :=
  let c := correct x y z dir
  if isValid g c.1 c.2.1 c.2.2.1 then
    match nodeAt g c.1 c.2.1 c.2.2.1 with
    | none => none
    | some node =>
      match c.2.2.2 with
      | frDirEnum.E => some node.isBlockedEast
      | frDirEnum.N => some node.isBlockedNorth
      | frDirEnum.U => some node.isBlockedUp
      | _ => some false
  else
    some false

/-- `hasEdge(x, y, z, dir)`. -/
def hasEdge (g : FlexGridGraph) (x y z : Int) (dir : frDirEnum) : Option Bool :=
  let c := correct x y z dir
  if isValid g c.1 c.2.1 c.2.2.1 then
    match nodeAt g c.1 c.2.1 c.2.2.1 with
    | none => none
    | some node =>
      match c.2.2.2 with
      | frDirEnum.E => some node.hasEastEdge
      | frDirEnum.N => some node.hasNorthEdge
      | frDirEnum.U => some node.hasUpEdge
      | _ => some false
  else
    some false

/-- `isEdgeInBox(x, y, z, dir, box, initDR)`: both end points of a valid edge lie in `box`. -/
def isEdgeInBox (g : FlexGridGraph) (x y z : Int) (dir : frDirEnum) (box : Rect)
    (_initDR : Bool) : Option Bool :=
  let c := correct x y z dir
  if isValidDir g c.1 c.2.1 c.2.2.1 c.2.2.2 then
    let r := reverse c.1 c.2.1 c.2.2.1 c.2.2.2
    match getPoint g c.1 c.2.1, getPoint g r.1 r.2.1 with
    | some pt, some pt1 => some (box.intersects pt && box.intersects pt1)
    | _, _ => none
  else
    some false

/-- `addEdge(x, y, z, dir, box, initDR)`: the new grid and the returned flag. -/
def addEdge (g : FlexGridGraph) (x y z : Int) (dir : frDirEnum) (box : Rect)
    (initDR : Bool) : Option (FlexGridGraph × Bool) :=
  match isEdgeInBox g x y z dir box initDR with
  | none => none
  | some false => some (g, false)
  | some true =>
    let c := correct x y z dir
    if isValidDir g c.1 c.2.1 c.2.2.1 c.2.2.2 then
      match c.2.2.2 with
      | frDirEnum.E =>
        (updNode g c.1 c.2.1 c.2.2.1 fun node => { node with hasEastEdge := true }).map
          fun g1 => (g1, true)
      | frDirEnum.N =>
        (updNode g c.1 c.2.1 c.2.2.1 fun node => { node with hasNorthEdge := true }).map
          fun g1 => (g1, true)
      | frDirEnum.U =>
        (updNode g c.1 c.2.1 c.2.2.1 fun node => { node with hasUpEdge := true }).map
          fun g1 => (g1, true)
      | _ => (updNode g c.1 c.2.1 c.2.2.1 fun node => node).map fun g1 => (g1, false)
    else
      some (g, false)

/-! ## Saturating counters -/

/-- `addToByte(augend, summand)`, production configuration: unsigned 32-bit sum, clamped
to `limit = (1u << cost_bits) - 1`. -/
def addToByte (augend summand : Nat) : Nat :=
  let result := (augend + summand) % 2 ^ 32
  let limit := (1 <<< cost_bits) - 1
  min result limit

/-- `subFromByte(minuend, subtrahend)`, production configuration: the unsigned 32-bit
difference, cast to `int`, and clamped below at zero. -/
def subFromByte (minuend subtrahend : Nat) : Nat :=
  (max (toInt32 (((minuend : Int) - (subtrahend : Int)) % 2 ^ 32)) 0).toNat

/-- Store of an unsigned value into a counter bit-field. -/
def storeCost (v : Nat) : Nat := v % 2 ^ cost_bits

/-- Store of an `int` value into a counter bit-field. -/
def storeCostInt (v : Int) : Nat := (v % 2 ^ cost_bits).toNat

/-- The statement `currCost *= d` for an `int currCost` and a `float d` in the case that
the binary32 product is exact: the product, truncated toward zero.  The factor is embedded
by its exact rational value `num / den`.  This is the value that the machine computes
whenever `currCost * d` is a binary32 value whose integer part is an `int` (for instance for
the factors 0, 1 and 1/2 on a counter value); it is not for other factors (the machine
rounds the product before it truncates, and the conversion to `int` is undefined outside
the range of `int`).  The functions whose name ends in `With` take the result of the
statement as a parameter instead and so cover every factor. -/
def mulFloat (currCost : Int) (d : ℚ) : Int :=
  Int.tdiv (currCost * d.num) (d.den : Int)

/-- `addRouteShapeCostPlanar(x, y, z)`. -/
def addRouteShapeCostPlanar (g : FlexGridGraph) (x y z : Int) : Option FlexGridGraph :=
  updNode g x y z fun node =>
    { node with routeShapeCostPlanar := storeCost (addToByte node.routeShapeCostPlanar 1) }

/-- `addRouteShapeCostVia(x, y, z)`. -/
def addRouteShapeCostVia (g : FlexGridGraph) (x y z : Int) : Option FlexGridGraph :=
  updNode g x y z fun node =>
    { node with routeShapeCostVia := storeCost (addToByte node.routeShapeCostVia 1) }

/-- `subRouteShapeCostPlanar(x, y, z)`. -/
def subRouteShapeCostPlanar (g : FlexGridGraph) (x y z : Int) : Option FlexGridGraph :=
  updNode g x y z fun node =>
    { node with routeShapeCostPlanar := storeCost (subFromByte node.routeShapeCostPlanar 1) }

/-- `subRouteShapeCostVia(x, y, z)`. -/
def subRouteShapeCostVia (g : FlexGridGraph) (x y z : Int) : Option FlexGridGraph :=
  updNode g x y z fun node =>
    { node with routeShapeCostVia := storeCost (subFromByte node.routeShapeCostVia 1) }

/-- Run a mutator `n` times in a row. -/
def repeatOp (op : FlexGridGraph → Option FlexGridGraph) : Nat → FlexGridGraph → Option FlexGridGraph
  | 0, g => some g
  | n + 1, g =>
    match op g with
    | none => none
    | some g1 => repeatOp op n g1

/-! ## Marker cost -/

/-- `addMarkerCostPlanar(x, y, z)`. -/
def addMarkerCostPlanar (g : FlexGridGraph) (x y z : Int) : Option FlexGridGraph :=
  updNode g x y z fun node =>
    { node with markerCostPlanar := storeCost (addToByte node.markerCostPlanar 10) }

/-- `addMarkerCostVia(x, y, z)`. -/
def addMarkerCostVia (g : FlexGridGraph) (x y z : Int) : Option FlexGridGraph :=
  updNode g x y z fun node =>
    { node with markerCostVia := storeCost (addToByte node.markerCostVia 10) }

/-- `addMarkerCost(x, y, z, dir)`. -/
def addMarkerCost (g : FlexGridGraph) (x y z : Int) (dir : frDirEnum) : Option FlexGridGraph :=
  let c := correct x y z dir
  if isValid g c.1 c.2.1 c.2.2.1 then
    match c.2.2.2 with
    | frDirEnum.E =>
      updNode g c.1 c.2.1 c.2.2.1 fun node =>
        { node with markerCostPlanar := storeCost (addToByte node.markerCostPlanar 10) }
    | frDirEnum.N =>
      updNode g c.1 c.2.1 c.2.2.1 fun node =>
        { node with markerCostPlanar := storeCost (addToByte node.markerCostPlanar 10) }
    | frDirEnum.U =>
      updNode g c.1 c.2.1 c.2.2.1 fun node =>
        { node with markerCostVia := storeCost (addToByte node.markerCostVia 10) }
    | _ => updNode g c.1 c.2.1 c.2.2.1 fun node => node
  else
    some g

/-! ## Marker cost decay -/

/-- `decayMarkerCostPlanar(x, y, z, d)`: the overload with a decay factor. -/
def decayMarkerCostPlanar (g : FlexGridGraph) (x y z : Int) (d : ℚ) :
    Option (FlexGridGraph × Bool) :=
  match nodeAt g x y z with
  | none => none
  | some node =>
    let currCost : Int := node.markerCostPlanar
    let currCost := mulFloat currCost d
    let currCost := max 0 currCost
    (updNode g x y z fun n => { n with markerCostPlanar := storeCostInt currCost }).map
      fun g1 => (g1, decide (currCost = 0))

/-- `decayMarkerCostVia(x, y, z, d)`: the overload with a decay factor. -/
def decayMarkerCostVia (g : FlexGridGraph) (x y z : Int) (d : ℚ) :
    Option (FlexGridGraph × Bool) :=
  match nodeAt g x y z with
  | none => none
  | some node =>
    let currCost : Int := node.markerCostVia
    let currCost := mulFloat currCost d
    let currCost := max 0 currCost
    (updNode g x y z fun n => { n with markerCostVia := storeCostInt currCost }).map
      fun g1 => (g1, decide (currCost = 0))

/-- `decayMarkerCostPlanar(x, y, z)`: the overload without a factor (unit decrement). -/
def decayMarkerCostPlanarUnit (g : FlexGridGraph) (x y z : Int) :
    Option (FlexGridGraph × Bool) :=
  match nodeAt g x y z with
  | none => none
  | some node =>
    let currCost : Int := node.markerCostPlanar
    let currCost := currCost - 1
    let currCost := max 0 currCost
    (updNode g x y z fun n => { n with markerCostPlanar := storeCostInt currCost }).map
      fun g1 => (g1, decide (currCost = 0))

/-- `decayMarkerCostVia(x, y, z)`: the overload without a factor (unit decrement). -/
def decayMarkerCostViaUnit (g : FlexGridGraph) (x y z : Int) :
    Option (FlexGridGraph × Bool) :=
  match nodeAt g x y z with
  | none => none
  | some node =>
    let currCost : Int := node.markerCostVia
    let currCost := currCost - 1
    let currCost := max 0 currCost
    (updNode g x y z fun n => { n with markerCostVia := storeCostInt currCost }).map
      fun g1 => (g1, decide (currCost = 0))

/-- The body of `case frDirEnum::E:` and of `case frDirEnum::N:` in `decayMarkerCost`:
the node after the store and the new value of `currCost`. -/
def decayCasePlanar (node : Node) (d : ℚ) : Node × Int :=
  let currCost : Int := node.markerCostPlanar
  let currCost := mulFloat currCost d
  let currCost := max 0 currCost
  ({ node with markerCostPlanar := storeCostInt currCost }, currCost)

/-- The body of `case frDirEnum::U:` in `decayMarkerCost`. -/
def decayCaseVia (node : Node) (d : ℚ) : Node × Int :=
  let currCost : Int := node.markerCostVia
  let currCost := mulFloat currCost d
  let currCost := max 0 currCost
  ({ node with markerCostVia := storeCostInt currCost }, currCost)

/-- The `switch (dir)` of `decayMarkerCost` on the node.  No case ends with `break`, so
control falls from `E` through `N` into `U`, and from `N` into `U`. -/
def decayMarkerCostSwitch (node : Node) (dir : frDirEnum) (d : ℚ) : Node × Int :=
  match dir with
  | frDirEnum.E =>
    let r1 := decayCasePlanar node d
    let r2 := decayCasePlanar r1.1 d
    decayCaseVia r2.1 d
  | frDirEnum.N =>
    let r1 := decayCasePlanar node d
    decayCaseVia r1.1 d
  | frDirEnum.U => decayCaseVia node d
  | _ => (node, 0)

/-- `decayMarkerCost(x, y, z, dir, d)`. -/
def decayMarkerCost (g : FlexGridGraph) (x y z : Int) (dir : frDirEnum) (d : ℚ) :
    Option (FlexGridGraph × Bool) :=
  let c := correct x y z dir
  if isValid g c.1 c.2.1 c.2.2.1 then
    match nodeAt g c.1 c.2.1 c.2.2.1 with
    | none => none
    | some node =>
      let r := decayMarkerCostSwitch node c.2.2.2 d
      (updNode g c.1 c.2.1 c.2.2.1 fun _ => r.1).map fun g1 => (g1, decide (r.2 = 0))
  else
    some (g, true)

/-! ## Marker cost decay, for any factor

The decay functions again, with the statement `currCost *= d` as a parameter `conv`:
`conv currCost d` is the new value of the `int currCost` after the statement (the conversion
of `currCost` to `float`, the binary32 product with `d` and the conversion of the product to
`int`), and `none` where that conversion is not defined (the truncated product is not an
`int`, or the product is not a number).  The type `F` of the factor is a parameter
too.  What is proved for every `conv` holds for the arithmetic of the machine. -/

/-- `decayMarkerCostPlanar(x, y, z, d)`, the overload with a decay factor, for any
factor. -/
def decayMarkerCostPlanarWith {F : Type} (conv : Int → F → Option Int) (g : FlexGridGraph)
    (x y z : Int) (d : F) : Option (FlexGridGraph × Bool) :=
  match nodeAt g x y z with
  | none => none
  | some node =>
    let currCost : Int := node.markerCostPlanar
    match conv currCost d with
    | none => none
    | some currCost =>
      let currCost := max 0 currCost
      (updNode g x y z fun n => { n with markerCostPlanar := storeCostInt currCost }).map
        fun g1 => (g1, decide (currCost = 0))

/-- `decayMarkerCostVia(x, y, z, d)`, the overload with a decay factor, for any factor. -/
def decayMarkerCostViaWith {F : Type} (conv : Int → F → Option Int) (g : FlexGridGraph)
    (x y z : Int) (d : F) : Option (FlexGridGraph × Bool) :=
  match nodeAt g x y z with
  | none => none
  | some node =>
    let currCost : Int := node.markerCostVia
    match conv currCost d with
    | none => none
    | some currCost =>
      let currCost := max 0 currCost
      (updNode g x y z fun n => { n with markerCostVia := storeCostInt currCost }).map
        fun g1 => (g1, decide (currCost = 0))

/-- The body of `case frDirEnum::E:` and of `case frDirEnum::N:` in `decayMarkerCost`, for
any factor: the node after the store and the new value of `currCost`. -/
def decayCasePlanarWith {F : Type} (conv : Int → F → Option Int) (node : Node) (d : F) :
    Option (Node × Int) :=
  let currCost : Int := node.markerCostPlanar
  match conv currCost d with
  | none => none
  | some currCost =>
    let currCost := max 0 currCost
    some ({ node with markerCostPlanar := storeCostInt currCost }, currCost)

/-- The body of `case frDirEnum::U:` in `decayMarkerCost`, for any factor. -/
def decayCaseViaWith {F : Type} (conv : Int → F → Option Int) (node : Node) (d : F) :
    Option (Node × Int) :=
  let currCost : Int := node.markerCostVia
  match conv currCost d with
  | none => none
  | some currCost =>
    let currCost := max 0 currCost
    some ({ node with markerCostVia := storeCostInt currCost }, currCost)

/-- The `switch (dir)` of `decayMarkerCost` on the node, for any factor.  No case ends with
`break`, so control falls from `E` through `N` into `U`, and from `N` into `U`. -/
def decayMarkerCostSwitchWith {F : Type} (conv : Int → F → Option Int) (node : Node)
    (dir : frDirEnum) (d : F) : Option (Node × Int) :=
  match dir with
  | frDirEnum.E =>
    match decayCasePlanarWith conv node d with
    | none => none
    | some r1 =>
      match decayCasePlanarWith conv r1.1 d with
      | none => none
      | some r2 => decayCaseViaWith conv r2.1 d
  | frDirEnum.N =>
    match decayCasePlanarWith conv node d with
    | none => none
    | some r1 => decayCaseViaWith conv r1.1 d
  | frDirEnum.U => decayCaseViaWith conv node d
  | _ => some (node, 0)

/-- `decayMarkerCost(x, y, z, dir, d)`, for any factor. -/
def decayMarkerCostWith {F : Type} (conv : Int → F → Option Int) (g : FlexGridGraph)
    (x y z : Int) (dir : frDirEnum) (d : F) : Option (FlexGridGraph × Bool) :=
  let c := correct x y z dir
  if isValid g c.1 c.2.1 c.2.2.1 then
    match nodeAt g c.1 c.2.1 c.2.2.1 with
    | none => none
    | some node =>
      match decayMarkerCostSwitchWith conv node c.2.2.2 d with
      | none => none
      | some r =>
        (updNode g c.1 c.2.1 c.2.2.1 fun _ => r.1).map fun g1 => (g1, decide (r.2 = 0))
  else
    some (g, true)

/-- The statement `currCost *= d` for a factor given by its rational value, where the
binary32 product is exact (see `mulFloat`). -/
def exactProduct (currCost : Int) (d : ℚ) : Option Int := some (mulFloat currCost d)

/-! ## Rectangle to index box -/

/-- Modelled from the spec: the index triple FlexMazeIdx of FlexMazeTypes.h, which is not
among the sources at hand; `set`, `setX`, `setY` and the getters are field updates and
reads. -/
structure FlexMazeIdx where
  x : Int
  y : Int
  z : Int
  deriving DecidableEq, Repr

/-- The enumeration `getIdxBox_EnclosureType` (uncertain = 0, enclose = 1, isEnclosed = 2). -/
inductive getIdxBox_EnclosureType where
  | uncertain
  | enclose
  | isEnclosed
  deriving DecidableEq, Repr

/-- The loop of `std::upper_bound` on the range `[first, first + len)` of `v`: `fuel`
bounds the number of iterations, and `len` iterations are never exceeded. -/
def upperBoundLoop (v : List Int) (val : Int) : Nat → Nat → Nat → Nat
  | 0, first, _ => first
  | fuel + 1, first, len =>
    if 0 < len then
      let half := len / 2
      let middle := first + half
      if val < v.getD middle 0 then
        upperBoundLoop v val fuel first half
      else
        upperBoundLoop v val fuel (middle + 1) (len - half - 1)
    else
      first

/-- `std::upper_bound(v.begin(), v.end(), val) - v.begin()`. -/
def upper_bound (v : List Int) (val : Int) : Nat :=
  upperBoundLoop v val v.length 0 v.length

/-- The statement `if (coords[idx] > bound) idx = max(0, idx - 1);` of `getIdxBox`: the new
value of `idx`, `none` when `idx` is not an index of `coords`. -/
def stepBackIfAbove (coords : List Int) (idx bound : Int) : Option Int :=
  match vecGet? coords idx with
  | none => none
  | some c => some (if c > bound then max 0 (idx - 1) else idx)

/-- `getIdxBox(mIdx1, mIdx2, box, enclosureOption)`: the new values of `mIdx1` and
`mIdx2`. -/
def getIdxBox (g : FlexGridGraph) (mIdx1 mIdx2 : FlexMazeIdx) (box : Rect)
    (enclosureOption : getIdxBox_EnclosureType) : Option (FlexMazeIdx × FlexMazeIdx) :=
  let x1 : Int := toInt32 (lower_bound g.xCoords_ box.xMin)
  let y1 : Int := toInt32 (lower_bound g.yCoords_ box.yMin)
  let lo : Option (Int × Int) :=
    if enclosureOption = getIdxBox_EnclosureType.enclose then
      match stepBackIfAbove g.xCoords_ x1 box.xMin, stepBackIfAbove g.yCoords_ y1 box.yMin with
      | some x, some y => some (x, y)
      | _, _ => none
    else
      some (x1, y1)
  let ux : Int := toInt32 (upper_bound g.xCoords_ box.xMax)
  let uy : Int := toInt32 (upper_bound g.yCoords_ box.yMax)
  let x2 : Int := max 0 (ux - 1)
  let y2 : Int := max 0 (uy - 1)
  let hi : Option (Int × Int) :=
    if enclosureOption = getIdxBox_EnclosureType.isEnclosed then
      match stepBackIfAbove g.xCoords_ x2 box.xMax, stepBackIfAbove g.yCoords_ y2 box.yMax with
      | some x, some y => some (x, y)
      | _, _ => none
    else
      some (x2, y2)
  match lo, hi with
  | some l, some h =>
    some ({ x := l.1, y := l.2, z := mIdx1.z }, { x := h.1, y := h.2, z := mIdx2.z })
  | _, _ => none

/-! ## Existence checks -/

/-- `std::binary_search(v.begin(), v.end(), val)`: the lower bound is in the range and is
not above `val`. -/
def binary_search (v : List Int) (val : Int) : Bool :=
  let i := lower_bound v val
  decide (i ≠ v.length) && !decide (val < v.getD i 0)

/-- `hasMazeXIdx(in)`. -/
def hasMazeXIdx (g : FlexGridGraph) (c : Int) : Bool := binary_search g.xCoords_ c

/-- `hasMazeYIdx(in)`. -/
def hasMazeYIdx (g : FlexGridGraph) (c : Int) : Bool := binary_search g.yCoords_ c

/-- `hasMazeZIdx(in)`. -/
def hasMazeZIdx (g : FlexGridGraph) (l : Int) : Bool := binary_search g.zCoords_ l

/-! ## Teardown -/

/-- `cleanup()`: the vectors that the function clears are empty afterwards, the others
keep their contents (the wavefront is not part of the embedding). -/
def cleanup (g : FlexGridGraph) : FlexGridGraph :=
  { g with
    nodes_ := [],
    srcs_ := [],
    dsts_ := [],
    guides_ := [],
    xCoords_ := [],
    yCoords_ := [],
    zHeights_ := [],
    layerRouteDirections_ := [] }

/-- `getLayerCount()`. -/
def getLayerCount (g : FlexGridGraph) : Int := toInt32 g.zCoords_.length

/-! ## Saturating counters, diagnostic configuration -/

/-- Number of bits of a cost counter when DEBUG_DRT_UNDERFLOW is defined. -/
def cost_bits_debug : Nat := 16

/-- `addToByte(augend, summand)` when DEBUG_DRT_UNDERFLOW is defined.  Modelled from the
spec: `logger_->error` (not among the sources at hand) is fatal; it is the `error` result
with the message of the call. -/
def addToByteDebug (augend summand : Nat) : Except String Nat :=
  let result := (augend + summand) % 2 ^ 32
  let limit := (1 <<< cost_bits_debug) - 1
  if result > limit then
    Except.error "addToByte overflow"
  else
    Except.ok result

/-- `subFromByte(minuend, subtrahend)` when DEBUG_DRT_UNDERFLOW is defined, with the same
model of `logger_->error`. -/
def subFromByteDebug (minuend subtrahend : Nat) : Except String Nat :=
  if subtrahend > minuend then
    Except.error "subFromByte underflow"
  else
    Except.ok (max (toInt32 (((minuend : Int) - (subtrahend : Int)) % 2 ^ 32)) 0).toNat

/-! ## Blockage and grid-cost flags -/

/-- `setBlocked(x, y, z, dir)`. -/
def setBlocked (g : FlexGridGraph) (x y z : Int) (dir : frDirEnum) : Option FlexGridGraph :=
  let c := correct x y z dir
  if isValid g c.1 c.2.1 c.2.2.1 then
    match c.2.2.2 with
    | frDirEnum.E => updNode g c.1 c.2.1 c.2.2.1 fun node => { node with isBlockedEast := true }
    | frDirEnum.N => updNode g c.1 c.2.1 c.2.2.1 fun node => { node with isBlockedNorth := true }
    | frDirEnum.U => updNode g c.1 c.2.1 c.2.2.1 fun node => { node with isBlockedUp := true }
    | _ => updNode g c.1 c.2.1 c.2.2.1 fun node => node
  else
    some g

/-- `resetBlocked(x, y, z, dir)`. -/
def resetBlocked (g : FlexGridGraph) (x y z : Int) (dir : frDirEnum) : Option FlexGridGraph :=
  let c := correct x y z dir
  if isValid g c.1 c.2.1 c.2.2.1 then
    match c.2.2.2 with
    | frDirEnum.E => updNode g c.1 c.2.1 c.2.2.1 fun node => { node with isBlockedEast := false }
    | frDirEnum.N => updNode g c.1 c.2.1 c.2.2.1 fun node => { node with isBlockedNorth := false }
    | frDirEnum.U => updNode g c.1 c.2.1 c.2.2.1 fun node => { node with isBlockedUp := false }
    | _ => updNode g c.1 c.2.1 c.2.2.1 fun node => node
  else
    some g

/-- `setGridCost(x, y, z, dir)`. -/
def setGridCost (g : FlexGridGraph) (x y z : Int) (dir : frDirEnum) : Option FlexGridGraph :=
  let c := correct x y z dir
  if isValid g c.1 c.2.1 c.2.2.1 then
    match c.2.2.2 with
    | frDirEnum.E => updNode g c.1 c.2.1 c.2.2.1 fun node => { node with hasGridCostEast := true }
    | frDirEnum.N => updNode g c.1 c.2.1 c.2.2.1 fun node => { node with hasGridCostNorth := true }
    | frDirEnum.U => updNode g c.1 c.2.1 c.2.2.1 fun node => { node with hasGridCostUp := true }
    | _ => updNode g c.1 c.2.1 c.2.2.1 fun node => node
  else
    some g

/-- `resetGridCost(x, y, z, dir)`. -/
def resetGridCost (g : FlexGridGraph) (x y z : Int) (dir : frDirEnum) : Option FlexGridGraph :=
  let c := correct x y z dir
  if isValid g c.1 c.2.1 c.2.2.1 then
    match c.2.2.2 with
    | frDirEnum.E => updNode g c.1 c.2.1 c.2.2.1 fun node => { node with hasGridCostEast := false }
    | frDirEnum.N => updNode g c.1 c.2.1 c.2.2.1 fun node => { node with hasGridCostNorth := false }
    | frDirEnum.U => updNode g c.1 c.2.1 c.2.2.1 fun node => { node with hasGridCostUp := false }
    | _ => updNode g c.1 c.2.1 c.2.2.1 fun node => node
  else
    some g

/-! ## Route-shape reset and fixed-shape cost -/

/-- `resetRouteShapeCostPlanar(x, y, z)`. -/
def resetRouteShapeCostPlanar (g : FlexGridGraph) (x y z : Int) : Option FlexGridGraph :=
  updNode g x y z fun node => { node with routeShapeCostPlanar := 0 }

/-- `resetRouteShapeCostVia(x, y, z)`. -/
def resetRouteShapeCostVia (g : FlexGridGraph) (x y z : Int) : Option FlexGridGraph :=
  updNode g x y z fun node => { node with routeShapeCostVia := 0 }

/-- `addFixedShapeCostPlanar(x, y, z)`. -/
def addFixedShapeCostPlanar (g : FlexGridGraph) (x y z : Int) : Option FlexGridGraph :=
  if isValid g x y z then
    updNode g x y z fun node =>
      { node with
        fixedShapeCostPlanarHorz := storeCost (addToByte node.fixedShapeCostPlanarHorz 1),
        fixedShapeCostPlanarVert := storeCost (addToByte node.fixedShapeCostPlanarVert 1) }
  else
    some g

/-- `setFixedShapeCostPlanarVert(x, y, z, c)`. -/
def setFixedShapeCostPlanarVert (g : FlexGridGraph) (x y z : Int) (c : Nat) :
    Option FlexGridGraph :=
  if isValid g x y z then
    updNode g x y z fun node => { node with fixedShapeCostPlanarVert := storeCost c }
  else
    some g

/-- `setFixedShapeCostPlanarHorz(x, y, z, c)`. -/
def setFixedShapeCostPlanarHorz (g : FlexGridGraph) (x y z : Int) (c : Nat) :
    Option FlexGridGraph :=
  if isValid g x y z then
    updNode g x y z fun node => { node with fixedShapeCostPlanarHorz := storeCost c }
  else
    some g

/-- `addFixedShapeCostVia(x, y, z)`. -/
def addFixedShapeCostVia (g : FlexGridGraph) (x y z : Int) : Option FlexGridGraph :=
  if isValid g x y z then
    updNode g x y z fun node =>
      { node with fixedShapeCostVia := storeCost (addToByte node.fixedShapeCostVia 1) }
  else
    some g

/-- `setFixedShapeCostVia(x, y, z, c)`. -/
def setFixedShapeCostVia (g : FlexGridGraph) (x y z : Int) (c : Nat) : Option FlexGridGraph :=
  if isValid g x y z then
    updNode g x y z fun node => { node with fixedShapeCostVia := storeCost c }
  else
    some g

/-- `subFixedShapeCostPlanar(x, y, z)`. -/
def subFixedShapeCostPlanar (g : FlexGridGraph) (x y z : Int) : Option FlexGridGraph :=
  if isValid g x y z then
    updNode g x y z fun node =>
      { node with
        fixedShapeCostPlanarHorz := storeCost (subFromByte node.fixedShapeCostPlanarHorz 1),
        fixedShapeCostPlanarVert := storeCost (subFromByte node.fixedShapeCostPlanarVert 1) }
  else
    some g

/-- `subFixedShapeCostVia(x, y, z)`. -/
def subFixedShapeCostVia (g : FlexGridGraph) (x y z : Int) : Option FlexGridGraph :=
  if isValid g x y z then
    updNode g x y z fun node =>
      { node with fixedShapeCostVia := storeCost (subFromByte node.fixedShapeCostVia 1) }
  else
    some g

/-- `isOverrideShapeCost(x, y, z, dir)`. -/
def isOverrideShapeCost (g : FlexGridGraph) (x y z : Int) (dir : frDirEnum) : Option Bool :=
  if dir ≠ frDirEnum.D ∧ dir ≠ frDirEnum.U then
    some false
  else
    let c := correctU x y z dir
    match nodeAt g c.1 c.2.1 c.2.2.1 with
    | none => none
    | some node => some node.overrideShapeCostVia

/-- `getFixedShapeCostAdj(x, y, z, dir)`: the fixed-shape cost in the adjacent node
following `dir`. -/
def getFixedShapeCostAdj (g : FlexGridGraph) (x y z : Int) (dir : frDirEnum) : Option Nat :=
  if dir ≠ frDirEnum.D ∧ dir ≠ frDirEnum.U then
    let r := reverse x y z dir
    if r.2.2.2 = frDirEnum.W ∨ r.2.2.2 = frDirEnum.E then
      match nodeAt g r.1 r.2.1 r.2.2.1 with
      | none => none
      | some node => some node.fixedShapeCostPlanarHorz
    else
      match nodeAt g r.1 r.2.1 r.2.2.1 with
      | none => none
      | some node => some node.fixedShapeCostPlanarVert
  else
    let c := correctU x y z dir
    match nodeAt g c.1 c.2.1 c.2.2.1 with
    | none => none
    | some node =>
      match isOverrideShapeCost g c.1 c.2.1 c.2.2.1 c.2.2.2 with
      | none => none
      | some true => some 0
      | some false => some node.fixedShapeCostVia

/-! ## Sequences of cost mutators -/

/-- One call of a public cost mutator, with its arguments; `F` is the type of a decay
factor. -/
inductive CostOp (F : Type) where
  | addRouteShapeCostPlanar (x y z : Int)
  | addRouteShapeCostVia (x y z : Int)
  | subRouteShapeCostPlanar (x y z : Int)
  | subRouteShapeCostVia (x y z : Int)
  | resetRouteShapeCostPlanar (x y z : Int)
  | resetRouteShapeCostVia (x y z : Int)
  | addMarkerCostPlanar (x y z : Int)
  | addMarkerCostVia (x y z : Int)
  | addMarkerCost (x y z : Int) (dir : frDirEnum)
  | decayMarkerCostPlanar (x y z : Int) (d : F)
  | decayMarkerCostVia (x y z : Int) (d : F)
  | decayMarkerCostPlanarUnit (x y z : Int)
  | decayMarkerCostViaUnit (x y z : Int)
  | decayMarkerCost (x y z : Int) (dir : frDirEnum) (d : F)
  | addFixedShapeCostPlanar (x y z : Int)
  | setFixedShapeCostPlanarVert (x y z : Int) (c : Nat)
  | setFixedShapeCostPlanarHorz (x y z : Int) (c : Nat)
  | addFixedShapeCostVia (x y z : Int)
  | setFixedShapeCostVia (x y z : Int) (c : Nat)
  | subFixedShapeCostPlanar (x y z : Int)
  | subFixedShapeCostVia (x y z : Int)

/-- The grid after one call of a cost mutator (a returned flag is dropped); `conv` is the
statement `currCost *= d` of the decay functions with a factor. -/
def applyCostOp {F : Type} (conv : Int → F → Option Int) (g : FlexGridGraph) :
    CostOp F → Option FlexGridGraph
  | CostOp.addRouteShapeCostPlanar x y z => fr.addRouteShapeCostPlanar g x y z
  | CostOp.addRouteShapeCostVia x y z => fr.addRouteShapeCostVia g x y z
  | CostOp.subRouteShapeCostPlanar x y z => fr.subRouteShapeCostPlanar g x y z
  | CostOp.subRouteShapeCostVia x y z => fr.subRouteShapeCostVia g x y z
  | CostOp.resetRouteShapeCostPlanar x y z => fr.resetRouteShapeCostPlanar g x y z
  | CostOp.resetRouteShapeCostVia x y z => fr.resetRouteShapeCostVia g x y z
  | CostOp.addMarkerCostPlanar x y z => fr.addMarkerCostPlanar g x y z
  | CostOp.addMarkerCostVia x y z => fr.addMarkerCostVia g x y z
  | CostOp.addMarkerCost x y z dir => fr.addMarkerCost g x y z dir
  | CostOp.decayMarkerCostPlanar x y z d =>
    (fr.decayMarkerCostPlanarWith conv g x y z d).map Prod.fst
  | CostOp.decayMarkerCostVia x y z d =>
    (fr.decayMarkerCostViaWith conv g x y z d).map Prod.fst
  | CostOp.decayMarkerCostPlanarUnit x y z => (fr.decayMarkerCostPlanarUnit g x y z).map Prod.fst
  | CostOp.decayMarkerCostViaUnit x y z => (fr.decayMarkerCostViaUnit g x y z).map Prod.fst
  | CostOp.decayMarkerCost x y z dir d =>
    (fr.decayMarkerCostWith conv g x y z dir d).map Prod.fst
  | CostOp.addFixedShapeCostPlanar x y z => fr.addFixedShapeCostPlanar g x y z
  | CostOp.setFixedShapeCostPlanarVert x y z c => fr.setFixedShapeCostPlanarVert g x y z c
  | CostOp.setFixedShapeCostPlanarHorz x y z c => fr.setFixedShapeCostPlanarHorz g x y z c
  | CostOp.addFixedShapeCostVia x y z => fr.addFixedShapeCostVia g x y z
  | CostOp.setFixedShapeCostVia x y z c => fr.setFixedShapeCostVia g x y z c
  | CostOp.subFixedShapeCostPlanar x y z => fr.subFixedShapeCostPlanar g x y z
  | CostOp.subFixedShapeCostVia x y z => fr.subFixedShapeCostVia g x y z

/-- The grid after a sequence of calls, first call first. -/
def runCostOps {F : Type} (conv : Int → F → Option Int) :
    FlexGridGraph → List (CostOp F) → Option FlexGridGraph
  | g, [] => some g
  | g, op :: ops =>
    match applyCostOp conv g op with
    | none => none
    | some g1 => runCostOps conv g1 ops

/-- The point that a call of a cost mutator addresses, after canonicalization for the
direction-aware mutators. -/
def CostOp.target {F : Type} : CostOp F → Int × Int × Int
  | CostOp.addRouteShapeCostPlanar x y z => (x, y, z)
  | CostOp.addRouteShapeCostVia x y z => (x, y, z)
  | CostOp.subRouteShapeCostPlanar x y z => (x, y, z)
  | CostOp.subRouteShapeCostVia x y z => (x, y, z)
  | CostOp.resetRouteShapeCostPlanar x y z => (x, y, z)
  | CostOp.resetRouteShapeCostVia x y z => (x, y, z)
  | CostOp.addMarkerCostPlanar x y z => (x, y, z)
  | CostOp.addMarkerCostVia x y z => (x, y, z)
  | CostOp.addMarkerCost x y z dir => ((correct x y z dir).1, (correct x y z dir).2.1, (correct x y z dir).2.2.1)
  | CostOp.decayMarkerCostPlanar x y z _ => (x, y, z)
  | CostOp.decayMarkerCostVia x y z _ => (x, y, z)
  | CostOp.decayMarkerCostPlanarUnit x y z => (x, y, z)
  | CostOp.decayMarkerCostViaUnit x y z => (x, y, z)
  | CostOp.decayMarkerCost x y z dir _ => ((correct x y z dir).1, (correct x y z dir).2.1, (correct x y z dir).2.2.1)
  | CostOp.addFixedShapeCostPlanar x y z => (x, y, z)
  | CostOp.setFixedShapeCostPlanarVert x y z _ => (x, y, z)
  | CostOp.setFixedShapeCostPlanarHorz x y z _ => (x, y, z)
  | CostOp.addFixedShapeCostVia x y z => (x, y, z)
  | CostOp.setFixedShapeCostVia x y z _ => (x, y, z)
  | CostOp.subFixedShapeCostPlanar x y z => (x, y, z)
  | CostOp.subFixedShapeCostVia x y z => (x, y, z)

/-- The node with the counter or counters that a cost mutator names set to zero; two nodes
that are equal after this agree in every flag and in every counter that the mutator does
not name.  The direction-aware mutators name both marker counters. -/
def CostOp.eraseNamed {F : Type} : CostOp F → Node → Node
  | CostOp.addRouteShapeCostPlanar _ _ _, n => { n with routeShapeCostPlanar := 0 }
  | CostOp.addRouteShapeCostVia _ _ _, n => { n with routeShapeCostVia := 0 }
  | CostOp.subRouteShapeCostPlanar _ _ _, n => { n with routeShapeCostPlanar := 0 }
  | CostOp.subRouteShapeCostVia _ _ _, n => { n with routeShapeCostVia := 0 }
  | CostOp.resetRouteShapeCostPlanar _ _ _, n => { n with routeShapeCostPlanar := 0 }
  | CostOp.resetRouteShapeCostVia _ _ _, n => { n with routeShapeCostVia := 0 }
  | CostOp.addMarkerCostPlanar _ _ _, n => { n with markerCostPlanar := 0 }
  | CostOp.addMarkerCostVia _ _ _, n => { n with markerCostVia := 0 }
  | CostOp.addMarkerCost _ _ _ _, n => { n with markerCostPlanar := 0, markerCostVia := 0 }
  | CostOp.decayMarkerCostPlanar _ _ _ _, n => { n with markerCostPlanar := 0 }
  | CostOp.decayMarkerCostVia _ _ _ _, n => { n with markerCostVia := 0 }
  | CostOp.decayMarkerCostPlanarUnit _ _ _, n => { n with markerCostPlanar := 0 }
  | CostOp.decayMarkerCostViaUnit _ _ _, n => { n with markerCostVia := 0 }
  | CostOp.decayMarkerCost _ _ _ _ _, n => { n with markerCostPlanar := 0, markerCostVia := 0 }
  | CostOp.addFixedShapeCostPlanar _ _ _, n =>
    { n with fixedShapeCostPlanarHorz := 0, fixedShapeCostPlanarVert := 0 }
  | CostOp.setFixedShapeCostPlanarVert _ _ _ _, n => { n with fixedShapeCostPlanarVert := 0 }
  | CostOp.setFixedShapeCostPlanarHorz _ _ _ _, n => { n with fixedShapeCostPlanarHorz := 0 }
  | CostOp.addFixedShapeCostVia _ _ _, n => { n with fixedShapeCostVia := 0 }
  | CostOp.setFixedShapeCostVia _ _ _ _, n => { n with fixedShapeCostVia := 0 }
  | CostOp.subFixedShapeCostPlanar _ _ _, n =>
    { n with fixedShapeCostPlanarHorz := 0, fixedShapeCostPlanarVert := 0 }
  | CostOp.subFixedShapeCostVia _ _ _, n => { n with fixedShapeCostVia := 0 }

/-- The decay factor of a call, for the mutators that take one. -/
def CostOp.factor {F : Type} : CostOp F → Option F
  | CostOp.decayMarkerCostPlanar _ _ _ d => some d
  | CostOp.decayMarkerCostVia _ _ _ d => some d
  | CostOp.decayMarkerCost _ _ _ _ d => some d
  | _ => none

/-! ## Edge removal -/

/-- `removeEdge(x, y, z, dir)`: the new grid and the returned flag. -/
def removeEdge (g : FlexGridGraph) (x y z : Int) (dir : frDirEnum) :
    Option (FlexGridGraph × Bool) :=
  let c := correct x y z dir
  if isValidDir g c.1 c.2.1 c.2.2.1 c.2.2.2 then
    match c.2.2.2 with
    | frDirEnum.E =>
      (updNode g c.1 c.2.1 c.2.2.1 fun node => { node with hasEastEdge := false }).map
        fun g1 => (g1, true)
    | frDirEnum.N =>
      (updNode g c.1 c.2.1 c.2.2.1 fun node => { node with hasNorthEdge := false }).map
        fun g1 => (g1, true)
    | frDirEnum.U =>
      (updNode g c.1 c.2.1 c.2.2.1 fun node => { node with hasUpEdge := false }).map
        fun g1 => (g1, true)
    | _ => (updNode g c.1 c.2.1 c.2.2.1 fun node => node).map fun g1 => (g1, false)
  else
    some (g, false)

/-! ## Sequences of edge mutators -/

/-- One call of `addEdge` or `removeEdge`, with its arguments. -/
inductive EdgeOp where
  | addEdge (x y z : Int) (dir : frDirEnum) (box : Rect) (initDR : Bool)
  | removeEdge (x y z : Int) (dir : frDirEnum)

/-- The grid after one call of an edge mutator (the returned flag is dropped). -/
def applyEdgeOp (g : FlexGridGraph) : EdgeOp → Option FlexGridGraph
  | EdgeOp.addEdge x y z dir box initDR => (fr.addEdge g x y z dir box initDR).map Prod.fst
  | EdgeOp.removeEdge x y z dir => (fr.removeEdge g x y z dir).map Prod.fst

/-- The grid after a sequence of calls of edge mutators, first call first. -/
def runEdgeOps : FlexGridGraph → List EdgeOp → Option FlexGridGraph
  | g, [] => some g
  | g, op :: ops =>
    match applyEdgeOp g op with
    | none => none
    | some g1 => runEdgeOps g1 ops

/-! ## Grid-cost queries -/

/-- `hasGridCostE(x, y, z)`. -/
def hasGridCostE (g : FlexGridGraph) (x y z : Int) : Option Bool :=
  (nodeAt g x y z).map fun node => node.hasGridCostEast

/-- `hasGridCostN(x, y, z)`. -/
def hasGridCostN (g : FlexGridGraph) (x y z : Int) : Option Bool :=
  (nodeAt g x y z).map fun node => node.hasGridCostNorth

/-- `hasGridCostU(x, y, z)`. -/
def hasGridCostU (g : FlexGridGraph) (x y z : Int) : Option Bool :=
  (nodeAt g x y z).map fun node => node.hasGridCostUp

/-- `hasGridCost(x, y, z, dir)`: every direction but East and North reads the Up flag. -/
def hasGridCost (g : FlexGridGraph) (x y z : Int) (dir : frDirEnum) : Option Bool :=
  let c := correct x y z dir
  match c.2.2.2 with
  | frDirEnum.E => hasGridCostE g c.1 c.2.1 c.2.2.1
  | frDirEnum.N => hasGridCostN g c.1 c.2.1 c.2.2.1
  | _ => hasGridCostU g c.1 c.2.1 c.2.2.1

/-! ## Via cost override -/

/-- `setOverrideShapeCostVia(x, y, z)`. -/
def setOverrideShapeCostVia (g : FlexGridGraph) (x y z : Int) : Option FlexGridGraph :=
  updNode g x y z fun node => { node with overrideShapeCostVia := true }

/-- `resetOverrideShapeCostVia(x, y, z)`. -/
def resetOverrideShapeCostVia (g : FlexGridGraph) (x y z : Int) : Option FlexGridGraph :=
  updNode g x y z fun node => { node with overrideShapeCostVia := false }

/-! ## Previous direction of the search -/

/-- Value of an enumerator of `frDirEnum`. -/
def frDirEnum.toNat : frDirEnum → Nat
  | frDirEnum.UNKNOWN => 0
  | frDirEnum.D => 1
  | frDirEnum.S => 2
  | frDirEnum.W => 3
  | frDirEnum.E => 4
  | frDirEnum.N => 5
  | frDirEnum.U => 6

/-- The bit `(v >> k) & 1` as a `bool`. -/
def bitAt (v k : Nat) : Bool := decide ((v >>> k) % 2 = 1)

/-- `setPrevAstarNodeDir(x, y, z, dir)`, with `dir` given by its value: the three bits of
`(unsigned short) dir` are stored at `3 * getIdx(x, y, z)` and the two places after it.
The product and the two sums are `int` arithmetic, whose overflow is undefined (`none`). -/
def setPrevAstarNodeDir (g : FlexGridGraph) (x y z : Int) (dir : Nat) : Option FlexGridGraph :=
  match getIdx g x y z with
  | none => none
  | some i =>
    if - 2 ^ 31 ≤ 3 * i ∧ 3 * i + 2 < 2 ^ 31 then
      let baseIdx : Int := 3 * i
      let d : Nat := dir % 2 ^ 16
      match vecSet? g.prevDirs_ baseIdx (bitAt d 2) with
      | none => none
      | some p1 =>
        match vecSet? p1 (baseIdx + 1) (bitAt d 1) with
        | none => none
        | some p2 =>
          match vecSet? p2 (baseIdx + 2) (bitAt d 0) with
          | none => none
          | some p3 => some { g with prevDirs_ := p3 }
    else
      none

/-- `getPrevAstarNodeDir(idx)`: the value of the returned direction. -/
def getPrevAstarNodeDir (g : FlexGridGraph) (x y z : Int) : Option Nat :=
  match getIdx g x y z with
  | none => none
  | some i =>
    if - 2 ^ 31 ≤ 3 * i ∧ 3 * i + 2 < 2 ^ 31 then
      let baseIdx : Int := 3 * i
      match vecGet? g.prevDirs_ baseIdx, vecGet? g.prevDirs_ (baseIdx + 1),
          vecGet? g.prevDirs_ (baseIdx + 2) with
      | some b0, some b1, some b2 =>
        some ((b0.toNat <<< 2) + (b1.toNat <<< 1) + (b2.toNat <<< 0))
      | _, _, _ => none
    else
      none

/-! ## Edge length -/

/-- `getZHeight(in)`: unchecked read of `zHeights_`. -/
def getZHeight (g : FlexGridGraph) (z : Int) : Option Int := vecGet? g.zHeights_ z

/-- The `frCoord` difference `a - b`; signed overflow is undefined (`none`). -/
def subCoord (a b : Int) : Option Int :=
  if - 2 ^ 31 ≤ a - b ∧ a - b < 2 ^ 31 then some (a - b) else none

/-- `getEdgeLength(x, y, z, dir)`: unchecked reads of the two coordinates of the edge. -/
def getEdgeLength (g : FlexGridGraph) (x y z : Int) (dir : frDirEnum) : Option Int :=
  let c := correct x y z dir
  match c.2.2.2 with
  | frDirEnum.E =>
    match vecGet? g.xCoords_ (c.1 + 1), vecGet? g.xCoords_ c.1 with
    | some a, some b => subCoord a b
    | _, _ => none
  | frDirEnum.N =>
    match vecGet? g.yCoords_ (c.2.1 + 1), vecGet? g.yCoords_ c.2.1 with
    | some a, some b => subCoord a b
    | _, _ => none
  | frDirEnum.U =>
    match vecGet? g.zHeights_ (c.2.2.1 + 1), vecGet? g.zHeights_ c.2.2.1 with
    | some a, some b => subCoord a b
    | _, _ => none
  | _ => some 0

/-! ## Helpers for the statements about edges -/

/-- The sum of `n` consecutive values `len a`, `len (a + 1)`, ..: used to add up the lengths
of consecutive edges; it is undefined as soon as one of the lengths is. -/
def edgeLengthSum (len : Int → Option Int) (a : Int) : Nat → Option Int
  | 0 => some 0
  | n + 1 =>
    match len a, edgeLengthSum len (a + 1) n with
    | some l, some s => some (l + s)
    | _, _ => none

/-- The node with the edge bit of a canonical direction (East, North, Up) set to `b`; any
other direction leaves the node as it is. -/
def Node.withEdge (node : Node) (dir : frDirEnum) (b : Bool) : Node :=
  match dir with
  | frDirEnum.E => { node with hasEastEdge := b }
  | frDirEnum.N => { node with hasNorthEdge := b }
  | frDirEnum.U => { node with hasUpEdge := b }
  | _ => node

/-! ## Guides -/

/-- The loop of `std::fill`: `n` consecutive places from `first` on get the value `b`. -/
def fillLoop (v : List Bool) (first : Nat) (n : Nat) (b : Bool) : List Bool :=
  match n with
  | 0 => v
  | n + 1 => fillLoop (v.set first b) (first + 1) n b

/-- `std::fill(v.begin() + first, v.begin() + last, b)`; a range that is not a range of `v`
is undefined behaviour (`none`). -/
def fill (v : List Bool) (first last : Int) (b : Bool) : Option (List Bool) :=
  if 0 ≤ first ∧ first ≤ last ∧ last ≤ v.length then
    some (fillLoop v first.toNat (last - first).toNat b)
  else
    none

/-- The `for (int i = ..; i <= ..; i++)` loop shared by `setGuide` and `resetGuide`, with
`n` iterations left: `idx1 i` and `idx2 i` are the two `getIdx` calls of the loop body (which
do not read `guides_`), `v` is `guides_`, and the range from `idx1` to `idx2` gets the
value `b`. The increment of the `int` counter must not overflow. -/
def guideLoop (idx1 idx2 : Int → Option Int) (v : List Bool) (b : Bool) (i : Int) (n : Nat) :
    Option (List Bool) :=
  match n with
  | 0 => some v
  | n + 1 =>
    match idx1 i, idx2 i with
    | some i1, some i2 =>
      match fill v i1 (i2 + 1) b with
      | none => none
      | some v1 => if i + 1 < 2 ^ 31 then guideLoop idx1 idx2 v1 b (i + 1) n else none
    | _, _ => none

/-- The common body of `setGuide` (`b = true`) and `resetGuide` (`b = false`). -/
def fillGuide (g : FlexGridGraph) (x1 y1 x2 y2 z : Int) (b : Bool) : Option FlexGridGraph :=
  if x2 < x1 ∨ y2 < y1 then
    some g
  else
    match getZDir g z with
    | none => none
    | some dbTechLayerDir.HORIZONTAL =>
      (guideLoop (fun i => getIdx g x1 i z) (fun i => getIdx g x2 i z) g.guides_ b y1
        (y2 - y1 + 1).toNat).map fun v => { g with guides_ := v }
    | some dbTechLayerDir.VERTICAL =>
      (guideLoop (fun i => getIdx g i y1 z) (fun i => getIdx g i y2 z) g.guides_ b x1
        (x2 - x1 + 1).toNat).map fun v => { g with guides_ := v }
    | some dbTechLayerDir.NONE => some g

/-- `setGuide(x1, y1, x2, y2, z)`. -/
def setGuide (g : FlexGridGraph) (x1 y1 x2 y2 z : Int) : Option FlexGridGraph :=
  fillGuide g x1 y1 x2 y2 z true

/-- `resetGuide(x1, y1, x2, y2, z)`. -/
def resetGuide (g : FlexGridGraph) (x1 y1 x2 y2 z : Int) : Option FlexGridGraph :=
  fillGuide g x1 y1 x2 y2 z false

/-- The guide bit of the node (x, y, z): `guides_[getIdx(x, y, z)]`, unchecked. -/
def guideAt (g : FlexGridGraph) (x y z : Int) : Option Bool :=
  match getIdx g x y z with
  | none => none
  | some i => vecGet? g.guides_ i

/-- `hasGuide(x, y, z, dir)`: the guide bit of the node at the other end of the edge. -/
def hasGuide (g : FlexGridGraph) (x y z : Int) (dir : frDirEnum) : Option Bool :=
  let r := reverse x y z dir
  guideAt g r.1 r.2.1 r.2.2.1

/-! ## Source and destination masks, marker cost of an edge -/

/-- `isSrc(x, y, z)`: unchecked read of the source mask. -/
def isSrc (g : FlexGridGraph) (x y z : Int) : Option Bool :=
  match getIdx g x y z with
  | none => none
  | some i => vecGet? g.srcs_ i

/-- `isDst(x, y, z)`: unchecked read of the destination mask. -/
def isDst (g : FlexGridGraph) (x y z : Int) : Option Bool :=
  match getIdx g x y z with
  | none => none
  | some i => vecGet? g.dsts_ i

/-- `getMarkerCostAdj(x, y, z, dir)`: the marker cost in the adjacent node following
`dir`. -/
def getMarkerCostAdj (g : FlexGridGraph) (x y z : Int) (dir : frDirEnum) : Option Nat :=
  if dir ≠ frDirEnum.D ∧ dir ≠ frDirEnum.U then
    let r := reverse x y z dir
    (nodeAt g r.1 r.2.1 r.2.2.1).map fun node => node.markerCostPlanar
  else
    let c := correctU x y z dir
    (nodeAt g c.1 c.2.1 c.2.2.1).map fun node => node.markerCostVia

/-- `getRouteShapeCostAdj(x, y, z, dir)`: the route shape cost in the adjacent node
following `dir`. -/
def getRouteShapeCostAdj (g : FlexGridGraph) (x y z : Int) (dir : frDirEnum) : Option Nat :=
  if dir ≠ frDirEnum.D ∧ dir ≠ frDirEnum.U then
    let r := reverse x y z dir
    (nodeAt g r.1 r.2.1 r.2.2.1).map fun node => node.routeShapeCostPlanar
  else
    let c := correctU x y z dir
    (nodeAt g c.1 c.2.1 c.2.2.1).map fun node => node.routeShapeCostVia

/-! ## The maze search

The bodies of `getCosts`, `getEstCost`, `getPrevGrid`, `expand`, `expandWavefront`,
`traceBackPath` and `search` and the class `FlexWavefrontGrid` are not part of the header;
they are modelled from the specification of the cost model, the wavefront search and the
path reconstructor. -/

/-- Modelled from the spec: the weights of the cost terms of `getCosts` (the body of
`getCosts` and the constants it uses are missing): the fixed weight of the congestion
term, the weight of the fixed-shape obstruction term and the weight of the marker term. -/
structure CostWeights where
  gridCost : Int
  fixedShapeCost : Int
  markerCost : Int
  deriving DecidableEq, Repr

/-- Modelled from the spec: the body of `getCosts` is missing. The cost of the edge from
(x, y, z) in direction `dir` is the sum of the congestion term (fixed weight times the
extra-grid-cost flag), the fixed-shape obstruction term (weight times stored byte), the
marker term (weight times stored byte) and the physical edge length; the sum is not
clamped. -/
def getCosts (g : FlexGridGraph) (w : CostWeights) (x y z : Int) (dir : frDirEnum) :
    Option Int :=
  match hasGridCost g x y z dir, getFixedShapeCostAdj g x y z dir,
      getMarkerCostAdj g x y z dir, getEdgeLength g x y z dir with
  | some gc, some fs, some mk, some len =>
    some (w.gridCost * (if gc then 1 else 0) + w.fixedShapeCost * fs + w.markerCost * mk + len)
  | _, _, _, _ => none

/-- The distance that remains from the coordinate `c` to the interval from `lo` to `hi`. -/
def axisDist (c lo hi : Int) : Int := max (max (lo - c) (c - hi)) 0

/-- Modelled from the spec: the body of `getEstCost` is missing. The heuristic is the
remaining axis-aligned distance in x and y plus the remaining layer distance (in layer
heights) from the grid point to the destination region, given by its two corners
`dstMazeIdx1` and `dstMazeIdx2`, in the units of the edge length. -/
def getEstCost (g : FlexGridGraph) (src dstMazeIdx1 dstMazeIdx2 : FlexMazeIdx) : Option Int :=
  match xCoord g src.x, xCoord g dstMazeIdx1.x, xCoord g dstMazeIdx2.x,
      yCoord g src.y, yCoord g dstMazeIdx1.y, yCoord g dstMazeIdx2.y,
      getZHeight g src.z, getZHeight g dstMazeIdx1.z, getZHeight g dstMazeIdx2.z with
  | some px, some x1, some x2, some py, some y1, some y2, some pz, some z1, some z2 =>
    some (axisDist px x1 x2 + axisDist py y1 y2 + axisDist pz z1 z2)
  | _, _, _, _, _, _, _, _, _ => none

/-- Modelled from the spec: the class `FlexWavefrontGrid` is missing. A wavefront entry
holds the position, the accumulated real cost, the estimated total cost (real plus
heuristic) and the last direction taken. -/
structure FlexWavefrontGrid where
  x : Int
  y : Int
  z : Int
  pathCost : Int
  cost : Int
  lastDir : frDirEnum
  deriving DecidableEq, Repr

/-- Modelled from the spec: the open set of the search is missing. The entry of lowest
estimated total cost is taken out; among entries of equal cost the earliest inserted one is
taken (the list is in insertion order). -/
def popMin : List FlexWavefrontGrid → Option (FlexWavefrontGrid × List FlexWavefrontGrid)
  | [] => none
  | e :: rest =>
    match popMin rest with
    | none => some (e, [])
    | some (m, rest1) => if m.cost < e.cost then some (m, e :: rest1) else some (e, rest)

/-- A node expanded at `(x, y, z)` with accumulated cost `pathCost`. -/
structure VisitedNode where
  x : Int
  y : Int
  z : Int
  pathCost : Int
  deriving DecidableEq, Repr

/-- The grid point was expanded before. -/
def isVisited (vs : List VisitedNode) (x y z : Int) : Bool :=
  vs.any fun v => decide (v.x = x ∧ v.y = y ∧ v.z = z)

/-- The grid point was expanded before at a cost equal to or lower than `c`. -/
def isVisitedAt (vs : List VisitedNode) (x y z c : Int) : Bool :=
  vs.any fun v => decide (v.x = x ∧ v.y = y ∧ v.z = z ∧ v.pathCost ≤ c)

/-- Modelled from the spec: the body of `expand` is missing. The successor of the entry
`cur` in direction `dir` is inserted into the open set `ws` when the edge exists and is not
blocked, the direction change from the last direction is legal (`legal`, the rules are not
listed in the spec), and the candidate was not visited at equal or lower cost; its cost is
the cost of `cur` plus `getCosts`, its estimate adds `getEstCost`. Guide following is
disabled. -/
def expand (g : FlexGridGraph) (w : CostWeights) (legal : frDirEnum → frDirEnum → Bool)
    (dstMazeIdx1 dstMazeIdx2 : FlexMazeIdx) (vs : List VisitedNode) (cur : FlexWavefrontGrid)
    (dir : frDirEnum) (ws : List FlexWavefrontGrid) : Option (List FlexWavefrontGrid) :=
  match hasEdge g cur.x cur.y cur.z dir with
  | none => none
  | some false => some ws
  | some true =>
    match isBlocked g cur.x cur.y cur.z dir with
    | none => none
    | some true => some ws
    | some false =>
      if legal cur.lastDir dir then
        let r := reverse cur.x cur.y cur.z dir
        match getCosts g w cur.x cur.y cur.z dir,
            getEstCost g { x := r.1, y := r.2.1, z := r.2.2.1 } dstMazeIdx1 dstMazeIdx2 with
        | some c, some h =>
          if isVisitedAt vs r.1 r.2.1 r.2.2.1 (cur.pathCost + c) then
            some ws
          else
            some (ws ++ [{ x := r.1, y := r.2.1, z := r.2.2.1, pathCost := cur.pathCost + c,
                           cost := cur.pathCost + c + h, lastDir := dir }])
        | _, _ => none
      else
        some ws

/-- Modelled from the spec: the body of `expandWavefront` is missing. Successors are
generated in all six directions, here in the order E, S, W, N, U, D. -/
def expandWavefront (g : FlexGridGraph) (w : CostWeights)
    (legal : frDirEnum → frDirEnum → Bool) (dstMazeIdx1 dstMazeIdx2 : FlexMazeIdx)
    (vs : List VisitedNode) (cur : FlexWavefrontGrid) (ws : List FlexWavefrontGrid) :
    Option (List FlexWavefrontGrid) :=
  (expand g w legal dstMazeIdx1 dstMazeIdx2 vs cur frDirEnum.E ws).bind fun ws1 =>
  (expand g w legal dstMazeIdx1 dstMazeIdx2 vs cur frDirEnum.S ws1).bind fun ws2 =>
  (expand g w legal dstMazeIdx1 dstMazeIdx2 vs cur frDirEnum.W ws2).bind fun ws3 =>
  (expand g w legal dstMazeIdx1 dstMazeIdx2 vs cur frDirEnum.N ws3).bind fun ws4 =>
  (expand g w legal dstMazeIdx1 dstMazeIdx2 vs cur frDirEnum.U ws4).bind fun ws5 =>
  expand g w legal dstMazeIdx1 dstMazeIdx2 vs cur frDirEnum.D ws5

/-- Modelled from the spec: the main loop of `search` is missing. The entry of lowest
estimated cost is popped; an entry of a visited node is dropped; otherwise the node becomes
visited, its previous direction is stored, and the search ends with the entry when it
satisfies the destination mask, or goes on with the expanded wavefront. An empty open set
is the failure (`some none`); `none` is an undefined access or the end of `fuel`. -/
def searchLoop (w : CostWeights) (legal : frDirEnum → frDirEnum → Bool)
    (dstMazeIdx1 dstMazeIdx2 : FlexMazeIdx) :
    Nat → FlexGridGraph → List FlexWavefrontGrid → List VisitedNode →
      Option (Option (FlexGridGraph × FlexWavefrontGrid))
  | 0, _, _, _ => none
  | fuel + 1, g, ws, vs =>
    match popMin ws with
    | none => some none
    | some (cur, rest) =>
      if isVisited vs cur.x cur.y cur.z then
        searchLoop w legal dstMazeIdx1 dstMazeIdx2 fuel g rest vs
      else
        match setPrevAstarNodeDir g cur.x cur.y cur.z cur.lastDir.toNat with
        | none => none
        | some g1 =>
          match isDst g1 cur.x cur.y cur.z with
          | none => none
          | some true => some (some (g1, cur))
          | some false =>
            match expandWavefront g1 w legal dstMazeIdx1 dstMazeIdx2
                ({ x := cur.x, y := cur.y, z := cur.z, pathCost := cur.pathCost } :: vs) cur
                rest with
            | none => none
            | some ws1 =>
              searchLoop w legal dstMazeIdx1 dstMazeIdx2 fuel g1 ws1
                ({ x := cur.x, y := cur.y, z := cur.z, pathCost := cur.pathCost } :: vs)

/-- Modelled from the spec: the body of `getPrevGrid` is missing. The grid point from which
(x, y, z) is reached by one step in the direction of value `dir`. -/
def getPrevGrid (x y z : Int) (dir : Nat) : FlexMazeIdx :=
  if dir = frDirEnum.E.toNat then { x := x - 1, y := y, z := z }
  else if dir = frDirEnum.W.toNat then { x := x + 1, y := y, z := z }
  else if dir = frDirEnum.N.toNat then { x := x, y := y - 1, z := z }
  else if dir = frDirEnum.S.toNat then { x := x, y := y + 1, z := z }
  else if dir = frDirEnum.U.toNat then { x := x, y := y, z := z - 1 }
  else if dir = frDirEnum.D.toNat then { x := x, y := y, z := z + 1 }
  else { x := x, y := y, z := z }

/-- Modelled from the spec: the body of `traceBackPath` is missing. Starting at the reached
destination node the stored previous direction is followed back to a source node; the grid
points are emitted in this order. -/
def traceBackPath (g : FlexGridGraph) : Nat → Int → Int → Int → Option (List FlexMazeIdx)
  | 0, _, _, _ => none
  | fuel + 1, x, y, z =>
    match isSrc g x y z with
    | none => none
    | some true => some [{ x := x, y := y, z := z }]
    | some false =>
      match getPrevAstarNodeDir g x y z with
      | none => none
      | some dir =>
        (traceBackPath g fuel (getPrevGrid x y z dir).x (getPrevGrid x y z dir).y
          (getPrevGrid x y z dir).z).map fun path => { x := x, y := y, z := z } :: path

/-- Modelled from the spec: the seeding of `search` is missing. Every node of the
connected component is inserted as a source, at cost 0 and with no last direction. -/
def seedWavefront (g : FlexGridGraph) (dstMazeIdx1 dstMazeIdx2 : FlexMazeIdx) :
    List FlexMazeIdx → Option (List FlexWavefrontGrid)
  | [] => some []
  | idx :: rest =>
    match getEstCost g idx dstMazeIdx1 dstMazeIdx2, seedWavefront g dstMazeIdx1 dstMazeIdx2 rest with
    | some h, some ws =>
      some ({ x := idx.x, y := idx.y, z := idx.z, pathCost := 0, cost := h,
              lastDir := frDirEnum.UNKNOWN } :: ws)
    | _, _ => none

/-- Modelled from the spec: the body of `search` is missing. The wavefront is seeded with
the connected component, the main loop runs, and on success the path is traced back from
the reached destination node. The result is the success flag, the path (empty on failure)
and the accumulated cost of the reached entry; `none` is an undefined access or the end of
`fuel`. -/
def search (g : FlexGridGraph) (w : CostWeights) (legal : frDirEnum → frDirEnum → Bool)
    (connComps : List FlexMazeIdx) (dstMazeIdx1 dstMazeIdx2 : FlexMazeIdx) (fuel : Nat) :
    Option (Bool × List FlexMazeIdx × Int) :=
  match seedWavefront g dstMazeIdx1 dstMazeIdx2 connComps with
  | none => none
  | some ws =>
    match searchLoop w legal dstMazeIdx1 dstMazeIdx2 fuel g ws [] with
    | none => none
    | some none => some (false, [], 0)
    | some (some (g1, cur)) =>
      match traceBackPath g1 fuel cur.x cur.y cur.z with
      | none => none
      | some path => some (true, path, cur.pathCost)

/-- The direction of the step from the grid point `p` to the adjacent grid point `q`. -/
def stepDir (p q : FlexMazeIdx) : frDirEnum :=
  if q.x = p.x + 1 then frDirEnum.E
  else if q.x = p.x - 1 then frDirEnum.W
  else if q.y = p.y + 1 then frDirEnum.N
  else if q.y = p.y - 1 then frDirEnum.S
  else if q.z = p.z + 1 then frDirEnum.U
  else if q.z = p.z - 1 then frDirEnum.D
  else frDirEnum.UNKNOWN

/-- The sum of the edge lengths (`getEdgeLength`) along a path of grid points. -/
def pathEdgeLength (g : FlexGridGraph) : List FlexMazeIdx → Option Int
  | [] => some 0
  | [_] => some 0
  | p :: q :: rest =>
    match getEdgeLength g p.x p.y p.z (stepDir p q), pathEdgeLength g (q :: rest) with
    | some a, some b => some (a + b)
    | _, _ => none

/-! ## Grids built by `init` -/

/-- The shape of a grid after `init`: one node, source, destination and guide flag and
three previous-direction bits per grid point, one height and routing direction per layer,
and fewer than 2^31 grid points, so that every offset is an `frMIdx`. -/
def FlexGridGraph.wellFormed (g : FlexGridGraph) : Prop :=
  g.nodes_.length = g.xCoords_.length * g.yCoords_.length * g.zCoords_.length
    ∧ g.prevDirs_.length = 3 * (g.xCoords_.length * g.yCoords_.length * g.zCoords_.length)
    ∧ g.srcs_.length = g.xCoords_.length * g.yCoords_.length * g.zCoords_.length
    ∧ g.dsts_.length = g.xCoords_.length * g.yCoords_.length * g.zCoords_.length
    ∧ g.guides_.length = g.xCoords_.length * g.yCoords_.length * g.zCoords_.length
    ∧ g.zHeights_.length = g.zCoords_.length
    ∧ g.layerRouteDirections_.length = g.zCoords_.length
    ∧ (g.xCoords_.length : Int) < 2 ^ 31 ∧ (g.yCoords_.length : Int) < 2 ^ 31
    ∧ (g.zCoords_.length : Int) < 2 ^ 31
    ∧ (g.xCoords_.length : Int) * g.yCoords_.length * g.zCoords_.length < 2 ^ 31

instance (g : FlexGridGraph) : Decidable g.wellFormed := by
  unfold FlexGridGraph.wellFormed; infer_instance

/-- A coordinate array is strictly increasing. -/
def strictlyIncreasing (v : List Int) : Prop := List.Pairwise (fun a b => a < b) v

instance (v : List Int) : Decidable (strictlyIncreasing v) := by
  unfold strictlyIncreasing; infer_instance

/-- A coordinate array is sorted (non-decreasing). -/
def nonDecreasing (v : List Int) : Prop := List.Pairwise (fun a b => a ≤ b) v

instance (v : List Int) : Decidable (nonDecreasing v) := by
  unfold nonDecreasing; infer_instance

/-! ## A sample grid -/

/-- A built grid of two columns, one row and one horizontal layer, all nodes fresh. -/
def sampleGrid : FlexGridGraph :=
  { nodes_ := [Node.zero, Node.zero],
    prevDirs_ := [false, false, false, false, false, false],
    srcs_ := [false, false],
    dsts_ := [false, false],
    guides_ := [false, false],
    xCoords_ := [0, 10],
    yCoords_ := [0],
    zCoords_ := [2],
    zHeights_ := [0],
    layerRouteDirections_ := [dbTechLayerDir.HORIZONTAL] }

/-- A box around both columns of the sample grid. -/
def sampleBox : Rect := { xMin := 0, yMin := 0, xMax := 10, yMax := 0 }

/-- The sample grid after one `addMarkerCostPlanar(0, 0, 0)`: the planar marker cost of
node (0,0,0) is 10, its via marker cost is 0. -/
def markedGrid : FlexGridGraph :=
  { sampleGrid with nodes_ := [{ Node.zero with markerCostPlanar := 10 }, Node.zero] }

/-- The sample grid with both marker counters of node (0,0,0) at 10. -/
def markedBothGrid : FlexGridGraph :=
  { sampleGrid with
    nodes_ := [{ Node.zero with markerCostPlanar := 10, markerCostVia := 10 }, Node.zero] }

/-- The sample grid with a fixed-shape via cost of 7 stored in node (0,0,0). -/
def fixedViaGrid : FlexGridGraph :=
  { sampleGrid with nodes_ := [{ Node.zero with fixedShapeCostVia := 7 }, Node.zero] }

/-- A built grid of three columns, two rows and two layers, the lower one horizontal and
the upper one vertical, all nodes fresh and no guide set. -/
def guideGrid : FlexGridGraph :=
  { nodes_ := List.replicate 12 Node.zero,
    prevDirs_ := List.replicate 36 false,
    srcs_ := List.replicate 12 false,
    dsts_ := List.replicate 12 false,
    guides_ := List.replicate 12 false,
    xCoords_ := [0, 10, 20],
    yCoords_ := [0, 10],
    zCoords_ := [2, 4],
    zHeights_ := [0, 100],
    layerRouteDirections_ := [dbTechLayerDir.HORIZONTAL, dbTechLayerDir.VERTICAL] }

/-- A box inside the bounding box of the sample grid whose upper x bound lies between the
two columns. -/
def halfBox : Rect := { xMin := 0, yMin := 0, xMax := 5, yMax := 0 }

/-- A sequence of cost mutator calls on the sample grid, one of each group.  The decay
with the factor 1/2 meets the counter values 10, 5 and 0, whose halves are binary32
values. -/
def sampleOps : List (CostOp ℚ) :=
  [CostOp.addMarkerCostPlanar 0 0 0,
   CostOp.setFixedShapeCostVia 1 0 0 300,
   CostOp.decayMarkerCost 0 0 0 frDirEnum.E (mkRat 1 2),
   CostOp.addRouteShapeCostPlanar 1 0 0,
   CostOp.subRouteShapeCostVia 0 0 0]

/-! ## Straight corridors -/

/-- A fresh node with the East edge present. -/
def openNode : Node := { Node.zero with hasEastEdge := true }

/-- An unobstructed straight corridor with the source `s` and the destination `t`: a built
grid of one row and one layer with strictly increasing x coordinates (of less than 2^30 in
absolute value, so that every difference is an `frCoord`), every edge between neighbouring
columns present, no edge blocked, every flag and cost counter zero, the source mask set at
column `s` only and the destination mask at column `t` only. -/
def unobstructedCorridor (g : FlexGridGraph) (s t : Int) : Prop :=
  g.wellFormed
    ∧ g.yCoords_.length = 1 ∧ g.zCoords_.length = 1
    ∧ (g.prevDirs_.length : Int) < 2 ^ 31
    ∧ strictlyIncreasing g.xCoords_
    ∧ (∀ c ∈ g.xCoords_, - 2 ^ 30 ≤ c ∧ c < 2 ^ 30)
    ∧ (∀ i : Nat, i < g.nodes_.length →
        g.nodes_[i]? = some (if i + 1 < g.nodes_.length then openNode else Node.zero))
    ∧ (0 ≤ s ∧ s < g.xCoords_.length) ∧ (0 ≤ t ∧ t < g.xCoords_.length)
    ∧ (∀ i : Nat, i < g.srcs_.length → g.srcs_[i]? = some (decide ((i : Int) = s)))
    ∧ (∀ i : Nat, i < g.dsts_.length → g.dsts_[i]? = some (decide ((i : Int) = t)))

instance (g : FlexGridGraph) (s t : Int) : Decidable (unobstructedCorridor g s t) := by
  unfold unobstructedCorridor; infer_instance

/-- The columns from `s + σ * k` back to `s` in steps of `σ`. -/
def corridorPath (s σ : Int) : Nat → List FlexMazeIdx
  | 0 => [{ x := s, y := 0, z := 0 }]
  | k + 1 => { x := s + σ * ((k + 1 : Nat) : Int), y := 0, z := 0 } :: corridorPath s σ k

/-- The wavefront entry of the column `s + σ * k` of a corridor with the x coordinates `xs`,
reached from the source `s` in `k` steps of direction `d`, on the way to the column `t`. -/
def corridorEntry (xs : List Int) (s t σ : Int) (d : frDirEnum) (k : Nat) :
    FlexWavefrontGrid :=
  { x := s + σ * (k : Int), y := 0, z := 0,
    pathCost := σ * (xs.getD (s + σ * (k : Int)).toNat 0 - xs.getD s.toNat 0),
    cost := σ * (xs.getD t.toNat 0 - xs.getD s.toNat 0),
    lastDir := if k = 0 then frDirEnum.UNKNOWN else d }

/-- A fresh node with the North edge present. -/
def openNodeNorth : Node := { Node.zero with hasNorthEdge := true }

/-- An unobstructed straight corridor along y with the source row `s` and the destination
row `t`: as `unobstructedCorridor`, with one column and one layer, strictly increasing y
coordinates and every edge between neighbouring rows present. -/
def unobstructedCorridorY (g : FlexGridGraph) (s t : Int) : Prop :=
  g.wellFormed
    ∧ g.xCoords_.length = 1 ∧ g.zCoords_.length = 1
    ∧ (g.prevDirs_.length : Int) < 2 ^ 31
    ∧ strictlyIncreasing g.yCoords_
    ∧ (∀ c ∈ g.yCoords_, - 2 ^ 30 ≤ c ∧ c < 2 ^ 30)
    ∧ (∀ i : Nat, i < g.nodes_.length →
        g.nodes_[i]? = some (if i + 1 < g.nodes_.length then openNodeNorth else Node.zero))
    ∧ (0 ≤ s ∧ s < g.yCoords_.length) ∧ (0 ≤ t ∧ t < g.yCoords_.length)
    ∧ (∀ i : Nat, i < g.srcs_.length → g.srcs_[i]? = some (decide ((i : Int) = s)))
    ∧ (∀ i : Nat, i < g.dsts_.length → g.dsts_[i]? = some (decide ((i : Int) = t)))

instance (g : FlexGridGraph) (s t : Int) : Decidable (unobstructedCorridorY g s t) := by
  unfold unobstructedCorridorY; infer_instance

/-- The rows from `s + σ * k` back to `s` in steps of `σ`. -/
def corridorPathY (s σ : Int) : Nat → List FlexMazeIdx
  | 0 => [{ x := 0, y := s, z := 0 }]
  | k + 1 => { x := 0, y := s + σ * ((k + 1 : Nat) : Int), z := 0 } :: corridorPathY s σ k

/-- The wavefront entry of the row `s + σ * k` of a corridor along y with the y coordinates
`ys`, reached from the source `s` in `k` steps of direction `d`, on the way to the row `t`. -/
def corridorEntryY (ys : List Int) (s t σ : Int) (d : frDirEnum) (k : Nat) :
    FlexWavefrontGrid :=
  { x := 0, y := s + σ * (k : Int), z := 0,
    pathCost := σ * (ys.getD (s + σ * (k : Int)).toNat 0 - ys.getD s.toNat 0),
    cost := σ * (ys.getD t.toNat 0 - ys.getD s.toNat 0),
    lastDir := if k = 0 then frDirEnum.UNKNOWN else d }

/-- A corridor along y of three rows on a vertical layer, with the source at row 2 and the
destination at row 0. -/
def corridorGridY : FlexGridGraph :=
  { nodes_ := [openNodeNorth, openNodeNorth, Node.zero],
    prevDirs_ := List.replicate 9 false,
    srcs_ := [false, false, true],
    dsts_ := [true, false, false],
    guides_ := List.replicate 3 false,
    xCoords_ := [5],
    yCoords_ := [0, 7, 30],
    zCoords_ := [4],
    zHeights_ := [0],
    layerRouteDirections_ := [dbTechLayerDir.VERTICAL] }

/-- A corridor of four columns with the source at column 1 and the destination at
column 3. -/
def corridorGrid : FlexGridGraph :=
  { nodes_ := [openNode, openNode, openNode, Node.zero],
    prevDirs_ := List.replicate 12 false,
    srcs_ := [false, true, false, false],
    dsts_ := [false, false, false, true],
    guides_ := List.replicate 4 false,
    xCoords_ := [0, 10, 25, 45],
    yCoords_ := [0],
    zCoords_ := [2],
    zHeights_ := [0],
    layerRouteDirections_ := [dbTechLayerDir.HORIZONTAL] }

/-- Some cost weights. -/
def sampleWeights : CostWeights := { gridCost := 100, fixedShapeCost := 8, markerCost := 4 }

/-- A legality rule that forbids the immediate reversal of a planar step. -/
def noReversal (last dir : frDirEnum) : Bool :=
  match last, dir with
  | frDirEnum.E, frDirEnum.W => false
  | frDirEnum.W, frDirEnum.E => false
  | frDirEnum.N, frDirEnum.S => false
  | frDirEnum.S, frDirEnum.N => false
  | _, _ => true

/-! ## Sink clustering

`SinkClustering::findBestMatching` and `SinkClustering::isLimitExceeded` of
src/cts/src/SinkClustering.cpp (namespace `cts` in the source).  The counters of the
loops and the cluster counters are `unsigned`; they are embedded as `Nat`, with `u32` for
their arithmetic.  An access outside a vector is `none`, as for the grid graph. -/

/-- The `double` values and operations that `findBestMatching` uses, kept abstract: `zero`
is the literal 0, `gt` and `lt` are the comparisons `>` and `<`, `isZero` is `== 0`.  The
statements about the clustering hold for every choice of them, so in particular for the
binary64 arithmetic of the machine. -/
structure DoubleOps (F : Type) where
  zero : F
  add : F → F → F
  mul : F → F → F
  gt : F → F → Bool
  lt : F → F → Bool
  isZero : F → Bool

/-- The data members of `SinkClustering` that `findBestMatching` reads, typed as the code
uses them.  The class declaration (SinkClustering.h), `Point<double>` and `CtsOptions` are
not among the sources at hand: the point type `P` with its `computeDist` and the value
`sinkBufferMaxCap` of `_options->getSinkBufferMaxCap()` are parameters; a `.second` of
`_thetaIndexVector` is an `unsigned`, and the capacitances are held as `double` values. -/
structure SinkClustering (F P : Type) where
  _points : List P
  _pointsCap : List F
  _thetaIndexVector : List (F × Nat)
  _maxInternalDiameter : F
  _capPerUnit : F
  _useMaxCapLimit : Bool
  sinkBufferMaxCap : F
  computeDist : P → P → F

/-- Arithmetic of `unsigned`: the value modulo 2^32. -/
def u32 (v : Nat) : Nat := v % 2 ^ 32

/-- The local vectors of `findBestMatching`. -/
structure MatchState (F P : Type) where
  clusters : List Nat
  costs : List F
  previousCosts : List F
  solutionPoints : List (List (List P))
  solutionPointsIdx : List (List (List Nat))
  solutions : List (List (List Nat))

/-- The statement `v[j].push_back(a)`; `none` when `j` is not an index of `v`. -/
def pushBackAt {α : Type} (v : List (List α)) (j : Nat) (a : α) : Option (List (List α)) :=
  match v[j]? with
  | none => none
  | some row => some (v.set j (row ++ [a]))

/-- The statement `v[j][c].push_back(a)`. -/
def pushBackAt2 {α : Type} (v : List (List (List α))) (j c : Nat) (a : α) :
    Option (List (List (List α))) :=
  match v[j]? with
  | none => none
  | some row =>
    match pushBackAt row c a with
    | none => none
    | some row1 => some (v.set j row1)

/-- The block `if (solutions.size() < (j + 1)) { .. }` of the first loop: one more
(empty) solution in each of the three vectors. -/
def allocSolution {F P : Type} (st : MatchState F P) (j : Nat) : MatchState F P :=
  if st.solutions.length < u32 (j + 1) then
    { st with
      solutions := st.solutions ++ [[]],
      solutionPoints := st.solutionPoints ++ [[]],
      solutionPointsIdx := st.solutionPointsIdx ++ [[]] }
  else
    st

/-- The block `if (solutions[j].size() < (clusters[j] + 1)) { .. }`: one more (empty)
cluster in solution `j` of each of the three vectors. -/
def allocCluster {F P : Type} (st : MatchState F P) (j : Nat) : Option (MatchState F P) :=
  match st.solutions[j]?, st.clusters[j]? with
  | some sol, some c =>
    if sol.length < u32 (c + 1) then
      match pushBackAt st.solutions j [], pushBackAt st.solutionPoints j [],
        pushBackAt st.solutionPointsIdx j [] with
      | some s, some p, some q =>
        some { st with solutions := s, solutionPoints := p, solutionPointsIdx := q }
      | _, _, _ => none
    else
      some st
  | _, _ => none

/-- The range-for loop over `solutionPoints[j][clusters[j]]`, on the points that are left:
`idxAt k` is the read `solutionPointsIdx[j][clusters[j]][k]`; the result is the pair of
`distanceCost` and `capCost` after the loop. -/
def costLoop {F P : Type} (ops : DoubleOps F) (sc : SinkClustering F P) (p : P)
    (idxAt : Nat → Option Nat) : List P → Nat → F → F → Option (F × F)
  | [], _, distanceCost, capCost => some (distanceCost, capCost)
  | comparisonPoint :: rest, pointIdx, distanceCost, capCost =>
    let cost := sc.computeDist p comparisonPoint
    let capCost1 : Option F :=
      if sc._useMaxCapLimit then
        match idxAt pointIdx with
        | none => none
        | some k =>
          match sc._pointsCap[k]? with
          | none => none
          | some cap => some (ops.add capCost (ops.add (ops.mul cost sc._capPerUnit) cap))
      else
        some capCost
    match capCost1 with
    | none => none
    | some capCost2 =>
      costLoop ops sc p idxAt rest (u32 (pointIdx + 1))
        (if ops.gt cost distanceCost then cost else distanceCost) capCost2

/-- `isLimitExceeded(size, cost, capCost, sizeLimit)`. -/
def isLimitExceeded {F P : Type} (ops : DoubleOps F) (sc : SinkClustering F P) (size : Nat)
    (cost capCost : F) (sizeLimit : Nat) : Bool :=
  if sc._useMaxCapLimit then
    ops.gt capCost sc.sinkBufferMaxCap
  else
    decide (size ≥ sizeLimit) || ops.gt cost sc._maxInternalDiameter

/-- The cost of adding the point `p` (of capacitance `cap`) to the current cluster of
solution `j`: the size of that cluster, `distanceCost` and `capCost`. -/
def clusterCost {F P : Type} (ops : DoubleOps F) (sc : SinkClustering F P)
    (st : MatchState F P) (j : Nat) (p : P) (cap : F) : Option (Nat × F × F) :=
  match st.clusters[j]? with
  | none => none
  | some c =>
    match st.solutionPoints[j]? with
    | none => none
    | some rowP =>
      match rowP[c]? with
      | none => none
      | some pts =>
        let idxAt : Nat → Option Nat := fun k =>
          match st.solutionPointsIdx[j]? with
          | none => none
          | some rowI =>
            match rowI[c]? with
            | none => none
            | some cl => cl[k]?
        match costLoop ops sc p idxAt pts 0 ops.zero cap with
        | none => none
        | some r => some (u32 pts.length, r.1, r.2)

/-- The statement `if (isLimitExceeded(..)) { .. } else { .. }`: either the current cluster
of solution `j` is closed, its cost saved and a new cluster defined, or the highest cost
of the current cluster is kept. -/
def closeOrKeep {F P : Type} (ops : DoubleOps F) (sc : SinkClustering F P) (groupSize : Nat)
    (st : MatchState F P) (j : Nat) (size : Nat) (distanceCost capCost : F) :
    Option (MatchState F P) :=
  if isLimitExceeded ops sc size distanceCost capCost groupSize then
    match st.previousCosts[j]?, st.costs[j]?, st.clusters[j]? with
    | some pc, some co, some c =>
      let pc1 := if ops.isZero pc then sc._maxInternalDiameter else pc
      some { st with
        costs := st.costs.set j (ops.add co pc1),
        clusters := st.clusters.set j (u32 (c + 1)),
        previousCosts := st.previousCosts.set j ops.zero }
    | _, _, _ => none
  else
    match st.previousCosts[j]? with
    | some pc =>
      if ops.gt distanceCost pc then
        some { st with previousCosts := st.previousCosts.set j distanceCost }
      else
        some st
    | none => none

/-- The three `push_back` statements that save the point in the current cluster of
solution `j`. -/
def pushPoint {F P : Type} (st : MatchState F P) (j : Nat) (p : P) (idx : Nat) :
    Option (MatchState F P) :=
  match st.clusters[j]? with
  | none => none
  | some c =>
    match pushBackAt2 st.solutionPoints j c p, pushBackAt2 st.solutionPointsIdx j c idx,
      pushBackAt2 st.solutions j c idx with
    | some a, some b, some d =>
      some { st with solutionPoints := a, solutionPointsIdx := b, solutions := d }
    | _, _, _ => none

/-- The body that the two loop nests of `findBestMatching` share: the point at place `pos`
of `_thetaIndexVector` is assigned to solution `j`. -/
def assignPoint {F P : Type} (ops : DoubleOps F) (sc : SinkClustering F P) (groupSize : Nat)
    (st : MatchState F P) (j pos : Nat) : Option (MatchState F P) :=
  match allocCluster st j with
  | none => none
  | some st1 =>
    match sc._thetaIndexVector[pos]? with
    | none => none
    | some ti =>
      match sc._points[ti.2]?, sc._pointsCap[ti.2]? with
      | some p, some cap =>
        match clusterCost ops sc st1 j p cap with
        | none => none
        | some r =>
          match closeOrKeep ops sc groupSize st1 j r.1 r.2.1 r.2.2 with
          | none => none
          | some st2 =>
            match allocCluster st2 j with
            | none => none
            | some st3 => pushPoint st3 j p ti.2
      | _, _ => none

/-- A loop `for (unsigned i = start; i < bound; ++i) body`, run from the counter value `i`
on; `fuel` bounds the number of tests of the loop condition. -/
def forLoop {σ : Type} (bound : Nat) (body : Nat → σ → Option σ) : Nat → Nat → σ → Option σ
  | 0, _, _ => none
  | fuel + 1, i, st =>
    if i < bound then
      match body i st with
      | none => none
      | some st1 => forLoop bound body fuel (u32 (i + 1)) st1
    else
      some st

/-- The body of the first loop nest for the counters `i` and `j`. -/
def firstLoopBody {F P : Type} (ops : DoubleOps F) (sc : SinkClustering F P)
    (groupSize : Nat) (i j : Nat) (st : MatchState F P) : Option (MatchState F P) :=
  if ¬ (u32 (i + j) ≥ sc._thetaIndexVector.length) then
    assignPoint ops sc groupSize (allocSolution st j) j (u32 (i + j))
  else
    some st

/-- The two loop nests of `findBestMatching`: the local vectors when the candidate
solutions are complete. -/
def matchingCandidates {F P : Type} (ops : DoubleOps F) (sc : SinkClustering F P)
    (groupSize fuel : Nat) : Option (MatchState F P) :=
  let st0 : MatchState F P :=
    { clusters := List.replicate groupSize 0,
      costs := List.replicate groupSize ops.zero,
      previousCosts := List.replicate groupSize ops.zero,
      solutionPoints := [], solutionPointsIdx := [], solutions := [] }
  match forLoop sc._thetaIndexVector.length
      (fun i st => forLoop groupSize (fun j st1 => firstLoopBody ops sc groupSize i j st1)
        fuel 0 st) fuel 0 st0 with
  | none => none
  | some st1 =>
    forLoop groupSize
      (fun i st => forLoop groupSize (fun j st2 => assignPoint ops sc groupSize st2 j i)
        fuel (u32 (i + 1)) st) fuel 0 st1

/-- The loop that finds the solution with minimum cost: the value of `bestSolution`. -/
def bestSolutionLoop {F : Type} (ops : DoubleOps F) (costs : List F) (groupSize fuel : Nat) :
    Option Nat :=
  match costs[0]? with
  | none => none
  | some c0 =>
    (forLoop groupSize
      (fun j (b : Nat × F) =>
        match costs[j]? with
        | none => none
        | some cj => some (if ops.lt cj b.2 then (j, cj) else b))
      fuel 1 (0, c0)).map Prod.fst

/-- `findBestMatching(groupSize)`: the new value of `_bestSolution`. -/
def findBestMatching {F P : Type} (ops : DoubleOps F) (sc : SinkClustering F P)
    (groupSize fuel : Nat) : Option (List (List Nat)) :=
  match matchingCandidates ops sc groupSize fuel with
  | none => none
  | some st =>
    match bestSolutionLoop ops st.costs groupSize fuel with
    | none => none
    | some bestSolution => st.solutions[bestSolution]?

/-- Sample `double` operations: the integers. -/
def intOps : DoubleOps Int :=
  { zero := 0, add := fun a b => a + b, mul := fun a b => a * b,
    gt := fun a b => decide (a > b), lt := fun a b => decide (a < b),
    isZero := fun a => decide (a = 0) }

/-- Five sinks on a line, in the order 2, 0, 1, 4, 3 of their thetas. -/
def sampleSinks : SinkClustering Int Int :=
  { _points := [0, 3, 7, 20, 22],
    _pointsCap := [1, 1, 1, 1, 1],
    _thetaIndexVector := [(0, 2), (1, 0), (2, 1), (3, 4), (4, 3)],
    _maxInternalDiameter := 10,
    _capPerUnit := 1,
    _useMaxCapLimit := false,
    sinkBufferMaxCap := 5,
    computeDist := fun a b => (a - b).natAbs }

/-! ### Predicates for the statements about `findBestMatching` -/

/-- The vector `v1` has the size of `v` and differs from it at most at index `j`. -/
def ListSameExcept {α : Type} (v v1 : List α) (j : Nat) : Prop :=
  v1.length = v.length ∧ ∀ k, k ≠ j → v1[k]? = v[k]?

/-- The local vectors `st1` have the sizes of those of `st` and differ from them at most at
index `j`. -/
def SameExcept {F P : Type} (st st1 : MatchState F P) (j : Nat) : Prop :=
  ListSameExcept st.clusters st1.clusters j ∧ ListSameExcept st.costs st1.costs j
    ∧ ListSameExcept st.previousCosts st1.previousCosts j
    ∧ ListSameExcept st.solutionPoints st1.solutionPoints j
    ∧ ListSameExcept st.solutionPointsIdx st1.solutionPointsIdx j
    ∧ ListSameExcept st.solutions st1.solutions j

/-- The entries of index `j` of the six local vectors. -/
def RowIs {F P : Type} (st : MatchState F P) (j c : Nat) (co pc : F) (pts : List (List P))
    (pidx sol : List (List Nat)) : Prop :=
  st.clusters[j]? = some c ∧ st.costs[j]? = some co ∧ st.previousCosts[j]? = some pc
    ∧ st.solutionPoints[j]? = some pts ∧ st.solutionPointsIdx[j]? = some pidx
    ∧ st.solutions[j]? = some sol

/-- Solution `j` is in step with its counters: `clusters[j]` is the index of its last
cluster, the three vectors of the solution have the same shape (as far as the code relies
on it), the clusters hold the sink indexes `content` in this order, every index is an
index of `_pointsCap`, and without the max-cap limit no cluster has more than `groupSize`
sinks. -/
def RowOpen {F P : Type} (sc : SinkClustering F P) (groupSize : Nat) (st : MatchState F P)
    (j : Nat) (content : List Nat) : Prop :=
  ∃ co pc frontP curP front cur,
    RowIs st j front.length co pc (frontP ++ [curP]) (front ++ [cur]) (front ++ [cur])
      ∧ frontP.length = front.length ∧ curP.length = cur.length
      ∧ front.flatten ++ cur = content ∧ front.length ≤ content.length
      ∧ (∀ x ∈ content, x < sc._pointsCap.length)
      ∧ (sc._useMaxCapLimit = false →
          (∀ cl ∈ front, cl.length ≤ groupSize) ∧ cur.length ≤ groupSize)

/-- The state of the local vectors between two assignments: the three counters vectors have
`groupSize` entries, `m` solutions are allocated, the cluster counters of the other
solutions are 0, and solution `k` holds `content k`. -/
def CandInv {F P : Type} (sc : SinkClustering F P) (groupSize : Nat) (st : MatchState F P)
    (m : Nat) (content : Nat → List Nat) : Prop :=
  st.clusters.length = groupSize ∧ st.costs.length = groupSize
    ∧ st.previousCosts.length = groupSize
    ∧ st.solutionPoints.length = m ∧ st.solutionPointsIdx.length = m
    ∧ st.solutions.length = m
    ∧ (∀ k, m ≤ k → k < groupSize → st.clusters[k]? = some 0)
    ∧ ∀ k, k < m → RowOpen sc groupSize st k (content k)

/-! ## Auxiliary lemmas -/

theorem toInt32_of_range (v : Int) (h0 : 0 ≤ v) (h1 : v < 2 ^ 31) : toInt32 v = v := by
  unfold toInt32
  have h : v % 2 ^ 32 = v := Int.emod_eq_of_lt h0 (by omega)
  rw [h, if_pos h1]

theorem vecGet?_eq_some_iff {α : Type} (v : List α) (i : Int) (a : α) :
    vecGet? v i = some a ↔ 0 ≤ i ∧ v[i.toNat]? = some a := by
  unfold vecGet?
  by_cases h : 0 ≤ i <;> simp [h]

theorem vecGet?_of_lt {α : Type} (v : List α) (i : Int) (h0 : 0 ≤ i) (h1 : i < v.length) :
    ∃ a, vecGet? v i = some a := by
  have hlt : i.toNat < v.length := by omega
  refine ⟨v[i.toNat], ?_⟩
  simp [vecGet?, h0, List.getElem?_eq_getElem hlt]

theorem flat_bound (X Y Z x y z : Int) (hx : 0 ≤ x) (hxX : x < X) (hy : 0 ≤ y) (hyY : y < Y)
    (hz : 0 ≤ z) (hzZ : z < Z) :
    0 ≤ x + y * X ∧ x + y * X < X * Y ∧ 0 ≤ z * X * Y ∧ z * X * Y ≤ X * Y * Z
      ∧ x + y * X + z * X * Y < X * Y * Z := by
  have hX : 0 < X := by omega
  have hY : 0 < Y := by omega
  have h1 : y * X ≤ (Y - 1) * X := Int.mul_le_mul_of_nonneg_right (by omega) (by omega)
  have hXY : 0 < X * Y := Int.mul_pos hX hY
  have h2 : z * (X * Y) ≤ (Z - 1) * (X * Y) :=
    Int.mul_le_mul_of_nonneg_right (by omega) (by omega)
  have h3 : 0 ≤ y * X := Int.mul_nonneg hy (by omega)
  have h4 : 0 ≤ z * (X * Y) := Int.mul_nonneg hz (by omega)
  have e1 : (Y - 1) * X = X * Y - X := by ring
  have e2 : (Z - 1) * (X * Y) = X * Y * Z - X * Y := by ring
  have e3 : z * X * Y = z * (X * Y) := by ring
  rw [e1] at h1
  rw [e2] at h2
  rw [e3]
  refine ⟨by omega, by omega, h4, by omega, by omega⟩

theorem isValid_iff (g : FlexGridGraph) (hwf : g.wellFormed) (x y z : Int) :
    isValid g x y z = true ↔
      0 ≤ x ∧ x < g.xCoords_.length ∧ 0 ≤ y ∧ y < g.yCoords_.length
        ∧ 0 ≤ z ∧ z < g.zCoords_.length := by
  obtain ⟨-, -, -, -, -, -, -, hX, hY, hZ, -⟩ := hwf
  have eX : toInt32 (g.xCoords_.length : Int) = g.xCoords_.length :=
    toInt32_of_range _ (by omega) hX
  have eY : toInt32 (g.yCoords_.length : Int) = g.yCoords_.length :=
    toInt32_of_range _ (by omega) hY
  have eZ : toInt32 (g.zCoords_.length : Int) = g.zCoords_.length :=
    toInt32_of_range _ (by omega) hZ
  unfold isValid
  rw [eX, eY, eZ]
  constructor
  · intro h
    by_contra hc
    rw [if_pos (by omega)] at h
    exact Bool.false_ne_true h
  · intro h
    rw [if_neg (by omega)]

/-- On a grid built by `init`, the offset of a valid point is the row-major offset in
the order chosen by the layer direction, and it is an index of `nodes_`. -/
theorem getIdx_of_valid (g : FlexGridGraph) (hwf : g.wellFormed) (x y z : Int)
    (hv : isValid g x y z = true) :
    ∃ zDir, getZDir g z = some zDir ∧
      getIdx g x y z = some
        ((if zDir = dbTechLayerDir.HORIZONTAL then x + y * g.xCoords_.length
          else y + x * g.yCoords_.length) + z * g.xCoords_.length * g.yCoords_.length)
      ∧ 0 ≤ (if zDir = dbTechLayerDir.HORIZONTAL then x + y * g.xCoords_.length
          else y + x * g.yCoords_.length) + z * g.xCoords_.length * g.yCoords_.length
      ∧ (if zDir = dbTechLayerDir.HORIZONTAL then x + y * g.xCoords_.length
          else y + x * g.yCoords_.length) + z * g.xCoords_.length * g.yCoords_.length
          < g.nodes_.length := by
  have hv1 := (isValid_iff g hwf x y z).1 hv
  obtain ⟨hx, hxX, hy, hyY, hz, hzZ⟩ := hv1
  obtain ⟨hN, -, -, -, -, -, hL, -, -, -, hT⟩ := hwf
  obtain ⟨zDir, hzd⟩ := vecGet?_of_lt g.layerRouteDirections_ z hz (by omega)
  have hT1 : (g.xCoords_.length : Int) * g.yCoords_.length * g.zCoords_.length < 2 ^ 31 := hT
  have hN1 : (g.nodes_.length : Int)
      = (g.xCoords_.length : Int) * g.yCoords_.length * g.zCoords_.length := by
    exact_mod_cast hN
  have b1 := flat_bound g.xCoords_.length g.yCoords_.length g.zCoords_.length x y z
    hx hxX hy hyY hz hzZ
  have b2 := flat_bound g.yCoords_.length g.xCoords_.length g.zCoords_.length y x z
    hy hyY hx hxX hz hzZ
  obtain ⟨b11, -, b13, -, b15⟩ := b1
  obtain ⟨b21, -, -, -, b25⟩ := b2
  have b26 : y + x * (g.yCoords_.length : Int) + z * g.xCoords_.length * g.yCoords_.length
      < (g.xCoords_.length : Int) * g.yCoords_.length * g.zCoords_.length := by linarith
  clear b25
  have hsum1 : x + y * (g.xCoords_.length : Int) + z * g.xCoords_.length * g.yCoords_.length
      < 2 ^ 31 := lt_trans b15 hT1
  have hsum2 : y + x * (g.yCoords_.length : Int) + z * g.xCoords_.length * g.yCoords_.length
      < 2 ^ 31 := lt_trans b26 hT1
  have t2 := toInt32_of_range (z * g.xCoords_.length * g.yCoords_.length) b13 (by omega)
  refine ⟨zDir, hzd, ?_, ?_, ?_⟩
  · unfold getIdx
    simp only [getZDir, hzd]
    by_cases hH : zDir = dbTechLayerDir.HORIZONTAL
    · simp only [hH, if_true]
      have t1 := toInt32_of_range (x + y * g.xCoords_.length) b11 (by omega)
      rw [t1, t2, if_pos (by constructor <;> omega)]
    · simp only [hH, if_false]
      have t1 := toInt32_of_range (y + x * g.yCoords_.length) b21 (by omega)
      rw [t1, t2, if_pos (by constructor <;> omega)]
  · by_cases hH : zDir = dbTechLayerDir.HORIZONTAL
    · simp only [hH, if_true]; omega
    · simp only [hH, if_false]; omega
  · by_cases hH : zDir = dbTechLayerDir.HORIZONTAL
    · simp only [hH, if_true]; omega
    · simp only [hH, if_false]; omega

/-- On a grid built by `init` every valid point has a node. -/
theorem nodeAt_of_valid (g : FlexGridGraph) (hwf : g.wellFormed) (x y z : Int)
    (hv : isValid g x y z = true) : ∃ node, nodeAt g x y z = some node := by
  obtain ⟨zDir, _, hi, h0, h1⟩ := getIdx_of_valid g hwf x y z hv
  obtain ⟨node, hn⟩ := vecGet?_of_lt g.nodes_ _ h0 h1
  exact ⟨node, by simp only [nodeAt, hi, hn]⟩

/-- A defined `updNode` rewrites the node that `nodeAt` reads. -/
theorem updNode_eq_some (g g1 : FlexGridGraph) (x y z : Int) (f : Node → Node)
    (h : updNode g x y z f = some g1) :
    ∃ i node, getIdx g x y z = some i ∧ 0 ≤ i ∧ i.toNat < g.nodes_.length
      ∧ nodeAt g x y z = some node
      ∧ g1 = writeNode g i (f node) := by
  unfold updNode at h
  cases hi : getIdx g x y z with
  | none => simp [hi] at h
  | some i =>
    simp only [hi] at h
    cases hn : vecGet? g.nodes_ i with
    | none => simp [hn] at h
    | some node =>
      simp only [hn, Option.some.injEq] at h
      have hh := (vecGet?_eq_some_iff g.nodes_ i node).1 hn
      have hlt : i.toNat < g.nodes_.length := by
        have := hh.2
        rw [List.getElem?_eq_some_iff] at this
        exact this.1
      exact ⟨i, node, rfl, hh.1, hlt, by simp only [nodeAt, hi, hn], h.symm⟩

/-- When the node is there, `updNode` is defined. -/
theorem updNode_of_nodeAt (g : FlexGridGraph) (x y z : Int) (f : Node → Node) (node : Node)
    (h : nodeAt g x y z = some node) :
    ∃ i, getIdx g x y z = some i ∧ 0 ≤ i ∧ i.toNat < g.nodes_.length
      ∧ g.nodes_[i.toNat]? = some node
      ∧ updNode g x y z f = some (writeNode g i (f node)) := by
  unfold nodeAt at h
  cases hi : getIdx g x y z with
  | none => simp [hi] at h
  | some i =>
    simp only [hi] at h
    have hh := (vecGet?_eq_some_iff g.nodes_ i node).1 h
    have hlt : i.toNat < g.nodes_.length := by
      have := hh.2
      rw [List.getElem?_eq_some_iff] at this
      exact this.1
    exact ⟨i, rfl, hh.1, hlt, hh.2, by simp only [updNode, hi, h]⟩

/-- After a write of `nd` at the offset of `(x, y, z)`, the node read there is `nd`. -/
theorem nodeAt_set_same (g : FlexGridGraph) (x y z : Int) (i : Int) (nd : Node)
    (hi : getIdx g x y z = some i) (h0 : 0 ≤ i) (hlt : i.toNat < g.nodes_.length) :
    nodeAt (writeNode g i nd) x y z = some nd := by
  have hi1 : getIdx (writeNode g i nd) x y z = some i := hi
  simp only [nodeAt, hi1, vecGet?, h0, if_true]
  simp [writeNode, List.getElem?_set, hlt]

/-! ## Canonical edge storage -/

/-- C1: in every grid state, when addEdge(x,y,z,East,box,initDR) returns true, then in the
resulting grid hasEdge(x+1,y,z,West) and hasEdge(x,y,z,East) both return true; and on a
built grid it does return true for a valid point (x,y,z) whose east neighbour (x+1,y,z) is
valid too and a box that contains the physical points of both. -/
theorem addEdge_east_seen_from_west (g : FlexGridGraph) (x y z : Int) (box : Rect)
    (initDR : Bool) :
    (∀ g1, addEdge g x y z frDirEnum.E box initDR = some (g1, true) →
        hasEdge g1 (x + 1) y z frDirEnum.W = some true
          ∧ hasEdge g1 x y z frDirEnum.E = some true)
    ∧ (g.wellFormed → isValid g x y z = true → isValid g (x + 1) y z = true →
        ∀ pt pt1, getPoint g x y = some pt → getPoint g (x + 1) y = some pt1 →
          box.intersects pt = true → box.intersects pt1 = true →
          ∃ g1, addEdge g x y z frDirEnum.E box initDR = some (g1, true)) := by
  constructor
  · intro g1 h
    unfold addEdge at h
    cases hbox : isEdgeInBox g x y z frDirEnum.E box initDR with
    | none => simp [hbox] at h
    | some b =>
      cases b with
      | false => simp [hbox] at h
      | true =>
        simp only [hbox, correct] at h
        by_cases hvd : isValidDir g x y z frDirEnum.E = true
        · simp only [hvd, if_true, Option.map_eq_some'] at h
          obtain ⟨g2, hu, hg⟩ := h
          have hg2 : g2 = g1 := (Prod.mk.injEq _ _ _ _ ▸ hg).1
          subst hg2
          obtain ⟨i, node, hi, h0, hlt, -, hw⟩ := updNode_eq_some g g2 x y z _ hu
          subst hw
          have hv : isValid g x y z = true := by
            simp only [isValidDir, Bool.and_eq_true] at hvd
            exact hvd.1
          have hv2 : isValid (writeNode g i { node with hasEastEdge := true }) x y z = true := hv
          have hn2 := nodeAt_set_same g x y z i { node with hasEastEdge := true } hi h0 hlt
          constructor
          · simp [hasEdge, correct, hv2, hn2]
          · simp [hasEdge, correct, hv2, hn2]
        · simp [hvd] at h
  · intro hwf hv hv1 pt pt1 hp hp1 hb hb1
    obtain ⟨node, hn⟩ := nodeAt_of_valid g hwf x y z hv
    obtain ⟨i, hi, h0, hlt, -, hu⟩ :=
      updNode_of_nodeAt g x y z (fun node => { node with hasEastEdge := true }) node hn
    have hvd : isValidDir g x y z frDirEnum.E = true := by
      simp [isValidDir, reverse, hv, hv1]
    have hbox : isEdgeInBox g x y z frDirEnum.E box initDR = some true := by
      simp [isEdgeInBox, correct, reverse, hvd, hp, hp1, hb, hb1]
    refine ⟨writeNode g i { node with hasEastEdge := true }, ?_⟩
    simp [addEdge, hbox, correct, hvd, hu]

/-- C2: one stored bit per physical edge.  For every grid, point p = (x,y,z) and direction
d, hasEdge(p,d) equals hasEdge(q,opposite d) and isBlocked(p,d) equals
isBlocked(q,opposite d), where q is the neighbour of p in direction d; the pair
(q, opposite d) is spelled out for each of the six directions. -/
theorem edge_query_single_source (g : FlexGridGraph) (x y z : Int) :
    hasEdge g x y z frDirEnum.E = hasEdge g (x + 1) y z frDirEnum.W
      ∧ hasEdge g x y z frDirEnum.W = hasEdge g (x - 1) y z frDirEnum.E
      ∧ hasEdge g x y z frDirEnum.N = hasEdge g x (y + 1) z frDirEnum.S
      ∧ hasEdge g x y z frDirEnum.S = hasEdge g x (y - 1) z frDirEnum.N
      ∧ hasEdge g x y z frDirEnum.U = hasEdge g x y (z + 1) frDirEnum.D
      ∧ hasEdge g x y z frDirEnum.D = hasEdge g x y (z - 1) frDirEnum.U
      ∧ isBlocked g x y z frDirEnum.E = isBlocked g (x + 1) y z frDirEnum.W
      ∧ isBlocked g x y z frDirEnum.W = isBlocked g (x - 1) y z frDirEnum.E
      ∧ isBlocked g x y z frDirEnum.N = isBlocked g x (y + 1) z frDirEnum.S
      ∧ isBlocked g x y z frDirEnum.S = isBlocked g x (y - 1) z frDirEnum.N
      ∧ isBlocked g x y z frDirEnum.U = isBlocked g x y (z + 1) frDirEnum.D
      ∧ isBlocked g x y z frDirEnum.D = isBlocked g x y (z - 1) frDirEnum.U := by
  simp [hasEdge, isBlocked, correct]

/-- C3: correct maps (x,y,z,W) to (x-1,y,z,E), (x,y,z,S) to (x,y-1,z,N) and (x,y,z,D) to
(x,y,z-1,U), leaves E, N, U and UNKNOWN unchanged, never returns W, S or D, and is
idempotent. -/
theorem correct_canonicalizes (x y z : Int) (dir : frDirEnum) :
    correct x y z frDirEnum.W = (x - 1, y, z, frDirEnum.E)
      ∧ correct x y z frDirEnum.S = (x, y - 1, z, frDirEnum.N)
      ∧ correct x y z frDirEnum.D = (x, y, z - 1, frDirEnum.U)
      ∧ correct x y z frDirEnum.E = (x, y, z, frDirEnum.E)
      ∧ correct x y z frDirEnum.N = (x, y, z, frDirEnum.N)
      ∧ correct x y z frDirEnum.U = (x, y, z, frDirEnum.U)
      ∧ correct x y z frDirEnum.UNKNOWN = (x, y, z, frDirEnum.UNKNOWN)
      ∧ (correct x y z dir).2.2.2 ≠ frDirEnum.W
      ∧ (correct x y z dir).2.2.2 ≠ frDirEnum.S
      ∧ (correct x y z dir).2.2.2 ≠ frDirEnum.D
      ∧ correct (correct x y z dir).1 (correct x y z dir).2.1 (correct x y z dir).2.2.1
          (correct x y z dir).2.2.2 = correct x y z dir := by
  cases dir <;> simp [correct]

/-- Witness of C1 on the sample grid: the edge from column 0 to column 1 is added and is
then seen from both ends. -/
theorem addEdge_east_seen_from_west_witness :
    ∃ g1, addEdge sampleGrid 0 0 0 frDirEnum.E sampleBox false = some (g1, true)
      ∧ hasEdge g1 (0 + 1) 0 0 frDirEnum.W = some true
      ∧ hasEdge g1 0 0 0 frDirEnum.E = some true :=
  (Exists.imp fun g1 h =>
      ⟨h, (addEdge_east_seen_from_west sampleGrid 0 0 0 sampleBox false).1 g1 h⟩)
    ((addEdge_east_seen_from_west sampleGrid 0 0 0 sampleBox false).2
      (by decide) (by decide) (by decide) { x := 0, y := 0 } { x := 10, y := 0 }
      (by decide) (by decide) (by decide) (by decide))

/-! ## Binary search on a sorted coordinate array -/

/-- Invariant of the search loop on a non-decreasing array: everything left of the result
is below `val`, everything from the result on is not. -/
theorem lowerBoundLoop_spec (v : List Int) (val : Int)
    (hs : ∀ i j, i ≤ j → j < v.length → v.getD i 0 ≤ v.getD j 0) :
    ∀ (fuel first len : Nat), len ≤ fuel → first + len ≤ v.length →
      (∀ j, j < first → v.getD j 0 < val) →
      (∀ j, first + len ≤ j → j < v.length → val ≤ v.getD j 0) →
      lowerBoundLoop v val fuel first len ≤ v.length
        ∧ (∀ j, j < lowerBoundLoop v val fuel first len → v.getD j 0 < val)
        ∧ (∀ j, lowerBoundLoop v val fuel first len ≤ j → j < v.length →
            val ≤ v.getD j 0) := by
  intro fuel
  induction fuel with
  | zero =>
    intro first len hf hle hlo hhi
    have hl : len = 0 := by omega
    subst hl
    simp only [lowerBoundLoop]
    exact ⟨by omega, hlo, fun j hj hjl => hhi j (by omega) hjl⟩
  | succ fuel ih =>
    intro first len hf hle hlo hhi
    unfold lowerBoundLoop
    by_cases hlen : 0 < len
    · simp only [hlen, if_true]
      by_cases hm : v.getD (first + len / 2) 0 < val
      · simp only [hm, if_true]
        have hhalf : len / 2 < len := Nat.div_lt_self hlen (by decide)
        apply ih (first + len / 2 + 1) (len - len / 2 - 1) (by omega) (by omega)
        · intro j hj
          have h1 := hs j (first + len / 2) (by omega) (by omega)
          omega
        · intro j hj hjl
          exact hhi j (by omega) hjl
      · simp only [hm, if_false]
        have hhalf : len / 2 < len := Nat.div_lt_self hlen (by decide)
        apply ih first (len / 2) (by omega) (by omega) hlo
        intro j hj hjl
        have h1 := hs (first + len / 2) j hj hjl
        omega
    · simp only [hlen, if_false]
      have hl : len = 0 := by omega
      subst hl
      exact ⟨by omega, hlo, fun j hj hjl => hhi j (by omega) hjl⟩

/-- On a non-decreasing array `lower_bound` splits the array at the first element that is
not below `val`. -/
theorem lower_bound_spec (v : List Int) (val : Int)
    (hs : ∀ i j, i ≤ j → j < v.length → v.getD i 0 ≤ v.getD j 0) :
    lower_bound v val ≤ v.length
      ∧ (∀ j, j < lower_bound v val → v.getD j 0 < val)
      ∧ (∀ j, lower_bound v val ≤ j → j < v.length → val ≤ v.getD j 0) := by
  unfold lower_bound
  apply lowerBoundLoop_spec v val hs v.length 0 v.length (le_refl _) (by omega)
  · intro j hj
    omega
  · intro j hj hjl
    omega

theorem strictlyIncreasing_getD (v : List Int) (hs : strictlyIncreasing v) (i j : Nat)
    (hij : i < j) (hj : j < v.length) : v.getD i 0 < v.getD j 0 := by
  have hi : i < v.length := by omega
  rw [List.getD_eq_getElem v 0 hi, List.getD_eq_getElem v 0 hj]
  exact (List.pairwise_iff_getElem.1 hs) i j hi hj hij

theorem strictlyIncreasing_mono (v : List Int) (hs : strictlyIncreasing v) (i j : Nat)
    (hij : i ≤ j) (hj : j < v.length) : v.getD i 0 ≤ v.getD j 0 := by
  rcases Nat.lt_or_ge i j with h | h
  · exact le_of_lt (strictlyIncreasing_getD v hs i j h hj)
  · have : i = j := by omega
    subst this
    exact le_refl _

/-- On a strictly increasing array the search for the element at index `i` returns `i`. -/
theorem lower_bound_getD (v : List Int) (hs : strictlyIncreasing v) (i : Nat)
    (hi : i < v.length) : lower_bound v (v.getD i 0) = i := by
  obtain ⟨-, hlo, hhi⟩ := lower_bound_spec v (v.getD i 0) (strictlyIncreasing_mono v hs)
  rcases Nat.lt_trichotomy (lower_bound v (v.getD i 0)) i with h | h | h
  · have h1 := hhi (lower_bound v (v.getD i 0)) (le_refl _) (by omega)
    have h2 := strictlyIncreasing_getD v hs _ i h hi
    omega
  · exact h
  · have h1 := hlo i h
    omega

theorem toInt32_lower_bound_of_vecGet? (v : List Int) (hs : strictlyIncreasing v) (i c : Int)
    (hi : i < 2 ^ 31) (hc : vecGet? v i = some c) : toInt32 (lower_bound v c) = i := by
  obtain ⟨h0, hget⟩ := (vecGet?_eq_some_iff v i c).1 hc
  obtain ⟨hlt, hval⟩ := List.getElem?_eq_some_iff.1 hget
  have hd : v.getD i.toNat 0 = c := by
    rw [List.getD_eq_getElem v 0 hlt]
    exact hval
  have hr := lower_bound_getD v hs i.toNat hlt
  rw [hd] at hr
  rw [hr]
  have hcast : ((i.toNat : Nat) : Int) = i := Int.toNat_of_nonneg h0
  rw [hcast]
  exact toInt32_of_range i h0 hi

/-- C4: for an index i (an frMIdx, so below 2^31) of a strictly increasing x coordinate
array, getMazeXIdx(xCoord(i)) == i; likewise getMazeYIdx(yCoord(i)) == i and
getMazeZIdx(getLayerNum(i)) == i for strictly increasing y and z arrays. -/
theorem maze_index_round_trip (g : FlexGridGraph) (i : Int) (hi : i < 2 ^ 31) :
    (strictlyIncreasing g.xCoords_ → ∀ c, xCoord g i = some c → getMazeXIdx g c = i)
      ∧ (strictlyIncreasing g.yCoords_ → ∀ c, yCoord g i = some c → getMazeYIdx g c = i)
      ∧ (strictlyIncreasing g.zCoords_ →
          ∀ l, getLayerNum g i = some l → getMazeZIdx g l = i) :=
  ⟨fun hs c hc => toInt32_lower_bound_of_vecGet? g.xCoords_ hs i c hi hc,
   fun hs c hc => toInt32_lower_bound_of_vecGet? g.yCoords_ hs i c hi hc,
   fun hs l hl => toInt32_lower_bound_of_vecGet? g.zCoords_ hs i l hi hl⟩

/-- Witness of C4 on the sample grid: index 1 of the x array, index 0 of the y and z
arrays. -/
theorem maze_index_round_trip_witness :
    getMazeXIdx sampleGrid 10 = 1 ∧ getMazeYIdx sampleGrid 0 = 0
      ∧ getMazeZIdx sampleGrid 2 = 0 :=
  ⟨(maze_index_round_trip sampleGrid 1 (by decide)).1 (by decide) 10 (by decide),
   (maze_index_round_trip sampleGrid 0 (by decide)).2.1 (by decide) 0 (by decide),
   (maze_index_round_trip sampleGrid 0 (by decide)).2.2 (by decide) 2 (by decide)⟩

/-! ## Saturating counters -/

theorem limit_eq : (1 <<< cost_bits) - 1 = 255 := by decide

theorem pow_cost_bits : 2 ^ cost_bits = 256 := by decide

theorem addToByte_eq (a s : Nat) (hs : a + s < 2 ^ 32) : addToByte a s = min (a + s) 255 := by
  unfold addToByte
  simp only [limit_eq, Nat.mod_eq_of_lt hs]

theorem subFromByte_eq (m s : Nat) (hm : m < 2 ^ 31) (hs : s < 2 ^ 31) :
    subFromByte m s = m - s := by
  unfold subFromByte toInt32
  omega

/-- C5: in the production configuration (cost_bits = 8), for every counter value a and
summand s with a + s < 2^32, addToByte(a, s) == min(a + s, 2^8 - 1), and the result lies
in [0, 2^8 - 1]. -/
theorem addToByte_saturates (a s : Nat) (hs : a + s < 2 ^ 32) :
    cost_bits = 8 ∧ addToByte a s = min (a + s) (2 ^ cost_bits - 1)
      ∧ addToByte a s ≤ 2 ^ cost_bits - 1 := by
  rw [addToByte_eq a s hs, pow_cost_bits]
  refine ⟨rfl, ?_, ?_⟩
  · rfl
  · omega

/-- Witness of C5: 250 + 10 clamps to 255. -/
theorem addToByte_saturates_witness :
    cost_bits = 8 ∧ addToByte 250 10 = min (250 + 10) (2 ^ cost_bits - 1)
      ∧ addToByte 250 10 ≤ 2 ^ cost_bits - 1 :=
  addToByte_saturates 250 10 (by decide)

/-- C6: in the production configuration, for every minuend m and subtrahend s in
[0, 2^8 - 1], subFromByte(m, s) == m - s when s <= m and == 0 when s > m. -/
theorem subFromByte_clamps (m s : Nat) (hm : m < 2 ^ cost_bits) (hs : s < 2 ^ cost_bits) :
    (s ≤ m → subFromByte m s = m - s) ∧ (m < s → subFromByte m s = 0) := by
  rw [pow_cost_bits] at hm hs
  rw [subFromByte_eq m s (by omega) (by omega)]
  constructor
  · intro _
    rfl
  · intro h
    omega

/-- Witness of C6: 3 - 5 clamps to 0 and 5 - 3 is 2. -/
theorem subFromByte_clamps_witness :
    (subFromByte 5 3 = 5 - 3) ∧ (subFromByte 3 5 = 0) :=
  ⟨(subFromByte_clamps 5 3 (by decide) (by decide)).1 (by decide),
   (subFromByte_clamps 3 5 (by decide) (by decide)).2 (by decide)⟩

/-- A defined `updNode` is seen by `nodeAt`. -/
theorem updNode_nodeAt (g : FlexGridGraph) (x y z : Int) (f : Node → Node) (node : Node)
    (h : nodeAt g x y z = some node) :
    ∃ i, getIdx g x y z = some i
      ∧ updNode g x y z f = some (writeNode g i (f node))
      ∧ nodeAt (writeNode g i (f node)) x y z = some (f node) := by
  obtain ⟨i, hi, h0, hlt, -, hu⟩ := updNode_of_nodeAt g x y z f node h
  exact ⟨i, hi, hu, nodeAt_set_same g x y z i (f node) hi h0 hlt⟩

theorem storeCost_addToByte_one (v : Nat) (hv : v < 2 ^ cost_bits) :
    storeCost (addToByte v 1) = min (v + 1) (2 ^ cost_bits - 1) := by
  rw [pow_cost_bits] at hv
  rw [addToByte_eq v 1 (by omega)]
  unfold storeCost
  rw [pow_cost_bits]
  omega

theorem storeCost_subFromByte_one (v : Nat) (hv : v < 2 ^ cost_bits) :
    storeCost (subFromByte v 1) = v - 1 := by
  rw [pow_cost_bits] at hv
  rw [subFromByte_eq v 1 (by omega) (by omega)]
  unfold storeCost
  rw [pow_cost_bits]
  omega

/-- After `n` calls of `addRouteShapeCostPlanar` the counter is `min (v + n) 255`. -/
theorem repeat_addRouteShapeCostPlanar (x y z : Int) :
    ∀ (n : Nat) (g : FlexGridGraph) (node : Node), nodeAt g x y z = some node →
      node.routeShapeCostPlanar < 2 ^ cost_bits →
      ∃ g1 n1, repeatOp (fun h => addRouteShapeCostPlanar h x y z) n g = some g1
        ∧ nodeAt g1 x y z = some n1
        ∧ n1.routeShapeCostPlanar = min (node.routeShapeCostPlanar + n) (2 ^ cost_bits - 1) := by
  intro n
  induction n with
  | zero =>
    intro g node hn hr
    refine ⟨g, node, rfl, hn, ?_⟩
    rw [pow_cost_bits] at *
    omega
  | succ n ih =>
    intro g node hn hr
    obtain ⟨i, -, hu, hn1⟩ := updNode_nodeAt g x y z
      (fun node => { node with
        routeShapeCostPlanar := storeCost (addToByte node.routeShapeCostPlanar 1) }) node hn
    have hval := storeCost_addToByte_one node.routeShapeCostPlanar hr
    have hr1 : storeCost (addToByte node.routeShapeCostPlanar 1) < 2 ^ cost_bits := by
      rw [hval, pow_cost_bits]; omega
    obtain ⟨g1, n1, hrep, hn2, hc⟩ := ih _ _ hn1 hr1
    refine ⟨g1, n1, ?_, hn2, ?_⟩
    · simp only [repeatOp, addRouteShapeCostPlanar, hu]
      exact hrep
    · rw [hc]
      simp only [hval]
      rw [pow_cost_bits] at *
      omega

/-- After `n` calls of `addRouteShapeCostVia` the counter is `min (v + n) 255`. -/
theorem repeat_addRouteShapeCostVia (x y z : Int) :
    ∀ (n : Nat) (g : FlexGridGraph) (node : Node), nodeAt g x y z = some node →
      node.routeShapeCostVia < 2 ^ cost_bits →
      ∃ g1 n1, repeatOp (fun h => addRouteShapeCostVia h x y z) n g = some g1
        ∧ nodeAt g1 x y z = some n1
        ∧ n1.routeShapeCostVia = min (node.routeShapeCostVia + n) (2 ^ cost_bits - 1) := by
  intro n
  induction n with
  | zero =>
    intro g node hn hr
    refine ⟨g, node, rfl, hn, ?_⟩
    rw [pow_cost_bits] at *
    omega
  | succ n ih =>
    intro g node hn hr
    obtain ⟨i, -, hu, hn1⟩ := updNode_nodeAt g x y z
      (fun node => { node with
        routeShapeCostVia := storeCost (addToByte node.routeShapeCostVia 1) }) node hn
    have hval := storeCost_addToByte_one node.routeShapeCostVia hr
    have hr1 : storeCost (addToByte node.routeShapeCostVia 1) < 2 ^ cost_bits := by
      rw [hval, pow_cost_bits]; omega
    obtain ⟨g1, n1, hrep, hn2, hc⟩ := ih _ _ hn1 hr1
    refine ⟨g1, n1, ?_, hn2, ?_⟩
    · simp only [repeatOp, addRouteShapeCostVia, hu]
      exact hrep
    · rw [hc]
      simp only [hval]
      rw [pow_cost_bits] at *
      omega

/-- C7: for a node whose routeShapeCostPlanar is v (a counter value, below 2^8) and every
n with v + n >= 2^8 - 1, n calls of addRouteShapeCostPlanar leave the counter at exactly
2^8 - 1 and one following subRouteShapeCostPlanar leaves it at 2^8 - 2; the same holds for
routeShapeCostVia with addRouteShapeCostVia and subRouteShapeCostVia. -/
theorem saturate_then_subtract (g : FlexGridGraph) (x y z : Int) (node : Node) (n : Nat)
    (hn : nodeAt g x y z = some node) :
    (node.routeShapeCostPlanar < 2 ^ cost_bits →
      node.routeShapeCostPlanar + n ≥ 2 ^ cost_bits - 1 →
      ∃ g1 n1 g2 n2, repeatOp (fun h => addRouteShapeCostPlanar h x y z) n g = some g1
        ∧ nodeAt g1 x y z = some n1 ∧ n1.routeShapeCostPlanar = 2 ^ cost_bits - 1
        ∧ subRouteShapeCostPlanar g1 x y z = some g2
        ∧ nodeAt g2 x y z = some n2 ∧ n2.routeShapeCostPlanar = 2 ^ cost_bits - 2)
    ∧ (node.routeShapeCostVia < 2 ^ cost_bits →
      node.routeShapeCostVia + n ≥ 2 ^ cost_bits - 1 →
      ∃ g1 n1 g2 n2, repeatOp (fun h => addRouteShapeCostVia h x y z) n g = some g1
        ∧ nodeAt g1 x y z = some n1 ∧ n1.routeShapeCostVia = 2 ^ cost_bits - 1
        ∧ subRouteShapeCostVia g1 x y z = some g2
        ∧ nodeAt g2 x y z = some n2 ∧ n2.routeShapeCostVia = 2 ^ cost_bits - 2) := by
  constructor
  · intro hr hsat
    obtain ⟨g1, n1, hrep, hn1, hc⟩ := repeat_addRouteShapeCostPlanar x y z n g node hn hr
    have hc1 : n1.routeShapeCostPlanar = 2 ^ cost_bits - 1 := by
      rw [hc]; rw [pow_cost_bits] at *; omega
    obtain ⟨i, -, hu, hn2⟩ := updNode_nodeAt g1 x y z
      (fun node => { node with
        routeShapeCostPlanar := storeCost (subFromByte node.routeShapeCostPlanar 1) }) n1 hn1
    refine ⟨g1, n1, _, _, hrep, hn1, hc1, hu, hn2, ?_⟩
    have hlt : n1.routeShapeCostPlanar < 2 ^ cost_bits := by
      rw [hc1, pow_cost_bits]; omega
    show storeCost (subFromByte n1.routeShapeCostPlanar 1) = 2 ^ cost_bits - 2
    rw [storeCost_subFromByte_one _ hlt, hc1, pow_cost_bits]
  · intro hr hsat
    obtain ⟨g1, n1, hrep, hn1, hc⟩ := repeat_addRouteShapeCostVia x y z n g node hn hr
    have hc1 : n1.routeShapeCostVia = 2 ^ cost_bits - 1 := by
      rw [hc]; rw [pow_cost_bits] at *; omega
    obtain ⟨i, -, hu, hn2⟩ := updNode_nodeAt g1 x y z
      (fun node => { node with
        routeShapeCostVia := storeCost (subFromByte node.routeShapeCostVia 1) }) n1 hn1
    refine ⟨g1, n1, _, _, hrep, hn1, hc1, hu, hn2, ?_⟩
    have hlt : n1.routeShapeCostVia < 2 ^ cost_bits := by
      rw [hc1, pow_cost_bits]; omega
    show storeCost (subFromByte n1.routeShapeCostVia 1) = 2 ^ cost_bits - 2
    rw [storeCost_subFromByte_one _ hlt, hc1, pow_cost_bits]

/-- Witness of C7 on the sample grid: 255 additions on a fresh node, for both counters. -/
theorem saturate_then_subtract_witness :
    (∃ g1 n1 g2 n2, repeatOp (fun h => addRouteShapeCostPlanar h 0 0 0) 255 sampleGrid = some g1
        ∧ nodeAt g1 0 0 0 = some n1 ∧ n1.routeShapeCostPlanar = 2 ^ cost_bits - 1
        ∧ subRouteShapeCostPlanar g1 0 0 0 = some g2
        ∧ nodeAt g2 0 0 0 = some n2 ∧ n2.routeShapeCostPlanar = 2 ^ cost_bits - 2)
    ∧ (∃ g1 n1 g2 n2, repeatOp (fun h => addRouteShapeCostVia h 0 0 0) 255 sampleGrid = some g1
        ∧ nodeAt g1 0 0 0 = some n1 ∧ n1.routeShapeCostVia = 2 ^ cost_bits - 1
        ∧ subRouteShapeCostVia g1 0 0 0 = some g2
        ∧ nodeAt g2 0 0 0 = some n2 ∧ n2.routeShapeCostVia = 2 ^ cost_bits - 2) :=
  ⟨(saturate_then_subtract sampleGrid 0 0 0 Node.zero 255 (by decide)).1
      (by decide) (by decide),
   (saturate_then_subtract sampleGrid 0 0 0 Node.zero 255 (by decide)).2
      (by decide) (by decide)⟩

/-! ## Marker cost decay -/

theorem mulFloat_zero (c : Int) : mulFloat c 0 = 0 := by
  simp [mulFloat]

theorem mulFloat_one (c : Int) : mulFloat c 1 = c := by
  simp [mulFloat]

theorem pow_cost_bits_int : (2 : Int) ^ cost_bits = 256 := by decide

theorem storeCostInt_natCast (v : Nat) (hv : v < 2 ^ cost_bits) :
    storeCostInt (max 0 (v : Int)) = v := by
  rw [pow_cost_bits] at hv
  unfold storeCostInt
  rw [pow_cost_bits_int]
  omega

theorem storeCostInt_pred (v : Nat) (hv : v < 2 ^ cost_bits) :
    storeCostInt (max 0 ((v : Int) - 1)) = (max ((v : Int) - 1) 0).toNat := by
  rw [pow_cost_bits] at hv
  unfold storeCostInt
  rw [pow_cost_bits_int]
  omega

/-- What `decayMarkerCostPlanar(x, y, z, d)` does on a node that is there. -/
theorem decayMarkerCostPlanar_eq (g : FlexGridGraph) (x y z : Int) (d : ℚ) (node : Node)
    (hn : nodeAt g x y z = some node) :
    ∃ i, getIdx g x y z = some i
      ∧ decayMarkerCostPlanar g x y z d
          = some (writeNode g i { node with
                markerCostPlanar := storeCostInt (max 0 (mulFloat node.markerCostPlanar d)) },
              decide (max 0 (mulFloat node.markerCostPlanar d) = 0))
      ∧ nodeAt (writeNode g i { node with
            markerCostPlanar := storeCostInt (max 0 (mulFloat node.markerCostPlanar d)) }) x y z
          = some { node with
              markerCostPlanar := storeCostInt (max 0 (mulFloat node.markerCostPlanar d)) } := by
  obtain ⟨i, hi, hu, hn1⟩ := updNode_nodeAt g x y z
    (fun n => { n with
      markerCostPlanar := storeCostInt (max 0 (mulFloat node.markerCostPlanar d)) }) node hn
  refine ⟨i, hi, ?_, hn1⟩
  simp only [decayMarkerCostPlanar, hn, hu, Option.map_some']

/-- What `decayMarkerCostVia(x, y, z, d)` does on a node that is there. -/
theorem decayMarkerCostVia_eq (g : FlexGridGraph) (x y z : Int) (d : ℚ) (node : Node)
    (hn : nodeAt g x y z = some node) :
    ∃ i, getIdx g x y z = some i
      ∧ decayMarkerCostVia g x y z d
          = some (writeNode g i { node with
                markerCostVia := storeCostInt (max 0 (mulFloat node.markerCostVia d)) },
              decide (max 0 (mulFloat node.markerCostVia d) = 0))
      ∧ nodeAt (writeNode g i { node with
            markerCostVia := storeCostInt (max 0 (mulFloat node.markerCostVia d)) }) x y z
          = some { node with
              markerCostVia := storeCostInt (max 0 (mulFloat node.markerCostVia d)) } := by
  obtain ⟨i, hi, hu, hn1⟩ := updNode_nodeAt g x y z
    (fun n => { n with
      markerCostVia := storeCostInt (max 0 (mulFloat node.markerCostVia d)) }) node hn
  refine ⟨i, hi, ?_, hn1⟩
  simp only [decayMarkerCostVia, hn, hu, Option.map_some']

/-- C8: for a node with stored marker cost v, decayMarkerCostPlanar(x,y,z,d) with d = 0
sets markerCostPlanar to 0 and returns true; with d = 1 and v != 0 (v a counter value,
below 2^8) it leaves the node as it is and returns false. The same holds for
decayMarkerCostVia on markerCostVia. -/
theorem decay_by_zero_and_one (g : FlexGridGraph) (x y z : Int) (node : Node)
    (hn : nodeAt g x y z = some node) :
    (∃ g1, decayMarkerCostPlanar g x y z 0 = some (g1, true)
        ∧ nodeAt g1 x y z = some { node with markerCostPlanar := 0 })
    ∧ (node.markerCostPlanar ≠ 0 → node.markerCostPlanar < 2 ^ cost_bits →
        ∃ g1, decayMarkerCostPlanar g x y z 1 = some (g1, false)
          ∧ nodeAt g1 x y z = some node)
    ∧ (∃ g1, decayMarkerCostVia g x y z 0 = some (g1, true)
        ∧ nodeAt g1 x y z = some { node with markerCostVia := 0 })
    ∧ (node.markerCostVia ≠ 0 → node.markerCostVia < 2 ^ cost_bits →
        ∃ g1, decayMarkerCostVia g x y z 1 = some (g1, false)
          ∧ nodeAt g1 x y z = some node) := by
  have z0 : storeCostInt (max 0 0) = 0 := by decide
  refine ⟨?_, ?_, ?_, ?_⟩
  · obtain ⟨i, -, hd, hn1⟩ := decayMarkerCostPlanar_eq g x y z 0 node hn
    rw [mulFloat_zero, z0] at hd hn1
    exact ⟨_, hd, hn1⟩
  · intro hne hr
    obtain ⟨i, -, hd, hn1⟩ := decayMarkerCostPlanar_eq g x y z 1 node hn
    rw [mulFloat_one, storeCostInt_natCast _ hr] at hd hn1
    have hf : decide (max 0 (node.markerCostPlanar : Int) = 0) = false := by
      rw [decide_eq_false_iff_not]; omega
    rw [hf] at hd
    exact ⟨_, hd, hn1⟩
  · obtain ⟨i, -, hd, hn1⟩ := decayMarkerCostVia_eq g x y z 0 node hn
    rw [mulFloat_zero, z0] at hd hn1
    exact ⟨_, hd, hn1⟩
  · intro hne hr
    obtain ⟨i, -, hd, hn1⟩ := decayMarkerCostVia_eq g x y z 1 node hn
    rw [mulFloat_one, storeCostInt_natCast _ hr] at hd hn1
    have hf : decide (max 0 (node.markerCostVia : Int) = 0) = false := by
      rw [decide_eq_false_iff_not]; omega
    rw [hf] at hd
    exact ⟨_, hd, hn1⟩

/-- Witness of C8 on a node whose two marker counters are 10. -/
theorem decay_by_zero_and_one_witness :
    (∃ g1, decayMarkerCostPlanar markedBothGrid 0 0 0 0 = some (g1, true)
        ∧ nodeAt g1 0 0 0
          = some { Node.zero with markerCostPlanar := 0, markerCostVia := 10 })
    ∧ (∃ g1, decayMarkerCostPlanar markedBothGrid 0 0 0 1 = some (g1, false)
        ∧ nodeAt g1 0 0 0
          = some { Node.zero with markerCostPlanar := 10, markerCostVia := 10 })
    ∧ (∃ g1, decayMarkerCostVia markedBothGrid 0 0 0 0 = some (g1, true)
        ∧ nodeAt g1 0 0 0
          = some { Node.zero with markerCostPlanar := 10, markerCostVia := 0 })
    ∧ (∃ g1, decayMarkerCostVia markedBothGrid 0 0 0 1 = some (g1, false)
        ∧ nodeAt g1 0 0 0
          = some { Node.zero with markerCostPlanar := 10, markerCostVia := 10 }) :=
  ⟨(decay_by_zero_and_one markedBothGrid 0 0 0
      { Node.zero with markerCostPlanar := 10, markerCostVia := 10 } (by decide)).1,
   (decay_by_zero_and_one markedBothGrid 0 0 0
      { Node.zero with markerCostPlanar := 10, markerCostVia := 10 } (by decide)).2.1
      (by decide) (by decide),
   (decay_by_zero_and_one markedBothGrid 0 0 0
      { Node.zero with markerCostPlanar := 10, markerCostVia := 10 } (by decide)).2.2.1,
   (decay_by_zero_and_one markedBothGrid 0 0 0
      { Node.zero with markerCostPlanar := 10, markerCostVia := 10 } (by decide)).2.2.2
      (by decide) (by decide)⟩

/-- C9, the code at a failing input: on the sample grid after one addMarkerCostPlanar(0,0,0)
(planar marker cost 10, via marker cost 0), decayMarkerCost(0,0,0,E,1) leaves the node as
it is but returns true, because the switch falls through to the via case and the returned
flag tests the via counter. -/
theorem decayMarkerCost_east_reports_via_counter :
    addMarkerCostPlanar sampleGrid 0 0 0 = some markedGrid
      ∧ nodeAt markedGrid 0 0 0 = some { Node.zero with markerCostPlanar := 10 }
      ∧ decayMarkerCost markedGrid 0 0 0 frDirEnum.E 1 = some (markedGrid, true)
      ∧ decayMarkerCostPlanar markedGrid 0 0 0 1 = some (markedGrid, false) := by
  decide

/-- What `decayMarkerCostPlanar(x, y, z)` (unit decrement) does on a node that is there. -/
theorem decayMarkerCostPlanarUnit_eq (g : FlexGridGraph) (x y z : Int) (node : Node)
    (hn : nodeAt g x y z = some node) :
    ∃ i, getIdx g x y z = some i
      ∧ decayMarkerCostPlanarUnit g x y z
          = some (writeNode g i { node with
                markerCostPlanar := storeCostInt (max 0 ((node.markerCostPlanar : Int) - 1)) },
              decide (max 0 ((node.markerCostPlanar : Int) - 1) = 0))
      ∧ nodeAt (writeNode g i { node with
            markerCostPlanar := storeCostInt (max 0 ((node.markerCostPlanar : Int) - 1)) }) x y z
          = some { node with
              markerCostPlanar := storeCostInt (max 0 ((node.markerCostPlanar : Int) - 1)) } := by
  obtain ⟨i, hi, hu, hn1⟩ := updNode_nodeAt g x y z
    (fun n => { n with
      markerCostPlanar := storeCostInt (max 0 ((node.markerCostPlanar : Int) - 1)) }) node hn
  refine ⟨i, hi, ?_, hn1⟩
  simp only [decayMarkerCostPlanarUnit, hn, hu, Option.map_some']

/-- What `decayMarkerCostVia(x, y, z)` (unit decrement) does on a node that is there. -/
theorem decayMarkerCostViaUnit_eq (g : FlexGridGraph) (x y z : Int) (node : Node)
    (hn : nodeAt g x y z = some node) :
    ∃ i, getIdx g x y z = some i
      ∧ decayMarkerCostViaUnit g x y z
          = some (writeNode g i { node with
                markerCostVia := storeCostInt (max 0 ((node.markerCostVia : Int) - 1)) },
              decide (max 0 ((node.markerCostVia : Int) - 1) = 0))
      ∧ nodeAt (writeNode g i { node with
            markerCostVia := storeCostInt (max 0 ((node.markerCostVia : Int) - 1)) }) x y z
          = some { node with
              markerCostVia := storeCostInt (max 0 ((node.markerCostVia : Int) - 1)) } := by
  obtain ⟨i, hi, hu, hn1⟩ := updNode_nodeAt g x y z
    (fun n => { n with
      markerCostVia := storeCostInt (max 0 ((node.markerCostVia : Int) - 1)) }) node hn
  refine ⟨i, hi, ?_, hn1⟩
  simp only [decayMarkerCostViaUnit, hn, hu, Option.map_some']

theorem decide_unit_zero (v : Nat) :
    decide (max 0 ((v : Int) - 1) = 0) = decide ((max ((v : Int) - 1) 0).toNat = 0) := by
  rw [decide_eq_decide]
  omega

/-- C10: for a node with markerCostPlanar = v (a counter value, below 2^8),
decayMarkerCostPlanar(x,y,z) without a factor replaces the node at the offset of (x,y,z)
by the same node with markerCostPlanar = max(v - 1, 0), returns true exactly when that new
value is 0, and changes nothing else in the grid; the same holds for
decayMarkerCostVia(x,y,z) on markerCostVia. -/
theorem unit_decay (g : FlexGridGraph) (x y z : Int) (node : Node)
    (hn : nodeAt g x y z = some node) :
    (node.markerCostPlanar < 2 ^ cost_bits →
      ∃ i, getIdx g x y z = some i
        ∧ decayMarkerCostPlanarUnit g x y z
            = some (writeNode g i { node with
                  markerCostPlanar := (max ((node.markerCostPlanar : Int) - 1) 0).toNat },
                decide ((max ((node.markerCostPlanar : Int) - 1) 0).toNat = 0))
        ∧ nodeAt (writeNode g i { node with
              markerCostPlanar := (max ((node.markerCostPlanar : Int) - 1) 0).toNat }) x y z
            = some { node with
                markerCostPlanar := (max ((node.markerCostPlanar : Int) - 1) 0).toNat })
    ∧ (node.markerCostVia < 2 ^ cost_bits →
      ∃ i, getIdx g x y z = some i
        ∧ decayMarkerCostViaUnit g x y z
            = some (writeNode g i { node with
                  markerCostVia := (max ((node.markerCostVia : Int) - 1) 0).toNat },
                decide ((max ((node.markerCostVia : Int) - 1) 0).toNat = 0))
        ∧ nodeAt (writeNode g i { node with
              markerCostVia := (max ((node.markerCostVia : Int) - 1) 0).toNat }) x y z
            = some { node with
                markerCostVia := (max ((node.markerCostVia : Int) - 1) 0).toNat }) := by
  constructor
  · intro hr
    obtain ⟨i, hi, hd, hn1⟩ := decayMarkerCostPlanarUnit_eq g x y z node hn
    rw [storeCostInt_pred _ hr] at hd hn1
    rw [decide_unit_zero] at hd
    exact ⟨i, hi, hd, hn1⟩
  · intro hr
    obtain ⟨i, hi, hd, hn1⟩ := decayMarkerCostViaUnit_eq g x y z node hn
    rw [storeCostInt_pred _ hr] at hd hn1
    rw [decide_unit_zero] at hd
    exact ⟨i, hi, hd, hn1⟩

/-- Witness of C10 on a node whose two marker counters are 10: both become 9 and the
returned flag is false. -/
theorem unit_decay_witness :
    (∃ i, getIdx markedBothGrid 0 0 0 = some i
        ∧ decayMarkerCostPlanarUnit markedBothGrid 0 0 0
            = some (writeNode markedBothGrid i
                  { Node.zero with markerCostPlanar := 9, markerCostVia := 10 }, false)
        ∧ nodeAt (writeNode markedBothGrid i
              { Node.zero with markerCostPlanar := 9, markerCostVia := 10 }) 0 0 0
            = some { Node.zero with markerCostPlanar := 9, markerCostVia := 10 })
    ∧ (∃ i, getIdx markedBothGrid 0 0 0 = some i
        ∧ decayMarkerCostViaUnit markedBothGrid 0 0 0
            = some (writeNode markedBothGrid i
                  { Node.zero with markerCostPlanar := 10, markerCostVia := 9 }, false)
        ∧ nodeAt (writeNode markedBothGrid i
              { Node.zero with markerCostPlanar := 10, markerCostVia := 9 }) 0 0 0
            = some { Node.zero with markerCostPlanar := 10, markerCostVia := 9 }) :=
  ⟨(unit_decay markedBothGrid 0 0 0
      { Node.zero with markerCostPlanar := 10, markerCostVia := 10 } (by decide)).1 (by decide),
   (unit_decay markedBothGrid 0 0 0
      { Node.zero with markerCostPlanar := 10, markerCostVia := 10 } (by decide)).2 (by decide)⟩

/-! ## Rectangle to index box -/

/-- Invariant of the `upper_bound` loop on a non-decreasing array: everything left of the
result is at most `val`, everything from the result on is above it. -/
theorem upperBoundLoop_spec (v : List Int) (val : Int)
    (hs : ∀ i j, i ≤ j → j < v.length → v.getD i 0 ≤ v.getD j 0) :
    ∀ (fuel first len : Nat), len ≤ fuel → first + len ≤ v.length →
      (∀ j, j < first → v.getD j 0 ≤ val) →
      (∀ j, first + len ≤ j → j < v.length → val < v.getD j 0) →
      upperBoundLoop v val fuel first len ≤ v.length
        ∧ (∀ j, j < upperBoundLoop v val fuel first len → v.getD j 0 ≤ val)
        ∧ (∀ j, upperBoundLoop v val fuel first len ≤ j → j < v.length →
            val < v.getD j 0) := by
  intro fuel
  induction fuel with
  | zero =>
    intro first len hf hle hlo hhi
    have hl : len = 0 := by omega
    subst hl
    simp only [upperBoundLoop]
    exact ⟨by omega, hlo, fun j hj hjl => hhi j (by omega) hjl⟩
  | succ fuel ih =>
    intro first len hf hle hlo hhi
    unfold upperBoundLoop
    by_cases hlen : 0 < len
    · simp only [hlen, if_true]
      have hhalf : len / 2 < len := Nat.div_lt_self hlen (by decide)
      by_cases hm : val < v.getD (first + len / 2) 0
      · simp only [hm, if_true]
        apply ih first (len / 2) (by omega) (by omega) hlo
        intro j hj hjl
        have h1 := hs (first + len / 2) j hj hjl
        omega
      · simp only [hm, if_false]
        apply ih (first + len / 2 + 1) (len - len / 2 - 1) (by omega) (by omega)
        · intro j hj
          have h1 := hs j (first + len / 2) (by omega) (by omega)
          omega
        · intro j hj hjl
          exact hhi j (by omega) hjl
    · simp only [hlen, if_false]
      have hl : len = 0 := by omega
      subst hl
      exact ⟨by omega, hlo, fun j hj hjl => hhi j (by omega) hjl⟩

/-- On a non-decreasing array `upper_bound` splits the array at the first element above
`val`. -/
theorem upper_bound_spec (v : List Int) (val : Int)
    (hs : ∀ i j, i ≤ j → j < v.length → v.getD i 0 ≤ v.getD j 0) :
    upper_bound v val ≤ v.length
      ∧ (∀ j, j < upper_bound v val → v.getD j 0 ≤ val)
      ∧ (∀ j, upper_bound v val ≤ j → j < v.length → val < v.getD j 0) := by
  unfold upper_bound
  apply upperBoundLoop_spec v val hs v.length 0 v.length (le_refl _) (by omega)
  · intro j hj
    omega
  · intro j hj hjl
    omega

theorem vecGet?_natCast (v : List Int) (n : Nat) (hn : n < v.length) :
    vecGet? v (n : Int) = some (v.getD n 0) := by
  unfold vecGet?
  rw [if_pos (by omega)]
  simp only [Int.toNat_ofNat]
  rw [List.getD_eq_getElem v 0 hn]
  exact List.getElem?_eq_getElem hn

theorem mem_getD (v : List Int) (c : Int) (hc : c ∈ v) :
    ∃ i, i < v.length ∧ v.getD i 0 = c := by
  obtain ⟨i, hi, he⟩ := List.getElem_of_mem hc
  exact ⟨i, hi, by rw [List.getD_eq_getElem v 0 hi]; exact he⟩

/-- Lower side of an index box: when some coordinate is at least `lo`, the lower bound of
`lo` is an index and its coordinate is at least `lo`. -/
theorem lower_side_inside (v : List Int) (hs : strictlyIncreasing v)
    (hlen : (v.length : Int) < 2 ^ 31) (lo : Int) (i : Nat) (hi : i < v.length)
    (h1 : lo ≤ v.getD i 0) :
    ∃ c, vecGet? v (toInt32 (lower_bound v lo)) = some c ∧ lo ≤ c := by
  obtain ⟨-, hlo, hhi⟩ := lower_bound_spec v lo (strictlyIncreasing_mono v hs)
  have hle : lower_bound v lo ≤ i := by
    by_contra hc
    have := hlo i (by omega)
    omega
  have hlt : lower_bound v lo < v.length := by omega
  have ht : toInt32 (lower_bound v lo : Int) = (lower_bound v lo : Int) :=
    toInt32_of_range _ (by omega) (by omega)
  rw [ht]
  exact ⟨_, vecGet?_natCast v _ hlt, hhi _ (le_refl _) hlt⟩

/-- Upper side of an index box: when some coordinate is at most `hi`, the index before the
upper bound of `hi` holds a coordinate that is at most `hi`, and the adjustment of the
isEnclosed policy leaves that index as it is. -/
theorem upper_side_inside (v : List Int) (hs : strictlyIncreasing v)
    (hlen : (v.length : Int) < 2 ^ 31) (hi : Int) (i : Nat) (hiv : i < v.length)
    (h1 : v.getD i 0 ≤ hi) :
    ∃ c, vecGet? v (max 0 (toInt32 (upper_bound v hi) - 1)) = some c ∧ c ≤ hi
      ∧ stepBackIfAbove v (max 0 (toInt32 (upper_bound v hi) - 1)) hi
          = some (max 0 (toInt32 (upper_bound v hi) - 1)) := by
  obtain ⟨hub, hlo, hhi⟩ := upper_bound_spec v hi (strictlyIncreasing_mono v hs)
  have hpos : i < upper_bound v hi := by
    by_contra hc
    have := hhi i (by omega) hiv
    omega
  have ht : toInt32 (upper_bound v hi : Int) = (upper_bound v hi : Int) :=
    toInt32_of_range _ (by omega) (by omega)
  have hidx : max 0 (toInt32 (upper_bound v hi : Int) - 1) = ((upper_bound v hi - 1 : Nat) : Int) := by
    rw [ht]; omega
  rw [hidx]
  have hlt : upper_bound v hi - 1 < v.length := by omega
  have hget := vecGet?_natCast v _ hlt
  have hval := hlo (upper_bound v hi - 1) (by omega)
  refine ⟨_, hget, hval, ?_⟩
  unfold stepBackIfAbove
  rw [hget]
  simp only
  rw [if_neg (by omega)]

/-- C11, the code at a failing input: on the sample grid (x coordinates 0 and 10) and the
box (0,0)-(5,0), which lies within the bounding box of the grid, getIdxBox with the
enclose policy returns mIdx2.x = 0, whose coordinate 0 is below box.xMax = 5: the upper
side of the rectangle is not enclosed. -/
theorem getIdxBox_enclose_upper_side_not_enclosed :
    getIdxBox sampleGrid { x := 0, y := 0, z := 0 } { x := 0, y := 0, z := 0 } halfBox
        getIdxBox_EnclosureType.enclose
      = some ({ x := 0, y := 0, z := 0 }, { x := 0, y := 0, z := 0 })
    ∧ xCoord sampleGrid 0 = some 0 ∧ (0 : Int) < halfBox.xMax
    ∧ xCoord sampleGrid 1 = some 10 ∧ halfBox.xMax ≤ 10 := by
  decide

/-- For a policy other than enclose the lower indices are the two lower bounds, and the
upper indices are the indices before the two upper bounds as soon as the adjustment of the
isEnclosed policy leaves them as they are. -/
theorem getIdxBox_of_upper_steps (g : FlexGridGraph) (mIdx1 mIdx2 : FlexMazeIdx) (box : Rect)
    (e : getIdxBox_EnclosureType) (hne : ¬ e = getIdxBox_EnclosureType.enclose)
    (hx : e = getIdxBox_EnclosureType.isEnclosed →
      stepBackIfAbove g.xCoords_ (max 0 (toInt32 (upper_bound g.xCoords_ box.xMax) - 1)) box.xMax
        = some (max 0 (toInt32 (upper_bound g.xCoords_ box.xMax) - 1)))
    (hy : e = getIdxBox_EnclosureType.isEnclosed →
      stepBackIfAbove g.yCoords_ (max 0 (toInt32 (upper_bound g.yCoords_ box.yMax) - 1)) box.yMax
        = some (max 0 (toInt32 (upper_bound g.yCoords_ box.yMax) - 1))) :
    getIdxBox g mIdx1 mIdx2 box e
      = some ({ x := toInt32 (lower_bound g.xCoords_ box.xMin),
                y := toInt32 (lower_bound g.yCoords_ box.yMin), z := mIdx1.z },
              { x := max 0 (toInt32 (upper_bound g.xCoords_ box.xMax) - 1),
                y := max 0 (toInt32 (upper_bound g.yCoords_ box.yMax) - 1), z := mIdx2.z }) := by
  unfold getIdxBox
  simp only [hne, if_false]
  by_cases he : e = getIdxBox_EnclosureType.isEnclosed
  · simp only [he, if_true, hx he, hy he]
  · simp only [he, if_false]

/-- C12: for strictly increasing x and y coordinate arrays (of sizes that are frMIdx
values) and every rectangle that contains at least one grid x coordinate and at least one
grid y coordinate, getIdxBox with the isEnclosed policy returns indices whose coordinates
satisfy box.xMin <= xCoord(mIdx1.x), xCoord(mIdx2.x) <= box.xMax,
box.yMin <= yCoord(mIdx1.y) and yCoord(mIdx2.y) <= box.yMax. -/
theorem getIdxBox_isEnclosed_inside (g : FlexGridGraph) (mIdx1 mIdx2 : FlexMazeIdx)
    (box : Rect)
    (hsx : strictlyIncreasing g.xCoords_) (hsy : strictlyIncreasing g.yCoords_)
    (hlx : (g.xCoords_.length : Int) < 2 ^ 31) (hly : (g.yCoords_.length : Int) < 2 ^ 31)
    (hx : ∃ c ∈ g.xCoords_, box.xMin ≤ c ∧ c ≤ box.xMax)
    (hy : ∃ c ∈ g.yCoords_, box.yMin ≤ c ∧ c ≤ box.yMax) :
    ∃ m1 m2 cx1 cy1 cx2 cy2,
      getIdxBox g mIdx1 mIdx2 box getIdxBox_EnclosureType.isEnclosed = some (m1, m2)
        ∧ xCoord g m1.x = some cx1 ∧ yCoord g m1.y = some cy1
        ∧ xCoord g m2.x = some cx2 ∧ yCoord g m2.y = some cy2
        ∧ box.xMin ≤ cx1 ∧ cx2 ≤ box.xMax ∧ box.yMin ≤ cy1 ∧ cy2 ≤ box.yMax := by
  obtain ⟨cx, hcx, hx1, hx2⟩ := hx
  obtain ⟨cy, hcy, hy1, hy2⟩ := hy
  obtain ⟨i, hi, hix⟩ := mem_getD g.xCoords_ cx hcx
  obtain ⟨j, hj, hjy⟩ := mem_getD g.yCoords_ cy hcy
  obtain ⟨cx1, gx1, bx1⟩ := lower_side_inside g.xCoords_ hsx hlx box.xMin i hi (by omega)
  obtain ⟨cy1, gy1, by1⟩ := lower_side_inside g.yCoords_ hsy hly box.yMin j hj (by omega)
  obtain ⟨cx2, gx2, bx2, sx2⟩ := upper_side_inside g.xCoords_ hsx hlx box.xMax i hi (by omega)
  obtain ⟨cy2, gy2, by2, sy2⟩ := upper_side_inside g.yCoords_ hsy hly box.yMax j hj (by omega)
  refine ⟨{ x := toInt32 (lower_bound g.xCoords_ box.xMin),
            y := toInt32 (lower_bound g.yCoords_ box.yMin), z := mIdx1.z },
          { x := max 0 (toInt32 (upper_bound g.xCoords_ box.xMax) - 1),
            y := max 0 (toInt32 (upper_bound g.yCoords_ box.yMax) - 1), z := mIdx2.z },
          cx1, cy1, cx2, cy2, ?_, ?_, ?_, ?_, ?_, bx1, bx2, by1, by2⟩
  · exact getIdxBox_of_upper_steps g mIdx1 mIdx2 box getIdxBox_EnclosureType.isEnclosed
      (by decide) (fun _ => sx2) (fun _ => sy2)
  · simp only [xCoord]
    exact gx1
  · simp only [yCoord]
    exact gy1
  · simp only [xCoord]
    exact gx2
  · simp only [yCoord]
    exact gy2

/-- Witness of C12 on the sample grid and the box (3,0)-(10,0), which contains the x
coordinate 10 and the y coordinate 0. -/
theorem getIdxBox_isEnclosed_inside_witness :
    ∃ m1 m2 cx1 cy1 cx2 cy2,
      getIdxBox sampleGrid { x := 0, y := 0, z := 0 } { x := 0, y := 0, z := 0 }
          { xMin := 3, yMin := 0, xMax := 10, yMax := 0 } getIdxBox_EnclosureType.isEnclosed
        = some (m1, m2)
        ∧ xCoord sampleGrid m1.x = some cx1 ∧ yCoord sampleGrid m1.y = some cy1
        ∧ xCoord sampleGrid m2.x = some cx2 ∧ yCoord sampleGrid m2.y = some cy2
        ∧ (3 : Int) ≤ cx1 ∧ cx2 ≤ (10 : Int) ∧ (0 : Int) ≤ cy1 ∧ cy2 ≤ (0 : Int) :=
  getIdxBox_isEnclosed_inside sampleGrid { x := 0, y := 0, z := 0 } { x := 0, y := 0, z := 0 }
    { xMin := 3, yMin := 0, xMax := 10, yMax := 0 } (by decide) (by decide) (by decide)
    (by decide) ⟨10, by decide, by decide, by decide⟩ ⟨0, by decide, by decide, by decide⟩

/-! ## Flattening -/

/-- The offset of a point on a layer that has a direction, when the two summands and their
sum are non-negative `int` values. -/
theorem getIdx_eq (g : FlexGridGraph) (x y z : Int) (zDir : dbTechLayerDir)
    (hz : getZDir g z = some zDir) (m : Int)
    (hm : m = if zDir = dbTechLayerDir.HORIZONTAL then x + y * g.xCoords_.length
              else y + x * g.yCoords_.length)
    (h0 : 0 ≤ m) (h1 : 0 ≤ z * g.xCoords_.length * g.yCoords_.length)
    (h2 : m + z * g.xCoords_.length * g.yCoords_.length < 2 ^ 31) :
    getIdx g x y z = some (m + z * g.xCoords_.length * g.yCoords_.length) := by
  have t1 := toInt32_of_range m h0 (by omega)
  have t2 := toInt32_of_range (z * g.xCoords_.length * g.yCoords_.length) h1 (by omega)
  unfold getIdx
  simp only [hz]
  rw [← hm, t1, t2, if_pos (by constructor <;> omega)]

/-- C13: on a built grid and for every valid (x,y,z), if layer z is HORIZONTAL then
getIdx(x,y,z) == x + y*xSize + z*xSize*ySize and getIdx(x+1,y,z) == getIdx(x,y,z) + 1;
otherwise getIdx(x,y,z) == y + x*ySize + z*xSize*ySize and
getIdx(x,y+1,z) == getIdx(x,y,z) + 1; and layer z has a direction. -/
theorem getIdx_rows_contiguous (g : FlexGridGraph) (hwf : g.wellFormed) (x y z : Int)
    (hv : isValid g x y z = true) :
    (getZDir g z = some dbTechLayerDir.HORIZONTAL →
        getIdx g x y z
            = some (x + y * g.xCoords_.length + z * g.xCoords_.length * g.yCoords_.length)
          ∧ getIdx g (x + 1) y z
            = some (x + y * g.xCoords_.length + z * g.xCoords_.length * g.yCoords_.length + 1))
    ∧ (∀ zDir, getZDir g z = some zDir → zDir ≠ dbTechLayerDir.HORIZONTAL →
        getIdx g x y z
            = some (y + x * g.yCoords_.length + z * g.xCoords_.length * g.yCoords_.length)
          ∧ getIdx g x (y + 1) z
            = some (y + x * g.yCoords_.length + z * g.xCoords_.length * g.yCoords_.length + 1))
    ∧ (∃ zDir, getZDir g z = some zDir) := by
  have hv1 := (isValid_iff g hwf x y z).1 hv
  obtain ⟨hx, hxX, hy, hyY, hz, hzZ⟩ := hv1
  obtain ⟨-, -, -, -, -, -, hL, -, -, -, hT⟩ := hwf
  obtain ⟨zDir0, hzd0⟩ := vecGet?_of_lt g.layerRouteDirections_ z hz (by omega)
  have b1 := flat_bound g.xCoords_.length g.yCoords_.length g.zCoords_.length x y z
    hx hxX hy hyY hz hzZ
  have b2 := flat_bound g.yCoords_.length g.xCoords_.length g.zCoords_.length y x z
    hy hyY hx hxX hz hzZ
  obtain ⟨b11, -, b13, -, b15⟩ := b1
  obtain ⟨b21, -, -, -, b25⟩ := b2
  have b26 : y + x * (g.yCoords_.length : Int) + z * g.xCoords_.length * g.yCoords_.length
      < (g.xCoords_.length : Int) * g.yCoords_.length * g.zCoords_.length := by linarith
  clear b25
  refine ⟨?_, ?_, ⟨zDir0, hzd0⟩⟩
  · intro hH
    constructor
    · exact getIdx_eq g x y z _ hH _ (by simp) b11 b13 (by omega)
    · have h := getIdx_eq g (x + 1) y z _ hH (x + 1 + y * g.xCoords_.length) (by simp)
        (by omega) b13 (by omega)
      rw [h]
      congr 1
      ring
  · intro zDir hzd hne
    constructor
    · exact getIdx_eq g x y z _ hzd _ (by simp [hne]) b21 b13 (by omega)
    · have h := getIdx_eq g x (y + 1) z _ hzd (y + 1 + x * g.yCoords_.length) (by simp [hne])
        (by omega) b13 (by omega)
      rw [h]
      congr 1
      ring

/-- Witness of C13 on the sample grid (one horizontal layer): the offsets of (0,0,0) and
(1,0,0) are 0 and 1. -/
theorem getIdx_rows_contiguous_witness :
    getIdx sampleGrid 0 0 0
        = some (0 + 0 * sampleGrid.xCoords_.length
            + 0 * sampleGrid.xCoords_.length * sampleGrid.yCoords_.length)
      ∧ getIdx sampleGrid (0 + 1) 0 0
        = some (0 + 0 * sampleGrid.xCoords_.length
            + 0 * sampleGrid.xCoords_.length * sampleGrid.yCoords_.length + 1) :=
  (getIdx_rows_contiguous sampleGrid (by decide) 0 0 0 (by decide)).1 (by decide)

/-! ## Teardown -/

/-- C14, the code at a failing input: after cleanup() of the sample grid, zCoords_ still
holds its layer number and prevDirs_ its six bits, so getDim reports zDim == 1 and
getLayerCount() == 1; the other eight arrays are empty. -/
theorem cleanup_keeps_zCoords_and_prevDirs :
    (cleanup sampleGrid).zCoords_ = [2]
      ∧ (cleanup sampleGrid).prevDirs_ = [false, false, false, false, false, false]
      ∧ getDim (cleanup sampleGrid) = (0, 0, 1)
      ∧ getLayerCount (cleanup sampleGrid) = 1
      ∧ (cleanup sampleGrid).nodes_ = [] ∧ (cleanup sampleGrid).srcs_ = []
      ∧ (cleanup sampleGrid).dsts_ = [] ∧ (cleanup sampleGrid).guides_ = []
      ∧ (cleanup sampleGrid).xCoords_ = [] ∧ (cleanup sampleGrid).yCoords_ = []
      ∧ (cleanup sampleGrid).zHeights_ = []
      ∧ (cleanup sampleGrid).layerRouteDirections_ = [] := by
  decide

/-! ## Saturating counters, diagnostic configuration -/

theorem limit_debug_eq : (1 <<< cost_bits_debug) - 1 = 65535 := by decide

/-- C15: in the diagnostic configuration (cost_bits = 16) the primitives fail instead of
saturating.  For the operands that the class passes (the augend or minuend is a counter
bit-field, at most 2^16 - 1, and the summand or subtrahend is the literal 1 or 10), and more
generally whenever a + s < 2^32 and m < 2^31, addToByte(a, s) raises the fatal error
addToByte overflow if and only if a + s > 2^16 - 1 and otherwise returns a + s, and
subFromByte(m, t) raises subFromByte underflow if and only if t > m and otherwise returns
m - t. -/
theorem debug_primitives_fail (a s m t : Nat) (hs : a + s < 2 ^ 32) (hm : m < 2 ^ 31) :
    cost_bits_debug = 16
      ∧ (addToByteDebug a s = Except.error "addToByte overflow" ↔ a + s > 2 ^ 16 - 1)
      ∧ (a + s ≤ 2 ^ 16 - 1 → addToByteDebug a s = Except.ok (a + s))
      ∧ (subFromByteDebug m t = Except.error "subFromByte underflow" ↔ t > m)
      ∧ (t ≤ m → subFromByteDebug m t = Except.ok (m - t)) := by
  have hsub : t ≤ m →
      (max (toInt32 (((m : Int) - (t : Int)) % 2 ^ 32)) 0).toNat = m - t := by
    intro h
    unfold toInt32
    omega
  refine ⟨rfl, ?_, ?_, ?_, ?_⟩
  · unfold addToByteDebug
    simp only [limit_debug_eq, Nat.mod_eq_of_lt hs]
    by_cases h : a + s > 65535
    · simp only [h, if_true, true_iff]
      omega
    · simp only [h, if_false]
      constructor
      · intro hc
        cases hc
      · intro hc
        omega
  · intro h
    unfold addToByteDebug
    simp only [limit_debug_eq, Nat.mod_eq_of_lt hs]
    rw [if_neg (by omega)]
  · unfold subFromByteDebug
    by_cases h : t > m
    · simp only [h, if_true]
    · simp only [h, if_false]
      constructor
      · intro hc
        cases hc
      · intro hc
        exact absurd hc (by simp)
  · intro h
    unfold subFromByteDebug
    rw [if_neg (by omega), hsub h]

/-- Witness of C15: 65535 + 1 overflows, 65530 + 5 does not; 3 - 5 underflows, 5 - 3 does
not. -/
theorem debug_primitives_fail_witness :
    addToByteDebug 65535 1 = Except.error "addToByte overflow"
      ∧ addToByteDebug 65530 5 = Except.ok (65530 + 5)
      ∧ subFromByteDebug 3 5 = Except.error "subFromByte underflow"
      ∧ subFromByteDebug 5 3 = Except.ok (5 - 3) :=
  ⟨(debug_primitives_fail 65535 1 3 5 (by decide) (by decide)).2.1.2 (by decide),
   (debug_primitives_fail 65530 5 5 3 (by decide) (by decide)).2.2.1 (by decide),
   (debug_primitives_fail 65535 1 3 5 (by decide) (by decide)).2.2.2.1.2 (by decide),
   (debug_primitives_fail 65530 5 5 3 (by decide) (by decide)).2.2.2.2 (by decide)⟩

/-! ## Direct stores into the fixed-shape counters -/

/-- C16, counterexample: on the sample grid setFixedShapeCostVia(0,0,0,256) stores 0 in
fixedShapeCostVia of node (0,0,0) (the grid is the sample grid again, whose node is all
zero), whereas min(256, 2^8 - 1) is 255. -/
theorem setFixedShapeCostVia_256_stores_zero :
    setFixedShapeCostVia sampleGrid 0 0 0 256 = some sampleGrid
      ∧ nodeAt sampleGrid 0 0 0 = some Node.zero
      ∧ Node.zero.fixedShapeCostVia = 0
      ∧ min 256 (2 ^ cost_bits - 1) = 255 := by
  decide

/-- C16, amended: for every value c and every valid node, setFixedShapeCostVia(x,y,z,c)
stores c mod 2^8 (the low 8 bits of c) in fixedShapeCostVia, and likewise
setFixedShapeCostPlanarHorz and setFixedShapeCostPlanarVert in their counters; the stored
value is c itself, which is min(c, 2^8 - 1), whenever c <= 2^8 - 1. -/
theorem setFixedShapeCost_stores_low_bits (g : FlexGridGraph) (x y z : Int) (c : Nat)
    (node : Node) (hv : isValid g x y z = true) (hn : nodeAt g x y z = some node) :
    (∃ g1, setFixedShapeCostVia g x y z c = some g1
        ∧ nodeAt g1 x y z = some { node with fixedShapeCostVia := c % 2 ^ cost_bits })
    ∧ (∃ g1, setFixedShapeCostPlanarHorz g x y z c = some g1
        ∧ nodeAt g1 x y z = some { node with fixedShapeCostPlanarHorz := c % 2 ^ cost_bits })
    ∧ (∃ g1, setFixedShapeCostPlanarVert g x y z c = some g1
        ∧ nodeAt g1 x y z = some { node with fixedShapeCostPlanarVert := c % 2 ^ cost_bits })
    ∧ (c ≤ 2 ^ cost_bits - 1 → c % 2 ^ cost_bits = min c (2 ^ cost_bits - 1)) := by
  refine ⟨?_, ?_, ?_, ?_⟩
  · obtain ⟨i, -, hu, hn1⟩ := updNode_nodeAt g x y z
      (fun node => { node with fixedShapeCostVia := storeCost c }) node hn
    exact ⟨_, by simp only [setFixedShapeCostVia, hv, if_true, hu], hn1⟩
  · obtain ⟨i, -, hu, hn1⟩ := updNode_nodeAt g x y z
      (fun node => { node with fixedShapeCostPlanarHorz := storeCost c }) node hn
    exact ⟨_, by simp only [setFixedShapeCostPlanarHorz, hv, if_true, hu], hn1⟩
  · obtain ⟨i, -, hu, hn1⟩ := updNode_nodeAt g x y z
      (fun node => { node with fixedShapeCostPlanarVert := storeCost c }) node hn
    exact ⟨_, by simp only [setFixedShapeCostPlanarVert, hv, if_true, hu], hn1⟩
  · rw [pow_cost_bits]
    omega

/-- Witness of C16 (amended) on the sample grid with c = 300, whose low 8 bits are 44. -/
theorem setFixedShapeCost_stores_low_bits_witness :
    (∃ g1, setFixedShapeCostVia sampleGrid 0 0 0 300 = some g1
        ∧ nodeAt g1 0 0 0 = some { Node.zero with fixedShapeCostVia := 300 % 2 ^ cost_bits })
    ∧ (∃ g1, setFixedShapeCostPlanarHorz sampleGrid 0 0 0 300 = some g1
        ∧ nodeAt g1 0 0 0
          = some { Node.zero with fixedShapeCostPlanarHorz := 300 % 2 ^ cost_bits })
    ∧ (∃ g1, setFixedShapeCostPlanarVert sampleGrid 0 0 0 300 = some g1
        ∧ nodeAt g1 0 0 0
          = some { Node.zero with fixedShapeCostPlanarVert := 300 % 2 ^ cost_bits })
    ∧ (300 ≤ 2 ^ cost_bits - 1 → 300 % 2 ^ cost_bits = min 300 (2 ^ cost_bits - 1)) :=
  setFixedShapeCost_stores_low_bits sampleGrid 0 0 0 300 Node.zero (by decide) (by decide)

/-! ## Existence checks -/

/-- On a strictly increasing array the binary search finds exactly the elements. -/
theorem binary_search_iff (v : List Int) (hs : strictlyIncreasing v) (c : Int) :
    binary_search v c = true ↔ c ∈ v := by
  obtain ⟨hle, -, hhi⟩ := lower_bound_spec v c (strictlyIncreasing_mono v hs)
  unfold binary_search
  simp only [Bool.and_eq_true, decide_eq_true_eq, Bool.not_eq_true', decide_eq_false_iff_not]
  constructor
  · rintro ⟨hne, hnlt⟩
    have hlt : lower_bound v c < v.length := by omega
    have h1 := hhi _ (le_refl _) hlt
    have he : v.getD (lower_bound v c) 0 = c := by omega
    rw [List.getD_eq_getElem v 0 hlt] at he
    rw [← he]
    exact List.getElem_mem hlt
  · intro hc
    obtain ⟨i, hi, he⟩ := mem_getD v c hc
    have hr := lower_bound_getD v hs i hi
    rw [he] at hr
    rw [hr]
    exact ⟨by omega, by omega⟩

/-- On a strictly increasing array whose size is an frMIdx value, the lookup of an element
is a valid index that holds the element. -/
theorem lookup_of_mem (v : List Int) (hs : strictlyIncreasing v)
    (hlen : (v.length : Int) < 2 ^ 31) (c : Int) (hc : c ∈ v) :
    0 ≤ toInt32 (lower_bound v c) ∧ toInt32 (lower_bound v c) < v.length
      ∧ vecGet? v (toInt32 (lower_bound v c)) = some c := by
  obtain ⟨i, hi, he⟩ := mem_getD v c hc
  have hr := lower_bound_getD v hs i hi
  rw [he] at hr
  rw [hr]
  have ht : toInt32 (i : Int) = (i : Int) := toInt32_of_range _ (by omega) (by omega)
  rw [ht]
  refine ⟨by omega, by omega, ?_⟩
  rw [vecGet?_natCast v i hi, he]

/-- C18: for a strictly increasing x coordinate array and every coordinate c,
hasMazeXIdx(c) is true if and only if c is an element of the array, and whenever it is true
(the size of the array being an frMIdx value) getMazeXIdx(c) is a valid index with
xCoord(getMazeXIdx(c)) == c; likewise for the y and z axes. -/
theorem existence_check_agrees_with_lookup (g : FlexGridGraph) (c : Int) :
    (strictlyIncreasing g.xCoords_ →
        (hasMazeXIdx g c = true ↔ c ∈ g.xCoords_)
          ∧ ((g.xCoords_.length : Int) < 2 ^ 31 → hasMazeXIdx g c = true →
              0 ≤ getMazeXIdx g c ∧ getMazeXIdx g c < g.xCoords_.length
                ∧ xCoord g (getMazeXIdx g c) = some c))
    ∧ (strictlyIncreasing g.yCoords_ →
        (hasMazeYIdx g c = true ↔ c ∈ g.yCoords_)
          ∧ ((g.yCoords_.length : Int) < 2 ^ 31 → hasMazeYIdx g c = true →
              0 ≤ getMazeYIdx g c ∧ getMazeYIdx g c < g.yCoords_.length
                ∧ yCoord g (getMazeYIdx g c) = some c))
    ∧ (strictlyIncreasing g.zCoords_ →
        (hasMazeZIdx g c = true ↔ c ∈ g.zCoords_)
          ∧ ((g.zCoords_.length : Int) < 2 ^ 31 → hasMazeZIdx g c = true →
              0 ≤ getMazeZIdx g c ∧ getMazeZIdx g c < g.zCoords_.length
                ∧ getLayerNum g (getMazeZIdx g c) = some c)) := by
  refine ⟨?_, ?_, ?_⟩
  · intro hs
    exact ⟨binary_search_iff _ hs c, fun hlen hc =>
      lookup_of_mem _ hs hlen c ((binary_search_iff _ hs c).1 hc)⟩
  · intro hs
    exact ⟨binary_search_iff _ hs c, fun hlen hc =>
      lookup_of_mem _ hs hlen c ((binary_search_iff _ hs c).1 hc)⟩
  · intro hs
    exact ⟨binary_search_iff _ hs c, fun hlen hc =>
      lookup_of_mem _ hs hlen c ((binary_search_iff _ hs c).1 hc)⟩

/-- Witness of C18 on the sample grid: the x coordinate 10 is found at index 1. -/
theorem existence_check_agrees_with_lookup_witness :
    (hasMazeXIdx sampleGrid 10 = true ↔ (10 : Int) ∈ sampleGrid.xCoords_)
      ∧ (0 ≤ getMazeXIdx sampleGrid 10
          ∧ getMazeXIdx sampleGrid 10 < sampleGrid.xCoords_.length
          ∧ xCoord sampleGrid (getMazeXIdx sampleGrid 10) = some 10) :=
  ⟨((existence_check_agrees_with_lookup sampleGrid 10).1 (by decide)).1,
   ((existence_check_agrees_with_lookup sampleGrid 10).1 (by decide)).2
      (by decide) (by decide)⟩

/-! ## Bounds-checked mutators -/

/-- C19: in every grid state, when the canonicalized node of (x,y,z,dir) is outside the
grid, setBlocked, resetBlocked, setGridCost, resetGridCost and addMarkerCost return the
grid unchanged; and when (x,y,z) is outside the grid, addFixedShapeCostPlanar/Via,
subFixedShapeCostPlanar/Via and setFixedShapeCostVia/PlanarHorz/PlanarVert return the grid
unchanged. -/
theorem checked_mutators_noop_out_of_range (g : FlexGridGraph) (x y z : Int)
    (dir : frDirEnum) (c : Nat) :
    (isValid g (correct x y z dir).1 (correct x y z dir).2.1 (correct x y z dir).2.2.1 = false →
        setBlocked g x y z dir = some g ∧ resetBlocked g x y z dir = some g
          ∧ setGridCost g x y z dir = some g ∧ resetGridCost g x y z dir = some g
          ∧ addMarkerCost g x y z dir = some g)
    ∧ (isValid g x y z = false →
        addFixedShapeCostPlanar g x y z = some g ∧ addFixedShapeCostVia g x y z = some g
          ∧ subFixedShapeCostPlanar g x y z = some g ∧ subFixedShapeCostVia g x y z = some g
          ∧ setFixedShapeCostVia g x y z c = some g
          ∧ setFixedShapeCostPlanarHorz g x y z c = some g
          ∧ setFixedShapeCostPlanarVert g x y z c = some g) := by
  constructor
  · intro h
    simp [setBlocked, resetBlocked, setGridCost, resetGridCost, addMarkerCost, h]
  · intro h
    simp [addFixedShapeCostPlanar, addFixedShapeCostVia, subFixedShapeCostPlanar,
      subFixedShapeCostVia, setFixedShapeCostVia, setFixedShapeCostPlanarHorz,
      setFixedShapeCostPlanarVert, h]

/-- Witness of C19 on the sample grid: the west neighbour of column 0 and the point
(2,0,0) are outside the grid. -/
theorem checked_mutators_noop_out_of_range_witness :
    (setBlocked sampleGrid 0 0 0 frDirEnum.W = some sampleGrid
        ∧ resetBlocked sampleGrid 0 0 0 frDirEnum.W = some sampleGrid
        ∧ setGridCost sampleGrid 0 0 0 frDirEnum.W = some sampleGrid
        ∧ resetGridCost sampleGrid 0 0 0 frDirEnum.W = some sampleGrid
        ∧ addMarkerCost sampleGrid 0 0 0 frDirEnum.W = some sampleGrid)
    ∧ (addFixedShapeCostPlanar sampleGrid 2 0 0 = some sampleGrid
        ∧ addFixedShapeCostVia sampleGrid 2 0 0 = some sampleGrid
        ∧ subFixedShapeCostPlanar sampleGrid 2 0 0 = some sampleGrid
        ∧ subFixedShapeCostVia sampleGrid 2 0 0 = some sampleGrid
        ∧ setFixedShapeCostVia sampleGrid 2 0 0 7 = some sampleGrid
        ∧ setFixedShapeCostPlanarHorz sampleGrid 2 0 0 7 = some sampleGrid
        ∧ setFixedShapeCostPlanarVert sampleGrid 2 0 0 7 = some sampleGrid) :=
  ⟨(checked_mutators_noop_out_of_range sampleGrid 0 0 0 frDirEnum.W 7).1 (by decide),
   (checked_mutators_noop_out_of_range sampleGrid 2 0 0 frDirEnum.W 7).2 (by decide)⟩

/-! ## Reads after a write -/

/-- The node read at any point after a write at offset `i`. -/
theorem nodeAt_writeNode (g : FlexGridGraph) (i : Int) (nd : Node) (h0 : 0 ≤ i)
    (hlt : i.toNat < g.nodes_.length) (a b c : Int) :
    nodeAt (writeNode g i nd) a b c
      = if getIdx g a b c = some i then some nd else nodeAt g a b c := by
  have hidx : getIdx (writeNode g i nd) a b c = getIdx g a b c := rfl
  unfold nodeAt
  rw [hidx]
  cases hj : getIdx g a b c with
  | none => simp
  | some j =>
    by_cases hji : j = i
    · subst hji
      simp [vecGet?, h0, writeNode, List.getElem?_set, hlt]
    · have hne : ¬ (some j = some i) := by
        intro h
        exact hji (Option.some.inj h)
      simp only [hne, if_false]
      unfold vecGet?
      by_cases hj0 : 0 ≤ j
      · simp only [hj0, if_true, writeNode]
        have hnat : i.toNat ≠ j.toNat := by omega
        rw [List.getElem?_set_ne hnat]
      · simp only [hj0, if_false]

/-- A field that the update function leaves alone reads the same at every point after
`updNode`. -/
theorem nodeAt_updNode_map {α : Type} (g g1 : FlexGridGraph) (a b c : Int) (f : Node → Node)
    (proj : Node → α) (h : updNode g a b c f = some g1) (hp : ∀ n, proj (f n) = proj n)
    (p q r : Int) : (nodeAt g1 p q r).map proj = (nodeAt g p q r).map proj := by
  obtain ⟨i, node, hi, h0, hlt, hn, hw⟩ := updNode_eq_some g g1 a b c f h
  subst hw
  rw [nodeAt_writeNode g i (f node) h0 hlt p q r]
  by_cases hpi : getIdx g p q r = some i
  · simp only [hpi, if_true]
    have hsame : nodeAt g p q r = nodeAt g a b c := by
      simp only [nodeAt, hpi, hi]
    rw [hsame, hn]
    simp [hp]
  · simp only [hpi, if_false]

/-! ## Fixed-shape cost of the adjacent node -/

/-- C20: getFixedShapeCostAdj(x,y,z,E) returns fixedShapeCostPlanarHorz of node (x+1,y,z),
W returns it for node (x-1,y,z), N returns fixedShapeCostPlanarVert of node (x,y+1,z) and
S returns it for node (x,y-1,z); setFixedShapeCostPlanarHorz at any point never changes
the result of an N or S query and setFixedShapeCostPlanarVert never changes the result of
an E or W query. -/
theorem fixed_shape_planar_costs_independent (g : FlexGridGraph) (x y z : Int) :
    getFixedShapeCostAdj g x y z frDirEnum.E
        = (nodeAt g (x + 1) y z).map Node.fixedShapeCostPlanarHorz
      ∧ getFixedShapeCostAdj g x y z frDirEnum.W
        = (nodeAt g (x - 1) y z).map Node.fixedShapeCostPlanarHorz
      ∧ getFixedShapeCostAdj g x y z frDirEnum.N
        = (nodeAt g x (y + 1) z).map Node.fixedShapeCostPlanarVert
      ∧ getFixedShapeCostAdj g x y z frDirEnum.S
        = (nodeAt g x (y - 1) z).map Node.fixedShapeCostPlanarVert
      ∧ (∀ a b c v g1, setFixedShapeCostPlanarHorz g a b c v = some g1 →
          getFixedShapeCostAdj g1 x y z frDirEnum.N = getFixedShapeCostAdj g x y z frDirEnum.N
            ∧ getFixedShapeCostAdj g1 x y z frDirEnum.S
              = getFixedShapeCostAdj g x y z frDirEnum.S)
      ∧ (∀ a b c v g1, setFixedShapeCostPlanarVert g a b c v = some g1 →
          getFixedShapeCostAdj g1 x y z frDirEnum.E = getFixedShapeCostAdj g x y z frDirEnum.E
            ∧ getFixedShapeCostAdj g1 x y z frDirEnum.W
              = getFixedShapeCostAdj g x y z frDirEnum.W) := by
  have hE : ∀ h : FlexGridGraph, getFixedShapeCostAdj h x y z frDirEnum.E
      = (nodeAt h (x + 1) y z).map Node.fixedShapeCostPlanarHorz := by
    intro h
    cases hn : nodeAt h (x + 1) y z <;> simp [getFixedShapeCostAdj, reverse, hn]
  have hW : ∀ h : FlexGridGraph, getFixedShapeCostAdj h x y z frDirEnum.W
      = (nodeAt h (x - 1) y z).map Node.fixedShapeCostPlanarHorz := by
    intro h
    cases hn : nodeAt h (x - 1) y z <;> simp [getFixedShapeCostAdj, reverse, hn]
  have hN : ∀ h : FlexGridGraph, getFixedShapeCostAdj h x y z frDirEnum.N
      = (nodeAt h x (y + 1) z).map Node.fixedShapeCostPlanarVert := by
    intro h
    cases hn : nodeAt h x (y + 1) z <;> simp [getFixedShapeCostAdj, reverse, hn]
  have hS : ∀ h : FlexGridGraph, getFixedShapeCostAdj h x y z frDirEnum.S
      = (nodeAt h x (y - 1) z).map Node.fixedShapeCostPlanarVert := by
    intro h
    cases hn : nodeAt h x (y - 1) z <;> simp [getFixedShapeCostAdj, reverse, hn]
  refine ⟨hE g, hW g, hN g, hS g, ?_, ?_⟩
  · intro a b c v g1 h
    unfold setFixedShapeCostPlanarHorz at h
    by_cases hv : isValid g a b c = true
    · simp only [hv, if_true] at h
      have hm := nodeAt_updNode_map g g1 a b c _ Node.fixedShapeCostPlanarVert h (fun _ => rfl)
      rw [hN g1, hN g, hS g1, hS g]
      exact ⟨hm _ _ _, hm _ _ _⟩
    · simp only [hv] at h
      have hg : g = g1 := Option.some.inj h
      subst hg
      exact ⟨rfl, rfl⟩
  · intro a b c v g1 h
    unfold setFixedShapeCostPlanarVert at h
    by_cases hv : isValid g a b c = true
    · simp only [hv, if_true] at h
      have hm := nodeAt_updNode_map g g1 a b c _ Node.fixedShapeCostPlanarHorz h (fun _ => rfl)
      rw [hE g1, hE g, hW g1, hW g]
      exact ⟨hm _ _ _, hm _ _ _⟩
    · simp only [hv] at h
      have hg : g = g1 := Option.some.inj h
      subst hg
      exact ⟨rfl, rfl⟩

/-- Witness of C20 on the sample grid: after setFixedShapeCostPlanarHorz(0,0,0,7) and
after setFixedShapeCostPlanarVert(0,0,0,7) the queries of the other orientation at (0,0,0)
read as before. -/
theorem fixed_shape_planar_costs_independent_witness :
    (getFixedShapeCostAdj
          (writeNode sampleGrid 0 { Node.zero with fixedShapeCostPlanarHorz := 7 }) 0 0 0
          frDirEnum.N
        = getFixedShapeCostAdj sampleGrid 0 0 0 frDirEnum.N
      ∧ getFixedShapeCostAdj
          (writeNode sampleGrid 0 { Node.zero with fixedShapeCostPlanarHorz := 7 }) 0 0 0
          frDirEnum.S
        = getFixedShapeCostAdj sampleGrid 0 0 0 frDirEnum.S)
    ∧ (getFixedShapeCostAdj
          (writeNode sampleGrid 0 { Node.zero with fixedShapeCostPlanarVert := 7 }) 0 0 0
          frDirEnum.E
        = getFixedShapeCostAdj sampleGrid 0 0 0 frDirEnum.E
      ∧ getFixedShapeCostAdj
          (writeNode sampleGrid 0 { Node.zero with fixedShapeCostPlanarVert := 7 }) 0 0 0
          frDirEnum.W
        = getFixedShapeCostAdj sampleGrid 0 0 0 frDirEnum.W) :=
  ⟨(fixed_shape_planar_costs_independent sampleGrid 0 0 0).2.2.2.2.1 0 0 0 7 _ (by decide),
   (fixed_shape_planar_costs_independent sampleGrid 0 0 0).2.2.2.2.2 0 0 0 7 _ (by decide)⟩

/-! ## The counters stay in their bit-fields -/

theorem storeCost_lt (v : Nat) : storeCost v < 2 ^ cost_bits :=
  Nat.mod_lt _ (by decide)

theorem storeCostInt_lt (v : Int) : storeCostInt v < 2 ^ cost_bits := by
  unfold storeCostInt
  rw [pow_cost_bits_int, pow_cost_bits]
  omega

theorem zero_lt_pow_cost_bits : 0 < 2 ^ cost_bits := by decide

theorem inRange_routeShapeCostPlanar (n : Node) (v : Nat) (hn : n.inRange)
    (hv : v < 2 ^ cost_bits) : Node.inRange { n with routeShapeCostPlanar := v } :=
  ⟨hv, hn.2.1, hn.2.2.1, hn.2.2.2.1, hn.2.2.2.2.1, hn.2.2.2.2.2.1, hn.2.2.2.2.2.2⟩

theorem inRange_routeShapeCostVia (n : Node) (v : Nat) (hn : n.inRange)
    (hv : v < 2 ^ cost_bits) : Node.inRange { n with routeShapeCostVia := v } :=
  ⟨hn.1, hv, hn.2.2.1, hn.2.2.2.1, hn.2.2.2.2.1, hn.2.2.2.2.2.1, hn.2.2.2.2.2.2⟩

theorem inRange_markerCostPlanar (n : Node) (v : Nat) (hn : n.inRange)
    (hv : v < 2 ^ cost_bits) : Node.inRange { n with markerCostPlanar := v } :=
  ⟨hn.1, hn.2.1, hv, hn.2.2.2.1, hn.2.2.2.2.1, hn.2.2.2.2.2.1, hn.2.2.2.2.2.2⟩

theorem inRange_markerCostVia (n : Node) (v : Nat) (hn : n.inRange)
    (hv : v < 2 ^ cost_bits) : Node.inRange { n with markerCostVia := v } :=
  ⟨hn.1, hn.2.1, hn.2.2.1, hv, hn.2.2.2.2.1, hn.2.2.2.2.2.1, hn.2.2.2.2.2.2⟩

theorem inRange_fixedShapeCostVia (n : Node) (v : Nat) (hn : n.inRange)
    (hv : v < 2 ^ cost_bits) : Node.inRange { n with fixedShapeCostVia := v } :=
  ⟨hn.1, hn.2.1, hn.2.2.1, hn.2.2.2.1, hv, hn.2.2.2.2.2.1, hn.2.2.2.2.2.2⟩

theorem inRange_fixedShapeCostPlanarHorz (n : Node) (v : Nat) (hn : n.inRange)
    (hv : v < 2 ^ cost_bits) : Node.inRange { n with fixedShapeCostPlanarHorz := v } :=
  ⟨hn.1, hn.2.1, hn.2.2.1, hn.2.2.2.1, hn.2.2.2.2.1, hv, hn.2.2.2.2.2.2⟩

theorem inRange_fixedShapeCostPlanarVert (n : Node) (v : Nat) (hn : n.inRange)
    (hv : v < 2 ^ cost_bits) : Node.inRange { n with fixedShapeCostPlanarVert := v } :=
  ⟨hn.1, hn.2.1, hn.2.2.1, hn.2.2.2.1, hn.2.2.2.2.1, hn.2.2.2.2.2.1, hv⟩

theorem inRange_fixedShapeCostPlanar (n : Node) (v w : Nat) (hn : n.inRange)
    (hv : v < 2 ^ cost_bits) (hw : w < 2 ^ cost_bits) :
    Node.inRange { n with fixedShapeCostPlanarHorz := v, fixedShapeCostPlanarVert := w } :=
  ⟨hn.1, hn.2.1, hn.2.2.1, hn.2.2.2.1, hn.2.2.2.2.1, hv, hw⟩

theorem nodeAt_mem (g : FlexGridGraph) (x y z : Int) (node : Node)
    (h : nodeAt g x y z = some node) : node ∈ g.nodes_ := by
  obtain ⟨i, -, -, -, hget, -⟩ := updNode_of_nodeAt g x y z (fun n => n) node h
  exact List.getElem?_mem hget

/-- When the update function keeps counters in range, so does `updNode`. -/
theorem updNode_allInRange (g g1 : FlexGridGraph) (x y z : Int) (f : Node → Node)
    (h : updNode g x y z f = some g1) (hg : ∀ n ∈ g.nodes_, n.inRange)
    (hf : ∀ n, n.inRange → (f n).inRange) : ∀ n ∈ g1.nodes_, n.inRange := by
  obtain ⟨i, node, -, -, -, hn, hw⟩ := updNode_eq_some g g1 x y z f h
  subst hw
  intro n hmem
  rcases List.mem_or_eq_of_mem_set hmem with hm | hm
  · exact hg n hm
  · rw [hm]
    exact hf node (hg node (nodeAt_mem g x y z node hn))

/-- The same for a mutator that checks the point first. -/
theorem checked_updNode_allInRange (g g1 : FlexGridGraph) (b : Bool) (x y z : Int)
    (f : Node → Node) (h : (if b = true then updNode g x y z f else some g) = some g1)
    (hg : ∀ n ∈ g.nodes_, n.inRange) (hf : ∀ n, n.inRange → (f n).inRange) :
    ∀ n ∈ g1.nodes_, n.inRange := by
  cases b with
  | true =>
    simp only [if_true] at h
    exact updNode_allInRange g g1 x y z f h hg hf
  | false =>
    simp only [Bool.false_eq_true, if_false, Option.some.injEq] at h
    subst h
    exact hg

theorem map_fst_pair_eq_some (o : Option FlexGridGraph) (b : Bool) (g1 : FlexGridGraph)
    (h : ((o.map fun g2 => (g2, b)).map Prod.fst) = some g1) : o = some g1 := by
  cases o with
  | none => simp at h
  | some g2 => simpa using h

theorem decayCasePlanar_inRange (node : Node) (d : ℚ) (h : node.inRange) :
    (decayCasePlanar node d).1.inRange :=
  inRange_markerCostPlanar node _ h (storeCostInt_lt _)

theorem decayCaseVia_inRange (node : Node) (d : ℚ) (h : node.inRange) :
    (decayCaseVia node d).1.inRange :=
  inRange_markerCostVia node _ h (storeCostInt_lt _)

theorem decayMarkerCostSwitch_inRange (node : Node) (dir : frDirEnum) (d : ℚ)
    (h : node.inRange) : (decayMarkerCostSwitch node dir d).1.inRange := by
  cases dir
  case E =>
    exact decayCaseVia_inRange _ d
      (decayCasePlanar_inRange _ d (decayCasePlanar_inRange node d h))
  case N => exact decayCaseVia_inRange _ d (decayCasePlanar_inRange node d h)
  case U => exact decayCaseVia_inRange node d h
  all_goals exact h

theorem decayCasePlanarWith_inRange {F : Type} (conv : Int → F → Option Int) (node : Node)
    (d : F) (r : Node × Int) (hr : decayCasePlanarWith conv node d = some r)
    (h : node.inRange) : r.1.inRange := by
  unfold decayCasePlanarWith at hr
  simp only at hr
  cases hc : conv (node.markerCostPlanar : Int) d with
  | none => simp [hc] at hr
  | some c =>
    simp only [hc, Option.some.injEq] at hr
    rw [← hr]
    exact inRange_markerCostPlanar node _ h (storeCostInt_lt _)

theorem decayCaseViaWith_inRange {F : Type} (conv : Int → F → Option Int) (node : Node)
    (d : F) (r : Node × Int) (hr : decayCaseViaWith conv node d = some r)
    (h : node.inRange) : r.1.inRange := by
  unfold decayCaseViaWith at hr
  simp only at hr
  cases hc : conv (node.markerCostVia : Int) d with
  | none => simp [hc] at hr
  | some c =>
    simp only [hc, Option.some.injEq] at hr
    rw [← hr]
    exact inRange_markerCostVia node _ h (storeCostInt_lt _)

theorem decayMarkerCostSwitchWith_inRange {F : Type} (conv : Int → F → Option Int)
    (node : Node) (dir : frDirEnum) (d : F) (r : Node × Int)
    (hr : decayMarkerCostSwitchWith conv node dir d = some r) (h : node.inRange) :
    r.1.inRange := by
  cases dir
  case E =>
    simp only [decayMarkerCostSwitchWith] at hr
    cases h1 : decayCasePlanarWith conv node d with
    | none => simp [h1] at hr
    | some r1 =>
      simp only [h1] at hr
      cases h2 : decayCasePlanarWith conv r1.1 d with
      | none => simp [h2] at hr
      | some r2 =>
        simp only [h2] at hr
        exact decayCaseViaWith_inRange conv _ d r hr
          (decayCasePlanarWith_inRange conv _ d r2 h2
            (decayCasePlanarWith_inRange conv node d r1 h1 h))
  case N =>
    simp only [decayMarkerCostSwitchWith] at hr
    cases h1 : decayCasePlanarWith conv node d with
    | none => simp [h1] at hr
    | some r1 =>
      simp only [h1] at hr
      exact decayCaseViaWith_inRange conv _ d r hr
        (decayCasePlanarWith_inRange conv node d r1 h1 h)
  case U =>
    simp only [decayMarkerCostSwitchWith] at hr
    exact decayCaseViaWith_inRange conv node d r hr h
  all_goals
    simp only [decayMarkerCostSwitchWith, Option.some.injEq] at hr
    rw [← hr]
    exact h

/-- The statement `currCost *= d` is defined on the counter that a node holds when it is
defined on every counter value. -/
theorem conv_defined_on_counter {F : Type} (conv : Int → F → Option Int) (d : F) (v : Nat)
    (hv : v < 2 ^ cost_bits)
    (hconv : ∀ c : Int, 0 ≤ c → c < 2 ^ cost_bits → (conv c d).isSome = true) :
    ∃ c, conv (v : Int) d = some c := by
  apply Option.isSome_iff_exists.1
  apply hconv
  · exact Int.natCast_nonneg v
  · exact_mod_cast hv

theorem decayCasePlanarWith_defined {F : Type} (conv : Int → F → Option Int) (node : Node)
    (d : F) (h : node.inRange)
    (hconv : ∀ c : Int, 0 ≤ c → c < 2 ^ cost_bits → (conv c d).isSome = true) :
    ∃ r, decayCasePlanarWith conv node d = some r := by
  obtain ⟨c, hc⟩ := conv_defined_on_counter conv d node.markerCostPlanar h.2.2.1 hconv
  exact ⟨({ node with markerCostPlanar := storeCostInt (max 0 c) }, max 0 c),
    by simp only [decayCasePlanarWith, hc]⟩

theorem decayCaseViaWith_defined {F : Type} (conv : Int → F → Option Int) (node : Node)
    (d : F) (h : node.inRange)
    (hconv : ∀ c : Int, 0 ≤ c → c < 2 ^ cost_bits → (conv c d).isSome = true) :
    ∃ r, decayCaseViaWith conv node d = some r := by
  obtain ⟨c, hc⟩ := conv_defined_on_counter conv d node.markerCostVia h.2.2.2.1 hconv
  exact ⟨({ node with markerCostVia := storeCostInt (max 0 c) }, max 0 c),
    by simp only [decayCaseViaWith, hc]⟩

theorem decayMarkerCostSwitchWith_defined {F : Type} (conv : Int → F → Option Int)
    (node : Node) (dir : frDirEnum) (d : F) (h : node.inRange)
    (hconv : ∀ c : Int, 0 ≤ c → c < 2 ^ cost_bits → (conv c d).isSome = true) :
    ∃ r, decayMarkerCostSwitchWith conv node dir d = some r := by
  cases dir
  case E =>
    obtain ⟨r1, h1⟩ := decayCasePlanarWith_defined conv node d h hconv
    have i1 := decayCasePlanarWith_inRange conv node d r1 h1 h
    obtain ⟨r2, h2⟩ := decayCasePlanarWith_defined conv r1.1 d i1 hconv
    have i2 := decayCasePlanarWith_inRange conv r1.1 d r2 h2 i1
    obtain ⟨r3, h3⟩ := decayCaseViaWith_defined conv r2.1 d i2 hconv
    exact ⟨r3, by simp only [decayMarkerCostSwitchWith, h1, h2, h3]⟩
  case N =>
    obtain ⟨r1, h1⟩ := decayCasePlanarWith_defined conv node d h hconv
    have i1 := decayCasePlanarWith_inRange conv node d r1 h1 h
    obtain ⟨r3, h3⟩ := decayCaseViaWith_defined conv r1.1 d i1 hconv
    exact ⟨r3, by simp only [decayMarkerCostSwitchWith, h1, h3]⟩
  case U =>
    obtain ⟨r3, h3⟩ := decayCaseViaWith_defined conv node d h hconv
    exact ⟨r3, by simp only [decayMarkerCostSwitchWith, h3]⟩
  all_goals exact ⟨_, rfl⟩

/-- With the exact product as the statement `currCost *= d`, the decay functions for any
factor are the decay functions for factors with an exact product. -/
theorem decayWith_exactProduct (g : FlexGridGraph) (x y z : Int) (dir : frDirEnum) (d : ℚ) :
    decayMarkerCostPlanarWith exactProduct g x y z d = decayMarkerCostPlanar g x y z d
      ∧ decayMarkerCostViaWith exactProduct g x y z d = decayMarkerCostVia g x y z d
      ∧ decayMarkerCostWith exactProduct g x y z dir d = decayMarkerCost g x y z dir d := by
  refine ⟨rfl, rfl, ?_⟩
  unfold decayMarkerCostWith decayMarkerCost
  cases dir <;> rfl

/-- One call of a cost mutator keeps every counter of every node in its bit-field. -/
theorem applyCostOp_allInRange {F : Type} (conv : Int → F → Option Int)
    (g g1 : FlexGridGraph) (op : CostOp F)
    (h : applyCostOp conv g op = some g1) (hg : ∀ n ∈ g.nodes_, n.inRange) :
    ∀ n ∈ g1.nodes_, n.inRange := by
  cases op with
  | addRouteShapeCostPlanar x y z =>
    exact updNode_allInRange g g1 x y z _ h hg
      (fun n hn => inRange_routeShapeCostPlanar n _ hn (storeCost_lt _))
  | addRouteShapeCostVia x y z =>
    exact updNode_allInRange g g1 x y z _ h hg
      (fun n hn => inRange_routeShapeCostVia n _ hn (storeCost_lt _))
  | subRouteShapeCostPlanar x y z =>
    exact updNode_allInRange g g1 x y z _ h hg
      (fun n hn => inRange_routeShapeCostPlanar n _ hn (storeCost_lt _))
  | subRouteShapeCostVia x y z =>
    exact updNode_allInRange g g1 x y z _ h hg
      (fun n hn => inRange_routeShapeCostVia n _ hn (storeCost_lt _))
  | resetRouteShapeCostPlanar x y z =>
    exact updNode_allInRange g g1 x y z _ h hg
      (fun n hn => inRange_routeShapeCostPlanar n _ hn zero_lt_pow_cost_bits)
  | resetRouteShapeCostVia x y z =>
    exact updNode_allInRange g g1 x y z _ h hg
      (fun n hn => inRange_routeShapeCostVia n _ hn zero_lt_pow_cost_bits)
  | addMarkerCostPlanar x y z =>
    exact updNode_allInRange g g1 x y z _ h hg
      (fun n hn => inRange_markerCostPlanar n _ hn (storeCost_lt _))
  | addMarkerCostVia x y z =>
    exact updNode_allInRange g g1 x y z _ h hg
      (fun n hn => inRange_markerCostVia n _ hn (storeCost_lt _))
  | addMarkerCost x y z dir =>
    simp only [applyCostOp, addMarkerCost] at h
    by_cases hv : isValid g (correct x y z dir).1 (correct x y z dir).2.1
        (correct x y z dir).2.2.1 = true
    · simp only [hv, if_true] at h
      split at h
      · exact updNode_allInRange g g1 _ _ _ _ h hg
          (fun n hn => inRange_markerCostPlanar n _ hn (storeCost_lt _))
      · exact updNode_allInRange g g1 _ _ _ _ h hg
          (fun n hn => inRange_markerCostPlanar n _ hn (storeCost_lt _))
      · exact updNode_allInRange g g1 _ _ _ _ h hg
          (fun n hn => inRange_markerCostVia n _ hn (storeCost_lt _))
      · exact updNode_allInRange g g1 _ _ _ _ h hg (fun n hn => hn)
    · simp only [hv] at h
      have hg1 : g = g1 := Option.some.inj h
      subst hg1
      exact hg
  | decayMarkerCostPlanar x y z d =>
    simp only [applyCostOp, decayMarkerCostPlanarWith] at h
    cases hn : nodeAt g x y z with
    | none => simp [hn] at h
    | some node =>
      simp only [hn] at h
      cases hc : conv (node.markerCostPlanar : Int) d with
      | none => simp [hc] at h
      | some c =>
        simp only [hc] at h
        exact updNode_allInRange g g1 x y z _ (map_fst_pair_eq_some _ _ _ h) hg
          (fun n hn => inRange_markerCostPlanar n _ hn (storeCostInt_lt _))
  | decayMarkerCostVia x y z d =>
    simp only [applyCostOp, decayMarkerCostViaWith] at h
    cases hn : nodeAt g x y z with
    | none => simp [hn] at h
    | some node =>
      simp only [hn] at h
      cases hc : conv (node.markerCostVia : Int) d with
      | none => simp [hc] at h
      | some c =>
        simp only [hc] at h
        exact updNode_allInRange g g1 x y z _ (map_fst_pair_eq_some _ _ _ h) hg
          (fun n hn => inRange_markerCostVia n _ hn (storeCostInt_lt _))
  | decayMarkerCostPlanarUnit x y z =>
    simp only [applyCostOp, decayMarkerCostPlanarUnit] at h
    cases hn : nodeAt g x y z with
    | none => simp [hn] at h
    | some node =>
      simp only [hn] at h
      exact updNode_allInRange g g1 x y z _ (map_fst_pair_eq_some _ _ _ h) hg
        (fun n hn => inRange_markerCostPlanar n _ hn (storeCostInt_lt _))
  | decayMarkerCostViaUnit x y z =>
    simp only [applyCostOp, decayMarkerCostViaUnit] at h
    cases hn : nodeAt g x y z with
    | none => simp [hn] at h
    | some node =>
      simp only [hn] at h
      exact updNode_allInRange g g1 x y z _ (map_fst_pair_eq_some _ _ _ h) hg
        (fun n hn => inRange_markerCostVia n _ hn (storeCostInt_lt _))
  | decayMarkerCost x y z dir d =>
    simp only [applyCostOp, decayMarkerCostWith] at h
    by_cases hv : isValid g (correct x y z dir).1 (correct x y z dir).2.1
        (correct x y z dir).2.2.1 = true
    · simp only [hv, if_true] at h
      cases hn : nodeAt g (correct x y z dir).1 (correct x y z dir).2.1
          (correct x y z dir).2.2.1 with
      | none => simp [hn] at h
      | some node =>
        simp only [hn] at h
        have hnode : node.inRange := hg node (nodeAt_mem g _ _ _ node hn)
        cases hsw : decayMarkerCostSwitchWith conv node (correct x y z dir).2.2.2 d with
        | none => simp [hsw] at h
        | some r =>
          simp only [hsw] at h
          exact updNode_allInRange g g1 _ _ _ _ (map_fst_pair_eq_some _ _ _ h) hg
            (fun _ _ => decayMarkerCostSwitchWith_inRange conv node _ d r hsw hnode)
    · simp only [hv] at h
      simp only [Bool.false_eq_true, if_false, Option.map_some', Option.some.injEq] at h
      subst h
      exact hg
  | addFixedShapeCostPlanar x y z =>
    exact checked_updNode_allInRange g g1 (isValid g x y z) x y z _ h hg
      (fun n hn => inRange_fixedShapeCostPlanar n _ _ hn (storeCost_lt _) (storeCost_lt _))
  | setFixedShapeCostPlanarVert x y z c =>
    exact checked_updNode_allInRange g g1 (isValid g x y z) x y z _ h hg
      (fun n hn => inRange_fixedShapeCostPlanarVert n _ hn (storeCost_lt _))
  | setFixedShapeCostPlanarHorz x y z c =>
    exact checked_updNode_allInRange g g1 (isValid g x y z) x y z _ h hg
      (fun n hn => inRange_fixedShapeCostPlanarHorz n _ hn (storeCost_lt _))
  | addFixedShapeCostVia x y z =>
    exact checked_updNode_allInRange g g1 (isValid g x y z) x y z _ h hg
      (fun n hn => inRange_fixedShapeCostVia n _ hn (storeCost_lt _))
  | setFixedShapeCostVia x y z c =>
    exact checked_updNode_allInRange g g1 (isValid g x y z) x y z _ h hg
      (fun n hn => inRange_fixedShapeCostVia n _ hn (storeCost_lt _))
  | subFixedShapeCostPlanar x y z =>
    exact checked_updNode_allInRange g g1 (isValid g x y z) x y z _ h hg
      (fun n hn => inRange_fixedShapeCostPlanar n _ _ hn (storeCost_lt _) (storeCost_lt _))
  | subFixedShapeCostVia x y z =>
    exact checked_updNode_allInRange g g1 (isValid g x y z) x y z _ h hg
      (fun n hn => inRange_fixedShapeCostVia n _ hn (storeCost_lt _))

/-- A sequence of cost mutators keeps every counter of every node in its bit-field. -/
theorem runCostOps_allInRange {F : Type} (conv : Int → F → Option Int)
    (ops : List (CostOp F)) :
    ∀ (g g1 : FlexGridGraph), runCostOps conv g ops = some g1 →
      (∀ n ∈ g.nodes_, n.inRange) → ∀ n ∈ g1.nodes_, n.inRange := by
  induction ops with
  | nil =>
    intro g g1 h hg
    simp only [runCostOps, Option.some.injEq] at h
    subst h
    exact hg
  | cons op ops ih =>
    intro g g1 h hg
    simp only [runCostOps] at h
    cases ha : applyCostOp conv g op with
    | none => simp [ha] at h
    | some g2 =>
      simp only [ha] at h
      exact ih g2 g1 h (applyCostOp_allInRange conv g g2 op ha hg)

theorem updNode_defined (g : FlexGridGraph) (x y z : Int) (node : Node)
    (hn : nodeAt g x y z = some node) (f : Node → Node) :
    ∃ i nd, updNode g x y z f = some (writeNode g i nd) := by
  obtain ⟨i, -, -, -, -, hu⟩ := updNode_of_nodeAt g x y z f node hn
  exact ⟨i, _, hu⟩

theorem map_fst_updNode_defined (g : FlexGridGraph) (x y z : Int) (node : Node)
    (hn : nodeAt g x y z = some node) (f : Node → Node) (b : Bool) :
    ∃ i nd, ((updNode g x y z f).map fun g1 => (g1, b)).map Prod.fst
      = some (writeNode g i nd) := by
  obtain ⟨i, nd, hu⟩ := updNode_defined g x y z node hn f
  exact ⟨i, nd, by rw [hu]; rfl⟩

/-- A cost mutator called for a point that is valid and has a node whose counters are
bit-field values is defined, provided the statement `currCost *= d` of a decay with a factor
is defined on the counter values; it rewrites one node. -/
theorem applyCostOp_defined {F : Type} (conv : Int → F → Option Int) (g : FlexGridGraph)
    (op : CostOp F) (node : Node)
    (hv : isValid g op.target.1 op.target.2.1 op.target.2.2 = true)
    (hn : nodeAt g op.target.1 op.target.2.1 op.target.2.2 = some node)
    (hnode : node.inRange)
    (hconv : ∀ d, op.factor = some d →
      ∀ c : Int, 0 ≤ c → c < 2 ^ cost_bits → (conv c d).isSome = true) :
    ∃ i nd, applyCostOp conv g op = some (writeNode g i nd) := by
  cases op with
  | addRouteShapeCostPlanar x y z => exact updNode_defined g x y z node hn _
  | addRouteShapeCostVia x y z => exact updNode_defined g x y z node hn _
  | subRouteShapeCostPlanar x y z => exact updNode_defined g x y z node hn _
  | subRouteShapeCostVia x y z => exact updNode_defined g x y z node hn _
  | resetRouteShapeCostPlanar x y z => exact updNode_defined g x y z node hn _
  | resetRouteShapeCostVia x y z => exact updNode_defined g x y z node hn _
  | addMarkerCostPlanar x y z => exact updNode_defined g x y z node hn _
  | addMarkerCostVia x y z => exact updNode_defined g x y z node hn _
  | addMarkerCost x y z dir =>
    simp only [CostOp.target] at hv hn
    simp only [applyCostOp, addMarkerCost, hv, if_true]
    split <;> exact updNode_defined g _ _ _ node hn _
  | decayMarkerCostPlanar x y z d =>
    simp only [CostOp.target] at hv hn
    obtain ⟨c, hc⟩ := conv_defined_on_counter conv d node.markerCostPlanar hnode.2.2.1
      (hconv d rfl)
    simp only [applyCostOp, decayMarkerCostPlanarWith, hn, hc]
    exact map_fst_updNode_defined g x y z node hn _ _
  | decayMarkerCostVia x y z d =>
    simp only [CostOp.target] at hv hn
    obtain ⟨c, hc⟩ := conv_defined_on_counter conv d node.markerCostVia hnode.2.2.2.1
      (hconv d rfl)
    simp only [applyCostOp, decayMarkerCostViaWith, hn, hc]
    exact map_fst_updNode_defined g x y z node hn _ _
  | decayMarkerCostPlanarUnit x y z =>
    simp only [CostOp.target] at hv hn
    simp only [applyCostOp, decayMarkerCostPlanarUnit, hn]
    exact map_fst_updNode_defined g x y z node hn _ _
  | decayMarkerCostViaUnit x y z =>
    simp only [CostOp.target] at hv hn
    simp only [applyCostOp, decayMarkerCostViaUnit, hn]
    exact map_fst_updNode_defined g x y z node hn _ _
  | decayMarkerCost x y z dir d =>
    simp only [CostOp.target] at hv hn
    obtain ⟨r, hr⟩ := decayMarkerCostSwitchWith_defined conv node (correct x y z dir).2.2.2 d
      hnode (hconv d rfl)
    simp only [applyCostOp, decayMarkerCostWith, hv, if_true, hn, hr]
    exact map_fst_updNode_defined g _ _ _ node hn _ _
  | addFixedShapeCostPlanar x y z =>
    simp only [CostOp.target] at hv hn
    simp only [applyCostOp, addFixedShapeCostPlanar, hv, if_true]
    exact updNode_defined g x y z node hn _
  | setFixedShapeCostPlanarVert x y z c =>
    simp only [CostOp.target] at hv hn
    simp only [applyCostOp, setFixedShapeCostPlanarVert, hv, if_true]
    exact updNode_defined g x y z node hn _
  | setFixedShapeCostPlanarHorz x y z c =>
    simp only [CostOp.target] at hv hn
    simp only [applyCostOp, setFixedShapeCostPlanarHorz, hv, if_true]
    exact updNode_defined g x y z node hn _
  | addFixedShapeCostVia x y z =>
    simp only [CostOp.target] at hv hn
    simp only [applyCostOp, addFixedShapeCostVia, hv, if_true]
    exact updNode_defined g x y z node hn _
  | setFixedShapeCostVia x y z c =>
    simp only [CostOp.target] at hv hn
    simp only [applyCostOp, setFixedShapeCostVia, hv, if_true]
    exact updNode_defined g x y z node hn _
  | subFixedShapeCostPlanar x y z =>
    simp only [CostOp.target] at hv hn
    simp only [applyCostOp, subFixedShapeCostPlanar, hv, if_true]
    exact updNode_defined g x y z node hn _
  | subFixedShapeCostVia x y z =>
    simp only [CostOp.target] at hv hn
    simp only [applyCostOp, subFixedShapeCostVia, hv, if_true]
    exact updNode_defined g x y z node hn _

theorem wellFormed_writeNode (g : FlexGridGraph) (i : Int) (nd : Node) (hwf : g.wellFormed) :
    (writeNode g i nd).wellFormed := by
  unfold FlexGridGraph.wellFormed at hwf ⊢
  simp only [writeNode, List.length_set]
  exact hwf

/-- On a built grid whose counters are bit-field values, a sequence of cost mutators, each
called for a valid point, is defined, provided the statement `currCost *= d` of every decay
with a factor is defined on the counter values. -/
theorem runCostOps_defined {F : Type} (conv : Int → F → Option Int) (ops : List (CostOp F)) :
    ∀ (g : FlexGridGraph), g.wellFormed → (∀ n ∈ g.nodes_, n.inRange) →
      (∀ op ∈ ops, isValid g op.target.1 op.target.2.1 op.target.2.2 = true) →
      (∀ op ∈ ops, ∀ d, op.factor = some d →
        ∀ c : Int, 0 ≤ c → c < 2 ^ cost_bits → (conv c d).isSome = true) →
      ∃ g1, runCostOps conv g ops = some g1 := by
  induction ops with
  | nil =>
    intro g _ _ _ _
    exact ⟨g, rfl⟩
  | cons op ops ih =>
    intro g hwf hr hv hconv
    have hv0 := hv op (List.mem_cons_self _ _)
    obtain ⟨node, hn⟩ := nodeAt_of_valid g hwf _ _ _ hv0
    obtain ⟨i, nd, ha⟩ := applyCostOp_defined conv g op node hv0 hn
      (hr node (nodeAt_mem g _ _ _ node hn)) (hconv op (List.mem_cons_self _ _))
    have hv1 : ∀ op1 ∈ ops, isValid (writeNode g i nd) op1.target.1 op1.target.2.1
        op1.target.2.2 = true := fun op1 h1 => hv op1 (List.mem_cons_of_mem _ h1)
    obtain ⟨g1, hr1⟩ := ih (writeNode g i nd) (wellFormed_writeNode g i nd hwf)
      (applyCostOp_allInRange conv g _ op ha hr) hv1
      (fun op1 h1 => hconv op1 (List.mem_cons_of_mem _ h1))
    exact ⟨g1, by simp only [runCostOps, ha]; exact hr1⟩

/-- C17: starting from a grid whose nodes are all freshly constructed (all zero), after
any sequence of the public cost mutators (add/sub/reset route-shape, add/decay marker,
add/sub/set fixed-shape) every cost counter of every node lies in [0, 2^8 - 1], whatever
the float arithmetic of the statement currCost *= d of the decay functions yields (conv);
and on a built grid such a sequence is defined whenever every call addresses a valid point
and, for the factor of every decay call, that statement is defined (the product converts to
an int) on the counter values. -/
theorem cost_counters_stay_in_range {F : Type} (conv : Int → F → Option Int)
    (g : FlexGridGraph) (ops : List (CostOp F))
    (hzero : ∀ n ∈ g.nodes_, n = Node.zero) :
    (∀ g1, runCostOps conv g ops = some g1 → ∀ n ∈ g1.nodes_,
        n.routeShapeCostPlanar ≤ 2 ^ cost_bits - 1 ∧ n.routeShapeCostVia ≤ 2 ^ cost_bits - 1
          ∧ n.markerCostPlanar ≤ 2 ^ cost_bits - 1 ∧ n.markerCostVia ≤ 2 ^ cost_bits - 1
          ∧ n.fixedShapeCostVia ≤ 2 ^ cost_bits - 1
          ∧ n.fixedShapeCostPlanarHorz ≤ 2 ^ cost_bits - 1
          ∧ n.fixedShapeCostPlanarVert ≤ 2 ^ cost_bits - 1)
    ∧ (g.wellFormed →
        (∀ op ∈ ops, isValid g op.target.1 op.target.2.1 op.target.2.2 = true) →
        (∀ op ∈ ops, ∀ d, op.factor = some d →
          ∀ c : Int, 0 ≤ c → c < 2 ^ cost_bits → (conv c d).isSome = true) →
        ∃ g1, runCostOps conv g ops = some g1) := by
  have h0 : ∀ n ∈ g.nodes_, n.inRange := by
    intro n hn
    rw [hzero n hn]
    decide
  constructor
  · intro g1 h n hn
    have hr := runCostOps_allInRange conv ops g g1 h h0 n hn
    unfold Node.inRange at hr
    rw [pow_cost_bits] at hr ⊢
    omega
  · intro hwf hv hconv
    exact runCostOps_defined conv ops g hwf h0 hv hconv

/-- Witness of C17: the sample sequence on the sample grid, with the exact product for the
statement currCost *= d (the halves of the counter values 10, 5 and 0 that the sequence
meets are binary32 values), is defined and leaves every counter in range. -/
theorem cost_counters_stay_in_range_witness :
    ∃ g1, runCostOps exactProduct sampleGrid sampleOps = some g1 ∧ ∀ n ∈ g1.nodes_,
        n.routeShapeCostPlanar ≤ 2 ^ cost_bits - 1 ∧ n.routeShapeCostVia ≤ 2 ^ cost_bits - 1
          ∧ n.markerCostPlanar ≤ 2 ^ cost_bits - 1 ∧ n.markerCostVia ≤ 2 ^ cost_bits - 1
          ∧ n.fixedShapeCostVia ≤ 2 ^ cost_bits - 1
          ∧ n.fixedShapeCostPlanarHorz ≤ 2 ^ cost_bits - 1
          ∧ n.fixedShapeCostPlanarVert ≤ 2 ^ cost_bits - 1 :=
  Exists.imp
    (fun g1 h =>
      ⟨h, (cost_counters_stay_in_range exactProduct sampleGrid sampleOps (by decide)).1 g1 h⟩)
    ((cost_counters_stay_in_range exactProduct sampleGrid sampleOps (by decide)).2
      (by decide) (by decide) (fun _ _ _ _ _ _ _ => rfl))

/-! ## Direction-aware decay against the per-category decay -/

/-- C22, the code at a failing input: on the sample grid with both marker counters of node
(0,0,0) at 10 and the factor 1/2, decayMarkerCost(0,0,0,E,1/2) leaves markerCostPlanar = 2
and markerCostVia = 5 (the planar counter is scaled twice and the via counter once), and
decayMarkerCost(0,0,0,N,1/2) leaves 5 and 5, whereas decayMarkerCostPlanar(0,0,0,1/2)
leaves markerCostPlanar = 5 and markerCostVia = 10. -/
theorem decayMarkerCost_planar_falls_through :
    decayMarkerCost markedBothGrid 0 0 0 frDirEnum.E (mkRat 1 2)
        = some (writeNode markedBothGrid 0
            { Node.zero with markerCostPlanar := 2, markerCostVia := 5 }, false)
      ∧ decayMarkerCost markedBothGrid 0 0 0 frDirEnum.N (mkRat 1 2)
        = some (writeNode markedBothGrid 0
            { Node.zero with markerCostPlanar := 5, markerCostVia := 5 }, false)
      ∧ decayMarkerCostPlanar markedBothGrid 0 0 0 (mkRat 1 2)
        = some (writeNode markedBothGrid 0
            { Node.zero with markerCostPlanar := 5, markerCostVia := 10 }, false)
      ∧ isValid markedBothGrid 0 0 0 = true := by
  decide

/-! ## One node slot per grid point -/

theorem flat_unique (P m z m1 z1 : Int) (hm : 0 ≤ m) (hmP : m < P) (hm1 : 0 ≤ m1)
    (hm1P : m1 < P) (h : m + z * P = m1 + z1 * P) : z = z1 ∧ m = m1 := by
  have hP : 0 ≤ P := by omega
  have hz : z = z1 := by
    rcases lt_trichotomy z z1 with hlt | heq | hgt
    · exfalso
      have h1 : 1 * P ≤ (z1 - z) * P := Int.mul_le_mul_of_nonneg_right (by omega) hP
      have e : (z1 - z) * P = z1 * P - z * P := by ring
      omega
    · exact heq
    · exfalso
      have h1 : 1 * P ≤ (z - z1) * P := Int.mul_le_mul_of_nonneg_right (by omega) hP
      have e : (z - z1) * P = z * P - z1 * P := by ring
      omega
  subst hz
  exact ⟨rfl, by omega⟩

/-- On a built grid two valid points with the same offset are the same point. -/
theorem getIdx_inj (g : FlexGridGraph) (hwf : g.wellFormed) (x y z x1 y1 z1 : Int)
    (hv : isValid g x y z = true) (hv1 : isValid g x1 y1 z1 = true)
    (h : getIdx g x y z = getIdx g x1 y1 z1) : x = x1 ∧ y = y1 ∧ z = z1 := by
  obtain ⟨zDir, hzd, hi, -, -⟩ := getIdx_of_valid g hwf x y z hv
  obtain ⟨zDir1, hzd1, hi1, -, -⟩ := getIdx_of_valid g hwf x1 y1 z1 hv1
  obtain ⟨hx, hxX, hy, hyY, hz, hzZ⟩ := (isValid_iff g hwf x y z).1 hv
  obtain ⟨hx1, hx1X, hy1, hy1Y, hz1, hz1Z⟩ := (isValid_iff g hwf x1 y1 z1).1 hv1
  rw [hi, hi1] at h
  have h := Option.some.inj h
  have b := flat_bound g.xCoords_.length g.yCoords_.length g.zCoords_.length x y z
    hx hxX hy hyY hz hzZ
  have b1 := flat_bound g.xCoords_.length g.yCoords_.length g.zCoords_.length x1 y1 z1
    hx1 hx1X hy1 hy1Y hz1 hz1Z
  have c := flat_bound g.yCoords_.length g.xCoords_.length g.zCoords_.length y x z
    hy hyY hx hxX hz hzZ
  have c1 := flat_bound g.yCoords_.length g.xCoords_.length g.zCoords_.length y1 x1 z1
    hy1 hy1Y hx1 hx1X hz1 hz1Z
  obtain ⟨b01, b02, -, -, -⟩ := b
  obtain ⟨b11, b12, -, -, -⟩ := b1
  obtain ⟨c01, c02, -, -, -⟩ := c
  obtain ⟨c11, c12, -, -, -⟩ := c1
  have eYX : (g.yCoords_.length : Int) * g.xCoords_.length
      = (g.xCoords_.length : Int) * g.yCoords_.length := by ring
  rw [eYX] at c02 c12
  have e1 : z * (g.xCoords_.length : Int) * g.yCoords_.length
      = z * ((g.xCoords_.length : Int) * g.yCoords_.length) := by ring
  have e2 : z1 * (g.xCoords_.length : Int) * g.yCoords_.length
      = z1 * ((g.xCoords_.length : Int) * g.yCoords_.length) := by ring
  rw [e1, e2] at h
  have hm0 : 0 ≤ (if zDir = dbTechLayerDir.HORIZONTAL then x + y * (g.xCoords_.length : Int)
      else y + x * (g.yCoords_.length : Int))
      ∧ (if zDir = dbTechLayerDir.HORIZONTAL then x + y * (g.xCoords_.length : Int)
      else y + x * (g.yCoords_.length : Int))
        < (g.xCoords_.length : Int) * g.yCoords_.length := by
    by_cases hH : zDir = dbTechLayerDir.HORIZONTAL
    · simp only [hH, if_true]; exact ⟨b01, b02⟩
    · simp only [hH, if_false]; exact ⟨c01, c02⟩
  have hm1 : 0 ≤ (if zDir1 = dbTechLayerDir.HORIZONTAL then x1 + y1 * (g.xCoords_.length : Int)
      else y1 + x1 * (g.yCoords_.length : Int))
      ∧ (if zDir1 = dbTechLayerDir.HORIZONTAL then x1 + y1 * (g.xCoords_.length : Int)
      else y1 + x1 * (g.yCoords_.length : Int))
        < (g.xCoords_.length : Int) * g.yCoords_.length := by
    by_cases hH : zDir1 = dbTechLayerDir.HORIZONTAL
    · simp only [hH, if_true]; exact ⟨b11, b12⟩
    · simp only [hH, if_false]; exact ⟨c11, c12⟩
  obtain ⟨hzz, hmm⟩ := flat_unique _ _ z _ z1 hm0.1 hm0.2 hm1.1 hm1.2 h
  subst hzz
  rw [hzd] at hzd1
  have hdd : zDir = zDir1 := Option.some.inj hzd1
  subst hdd
  by_cases hH : zDir = dbTechLayerDir.HORIZONTAL
  · simp only [hH, if_true] at hmm
    obtain ⟨hyy, hxx⟩ := flat_unique _ x y x1 y1 hx hxX hx1 hx1X hmm
    exact ⟨hxx, hyy, rfl⟩
  · simp only [hH, if_false] at hmm
    obtain ⟨hxx, hyy⟩ := flat_unique _ y x y1 x1 hy hyY hy1 hy1Y hmm
    exact ⟨hxx, hyy, rfl⟩

/-- C23: on a built grid, whatever the directions of the layers, every valid point maps
into [0, xSize*ySize*zSize) and two valid points with the same offset are the same
point. -/
theorem getIdx_one_slot_per_point (g : FlexGridGraph) (hwf : g.wellFormed)
    (x y z x1 y1 z1 : Int) (hv : isValid g x y z = true) (hv1 : isValid g x1 y1 z1 = true) :
    (∃ i, getIdx g x y z = some i ∧ 0 ≤ i
        ∧ i < (g.xCoords_.length : Int) * g.yCoords_.length * g.zCoords_.length)
      ∧ (getIdx g x y z = getIdx g x1 y1 z1 → x = x1 ∧ y = y1 ∧ z = z1) := by
  constructor
  · obtain ⟨zDir, -, hi, h0, hlt⟩ := getIdx_of_valid g hwf x y z hv
    obtain ⟨hN, -, -, -, -, -, -, -, -, -, -⟩ := hwf
    have hN1 : (g.nodes_.length : Int)
        = (g.xCoords_.length : Int) * g.yCoords_.length * g.zCoords_.length := by
      exact_mod_cast hN
    exact ⟨_, hi, h0, by rw [← hN1]; exact hlt⟩
  · exact getIdx_inj g hwf x y z x1 y1 z1 hv hv1

/-- Witness of C23 on the sample grid: the points (0,0,0) and (1,0,0). -/
theorem getIdx_one_slot_per_point_witness :
    (∃ i, getIdx sampleGrid 0 0 0 = some i ∧ 0 ≤ i
        ∧ i < (sampleGrid.xCoords_.length : Int) * sampleGrid.yCoords_.length
            * sampleGrid.zCoords_.length)
      ∧ (getIdx sampleGrid 0 0 0 = getIdx sampleGrid 1 0 0 →
          (0 : Int) = 1 ∧ (0 : Int) = 0 ∧ (0 : Int) = 0) :=
  getIdx_one_slot_per_point sampleGrid (by decide) 0 0 0 1 0 0 (by decide) (by decide)

/-! ## Adding and removing edges -/

theorem list_set_self {α : Type} (l : List α) (i : Nat) (a : α) (h : l[i]? = some a) :
    l.set i a = l := by
  apply List.ext_getElem?
  intro k
  rw [List.getElem?_set]
  by_cases hik : i = k
  · subst hik
    obtain ⟨hlt, -⟩ := List.getElem?_eq_some_iff.1 h
    simp [hlt, h]
  · simp [hik]

/-- Writing back the node that is there leaves the grid as it is. -/
theorem updNode_id (g g1 : FlexGridGraph) (x y z : Int)
    (h : updNode g x y z (fun node => node) = some g1) : g1 = g := by
  obtain ⟨i, node, hi, h0, -, hn, hw⟩ := updNode_eq_some g g1 x y z _ h
  subst hw
  have hget : g.nodes_[i.toNat]? = some node := by
    simp only [nodeAt, hi] at hn
    exact ((vecGet?_eq_some_iff g.nodes_ i node).1 hn).2
  unfold writeNode
  rw [list_set_self g.nodes_ i.toNat node hget]

theorem getPoint_of_valid (g : FlexGridGraph) (hwf : g.wellFormed) (x y z : Int)
    (hv : isValid g x y z = true) : ∃ pt, getPoint g x y = some pt := by
  obtain ⟨hx, hxX, hy, hyY, -, -⟩ := (isValid_iff g hwf x y z).1 hv
  obtain ⟨px, hpx⟩ := vecGet?_of_lt g.xCoords_ x hx hxX
  obtain ⟨py, hpy⟩ := vecGet?_of_lt g.yCoords_ y hy hyY
  exact ⟨{ x := px, y := py }, by simp only [getPoint, hpx, hpy]⟩

/-- `addEdge` for a direction that `correct` leaves alone (East, North, Up, UNKNOWN). -/
theorem addEdge_core (g : FlexGridGraph) (hwf : g.wellFormed) (x y z : Int)
    (cdir : frDirEnum) (hcan : correct x y z cdir = (x, y, z, cdir)) (box : Rect)
    (initDR : Bool) :
    ∃ g1 b, addEdge g x y z cdir box initDR = some (g1, b)
      ∧ (b = true ↔ cdir ≠ frDirEnum.UNKNOWN ∧ isValid g x y z = true
          ∧ isValid g (reverse x y z cdir).1 (reverse x y z cdir).2.1
              (reverse x y z cdir).2.2.1 = true
          ∧ ∃ pt pt1, getPoint g x y = some pt
              ∧ getPoint g (reverse x y z cdir).1 (reverse x y z cdir).2.1 = some pt1
              ∧ box.intersects pt = true ∧ box.intersects pt1 = true)
      ∧ (b = false → g1 = g)
      ∧ (b = true → ∃ i node, getIdx g x y z = some i ∧ nodeAt g x y z = some node
          ∧ g1 = writeNode g i (node.withEdge cdir true)) := by
  by_cases hv : isValid g x y z = true
  · by_cases hv1 : isValid g (reverse x y z cdir).1 (reverse x y z cdir).2.1
        (reverse x y z cdir).2.2.1 = true
    · obtain ⟨pt, hp⟩ := getPoint_of_valid g hwf _ _ _ hv
      obtain ⟨pt1, hp1⟩ := getPoint_of_valid g hwf _ _ _ hv1
      have hvd : isValidDir g x y z cdir = true := by
        simp only [isValidDir, hv, hv1, Bool.and_self]
      obtain ⟨node, hn⟩ := nodeAt_of_valid g hwf x y z hv
      by_cases hb : (box.intersects pt && box.intersects pt1) = true
      · have hbox : isEdgeInBox g x y z cdir box initDR = some true := by
          simp only [isEdgeInBox, hcan, hvd, if_true, hp, hp1, hb]
        have hb2 := hb
        simp only [Bool.and_eq_true] at hb2
        cases cdir with
        | E =>
          obtain ⟨i, hi, -, -, -, hu⟩ := updNode_of_nodeAt g x y z
            (fun node => { node with hasEastEdge := true }) node hn
          refine ⟨_, true,
            (by simp only [addEdge, hbox, hcan, hvd, if_true, hu, Option.map_some']; rfl),
            ?_, by simp, fun _ => ⟨i, node, hi, hn, rfl⟩⟩
          simp only [true_iff]
          exact ⟨by decide, hv, hv1, pt, pt1, hp, hp1, hb2.1, hb2.2⟩
        | N =>
          obtain ⟨i, hi, -, -, -, hu⟩ := updNode_of_nodeAt g x y z
            (fun node => { node with hasNorthEdge := true }) node hn
          refine ⟨_, true,
            (by simp only [addEdge, hbox, hcan, hvd, if_true, hu, Option.map_some']; rfl),
            ?_, by simp, fun _ => ⟨i, node, hi, hn, rfl⟩⟩
          simp only [true_iff]
          exact ⟨by decide, hv, hv1, pt, pt1, hp, hp1, hb2.1, hb2.2⟩
        | U =>
          obtain ⟨i, hi, -, -, -, hu⟩ := updNode_of_nodeAt g x y z
            (fun node => { node with hasUpEdge := true }) node hn
          refine ⟨_, true,
            (by simp only [addEdge, hbox, hcan, hvd, if_true, hu, Option.map_some']; rfl),
            ?_, by simp, fun _ => ⟨i, node, hi, hn, rfl⟩⟩
          simp only [true_iff]
          exact ⟨by decide, hv, hv1, pt, pt1, hp, hp1, hb2.1, hb2.2⟩
        | UNKNOWN =>
          obtain ⟨i, hi, -, -, -, hu⟩ := updNode_of_nodeAt g x y z (fun node => node) node hn
          have hg := updNode_id g _ x y z hu
          refine ⟨_, false, by simp only [addEdge, hbox, hcan, hvd, if_true, hu, Option.map_some'],
            by simp, fun _ => hg, by simp⟩
        | W => simp [correct] at hcan
        | S => simp [correct] at hcan
        | D => simp [correct] at hcan
      · have hbox : isEdgeInBox g x y z cdir box initDR = some false := by
          simp only [isEdgeInBox, hcan, hvd, if_true, hp, hp1, hb]
        refine ⟨g, false, by simp only [addEdge, hbox], ?_, fun _ => rfl, by simp⟩
        simp only [Bool.false_eq_true, false_iff]
        rintro ⟨-, -, -, qt, qt1, hq, hq1, hi1, hi2⟩
        rw [hp] at hq
        rw [hp1] at hq1
        have e1 : pt = qt := Option.some.inj hq
        have e2 : pt1 = qt1 := Option.some.inj hq1
        subst e1 e2
        simp [hi1, hi2] at hb
    · have hvd : isValidDir g x y z cdir = false := by
        simp only [isValidDir, hv, hv1, Bool.true_and]
      have hbox : isEdgeInBox g x y z cdir box initDR = some false := by
        simp [isEdgeInBox, hcan, hvd]
      refine ⟨g, false, by simp only [addEdge, hbox], ?_, fun _ => rfl, by simp⟩
      simp only [Bool.false_eq_true, false_iff]
      rintro ⟨-, -, h2, -⟩
      exact hv1 h2
  · have hvd : isValidDir g x y z cdir = false := by
      simp only [isValidDir]
      simp [hv]
    have hbox : isEdgeInBox g x y z cdir box initDR = some false := by
      simp [isEdgeInBox, hcan, hvd]
    refine ⟨g, false, by simp only [addEdge, hbox], ?_, fun _ => rfl, by simp⟩
    simp only [Bool.false_eq_true, false_iff]
    rintro ⟨-, h1, -⟩
    exact hv h1

/-- C24: on a built grid addEdge(x,y,z,dir,box,initDR) returns true if and only if dir is
one of the six directions, (x,y,z) and its neighbour in direction dir are valid grid points
and the physical points of both lie inside box; when it returns false the grid is
unchanged, and when it returns true the grid differs from the old one only in the node of
the canonical form of the edge, whose one canonical edge bit is set. -/
theorem addEdge_true_iff (g : FlexGridGraph) (hwf : g.wellFormed) (x y z : Int)
    (dir : frDirEnum) (box : Rect) (initDR : Bool) :
    ∃ g1 b, addEdge g x y z dir box initDR = some (g1, b)
      ∧ (b = true ↔ dir ≠ frDirEnum.UNKNOWN ∧ isValid g x y z = true
          ∧ isValid g (reverse x y z dir).1 (reverse x y z dir).2.1
              (reverse x y z dir).2.2.1 = true
          ∧ ∃ pt pt1, getPoint g x y = some pt
              ∧ getPoint g (reverse x y z dir).1 (reverse x y z dir).2.1 = some pt1
              ∧ box.intersects pt = true ∧ box.intersects pt1 = true)
      ∧ (b = false → g1 = g)
      ∧ (b = true → ∃ i node,
          getIdx g (correct x y z dir).1 (correct x y z dir).2.1 (correct x y z dir).2.2.1
            = some i
          ∧ nodeAt g (correct x y z dir).1 (correct x y z dir).2.1 (correct x y z dir).2.2.1
            = some node
          ∧ g1 = writeNode g i (node.withEdge (correct x y z dir).2.2.2 true)) := by
  cases dir with
  | UNKNOWN => exact addEdge_core g hwf x y z frDirEnum.UNKNOWN rfl box initDR
  | E => exact addEdge_core g hwf x y z frDirEnum.E rfl box initDR
  | N => exact addEdge_core g hwf x y z frDirEnum.N rfl box initDR
  | U => exact addEdge_core g hwf x y z frDirEnum.U rfl box initDR
  | W =>
    obtain ⟨g1, b, h1, h2, h3, h4⟩ := addEdge_core g hwf (x - 1) y z frDirEnum.E rfl box initDR
    have e : x - 1 + 1 = x := by ring
    simp only [reverse, e] at h2
    refine ⟨g1, b, h1, ?_, h3, h4⟩
    rw [h2]
    simp only [reverse]
    constructor
    · rintro ⟨-, a1, a2, pt, pt1, a3, a4, a5, a6⟩
      exact ⟨by decide, a2, a1, pt1, pt, a4, a3, a6, a5⟩
    · rintro ⟨-, a1, a2, pt, pt1, a3, a4, a5, a6⟩
      exact ⟨by decide, a2, a1, pt1, pt, a4, a3, a6, a5⟩
  | S =>
    obtain ⟨g1, b, h1, h2, h3, h4⟩ := addEdge_core g hwf x (y - 1) z frDirEnum.N rfl box initDR
    have e : y - 1 + 1 = y := by ring
    simp only [reverse, e] at h2
    refine ⟨g1, b, h1, ?_, h3, h4⟩
    rw [h2]
    simp only [reverse]
    constructor
    · rintro ⟨-, a1, a2, pt, pt1, a3, a4, a5, a6⟩
      exact ⟨by decide, a2, a1, pt1, pt, a4, a3, a6, a5⟩
    · rintro ⟨-, a1, a2, pt, pt1, a3, a4, a5, a6⟩
      exact ⟨by decide, a2, a1, pt1, pt, a4, a3, a6, a5⟩
  | D =>
    obtain ⟨g1, b, h1, h2, h3, h4⟩ := addEdge_core g hwf x y (z - 1) frDirEnum.U rfl box initDR
    have e : z - 1 + 1 = z := by ring
    simp only [reverse, e] at h2
    refine ⟨g1, b, h1, ?_, h3, h4⟩
    rw [h2]
    simp only [reverse]
    constructor
    · rintro ⟨-, a1, a2, pt, pt1, a3, a4, a5, a6⟩
      exact ⟨by decide, a2, a1, pt1, pt, a4, a3, a6, a5⟩
    · rintro ⟨-, a1, a2, pt, pt1, a3, a4, a5, a6⟩
      exact ⟨by decide, a2, a1, pt1, pt, a4, a3, a6, a5⟩

/-- Witness of C24 on the sample grid: the edge from column 1 westwards, inside the sample
box. -/
theorem addEdge_true_iff_witness :
    ∃ g1 b, addEdge sampleGrid 1 0 0 frDirEnum.W sampleBox false = some (g1, b)
      ∧ (b = true ↔ frDirEnum.W ≠ frDirEnum.UNKNOWN ∧ isValid sampleGrid 1 0 0 = true
          ∧ isValid sampleGrid (reverse 1 0 0 frDirEnum.W).1 (reverse 1 0 0 frDirEnum.W).2.1
              (reverse 1 0 0 frDirEnum.W).2.2.1 = true
          ∧ ∃ pt pt1, getPoint sampleGrid 1 0 = some pt
              ∧ getPoint sampleGrid (reverse 1 0 0 frDirEnum.W).1
                  (reverse 1 0 0 frDirEnum.W).2.1 = some pt1
              ∧ sampleBox.intersects pt = true ∧ sampleBox.intersects pt1 = true)
      ∧ (b = false → g1 = sampleGrid)
      ∧ (b = true → ∃ i node,
          getIdx sampleGrid (correct 1 0 0 frDirEnum.W).1 (correct 1 0 0 frDirEnum.W).2.1
              (correct 1 0 0 frDirEnum.W).2.2.1 = some i
          ∧ nodeAt sampleGrid (correct 1 0 0 frDirEnum.W).1 (correct 1 0 0 frDirEnum.W).2.1
              (correct 1 0 0 frDirEnum.W).2.2.1 = some node
          ∧ g1 = writeNode sampleGrid i
              (node.withEdge (correct 1 0 0 frDirEnum.W).2.2.2 true)) :=
  addEdge_true_iff sampleGrid (by decide) 1 0 0 frDirEnum.W sampleBox false

/-- A query reads the same as the query of the same edge from its other end point. -/
theorem hasEdge_reverse (g : FlexGridGraph) (x y z : Int) (dir : frDirEnum) :
    hasEdge g x y z dir
      = hasEdge g (reverse x y z dir).1 (reverse x y z dir).2.1 (reverse x y z dir).2.2.1
          (reverse x y z dir).2.2.2 := by
  cases dir <;> simp [hasEdge, correct, reverse]

/-- The edge queries after the edge bit of a canonical direction of a valid node has been
written: the written edge reads `b`, every query of another canonical edge reads as
before. -/
theorem hasEdge_after_withEdge (g : FlexGridGraph) (hwf : g.wellFormed) (x y z : Int)
    (cdir : frDirEnum) (hc : cdir = frDirEnum.E ∨ cdir = frDirEnum.N ∨ cdir = frDirEnum.U)
    (i : Int) (node : Node) (b : Bool) (hv : isValid g x y z = true)
    (hi : getIdx g x y z = some i) (hn : nodeAt g x y z = some node) :
    hasEdge (writeNode g i (node.withEdge cdir b)) x y z cdir = some b
      ∧ ∀ x1 y1 z1 d1, correct x1 y1 z1 d1 ≠ (x, y, z, cdir) →
          hasEdge (writeNode g i (node.withEdge cdir b)) x1 y1 z1 d1
            = hasEdge g x1 y1 z1 d1 := by
  obtain ⟨j, hj, h0, hlt, -, -⟩ := updNode_of_nodeAt g x y z (fun n => n) node hn
  rw [hi] at hj
  have hij : i = j := Option.some.inj hj
  subst hij
  have hvw : ∀ p q r, isValid (writeNode g i (node.withEdge cdir b)) p q r = isValid g p q r :=
    fun _ _ _ => rfl
  constructor
  · have hn2 := nodeAt_set_same g x y z i (node.withEdge cdir b) hi h0 hlt
    rcases hc with h | h | h <;> subst h <;>
      simp only [hasEdge, correct, hvw, hv, if_true, hn2] <;> rfl
  · intro x1 y1 z1 d1 hne
    rcases hcq : correct x1 y1 z1 d1 with ⟨cx, cy, cz, cd⟩
    rw [hcq] at hne
    simp only [hasEdge, hcq, hvw]
    by_cases hv1 : isValid g cx cy cz = true
    · simp only [hv1, if_true]
      rw [nodeAt_writeNode g i _ h0 hlt cx cy cz]
      by_cases hsame : getIdx g cx cy cz = some i
      · simp only [hsame, if_true]
        have hpt := getIdx_inj g hwf cx cy cz x y z hv1 hv (by rw [hsame, hi])
        obtain ⟨e1, e2, e3⟩ := hpt
        subst e1 e2 e3
        rw [hn]
        have hd : cd ≠ cdir := by
          intro h
          apply hne
          rw [h]
        rcases hc with h | h | h <;> subst h <;> cases cd <;>
          simp [Node.withEdge] at hd ⊢
      · simp only [hsame, if_false]
    · simp [hv1]

/-- `removeEdge` for a direction that `correct` leaves alone (East, North, Up, UNKNOWN). -/
theorem removeEdge_core (g : FlexGridGraph) (hwf : g.wellFormed) (x y z : Int)
    (cdir : frDirEnum) (hcan : correct x y z cdir = (x, y, z, cdir)) :
    ∃ g1 b, removeEdge g x y z cdir = some (g1, b)
      ∧ (b = true ↔ cdir ≠ frDirEnum.UNKNOWN ∧ isValid g x y z = true
          ∧ isValid g (reverse x y z cdir).1 (reverse x y z cdir).2.1
              (reverse x y z cdir).2.2.1 = true)
      ∧ (b = false → g1 = g)
      ∧ (b = true → ∃ i node, getIdx g x y z = some i ∧ nodeAt g x y z = some node
          ∧ g1 = writeNode g i (node.withEdge cdir false)
          ∧ (cdir = frDirEnum.E ∨ cdir = frDirEnum.N ∨ cdir = frDirEnum.U)) := by
  by_cases hv : isValid g x y z = true
  · by_cases hv1 : isValid g (reverse x y z cdir).1 (reverse x y z cdir).2.1
        (reverse x y z cdir).2.2.1 = true
    · have hvd : isValidDir g x y z cdir = true := by
        simp only [isValidDir, hv, hv1, Bool.and_self]
      obtain ⟨node, hn⟩ := nodeAt_of_valid g hwf x y z hv
      cases cdir with
      | E =>
        obtain ⟨i, hi, -, -, -, hu⟩ := updNode_of_nodeAt g x y z
          (fun node => { node with hasEastEdge := false }) node hn
        exact ⟨_, true,
          (by simp only [removeEdge, hcan, hvd, if_true, hu, Option.map_some']; rfl),
          (by simp only [true_iff]; exact ⟨by decide, hv, hv1⟩), by simp,
          fun _ => ⟨i, node, hi, hn, rfl, Or.inl rfl⟩⟩
      | N =>
        obtain ⟨i, hi, -, -, -, hu⟩ := updNode_of_nodeAt g x y z
          (fun node => { node with hasNorthEdge := false }) node hn
        exact ⟨_, true,
          (by simp only [removeEdge, hcan, hvd, if_true, hu, Option.map_some']; rfl),
          (by simp only [true_iff]; exact ⟨by decide, hv, hv1⟩), by simp,
          fun _ => ⟨i, node, hi, hn, rfl, Or.inr (Or.inl rfl)⟩⟩
      | U =>
        obtain ⟨i, hi, -, -, -, hu⟩ := updNode_of_nodeAt g x y z
          (fun node => { node with hasUpEdge := false }) node hn
        exact ⟨_, true,
          (by simp only [removeEdge, hcan, hvd, if_true, hu, Option.map_some']; rfl),
          (by simp only [true_iff]; exact ⟨by decide, hv, hv1⟩), by simp,
          fun _ => ⟨i, node, hi, hn, rfl, Or.inr (Or.inr rfl)⟩⟩
      | UNKNOWN =>
        obtain ⟨i, hi, -, -, -, hu⟩ := updNode_of_nodeAt g x y z (fun node => node) node hn
        have hg := updNode_id g _ x y z hu
        exact ⟨_, false,
          (by simp only [removeEdge, hcan, hvd, if_true, hu, Option.map_some']),
          by simp, fun _ => hg, by simp⟩
      | W => simp [correct] at hcan
      | S => simp [correct] at hcan
      | D => simp [correct] at hcan
    · have hvd : isValidDir g x y z cdir = false := by
        simp only [isValidDir, hv, hv1, Bool.true_and]
      refine ⟨g, false, by simp [removeEdge, hcan, hvd], ?_, fun _ => rfl, by simp⟩
      simp only [Bool.false_eq_true, false_iff]
      rintro ⟨-, -, h2⟩
      exact hv1 h2
  · have hvd : isValidDir g x y z cdir = false := by
      simp only [isValidDir]
      simp [hv]
    refine ⟨g, false, by simp [removeEdge, hcan, hvd], ?_, fun _ => rfl, by simp⟩
    simp only [Bool.false_eq_true, false_iff]
    rintro ⟨-, h1, -⟩
    exact hv h1

/-- The statement about `removeEdge` for a direction that `correct` leaves alone. -/
theorem removeEdge_canonical (g : FlexGridGraph) (hwf : g.wellFormed) (x y z : Int)
    (cdir : frDirEnum) (hcan : correct x y z cdir = (x, y, z, cdir)) :
    ∃ g1 b, removeEdge g x y z cdir = some (g1, b)
      ∧ (b = true ↔ cdir ≠ frDirEnum.UNKNOWN ∧ isValid g x y z = true
          ∧ isValid g (reverse x y z cdir).1 (reverse x y z cdir).2.1
              (reverse x y z cdir).2.2.1 = true)
      ∧ (b = false → g1 = g)
      ∧ (b = true → hasEdge g1 x y z cdir = some false
          ∧ hasEdge g1 (reverse x y z cdir).1 (reverse x y z cdir).2.1
              (reverse x y z cdir).2.2.1 (reverse x y z cdir).2.2.2 = some false
          ∧ ∀ x1 y1 z1 d1, correct x1 y1 z1 d1 ≠ (x, y, z, cdir) →
              hasEdge g1 x1 y1 z1 d1 = hasEdge g x1 y1 z1 d1) := by
  obtain ⟨g1, b, h1, h2, h3, h4⟩ := removeEdge_core g hwf x y z cdir hcan
  refine ⟨g1, b, h1, h2, h3, ?_⟩
  intro hb
  obtain ⟨i, node, hi, hn, hw, hc⟩ := h4 hb
  have hv := (h2.1 hb).2.1
  obtain ⟨ha, hf⟩ := hasEdge_after_withEdge g hwf x y z cdir hc i node false hv hi hn
  subst hw
  refine ⟨ha, ?_, hf⟩
  rw [← hasEdge_reverse]
  exact ha

/-- C25: on a built grid removeEdge(x,y,z,dir) returns true exactly when dir is one of the
six directions and (x,y,z) and its neighbour in direction dir are valid; after it returns
true, hasEdge(x,y,z,dir) is false, also when queried from the other end point in the
opposite direction, and every query whose canonical form is another edge reads as before;
when it returns false the grid is unchanged. -/
theorem removeEdge_clears_one_edge (g : FlexGridGraph) (hwf : g.wellFormed) (x y z : Int)
    (dir : frDirEnum) :
    ∃ g1 b, removeEdge g x y z dir = some (g1, b)
      ∧ (b = true ↔ dir ≠ frDirEnum.UNKNOWN ∧ isValid g x y z = true
          ∧ isValid g (reverse x y z dir).1 (reverse x y z dir).2.1
              (reverse x y z dir).2.2.1 = true)
      ∧ (b = false → g1 = g)
      ∧ (b = true → hasEdge g1 x y z dir = some false
          ∧ hasEdge g1 (reverse x y z dir).1 (reverse x y z dir).2.1
              (reverse x y z dir).2.2.1 (reverse x y z dir).2.2.2 = some false
          ∧ ∀ x1 y1 z1 d1, correct x1 y1 z1 d1 ≠ correct x y z dir →
              hasEdge g1 x1 y1 z1 d1 = hasEdge g x1 y1 z1 d1) := by
  cases dir with
  | UNKNOWN => exact removeEdge_canonical g hwf x y z frDirEnum.UNKNOWN rfl
  | E => exact removeEdge_canonical g hwf x y z frDirEnum.E rfl
  | N => exact removeEdge_canonical g hwf x y z frDirEnum.N rfl
  | U => exact removeEdge_canonical g hwf x y z frDirEnum.U rfl
  | W =>
    obtain ⟨g1, b, h1, h2, h3, h4⟩ := removeEdge_canonical g hwf (x - 1) y z frDirEnum.E rfl
    have e : x - 1 + 1 = x := by ring
    simp only [reverse, e] at h2 h4
    refine ⟨g1, b, h1, ?_, h3, ?_⟩
    · rw [h2]
      simp only [reverse]
      constructor
      · rintro ⟨-, a1, a2⟩
        exact ⟨by decide, a2, a1⟩
      · rintro ⟨-, a1, a2⟩
        exact ⟨by decide, a2, a1⟩
    · intro hb
      obtain ⟨k1, k2, k3⟩ := h4 hb
      exact ⟨k2, k1, k3⟩
  | S =>
    obtain ⟨g1, b, h1, h2, h3, h4⟩ := removeEdge_canonical g hwf x (y - 1) z frDirEnum.N rfl
    have e : y - 1 + 1 = y := by ring
    simp only [reverse, e] at h2 h4
    refine ⟨g1, b, h1, ?_, h3, ?_⟩
    · rw [h2]
      simp only [reverse]
      constructor
      · rintro ⟨-, a1, a2⟩
        exact ⟨by decide, a2, a1⟩
      · rintro ⟨-, a1, a2⟩
        exact ⟨by decide, a2, a1⟩
    · intro hb
      obtain ⟨k1, k2, k3⟩ := h4 hb
      exact ⟨k2, k1, k3⟩
  | D =>
    obtain ⟨g1, b, h1, h2, h3, h4⟩ := removeEdge_canonical g hwf x y (z - 1) frDirEnum.U rfl
    have e : z - 1 + 1 = z := by ring
    simp only [reverse, e] at h2 h4
    refine ⟨g1, b, h1, ?_, h3, ?_⟩
    · rw [h2]
      simp only [reverse]
      constructor
      · rintro ⟨-, a1, a2⟩
        exact ⟨by decide, a2, a1⟩
      · rintro ⟨-, a1, a2⟩
        exact ⟨by decide, a2, a1⟩
    · intro hb
      obtain ⟨k1, k2, k3⟩ := h4 hb
      exact ⟨k2, k1, k3⟩

/-- Witness of C25 on the sample grid: the edge from column 1 westwards. -/
theorem removeEdge_clears_one_edge_witness :
    ∃ g1 b, removeEdge sampleGrid 1 0 0 frDirEnum.W = some (g1, b)
      ∧ (b = true ↔ frDirEnum.W ≠ frDirEnum.UNKNOWN ∧ isValid sampleGrid 1 0 0 = true
          ∧ isValid sampleGrid (reverse 1 0 0 frDirEnum.W).1 (reverse 1 0 0 frDirEnum.W).2.1
              (reverse 1 0 0 frDirEnum.W).2.2.1 = true)
      ∧ (b = false → g1 = sampleGrid)
      ∧ (b = true → hasEdge g1 1 0 0 frDirEnum.W = some false
          ∧ hasEdge g1 (reverse 1 0 0 frDirEnum.W).1 (reverse 1 0 0 frDirEnum.W).2.1
              (reverse 1 0 0 frDirEnum.W).2.2.1 (reverse 1 0 0 frDirEnum.W).2.2.2 = some false
          ∧ ∀ x1 y1 z1 d1, correct x1 y1 z1 d1 ≠ correct 1 0 0 frDirEnum.W →
              hasEdge g1 x1 y1 z1 d1 = hasEdge sampleGrid x1 y1 z1 d1) :=
  removeEdge_clears_one_edge sampleGrid (by decide) 1 0 0 frDirEnum.W

/-! ## Blocked and grid-cost flags -/

/-- An update that leaves the three edge bits alone changes no edge query. -/
theorem hasEdge_updNode (g g1 : FlexGridGraph) (a b c : Int) (f : Node → Node)
    (h : updNode g a b c f = some g1)
    (hE : ∀ n, (f n).hasEastEdge = n.hasEastEdge)
    (hN : ∀ n, (f n).hasNorthEdge = n.hasNorthEdge)
    (hU : ∀ n, (f n).hasUpEdge = n.hasUpEdge) (x y z : Int) (d : frDirEnum) :
    hasEdge g1 x y z d = hasEdge g x y z d := by
  have mE := nodeAt_updNode_map g g1 a b c f Node.hasEastEdge h hE
  have mN := nodeAt_updNode_map g g1 a b c f Node.hasNorthEdge h hN
  have mU := nodeAt_updNode_map g g1 a b c f Node.hasUpEdge h hU
  obtain ⟨i, node, -, -, -, -, hw⟩ := updNode_eq_some g g1 a b c f h
  have hvw : ∀ p q r, isValid g1 p q r = isValid g p q r := by
    intro p q r
    rw [hw]
    rfl
  rcases hcq : correct x y z d with ⟨cx, cy, cz, cd⟩
  simp only [hasEdge, hcq, hvw]
  by_cases hv : isValid g cx cy cz = true
  · simp only [hv, if_true]
    have e1 := mE cx cy cz
    have e2 := mN cx cy cz
    have e3 := mU cx cy cz
    cases hn1 : nodeAt g1 cx cy cz with
    | none =>
      rw [hn1] at e1
      cases hn : nodeAt g cx cy cz with
      | none => rfl
      | some n => rw [hn] at e1; simp at e1
    | some n1 =>
      rw [hn1] at e1 e2 e3
      cases hn : nodeAt g cx cy cz with
      | none => rw [hn] at e1; simp at e1
      | some n =>
        rw [hn] at e1 e2 e3
        simp only [Option.map_some', Option.some.injEq] at e1 e2 e3
        cases cd <;> simp [e1, e2, e3]
  · simp [hv]

/-- C26, counterexample: on the sample grid the node (0,0,0) is valid, yet
setBlocked(0,0,0,UNKNOWN) leaves the grid as it is and isBlocked(0,0,0,UNKNOWN) is false
afterwards. -/
theorem setBlocked_unknown_is_not_blocked :
    isValid sampleGrid (correct 0 0 0 frDirEnum.UNKNOWN).1 (correct 0 0 0 frDirEnum.UNKNOWN).2.1
        (correct 0 0 0 frDirEnum.UNKNOWN).2.2.1 = true
      ∧ setBlocked sampleGrid 0 0 0 frDirEnum.UNKNOWN = some sampleGrid
      ∧ isBlocked sampleGrid 0 0 0 frDirEnum.UNKNOWN = some false
      ∧ setGridCost sampleGrid 0 0 0 frDirEnum.UNKNOWN = some sampleGrid
      ∧ hasGridCost sampleGrid 0 0 0 frDirEnum.UNKNOWN = some false := by
  decide

/-- The statement about the four flag mutators for a direction that `correct` leaves
alone. -/
theorem flags_round_trip_core (g : FlexGridGraph) (x y z : Int) (cdir : frDirEnum)
    (node : Node) (hcan : correct x y z cdir = (x, y, z, cdir))
    (hv : isValid g x y z = true) (hn : nodeAt g x y z = some node) :
    ∃ g1 g2 g3 g4, setBlocked g x y z cdir = some g1 ∧ resetBlocked g x y z cdir = some g2
      ∧ setGridCost g x y z cdir = some g3 ∧ resetGridCost g x y z cdir = some g4
      ∧ (cdir ≠ frDirEnum.UNKNOWN →
          isBlocked g1 x y z cdir = some true ∧ isBlocked g2 x y z cdir = some false
            ∧ hasGridCost g3 x y z cdir = some true
            ∧ hasGridCost g4 x y z cdir = some false)
      ∧ (∀ x1 y1 z1 d1, hasEdge g1 x1 y1 z1 d1 = hasEdge g x1 y1 z1 d1
          ∧ hasEdge g2 x1 y1 z1 d1 = hasEdge g x1 y1 z1 d1
          ∧ hasEdge g3 x1 y1 z1 d1 = hasEdge g x1 y1 z1 d1
          ∧ hasEdge g4 x1 y1 z1 d1 = hasEdge g x1 y1 z1 d1) := by
  have key : ∀ (f1 f2 f3 f4 : Node → Node),
      setBlocked g x y z cdir = updNode g x y z f1 →
      resetBlocked g x y z cdir = updNode g x y z f2 →
      setGridCost g x y z cdir = updNode g x y z f3 →
      resetGridCost g x y z cdir = updNode g x y z f4 →
      (∀ n, (f1 n).hasEastEdge = n.hasEastEdge ∧ (f1 n).hasNorthEdge = n.hasNorthEdge
        ∧ (f1 n).hasUpEdge = n.hasUpEdge) →
      (∀ n, (f2 n).hasEastEdge = n.hasEastEdge ∧ (f2 n).hasNorthEdge = n.hasNorthEdge
        ∧ (f2 n).hasUpEdge = n.hasUpEdge) →
      (∀ n, (f3 n).hasEastEdge = n.hasEastEdge ∧ (f3 n).hasNorthEdge = n.hasNorthEdge
        ∧ (f3 n).hasUpEdge = n.hasUpEdge) →
      (∀ n, (f4 n).hasEastEdge = n.hasEastEdge ∧ (f4 n).hasNorthEdge = n.hasNorthEdge
        ∧ (f4 n).hasUpEdge = n.hasUpEdge) →
      ∃ i g1 g2 g3 g4, setBlocked g x y z cdir = some g1 ∧ resetBlocked g x y z cdir = some g2
        ∧ setGridCost g x y z cdir = some g3 ∧ resetGridCost g x y z cdir = some g4
        ∧ g1 = writeNode g i (f1 node) ∧ g2 = writeNode g i (f2 node)
        ∧ g3 = writeNode g i (f3 node) ∧ g4 = writeNode g i (f4 node)
        ∧ nodeAt g1 x y z = some (f1 node) ∧ nodeAt g2 x y z = some (f2 node)
        ∧ nodeAt g3 x y z = some (f3 node) ∧ nodeAt g4 x y z = some (f4 node)
        ∧ (∀ x1 y1 z1 d1, hasEdge g1 x1 y1 z1 d1 = hasEdge g x1 y1 z1 d1
          ∧ hasEdge g2 x1 y1 z1 d1 = hasEdge g x1 y1 z1 d1
          ∧ hasEdge g3 x1 y1 z1 d1 = hasEdge g x1 y1 z1 d1
          ∧ hasEdge g4 x1 y1 z1 d1 = hasEdge g x1 y1 z1 d1) := by
    intro f1 f2 f3 f4 e1 e2 e3 e4 k1 k2 k3 k4
    obtain ⟨i, hi, hu1, hn1⟩ := updNode_nodeAt g x y z f1 node hn
    obtain ⟨i2, hi2, hu2, hn2⟩ := updNode_nodeAt g x y z f2 node hn
    obtain ⟨i3, hi3, hu3, hn3⟩ := updNode_nodeAt g x y z f3 node hn
    obtain ⟨i4, hi4, hu4, hn4⟩ := updNode_nodeAt g x y z f4 node hn
    rw [hi] at hi2 hi3 hi4
    have q2 : i = i2 := Option.some.inj hi2
    have q3 : i = i3 := Option.some.inj hi3
    have q4 : i = i4 := Option.some.inj hi4
    subst q2 q3 q4
    refine ⟨i, _, _, _, _, e1.trans hu1, e2.trans hu2, e3.trans hu3, e4.trans hu4,
      rfl, rfl, rfl, rfl, hn1, hn2, hn3, hn4, ?_⟩
    intro x1 y1 z1 d1
    exact ⟨hasEdge_updNode g _ x y z f1 hu1 (fun n => (k1 n).1) (fun n => (k1 n).2.1)
        (fun n => (k1 n).2.2) x1 y1 z1 d1,
      hasEdge_updNode g _ x y z f2 hu2 (fun n => (k2 n).1) (fun n => (k2 n).2.1)
        (fun n => (k2 n).2.2) x1 y1 z1 d1,
      hasEdge_updNode g _ x y z f3 hu3 (fun n => (k3 n).1) (fun n => (k3 n).2.1)
        (fun n => (k3 n).2.2) x1 y1 z1 d1,
      hasEdge_updNode g _ x y z f4 hu4 (fun n => (k4 n).1) (fun n => (k4 n).2.1)
        (fun n => (k4 n).2.2) x1 y1 z1 d1⟩
  cases cdir with
  | E =>
    obtain ⟨i, g1, g2, g3, g4, a1, a2, a3, a4, w1, w2, w3, w4, n1, n2, n3, n4, hf⟩ :=
      key (fun node => { node with isBlockedEast := true })
        (fun node => { node with isBlockedEast := false })
        (fun node => { node with hasGridCostEast := true })
        (fun node => { node with hasGridCostEast := false })
        (by simp only [setBlocked, hcan, hv, if_true])
        (by simp only [resetBlocked, hcan, hv, if_true])
        (by simp only [setGridCost, hcan, hv, if_true])
        (by simp only [resetGridCost, hcan, hv, if_true])
        (fun _ => ⟨rfl, rfl, rfl⟩) (fun _ => ⟨rfl, rfl, rfl⟩) (fun _ => ⟨rfl, rfl, rfl⟩)
        (fun _ => ⟨rfl, rfl, rfl⟩)
    have v1 : isValid g1 x y z = true := by rw [w1]; exact hv
    have v2 : isValid g2 x y z = true := by rw [w2]; exact hv
    refine ⟨g1, g2, g3, g4, a1, a2, a3, a4, fun _ => ⟨?_, ?_, ?_, ?_⟩, hf⟩
    · simp only [isBlocked, hcan, v1, if_true, n1]
    · simp only [isBlocked, hcan, v2, if_true, n2]
    · simp only [hasGridCost, hcan, hasGridCostE, n3, Option.map_some']
    · simp only [hasGridCost, hcan, hasGridCostE, n4, Option.map_some']
  | N =>
    obtain ⟨i, g1, g2, g3, g4, a1, a2, a3, a4, w1, w2, w3, w4, n1, n2, n3, n4, hf⟩ :=
      key (fun node => { node with isBlockedNorth := true })
        (fun node => { node with isBlockedNorth := false })
        (fun node => { node with hasGridCostNorth := true })
        (fun node => { node with hasGridCostNorth := false })
        (by simp only [setBlocked, hcan, hv, if_true])
        (by simp only [resetBlocked, hcan, hv, if_true])
        (by simp only [setGridCost, hcan, hv, if_true])
        (by simp only [resetGridCost, hcan, hv, if_true])
        (fun _ => ⟨rfl, rfl, rfl⟩) (fun _ => ⟨rfl, rfl, rfl⟩) (fun _ => ⟨rfl, rfl, rfl⟩)
        (fun _ => ⟨rfl, rfl, rfl⟩)
    have v1 : isValid g1 x y z = true := by rw [w1]; exact hv
    have v2 : isValid g2 x y z = true := by rw [w2]; exact hv
    refine ⟨g1, g2, g3, g4, a1, a2, a3, a4, fun _ => ⟨?_, ?_, ?_, ?_⟩, hf⟩
    · simp only [isBlocked, hcan, v1, if_true, n1]
    · simp only [isBlocked, hcan, v2, if_true, n2]
    · simp only [hasGridCost, hcan, hasGridCostN, n3, Option.map_some']
    · simp only [hasGridCost, hcan, hasGridCostN, n4, Option.map_some']
  | U =>
    obtain ⟨i, g1, g2, g3, g4, a1, a2, a3, a4, w1, w2, w3, w4, n1, n2, n3, n4, hf⟩ :=
      key (fun node => { node with isBlockedUp := true })
        (fun node => { node with isBlockedUp := false })
        (fun node => { node with hasGridCostUp := true })
        (fun node => { node with hasGridCostUp := false })
        (by simp only [setBlocked, hcan, hv, if_true])
        (by simp only [resetBlocked, hcan, hv, if_true])
        (by simp only [setGridCost, hcan, hv, if_true])
        (by simp only [resetGridCost, hcan, hv, if_true])
        (fun _ => ⟨rfl, rfl, rfl⟩) (fun _ => ⟨rfl, rfl, rfl⟩) (fun _ => ⟨rfl, rfl, rfl⟩)
        (fun _ => ⟨rfl, rfl, rfl⟩)
    have v1 : isValid g1 x y z = true := by rw [w1]; exact hv
    have v2 : isValid g2 x y z = true := by rw [w2]; exact hv
    refine ⟨g1, g2, g3, g4, a1, a2, a3, a4, fun _ => ⟨?_, ?_, ?_, ?_⟩, hf⟩
    · simp only [isBlocked, hcan, v1, if_true, n1]
    · simp only [isBlocked, hcan, v2, if_true, n2]
    · simp only [hasGridCost, hcan, hasGridCostU, n3, Option.map_some']
    · simp only [hasGridCost, hcan, hasGridCostU, n4, Option.map_some']
  | UNKNOWN =>
    obtain ⟨i, g1, g2, g3, g4, a1, a2, a3, a4, w1, w2, w3, w4, n1, n2, n3, n4, hf⟩ :=
      key (fun node => node) (fun node => node) (fun node => node) (fun node => node)
        (by simp only [setBlocked, hcan, hv, if_true])
        (by simp only [resetBlocked, hcan, hv, if_true])
        (by simp only [setGridCost, hcan, hv, if_true])
        (by simp only [resetGridCost, hcan, hv, if_true])
        (fun _ => ⟨rfl, rfl, rfl⟩) (fun _ => ⟨rfl, rfl, rfl⟩) (fun _ => ⟨rfl, rfl, rfl⟩)
        (fun _ => ⟨rfl, rfl, rfl⟩)
    exact ⟨g1, g2, g3, g4, a1, a2, a3, a4, fun h => absurd rfl h, hf⟩
  | W => simp [correct] at hcan
  | S => simp [correct] at hcan
  | D => simp [correct] at hcan

/-- C26, amended: on a built grid, for every (x, y, z, dir) whose canonicalized node is valid
the four flag mutators are defined and change no `hasEdge` query; when `dir` is one of the
six directions, `isBlocked` is true after `setBlocked` and false after `resetBlocked`, and
`hasGridCost` is true after `setGridCost` and false after `resetGridCost`. -/
theorem flags_round_trip (g : FlexGridGraph) (hwf : g.wellFormed) (x y z : Int)
    (dir : frDirEnum)
    (hv : isValid g (correct x y z dir).1 (correct x y z dir).2.1
      (correct x y z dir).2.2.1 = true) :
    ∃ g1 g2 g3 g4, setBlocked g x y z dir = some g1 ∧ resetBlocked g x y z dir = some g2
      ∧ setGridCost g x y z dir = some g3 ∧ resetGridCost g x y z dir = some g4
      ∧ (dir ≠ frDirEnum.UNKNOWN →
          isBlocked g1 x y z dir = some true ∧ isBlocked g2 x y z dir = some false
            ∧ hasGridCost g3 x y z dir = some true
            ∧ hasGridCost g4 x y z dir = some false)
      ∧ (∀ x1 y1 z1 d1, hasEdge g1 x1 y1 z1 d1 = hasEdge g x1 y1 z1 d1
          ∧ hasEdge g2 x1 y1 z1 d1 = hasEdge g x1 y1 z1 d1
          ∧ hasEdge g3 x1 y1 z1 d1 = hasEdge g x1 y1 z1 d1
          ∧ hasEdge g4 x1 y1 z1 d1 = hasEdge g x1 y1 z1 d1) := by
  obtain ⟨node, hn⟩ := nodeAt_of_valid g hwf _ _ _ hv
  cases dir with
  | E => exact flags_round_trip_core g x y z frDirEnum.E node rfl hv hn
  | N => exact flags_round_trip_core g x y z frDirEnum.N node rfl hv hn
  | U => exact flags_round_trip_core g x y z frDirEnum.U node rfl hv hn
  | UNKNOWN => exact flags_round_trip_core g x y z frDirEnum.UNKNOWN node rfl hv hn
  | W =>
    obtain ⟨g1, g2, g3, g4, a1, a2, a3, a4, hr, hf⟩ :=
      flags_round_trip_core g (x - 1) y z frDirEnum.E node rfl hv hn
    exact ⟨g1, g2, g3, g4, a1, a2, a3, a4, fun _ => hr (by decide), hf⟩
  | S =>
    obtain ⟨g1, g2, g3, g4, a1, a2, a3, a4, hr, hf⟩ :=
      flags_round_trip_core g x (y - 1) z frDirEnum.N node rfl hv hn
    exact ⟨g1, g2, g3, g4, a1, a2, a3, a4, fun _ => hr (by decide), hf⟩
  | D =>
    obtain ⟨g1, g2, g3, g4, a1, a2, a3, a4, hr, hf⟩ :=
      flags_round_trip_core g x y (z - 1) frDirEnum.U node rfl hv hn
    exact ⟨g1, g2, g3, g4, a1, a2, a3, a4, fun _ => hr (by decide), hf⟩

/-- Witness for C26: the West edge of node (1,0,0) of the sample grid. -/
theorem flags_round_trip_witness :
    ∃ g1 g2 g3 g4, setBlocked sampleGrid 1 0 0 frDirEnum.W = some g1
      ∧ resetBlocked sampleGrid 1 0 0 frDirEnum.W = some g2
      ∧ setGridCost sampleGrid 1 0 0 frDirEnum.W = some g3
      ∧ resetGridCost sampleGrid 1 0 0 frDirEnum.W = some g4
      ∧ (frDirEnum.W ≠ frDirEnum.UNKNOWN →
          isBlocked g1 1 0 0 frDirEnum.W = some true
            ∧ isBlocked g2 1 0 0 frDirEnum.W = some false
            ∧ hasGridCost g3 1 0 0 frDirEnum.W = some true
            ∧ hasGridCost g4 1 0 0 frDirEnum.W = some false)
      ∧ (∀ x1 y1 z1 d1, hasEdge g1 x1 y1 z1 d1 = hasEdge sampleGrid x1 y1 z1 d1
          ∧ hasEdge g2 x1 y1 z1 d1 = hasEdge sampleGrid x1 y1 z1 d1
          ∧ hasEdge g3 x1 y1 z1 d1 = hasEdge sampleGrid x1 y1 z1 d1
          ∧ hasEdge g4 x1 y1 z1 d1 = hasEdge sampleGrid x1 y1 z1 d1) :=
  flags_round_trip sampleGrid (by decide) 1 0 0 frDirEnum.W (by decide)

/-! ## Via fixed-shape override -/

/-- C27: for a node (x, y, z) that stores `node`, after `setOverrideShapeCostVia` the
fixed-shape cost of the via edge reads 0 from both ends and `isOverrideShapeCost` is true
from both ends; after a following `resetOverrideShapeCostVia` both reads return the stored
`fixedShapeCostVia` again and `isOverrideShapeCost` is false; and `isOverrideShapeCost` is
false for every direction other than U and D, on every grid. -/
theorem override_via_masks_stored_cost (g : FlexGridGraph) (x y z : Int) (node : Node)
    (hn : nodeAt g x y z = some node) :
    (∃ g1, setOverrideShapeCostVia g x y z = some g1
      ∧ getFixedShapeCostAdj g1 x y z frDirEnum.U = some 0
      ∧ getFixedShapeCostAdj g1 x y (z + 1) frDirEnum.D = some 0
      ∧ isOverrideShapeCost g1 x y z frDirEnum.U = some true
      ∧ isOverrideShapeCost g1 x y (z + 1) frDirEnum.D = some true
      ∧ ∃ g2, resetOverrideShapeCostVia g1 x y z = some g2
        ∧ getFixedShapeCostAdj g2 x y z frDirEnum.U = some node.fixedShapeCostVia
        ∧ getFixedShapeCostAdj g2 x y (z + 1) frDirEnum.D = some node.fixedShapeCostVia
        ∧ isOverrideShapeCost g2 x y z frDirEnum.U = some false
        ∧ isOverrideShapeCost g2 x y (z + 1) frDirEnum.D = some false)
    ∧ ∀ (g0 : FlexGridGraph) (a b c : Int) (d : frDirEnum),
        d ≠ frDirEnum.U → d ≠ frDirEnum.D → isOverrideShapeCost g0 a b c d = some false := by
  constructor
  · obtain ⟨i, -, hu, hn1⟩ :=
      updNode_nodeAt g x y z (fun node => { node with overrideShapeCostVia := true }) node hn
    obtain ⟨i2, -, hu2, hn2⟩ :=
      updNode_nodeAt _ x y z (fun node => { node with overrideShapeCostVia := false }) _ hn1
    have hz : z + 1 - 1 = z := by omega
    refine ⟨_, hu, ?_, ?_, ?_, ?_, _, hu2, ?_, ?_, ?_, ?_⟩
    · simp [getFixedShapeCostAdj, isOverrideShapeCost, correctU, hn1]
    · simp [getFixedShapeCostAdj, isOverrideShapeCost, correctU, hz, hn1]
    · simp [isOverrideShapeCost, correctU, hn1]
    · simp [isOverrideShapeCost, correctU, hz, hn1]
    · simp [getFixedShapeCostAdj, isOverrideShapeCost, correctU, hn2]
    · simp [getFixedShapeCostAdj, isOverrideShapeCost, correctU, hz, hn2]
    · simp [isOverrideShapeCost, correctU, hn2]
    · simp [isOverrideShapeCost, correctU, hz, hn2]
  · intro g0 a b c d hU hD
    simp [isOverrideShapeCost, hU, hD]

/-- Witness for C27: node (0,0,0) of the sample grid with a stored via cost of 7. -/
theorem override_via_masks_stored_cost_witness :
    (∃ g1, setOverrideShapeCostVia fixedViaGrid 0 0 0 = some g1
      ∧ getFixedShapeCostAdj g1 0 0 0 frDirEnum.U = some 0
      ∧ getFixedShapeCostAdj g1 0 0 (0 + 1) frDirEnum.D = some 0
      ∧ isOverrideShapeCost g1 0 0 0 frDirEnum.U = some true
      ∧ isOverrideShapeCost g1 0 0 (0 + 1) frDirEnum.D = some true
      ∧ ∃ g2, resetOverrideShapeCostVia g1 0 0 0 = some g2
        ∧ getFixedShapeCostAdj g2 0 0 0 frDirEnum.U = some 7
        ∧ getFixedShapeCostAdj g2 0 0 (0 + 1) frDirEnum.D = some 7
        ∧ isOverrideShapeCost g2 0 0 0 frDirEnum.U = some false
        ∧ isOverrideShapeCost g2 0 0 (0 + 1) frDirEnum.D = some false)
    ∧ ∀ (g0 : FlexGridGraph) (a b c : Int) (d : frDirEnum),
        d ≠ frDirEnum.U → d ≠ frDirEnum.D → isOverrideShapeCost g0 a b c d = some false :=
  override_via_masks_stored_cost fixedViaGrid 0 0 0 { Node.zero with fixedShapeCostVia := 7 }
    (by decide)

/-! ## Edge length -/

theorem adjacent_coords_increase (v : List Int) (hs : strictlyIncreasing v) (x a b : Int)
    (ha : vecGet? v (x + 1) = some a) (hb : vecGet? v x = some b) : b < a := by
  obtain ⟨h0, hb1⟩ := (vecGet?_eq_some_iff v x b).1 hb
  obtain ⟨-, ha1⟩ := (vecGet?_eq_some_iff v (x + 1) a).1 ha
  have e : (x + 1).toNat = x.toNat + 1 := by omega
  rw [e] at ha1
  obtain ⟨hlt, ha2⟩ := List.getElem?_eq_some_iff.1 ha1
  obtain ⟨hlt0, hb2⟩ := List.getElem?_eq_some_iff.1 hb1
  have h := (List.pairwise_iff_getElem.1 hs) x.toNat (x.toNat + 1) hlt0 hlt (by omega)
  rw [ha2, hb2] at h
  exact h

/-- C30: `getEdgeLength` gives the same result from both ends of an edge (E/W, N/S, U/D);
when the two coordinates of the edge are read as `a` (upper) and `b` (lower) and `a - b` is
an `frCoord` value, the result is `a - b`, for the x coordinates (E), the y coordinates (N)
and the layer heights (U); and for a strictly increasing coordinate array the planar
lengths are strictly positive. -/
theorem getEdgeLength_is_coordinate_difference (g : FlexGridGraph) (x y z a b : Int)
    (hfit : - 2 ^ 31 ≤ a - b ∧ a - b < 2 ^ 31) :
    (getEdgeLength g x y z frDirEnum.E = getEdgeLength g (x + 1) y z frDirEnum.W
      ∧ getEdgeLength g x y z frDirEnum.N = getEdgeLength g x (y + 1) z frDirEnum.S
      ∧ getEdgeLength g x y z frDirEnum.U = getEdgeLength g x y (z + 1) frDirEnum.D)
    ∧ (xCoord g (x + 1) = some a → xCoord g x = some b →
        getEdgeLength g x y z frDirEnum.E = some (a - b)
          ∧ (strictlyIncreasing g.xCoords_ → 0 < a - b))
    ∧ (yCoord g (y + 1) = some a → yCoord g y = some b →
        getEdgeLength g x y z frDirEnum.N = some (a - b)
          ∧ (strictlyIncreasing g.yCoords_ → 0 < a - b))
    ∧ (getZHeight g (z + 1) = some a → getZHeight g z = some b →
        getEdgeLength g x y z frDirEnum.U = some (a - b)) := by
  have hx : x + 1 - 1 = x := by omega
  have hy : y + 1 - 1 = y := by omega
  have hz : z + 1 - 1 = z := by omega
  refine ⟨⟨?_, ?_, ?_⟩, ?_, ?_, ?_⟩
  · simp only [getEdgeLength, correct, hx]
  · simp only [getEdgeLength, correct, hy]
  · simp only [getEdgeLength, correct, hz]
  · intro ha hb
    simp only [xCoord] at ha hb
    refine ⟨?_, fun hs => ?_⟩
    · simp only [getEdgeLength, correct, ha, hb, subCoord, hfit, and_self, if_true]
    · have := adjacent_coords_increase g.xCoords_ hs x a b ha hb
      omega
  · intro ha hb
    simp only [yCoord] at ha hb
    refine ⟨?_, fun hs => ?_⟩
    · simp only [getEdgeLength, correct, ha, hb, subCoord, hfit, and_self, if_true]
    · have := adjacent_coords_increase g.yCoords_ hs y a b ha hb
      omega
  · intro ha hb
    simp only [getZHeight] at ha hb
    simp only [getEdgeLength, correct, ha, hb, subCoord, hfit, and_self, if_true]

/-- Witness for C30: the one East edge of the sample grid, of length 10. -/
theorem getEdgeLength_is_coordinate_difference_witness :
    xCoord sampleGrid (0 + 1) = some 10 ∧ xCoord sampleGrid 0 = some 0
      ∧ strictlyIncreasing sampleGrid.xCoords_
      ∧ getEdgeLength sampleGrid 0 0 0 frDirEnum.E
          = getEdgeLength sampleGrid (0 + 1) 0 0 frDirEnum.W
      ∧ getEdgeLength sampleGrid 0 0 0 frDirEnum.E = some (10 - 0)
      ∧ 0 < (10 : Int) - 0 :=
  have h := getEdgeLength_is_coordinate_difference sampleGrid 0 0 0 10 0 (by decide)
  ⟨by decide, by decide, by decide, h.1.1, (h.2.1 (by decide) (by decide)).1,
    (h.2.1 (by decide) (by decide)).2 (by decide)⟩

/-! ## Previous-direction bits -/

theorem vecSet?_eq {α : Type} (v : List α) (i : Int) (a : α) (h0 : 0 ≤ i)
    (h1 : i < v.length) : vecSet? v i a = some (v.set i.toNat a) := by
  have hlt : i.toNat < v.length := by omega
  simp [vecSet?, h0, hlt]

theorem vecGet?_set {α : Type} (v : List α) (i j : Int) (a : α) (h0 : 0 ≤ i)
    (h1 : i < v.length) :
    vecGet? (v.set i.toNat a) j = if j = i then some a else vecGet? v j := by
  have hlt : i.toNat < v.length := by omega
  by_cases hj : j = i
  · subst hj
    simp [vecGet?, h0, hlt]
  · simp only [hj, if_false]
    unfold vecGet?
    by_cases hj0 : 0 ≤ j
    · simp only [hj0, if_true]
      have hne : i.toNat ≠ j.toNat := by omega
      rw [List.getElem?_set_ne hne]
    · simp only [hj0, if_false]

/-- The offset of a valid point is an index of the node array. -/
theorem getIdx_valid_bound (g : FlexGridGraph) (hwf : g.wellFormed) (x y z : Int)
    (hv : isValid g x y z = true) :
    ∃ i, getIdx g x y z = some i ∧ 0 ≤ i ∧ i < g.nodes_.length := by
  obtain ⟨zDir, _, hi, h0, h1⟩ := getIdx_of_valid g hwf x y z hv
  exact ⟨_, hi, h0, h1⟩

theorem three_bits_round_trip (dir : Nat) (h : dir < 8) :
    ((bitAt (dir % 2 ^ 16) 2).toNat <<< 2) + ((bitAt (dir % 2 ^ 16) 1).toNat <<< 1)
      + ((bitAt (dir % 2 ^ 16) 0).toNat <<< 0) = dir := by
  interval_cases dir <;> rfl

/-- On a built grid whose previous-direction array has fewer than 2^31 bits,
`setPrevAstarNodeDir` of a valid node changes `prevDirs_` only, keeps its length, and the
value reads back at the node while every other valid node reads as before. -/
theorem setPrevAstarNodeDir_spec (g : FlexGridGraph) (hwf : g.wellFormed)
    (hlen : (g.prevDirs_.length : Int) < 2 ^ 31) (x y z : Int)
    (hv : isValid g x y z = true) (dir : Nat) (hd : dir < 8) :
    ∃ p3, setPrevAstarNodeDir g x y z dir = some { g with prevDirs_ := p3 }
      ∧ p3.length = g.prevDirs_.length
      ∧ getPrevAstarNodeDir { g with prevDirs_ := p3 } x y z = some dir
      ∧ ∀ x1 y1 z1, isValid g x1 y1 z1 = true → (x1, y1, z1) ≠ (x, y, z) →
          getPrevAstarNodeDir { g with prevDirs_ := p3 } x1 y1 z1
            = getPrevAstarNodeDir g x1 y1 z1 := by
  obtain ⟨i, hi, h0, h1⟩ := getIdx_valid_bound g hwf x y z hv
  have hp : (g.prevDirs_.length : Int) = 3 * (g.nodes_.length : Int) := by
    obtain ⟨hN, hP, -⟩ := hwf
    rw [hP, hN]
    push_cast
    ring
  have hguard : - 2 ^ 31 ≤ 3 * i ∧ 3 * i + 2 < 2 ^ 31 := by omega
  have s1 := vecSet?_eq g.prevDirs_ (3 * i) (bitAt (dir % 2 ^ 16) 2) (by omega) (by omega)
  have s2 := vecSet?_eq (g.prevDirs_.set (3 * i).toNat (bitAt (dir % 2 ^ 16) 2)) (3 * i + 1)
    (bitAt (dir % 2 ^ 16) 1) (by omega) (by rw [List.length_set]; omega)
  have s3 := vecSet?_eq ((g.prevDirs_.set (3 * i).toNat (bitAt (dir % 2 ^ 16) 2)).set
    (3 * i + 1).toNat (bitAt (dir % 2 ^ 16) 1)) (3 * i + 2)
    (bitAt (dir % 2 ^ 16) 0) (by omega) (by rw [List.length_set, List.length_set]; omega)
  have hread : ∀ j : Int,
      vecGet? (((g.prevDirs_.set (3 * i).toNat (bitAt (dir % 2 ^ 16) 2)).set
        (3 * i + 1).toNat (bitAt (dir % 2 ^ 16) 1)).set (3 * i + 2).toNat
          (bitAt (dir % 2 ^ 16) 0)) j
        = if j = 3 * i + 2 then some (bitAt (dir % 2 ^ 16) 0)
          else if j = 3 * i + 1 then some (bitAt (dir % 2 ^ 16) 1)
          else if j = 3 * i then some (bitAt (dir % 2 ^ 16) 2)
          else vecGet? g.prevDirs_ j := by
    intro j
    rw [vecGet?_set _ (3 * i + 2) j _ (by omega)
        (by rw [List.length_set, List.length_set]; omega),
      vecGet?_set _ (3 * i + 1) j _ (by omega) (by rw [List.length_set]; omega),
      vecGet?_set _ (3 * i) j _ (by omega) (by omega)]
  have key : ∃ p3, setPrevAstarNodeDir g x y z dir = some { g with prevDirs_ := p3 }
      ∧ p3.length = g.prevDirs_.length
      ∧ ∀ j : Int, vecGet? p3 j
        = if j = 3 * i + 2 then some (bitAt (dir % 2 ^ 16) 0)
          else if j = 3 * i + 1 then some (bitAt (dir % 2 ^ 16) 1)
          else if j = 3 * i then some (bitAt (dir % 2 ^ 16) 2)
          else vecGet? g.prevDirs_ j := by
    refine ⟨_, ?_, ?_, hread⟩
    · simp only [setPrevAstarNodeDir, hi, hguard, and_self, if_true, s1, s2, s3]
    · rw [List.length_set, List.length_set, List.length_set]
  clear hread s1 s2 s3
  obtain ⟨p3, hset, hl3, hread⟩ := key
  refine ⟨p3, hset, hl3, ?_, ?_⟩
  · have hi1 : getIdx { g with prevDirs_ := p3 } x y z = some i := hi
    have e0 : ¬ (3 * i = 3 * i + 2) := by omega
    have e1 : ¬ (3 * i = 3 * i + 1) := by omega
    have e2 : ¬ (3 * i + 1 = 3 * i + 2) := by omega
    simp only [getPrevAstarNodeDir, hi1, hguard, and_self, if_true, hread, e0, e1, e2,
      if_false]
    exact congrArg some (three_bits_round_trip dir hd)
  · intro x1 y1 z1 hv1 hne
    obtain ⟨j, hj, hj0, hj1⟩ := getIdx_valid_bound g hwf x1 y1 z1 hv1
    have hij : j ≠ i := by
      intro e
      have := getIdx_inj g hwf x1 y1 z1 x y z hv1 hv (by rw [hj, hi, e])
      exact hne (by rw [this.1, this.2.1, this.2.2])
    have hj1g : getIdx { g with prevDirs_ := p3 } x1 y1 z1 = some j := hj
    have f0 : ¬ (3 * j = 3 * i + 2) := by omega
    have f1 : ¬ (3 * j = 3 * i + 1) := by omega
    have f2 : ¬ (3 * j = 3 * i) := by omega
    have f3 : ¬ (3 * j + 1 = 3 * i + 2) := by omega
    have f4 : ¬ (3 * j + 1 = 3 * i + 1) := by omega
    have f5 : ¬ (3 * j + 1 = 3 * i) := by omega
    have f6 : ¬ (3 * j + 2 = 3 * i + 2) := by omega
    have f7 : ¬ (3 * j + 2 = 3 * i + 1) := by omega
    have f8 : ¬ (3 * j + 2 = 3 * i) := by omega
    simp only [getPrevAstarNodeDir, hj1g, hj, hread, f0, f1, f2, f3, f4, f5, f6, f7, f8,
      if_false]

/-- C28: on a built grid whose previous-direction array has fewer than 2^31 bits, for
every valid node p and every direction value `dir` in 0..7, `setPrevAstarNodeDir(p, dir)`
is defined, `getPrevAstarNodeDir(p)` returns `dir` afterwards, and
`getPrevAstarNodeDir(q)` is unchanged for every other valid node q. -/
theorem prev_dir_round_trip (g : FlexGridGraph) (hwf : g.wellFormed)
    (hlen : (g.prevDirs_.length : Int) < 2 ^ 31) (x y z : Int)
    (hv : isValid g x y z = true) (dir : Nat) (hd : dir < 8) :
    ∃ g1, setPrevAstarNodeDir g x y z dir = some g1
      ∧ getPrevAstarNodeDir g1 x y z = some dir
      ∧ ∀ x1 y1 z1, isValid g x1 y1 z1 = true → (x1, y1, z1) ≠ (x, y, z) →
          getPrevAstarNodeDir g1 x1 y1 z1 = getPrevAstarNodeDir g x1 y1 z1 := by
  obtain ⟨p3, hset, -, hget, hframe⟩ := setPrevAstarNodeDir_spec g hwf hlen x y z hv dir hd
  exact ⟨_, hset, hget, hframe⟩

/-- Witness for C28: direction E (value 4) stored at node (1,0,0) of the sample grid. -/
theorem prev_dir_round_trip_witness :
    ∃ g1, setPrevAstarNodeDir sampleGrid 1 0 0 4 = some g1
      ∧ getPrevAstarNodeDir g1 1 0 0 = some 4
      ∧ ∀ x1 y1 z1, isValid sampleGrid x1 y1 z1 = true → (x1, y1, z1) ≠ (1, 0, 0) →
          getPrevAstarNodeDir g1 x1 y1 z1 = getPrevAstarNodeDir sampleGrid x1 y1 z1 :=
  prev_dir_round_trip sampleGrid (by decide) (by decide) 1 0 0 (by decide) 4 (by decide)

/-! ## Guides -/

theorem fillLoop_length (b : Bool) (n : Nat) :
    ∀ (v : List Bool) (first : Nat), (fillLoop v first n b).length = v.length := by
  induction n with
  | zero => intro v first; rfl
  | succ n ih =>
    intro v first
    simp only [fillLoop]
    rw [ih, List.length_set]

theorem fillLoop_getElem? (b : Bool) (n : Nat) :
    ∀ (v : List Bool) (first k : Nat), (fillLoop v first n b)[k]?
      = if first ≤ k ∧ k < first + n then (v[k]?).map (fun _ => b) else v[k]? := by
  induction n with
  | zero =>
    intro v first k
    have h : ¬ (first ≤ k ∧ k < first + 0) := by omega
    simp only [fillLoop, h, if_false]
  | succ n ih =>
    intro v first k
    simp only [fillLoop]
    rw [ih, List.getElem?_set]
    by_cases hk : first = k
    · subst hk
      have h1 : ¬ (first + 1 ≤ first ∧ first < first + 1 + n) := by omega
      have h2 : first ≤ first ∧ first < first + (n + 1) := by omega
      simp only [h1, h2, if_false, if_true]
      by_cases hl : first < v.length
      · simp [hl]
      · have hnone : v[first]? = none := List.getElem?_eq_none (by omega)
        simp [hl, hnone]
    · simp only [hk, if_false]
      have e : (first + 1 ≤ k ∧ k < first + 1 + n) ↔ (first ≤ k ∧ k < first + (n + 1)) := by
        omega
      simp only [e]

/-- A defined `fill` keeps the length and writes exactly the places of the range. -/
theorem fill_spec (v v1 : List Bool) (first last : Int) (b : Bool)
    (h : fill v first last b = some v1) :
    v1.length = v.length
      ∧ ∀ k : Int, vecGet? v1 k = if first ≤ k ∧ k < last then some b else vecGet? v k := by
  unfold fill at h
  split at h
  · rename_i hg
    have h := Option.some.inj h
    subst h
    refine ⟨fillLoop_length _ _ _ _, fun k => ?_⟩
    unfold vecGet?
    by_cases hk0 : 0 ≤ k
    · simp only [hk0, if_true]
      rw [fillLoop_getElem?]
      by_cases hin : first ≤ k ∧ k < last
      · have h1 : first.toNat ≤ k.toNat ∧ k.toNat < first.toNat + (last - first).toNat := by
          omega
        have hlt : k.toNat < v.length := by omega
        simp [h1, hin, List.getElem?_eq_getElem hlt]
      · have h1 : ¬ (first.toNat ≤ k.toNat ∧ k.toNat < first.toNat + (last - first).toNat) := by
          omega
        simp only [h1, hin, if_false]
    · have hin : ¬ (first ≤ k ∧ k < last) := by omega
      simp only [hk0, hin, if_false]
  · exact absurd h (by simp)

theorem fill_defined (v : List Bool) (first last : Int) (b : Bool) (h0 : 0 ≤ first)
    (h1 : first ≤ last) (h2 : last ≤ v.length) : ∃ v1, fill v first last b = some v1 := by
  refine ⟨fillLoop v first.toNat (last - first).toNat b, ?_⟩
  unfold fill
  rw [if_pos ⟨h0, h1, h2⟩]

/-- The guide loop over the rows `i`, .., `i + n - 1`, whose offsets are `lo r` and `hi r`,
writes `b` to the places of these rows and to no other place. -/
theorem guideLoop_spec (idx1 idx2 : Int → Option Int) (lo hi : Int → Int) (b : Bool)
    (n : Nat) :
    ∀ (v : List Bool) (i : Int), i + n < 2 ^ 31 →
      (∀ r, i ≤ r → r < i + n → idx1 r = some (lo r) ∧ idx2 r = some (hi r) ∧ 0 ≤ lo r
        ∧ lo r ≤ hi r + 1 ∧ hi r < v.length) →
      ∃ v1, guideLoop idx1 idx2 v b i n = some v1 ∧ v1.length = v.length
        ∧ (∀ k r, i ≤ r → r < i + n → lo r ≤ k → k ≤ hi r → vecGet? v1 k = some b)
        ∧ (∀ k, (∀ r, i ≤ r → r < i + n → ¬ (lo r ≤ k ∧ k ≤ hi r)) →
            vecGet? v1 k = vecGet? v k) := by
  induction n with
  | zero =>
    intro v i _ _
    refine ⟨v, rfl, rfl, ?_, fun _ _ => rfl⟩
    intro k r h1 h2
    exfalso
    push_cast at h2
    omega
  | succ n ih =>
    intro v i hb H
    obtain ⟨e1, e2, h0, h1, h2⟩ := H i (le_refl _) (by push_cast; omega)
    obtain ⟨v0, hf⟩ := fill_defined v (lo i) (hi i + 1) b h0 h1 (by omega)
    obtain ⟨hlen0, hget0⟩ := fill_spec v v0 _ _ b hf
    have hstep : i + 1 < (2 : Int) ^ 31 := by push_cast at hb; omega
    obtain ⟨v1, hl, hlen1, hin, hout⟩ := ih v0 (i + 1) (by push_cast at hb; omega)
      (by
        intro r hr1 hr2
        rw [hlen0]
        exact H r (by omega) (by push_cast; omega))
    refine ⟨v1, ?_, by rw [hlen1, hlen0], ?_, ?_⟩
    · simp only [guideLoop, e1, e2, hf, hstep, if_true, hl]
    · intro k r hr1 hr2 hk1 hk2
      by_cases hex : ∃ r1, i + 1 ≤ r1 ∧ r1 < i + 1 + n ∧ lo r1 ≤ k ∧ k ≤ hi r1
      · obtain ⟨r1, q1, q2, q3, q4⟩ := hex
        exact hin k r1 q1 q2 q3 q4
      · have hri : r = i := by
          by_contra hne
          exact hex ⟨r, by omega, by push_cast at hr2; omega, hk1, hk2⟩
        subst hri
        rw [hout k (fun r1 q1 q2 hq => hex ⟨r1, q1, q2, hq.1, hq.2⟩), hget0 k,
          if_pos ⟨hk1, by omega⟩]
    · intro k hk
      rw [hout k (fun r q1 q2 => hk r (by omega) (by push_cast; omega)), hget0 k]
      have hn := hk i (le_refl _) (by push_cast; omega)
      rw [if_neg (by omega)]

/-- The offset of a valid point, with the layer direction given. -/
theorem getIdx_form (g : FlexGridGraph) (hwf : g.wellFormed) (x y z : Int)
    (zDir : dbTechLayerDir) (hz : getZDir g z = some zDir) (hv : isValid g x y z = true) :
    getIdx g x y z = some
        ((if zDir = dbTechLayerDir.HORIZONTAL then x + y * g.xCoords_.length
          else y + x * g.yCoords_.length) + z * g.xCoords_.length * g.yCoords_.length)
      ∧ 0 ≤ (if zDir = dbTechLayerDir.HORIZONTAL then x + y * g.xCoords_.length
          else y + x * g.yCoords_.length) + z * g.xCoords_.length * g.yCoords_.length
      ∧ (if zDir = dbTechLayerDir.HORIZONTAL then x + y * g.xCoords_.length
          else y + x * g.yCoords_.length) + z * g.xCoords_.length * g.yCoords_.length
          < g.nodes_.length := by
  obtain ⟨zd, hzd, h⟩ := getIdx_of_valid g hwf x y z hv
  rw [hz] at hzd
  have e := Option.some.inj hzd
  subst e
  exact h

/-- An offset `m + z1 * P` that lies in the row `r` of the layer `z` belongs to that layer,
and its part `m` lies in the row. -/
theorem row_hit (X Y P m z1 x1 x2 r z k : Int) (hP : X * Y = P) (hm0 : 0 ≤ m) (hm : m < P)
    (hk : k = m + z1 * P) (hx1 : 0 ≤ x1) (hx2 : x2 < X) (hr0 : 0 ≤ r) (hrY : r < Y)
    (hlo : x1 + r * X + z * P ≤ k) (hhi : k ≤ x2 + r * X + z * P) :
    z1 = z ∧ x1 ≤ m - r * X ∧ m - r * X ≤ x2 := by
  have hb := flat_bound X Y 1 (k - r * X - z * P) r 0 (by omega) (by omega) hr0 hrY
    (le_refl _) (by omega)
  rw [hP] at hb
  obtain ⟨hz, hm1⟩ := flat_unique P m z1 (k - r * X - z * P + r * X) z hm0 hm hb.1 hb.2.1
    (by omega)
  exact ⟨hz, by omega, by omega⟩

/-- The offset of a valid point splits into a part below `X * Y` and the layer part. -/
theorem getIdx_split (g : FlexGridGraph) (hwf : g.wellFormed) (x y z : Int)
    (hv : isValid g x y z = true) :
    ∃ zd m, getZDir g z = some zd
      ∧ getIdx g x y z = some (m + z * ((g.xCoords_.length : Int) * g.yCoords_.length))
      ∧ m = (if zd = dbTechLayerDir.HORIZONTAL then x + y * g.xCoords_.length
          else y + x * g.yCoords_.length)
      ∧ 0 ≤ m ∧ m < (g.xCoords_.length : Int) * g.yCoords_.length := by
  obtain ⟨zd, hzd, hi, -, -⟩ := getIdx_of_valid g hwf x y z hv
  obtain ⟨hx, hxX, hy, hyY, hz, hzZ⟩ := (isValid_iff g hwf x y z).1 hv
  have e : z * (g.xCoords_.length : Int) * g.yCoords_.length
      = z * ((g.xCoords_.length : Int) * g.yCoords_.length) := by ring
  rw [e] at hi
  refine ⟨zd, _, hzd, hi, rfl, ?_⟩
  by_cases hd : zd = dbTechLayerDir.HORIZONTAL
  · simp only [hd, if_true]
    have hb := flat_bound _ _ _ x y z hx hxX hy hyY hz hzZ
    exact ⟨hb.1, hb.2.1⟩
  · simp only [hd, if_false]
    have hb := flat_bound _ _ _ y x z hy hyY hx hxX hz hzZ
    have ec : (g.yCoords_.length : Int) * g.xCoords_.length
        = (g.xCoords_.length : Int) * g.yCoords_.length := by ring
    rw [ec] at hb
    exact ⟨hb.1, hb.2.1⟩

/-- The common statement about `setGuide` and `resetGuide` on a routing layer. -/
theorem fillGuide_spec (g : FlexGridGraph) (hwf : g.wellFormed) (x1 y1 x2 y2 z : Int)
    (b : Bool) (zDir : dbTechLayerDir) (hz : getZDir g z = some zDir)
    (hdir : zDir ≠ dbTechLayerDir.NONE) (hv1 : isValid g x1 y1 z = true)
    (hv2 : isValid g x2 y2 z = true) (hx : x1 ≤ x2) (hy : y1 ≤ y2) :
    ∃ v1, fillGuide g x1 y1 x2 y2 z b = some { g with guides_ := v1 }
      ∧ ∀ x y z1, isValid g x y z1 = true →
          guideAt { g with guides_ := v1 } x y z1
            = if z1 = z ∧ x1 ≤ x ∧ x ≤ x2 ∧ y1 ≤ y ∧ y ≤ y2 then some b
              else guideAt g x y z1 := by
  obtain ⟨hx1, hx1X, hy1, hy1Y, hz0, hzZ⟩ := (isValid_iff g hwf x1 y1 z).1 hv1
  obtain ⟨hx2, hx2X, hy2, hy2Y, -, -⟩ := (isValid_iff g hwf x2 y2 z).1 hv2
  have hGN : (g.guides_.length : Int) = g.nodes_.length := by
    obtain ⟨hN, -, -, -, hG, -⟩ := hwf
    rw [hG, hN]
  have hXb : (g.xCoords_.length : Int) < 2 ^ 31 := hwf.2.2.2.2.2.2.2.1
  have hYb : (g.yCoords_.length : Int) < 2 ^ 31 := hwf.2.2.2.2.2.2.2.2.1
  have hnot : ¬ (x2 < x1 ∨ y2 < y1) := by omega
  have eP : z * (g.xCoords_.length : Int) * g.yCoords_.length
      = z * ((g.xCoords_.length : Int) * g.yCoords_.length) := by ring
  cases zDir with
  | NONE => exact absurd rfl hdir
  | HORIZONTAL =>
    have hrow : ∀ r, y1 ≤ r → r < y1 + ((y2 - y1 + 1).toNat : Int) →
        getIdx g x1 r z = some (x1 + r * g.xCoords_.length
            + z * ((g.xCoords_.length : Int) * g.yCoords_.length))
          ∧ getIdx g x2 r z = some (x2 + r * g.xCoords_.length
            + z * ((g.xCoords_.length : Int) * g.yCoords_.length))
          ∧ 0 ≤ x1 + r * g.xCoords_.length
            + z * ((g.xCoords_.length : Int) * g.yCoords_.length)
          ∧ x1 + r * g.xCoords_.length + z * ((g.xCoords_.length : Int) * g.yCoords_.length)
            ≤ x2 + r * g.xCoords_.length
              + z * ((g.xCoords_.length : Int) * g.yCoords_.length) + 1
          ∧ x2 + r * g.xCoords_.length + z * ((g.xCoords_.length : Int) * g.yCoords_.length)
            < g.guides_.length := by
      intro r hr1 hr2
      have va : isValid g x1 r z = true :=
        (isValid_iff g hwf x1 r z).2 ⟨hx1, hx1X, by omega, by omega, hz0, hzZ⟩
      have vb : isValid g x2 r z = true :=
        (isValid_iff g hwf x2 r z).2 ⟨hx2, hx2X, by omega, by omega, hz0, hzZ⟩
      obtain ⟨ia, ia0, -⟩ := getIdx_form g hwf x1 r z _ hz va
      obtain ⟨ib, -, ib1⟩ := getIdx_form g hwf x2 r z _ hz vb
      simp only [if_true, eP] at ia ia0 ib ib1
      exact ⟨ia, ib, ia0, by omega, by omega⟩
    obtain ⟨v1, hl, -, hin, hout⟩ := guideLoop_spec (fun i => getIdx g x1 i z)
      (fun i => getIdx g x2 i z)
      (fun r => x1 + r * g.xCoords_.length
        + z * ((g.xCoords_.length : Int) * g.yCoords_.length))
      (fun r => x2 + r * g.xCoords_.length
        + z * ((g.xCoords_.length : Int) * g.yCoords_.length))
      b (y2 - y1 + 1).toNat g.guides_ y1 (by omega) (fun r h1 h2 => hrow r h1 h2)
    refine ⟨v1, ?_, ?_⟩
    · simp only [fillGuide, hnot, if_false, hz, hl, Option.map_some']
    · intro x y z1 hv
      obtain ⟨zd, m, hzd, hi, hm, hm0, hmP⟩ := getIdx_split g hwf x y z1 hv
      obtain ⟨px, pxX, py, pyY, -, -⟩ := (isValid_iff g hwf x y z1).1 hv
      have hi1 : getIdx { g with guides_ := v1 } x y z1
          = some (m + z1 * ((g.xCoords_.length : Int) * g.yCoords_.length)) := hi
      simp only [guideAt, hi, hi1]
      by_cases hbox : z1 = z ∧ x1 ≤ x ∧ x ≤ x2 ∧ y1 ≤ y ∧ y ≤ y2
      · rw [if_pos hbox]
        obtain ⟨ez, b1, b2, b3, b4⟩ := hbox
        subst ez
        rw [hz] at hzd
        have ed := Option.some.inj hzd
        subst ed
        simp only [if_true] at hm
        exact hin _ y b3 (by omega) (by show _ ≤ _; omega) (by show _ ≤ _; omega)
      · rw [if_neg hbox]
        refine hout _ (fun r h1 h2 hq => hbox ?_)
        obtain ⟨ez, q1, q2⟩ := row_hit _ _ _ m z1 x1 x2 r z _ rfl hm0 hmP rfl hx1 hx2X
          (by omega) (by omega) hq.1 hq.2
        subst ez
        rw [hz] at hzd
        have ed := Option.some.inj hzd
        subst ed
        simp only [if_true] at hm
        obtain ⟨e1, e2⟩ := flat_unique g.xCoords_.length x y (m - r * g.xCoords_.length) r
          px pxX (by omega) (by omega) (by omega)
        exact ⟨rfl, by omega, by omega, by omega, by omega⟩
  | VERTICAL =>
    have hrow : ∀ r, x1 ≤ r → r < x1 + ((x2 - x1 + 1).toNat : Int) →
        getIdx g r y1 z = some (y1 + r * g.yCoords_.length
            + z * ((g.xCoords_.length : Int) * g.yCoords_.length))
          ∧ getIdx g r y2 z = some (y2 + r * g.yCoords_.length
            + z * ((g.xCoords_.length : Int) * g.yCoords_.length))
          ∧ 0 ≤ y1 + r * g.yCoords_.length
            + z * ((g.xCoords_.length : Int) * g.yCoords_.length)
          ∧ y1 + r * g.yCoords_.length + z * ((g.xCoords_.length : Int) * g.yCoords_.length)
            ≤ y2 + r * g.yCoords_.length
              + z * ((g.xCoords_.length : Int) * g.yCoords_.length) + 1
          ∧ y2 + r * g.yCoords_.length + z * ((g.xCoords_.length : Int) * g.yCoords_.length)
            < g.guides_.length := by
      intro r hr1 hr2
      have va : isValid g r y1 z = true :=
        (isValid_iff g hwf r y1 z).2 ⟨by omega, by omega, hy1, hy1Y, hz0, hzZ⟩
      have vb : isValid g r y2 z = true :=
        (isValid_iff g hwf r y2 z).2 ⟨by omega, by omega, hy2, hy2Y, hz0, hzZ⟩
      obtain ⟨ia, ia0, -⟩ := getIdx_form g hwf r y1 z _ hz va
      obtain ⟨ib, -, ib1⟩ := getIdx_form g hwf r y2 z _ hz vb
      have hne : ¬ (dbTechLayerDir.VERTICAL = dbTechLayerDir.HORIZONTAL) := by decide
      simp only [hne, if_false, eP] at ia ia0 ib ib1
      exact ⟨ia, ib, ia0, by omega, by omega⟩
    obtain ⟨v1, hl, -, hin, hout⟩ := guideLoop_spec (fun i => getIdx g i y1 z)
      (fun i => getIdx g i y2 z)
      (fun r => y1 + r * g.yCoords_.length
        + z * ((g.xCoords_.length : Int) * g.yCoords_.length))
      (fun r => y2 + r * g.yCoords_.length
        + z * ((g.xCoords_.length : Int) * g.yCoords_.length))
      b (x2 - x1 + 1).toNat g.guides_ x1 (by omega) (fun r h1 h2 => hrow r h1 h2)
    refine ⟨v1, ?_, ?_⟩
    · simp only [fillGuide, hnot, if_false, hz, hl, Option.map_some']
    · intro x y z1 hv
      obtain ⟨zd, m, hzd, hi, hm, hm0, hmP⟩ := getIdx_split g hwf x y z1 hv
      obtain ⟨px, pxX, py, pyY, -, -⟩ := (isValid_iff g hwf x y z1).1 hv
      have hi1 : getIdx { g with guides_ := v1 } x y z1
          = some (m + z1 * ((g.xCoords_.length : Int) * g.yCoords_.length)) := hi
      have hne : ¬ (dbTechLayerDir.VERTICAL = dbTechLayerDir.HORIZONTAL) := by decide
      simp only [guideAt, hi, hi1]
      by_cases hbox : z1 = z ∧ x1 ≤ x ∧ x ≤ x2 ∧ y1 ≤ y ∧ y ≤ y2
      · rw [if_pos hbox]
        obtain ⟨ez, b1, b2, b3, b4⟩ := hbox
        subst ez
        rw [hz] at hzd
        have ed := Option.some.inj hzd
        subst ed
        simp only [hne, if_false] at hm
        exact hin _ x b1 (by omega) (by show _ ≤ _; omega) (by show _ ≤ _; omega)
      · rw [if_neg hbox]
        refine hout _ (fun r h1 h2 hq => hbox ?_)
        obtain ⟨ez, q1, q2⟩ := row_hit _ _ _ m z1 y1 y2 r z _
          (mul_comm (g.yCoords_.length : Int) g.xCoords_.length) hm0 hmP rfl hy1 hy2Y
          (by omega) (by omega) hq.1 hq.2
        subst ez
        rw [hz] at hzd
        have ed := Option.some.inj hzd
        subst ed
        simp only [hne, if_false] at hm
        obtain ⟨e1, e2⟩ := flat_unique g.yCoords_.length y x (m - r * g.yCoords_.length) r
          py pyY (by omega) (by omega) (by omega)
        exact ⟨rfl, by omega, by omega, by omega, by omega⟩

/-- C29: on a built grid, for a layer z whose direction is HORIZONTAL or VERTICAL and valid
indices with x1 <= x2 and y1 <= y2, `setGuide` and `resetGuide` are defined and change
nothing but the guide mask; afterwards the guide bit of every valid node (x, y, z) of the
box is true (false after `resetGuide`) and the guide bit of every other valid node, on
layer z or any other layer, is the one before the call. When x2 < x1 or y2 < y1 both calls
leave the grid as it is. -/
theorem setGuide_marks_index_box (g : FlexGridGraph) (hwf : g.wellFormed)
    (x1 y1 x2 y2 z : Int) (zDir : dbTechLayerDir) (hz : getZDir g z = some zDir)
    (hdir : zDir = dbTechLayerDir.HORIZONTAL ∨ zDir = dbTechLayerDir.VERTICAL)
    (hv1 : isValid g x1 y1 z = true) (hv2 : isValid g x2 y2 z = true)
    (hx : x1 ≤ x2) (hy : y1 ≤ y2) :
    (∃ g1 g2, setGuide g x1 y1 x2 y2 z = some g1 ∧ resetGuide g x1 y1 x2 y2 z = some g2
      ∧ { g1 with guides_ := g.guides_ } = g ∧ { g2 with guides_ := g.guides_ } = g
      ∧ ∀ x y z1, isValid g x y z1 = true →
          guideAt g1 x y z1
              = (if z1 = z ∧ x1 ≤ x ∧ x ≤ x2 ∧ y1 ≤ y ∧ y ≤ y2 then some true
                else guideAt g x y z1)
            ∧ guideAt g2 x y z1
              = (if z1 = z ∧ x1 ≤ x ∧ x ≤ x2 ∧ y1 ≤ y ∧ y ≤ y2 then some false
                else guideAt g x y z1))
    ∧ ∀ a1 b1 a2 b2 c, (a2 < a1 ∨ b2 < b1) →
        setGuide g a1 b1 a2 b2 c = some g ∧ resetGuide g a1 b1 a2 b2 c = some g := by
  have hne : zDir ≠ dbTechLayerDir.NONE := by
    rcases hdir with h | h <;> rw [h] <;> decide
  obtain ⟨v1, hs1, hp1⟩ := fillGuide_spec g hwf x1 y1 x2 y2 z true zDir hz hne hv1 hv2 hx hy
  obtain ⟨v2, hs2, hp2⟩ := fillGuide_spec g hwf x1 y1 x2 y2 z false zDir hz hne hv1 hv2 hx hy
  refine ⟨⟨_, _, hs1, hs2, rfl, rfl, fun x y z1 hv => ⟨hp1 x y z1 hv, hp2 x y z1 hv⟩⟩, ?_⟩
  intro a1 b1 a2 b2 c h
  simp only [setGuide, resetGuide, fillGuide, h, if_true, and_self]

/-- Witness for C29: the box of the columns 0..1 and the rows 0..1 on both layers of the
three by two grid; the horizontal layer is marked in two runs of its row-major part of the
mask, the vertical layer in one run of its column-major part. -/
theorem setGuide_marks_index_box_witness :
    setGuide guideGrid 0 0 1 1 0 = some { guideGrid with guides_ :=
        [true, true, false, true, true, false, false, false, false, false, false, false] }
    ∧ setGuide guideGrid 0 0 1 1 1 = some { guideGrid with guides_ :=
        [false, false, false, false, false, false, true, true, true, true, false, false] }
    ∧ ((∃ g1 g2, setGuide guideGrid 0 0 1 1 0 = some g1
        ∧ resetGuide guideGrid 0 0 1 1 0 = some g2
        ∧ { g1 with guides_ := guideGrid.guides_ } = guideGrid
        ∧ { g2 with guides_ := guideGrid.guides_ } = guideGrid
        ∧ ∀ x y z1, isValid guideGrid x y z1 = true →
            guideAt g1 x y z1
                = (if z1 = 0 ∧ 0 ≤ x ∧ x ≤ 1 ∧ 0 ≤ y ∧ y ≤ 1 then some true
                  else guideAt guideGrid x y z1)
              ∧ guideAt g2 x y z1
                = (if z1 = 0 ∧ 0 ≤ x ∧ x ≤ 1 ∧ 0 ≤ y ∧ y ≤ 1 then some false
                  else guideAt guideGrid x y z1))
      ∧ ∀ a1 b1 a2 b2 c, (a2 < a1 ∨ b2 < b1) →
          setGuide guideGrid a1 b1 a2 b2 c = some guideGrid
            ∧ resetGuide guideGrid a1 b1 a2 b2 c = some guideGrid) :=
  ⟨by decide, by decide,
    setGuide_marks_index_box guideGrid (by decide) 0 0 1 1 0 dbTechLayerDir.HORIZONTAL
      (by decide) (by decide) (by decide) (by decide) (by decide) (by decide)⟩

/-! ## Search on a straight corridor -/

theorem corridor_sizes (g : FlexGridGraph) (s t : Int) (hc : unobstructedCorridor g s t) :
    g.nodes_.length = g.xCoords_.length ∧ g.srcs_.length = g.xCoords_.length
      ∧ g.dsts_.length = g.xCoords_.length ∧ g.zHeights_.length = 1
      ∧ g.prevDirs_.length = 3 * g.xCoords_.length := by
  obtain ⟨⟨hN, hP, hS, hD, -, hH, -⟩, hY, hZ, -⟩ := hc
  rw [hY, hZ] at hN hP hS hD
  rw [hZ] at hH
  simp only [Nat.mul_one] at hN hP hS hD
  exact ⟨hN, hS, hD, hH, hP⟩

theorem corridor_isValid (g : FlexGridGraph) (s t : Int) (hc : unobstructedCorridor g s t)
    (x y z : Int) :
    isValid g x y z = true ↔ 0 ≤ x ∧ x < g.xCoords_.length ∧ y = 0 ∧ z = 0 := by
  rw [isValid_iff g hc.1]
  obtain ⟨-, hY, hZ, -⟩ := hc
  rw [hY, hZ]
  constructor
  · rintro ⟨h1, h2, h3, h4, h5, h6⟩
    exact ⟨h1, h2, by omega, by omega⟩
  · rintro ⟨h1, h2, h3, h4⟩
    exact ⟨h1, h2, by omega, by omega, by omega, by omega⟩

theorem corridor_getIdx (g : FlexGridGraph) (s t : Int) (hc : unobstructedCorridor g s t)
    (x : Int) (h0 : 0 ≤ x) (h1 : x < g.xCoords_.length) : getIdx g x 0 0 = some x := by
  have hv := (corridor_isValid g s t hc x 0 0).2 ⟨h0, h1, rfl, rfl⟩
  obtain ⟨zd, -, hi, -, -⟩ := getIdx_of_valid g hc.1 x 0 0 hv
  rw [hi]
  have hY : (g.yCoords_.length : Int) = 1 := by rw [hc.2.1]; rfl
  by_cases hd : zd = dbTechLayerDir.HORIZONTAL <;> simp [hd, hY]

theorem corridor_nodeAt (g : FlexGridGraph) (s t : Int) (hc : unobstructedCorridor g s t)
    (x : Int) (h0 : 0 ≤ x) (h1 : x < g.xCoords_.length) :
    nodeAt g x 0 0 = some (if x + 1 < g.xCoords_.length then openNode else Node.zero) := by
  obtain ⟨hN, -⟩ := corridor_sizes g s t hc
  have hn := hc.2.2.2.2.2.2.1 x.toNat (by omega)
  simp only [nodeAt, corridor_getIdx g s t hc x h0 h1, vecGet?, h0, if_true, hn]
  by_cases hx : x + 1 < g.xCoords_.length
  · rw [if_pos hx, if_pos (by omega)]
  · rw [if_neg hx, if_neg (by omega)]

theorem corridor_isSrc (g : FlexGridGraph) (s t : Int) (hc : unobstructedCorridor g s t)
    (x : Int) (h0 : 0 ≤ x) (h1 : x < g.xCoords_.length) :
    isSrc g x 0 0 = some (decide (x = s)) := by
  obtain ⟨-, hS, -⟩ := corridor_sizes g s t hc
  have hn := hc.2.2.2.2.2.2.2.2.2.1 x.toNat (by omega)
  have e : ((x.toNat : Nat) : Int) = x := by omega
  rw [e] at hn
  simp only [isSrc, corridor_getIdx g s t hc x h0 h1, vecGet?, h0, if_true, hn]

theorem corridor_isDst (g : FlexGridGraph) (s t : Int) (hc : unobstructedCorridor g s t)
    (x : Int) (h0 : 0 ≤ x) (h1 : x < g.xCoords_.length) :
    isDst g x 0 0 = some (decide (x = t)) := by
  obtain ⟨-, -, hD, -⟩ := corridor_sizes g s t hc
  have hn := hc.2.2.2.2.2.2.2.2.2.2 x.toNat (by omega)
  have e : ((x.toNat : Nat) : Int) = x := by omega
  rw [e] at hn
  simp only [isDst, corridor_getIdx g s t hc x h0 h1, vecGet?, h0, if_true, hn]

theorem corridor_xCoord (g : FlexGridGraph) (x : Int) (h0 : 0 ≤ x)
    (h1 : x < g.xCoords_.length) : xCoord g x = some (g.xCoords_.getD x.toNat 0) := by
  have hlt : x.toNat < g.xCoords_.length := by omega
  simp only [xCoord, vecGet?, h0, if_true, List.getD_eq_getElem _ _ hlt,
    List.getElem?_eq_getElem hlt]

theorem corridor_coord_lt (g : FlexGridGraph) (s t : Int) (hc : unobstructedCorridor g s t)
    (x x1 : Int) (h0 : 0 ≤ x) (h : x < x1) (h1 : x1 < g.xCoords_.length) :
    g.xCoords_.getD x.toNat 0 < g.xCoords_.getD x1.toNat 0 :=
  strictlyIncreasing_getD g.xCoords_ hc.2.2.2.2.1 x.toNat x1.toNat (by omega) (by omega)

theorem corridor_coord_range (g : FlexGridGraph) (s t : Int) (hc : unobstructedCorridor g s t)
    (x : Int) (h0 : 0 ≤ x) (h1 : x < g.xCoords_.length) :
    - 2 ^ 30 ≤ g.xCoords_.getD x.toNat 0 ∧ g.xCoords_.getD x.toNat 0 < 2 ^ 30 := by
  have hlt : x.toNat < g.xCoords_.length := by omega
  rw [List.getD_eq_getElem _ _ hlt]
  exact hc.2.2.2.2.2.1 _ (List.getElem_mem hlt)

/-- The node of a column of a corridor: only the East edge bit may be set. -/
theorem corridor_node (g : FlexGridGraph) (s t : Int) (hc : unobstructedCorridor g s t)
    (x : Int) (h0 : 0 ≤ x) (h1 : x < g.xCoords_.length) :
    ∃ node, nodeAt g x 0 0 = some node
      ∧ node.hasEastEdge = decide (x + 1 < g.xCoords_.length)
      ∧ node.hasNorthEdge = false ∧ node.hasUpEdge = false
      ∧ node.isBlockedEast = false ∧ node.isBlockedNorth = false ∧ node.isBlockedUp = false
      ∧ node.hasGridCostEast = false ∧ node.markerCostPlanar = 0
      ∧ node.fixedShapeCostPlanarHorz = 0 := by
  refine ⟨_, corridor_nodeAt g s t hc x h0 h1, ?_⟩
  by_cases hx : x + 1 < g.xCoords_.length
  · simp only [hx, if_true, decide_True]
    decide
  · simp only [hx, if_false, decide_False]
    decide

theorem corridor_hasEdge_E (g : FlexGridGraph) (s t : Int) (hc : unobstructedCorridor g s t)
    (x : Int) (h0 : 0 ≤ x) (h1 : x < g.xCoords_.length) :
    hasEdge g x 0 0 frDirEnum.E = some (decide (x + 1 < g.xCoords_.length)) := by
  obtain ⟨node, hn, hE, -⟩ := corridor_node g s t hc x h0 h1
  have hv := (corridor_isValid g s t hc x 0 0).2 ⟨h0, h1, rfl, rfl⟩
  simp only [hasEdge, correct, hv, if_true, hn, hE]

theorem corridor_hasEdge_W (g : FlexGridGraph) (s t : Int) (hc : unobstructedCorridor g s t)
    (x : Int) (h0 : 0 ≤ x) (h1 : x < g.xCoords_.length) :
    hasEdge g x 0 0 frDirEnum.W = some (decide (0 ≤ x - 1)) := by
  by_cases hx : 0 ≤ x - 1
  · obtain ⟨node, hn, hE, -⟩ := corridor_node g s t hc (x - 1) hx (by omega)
    have hv := (corridor_isValid g s t hc (x - 1) 0 0).2 ⟨hx, by omega, rfl, rfl⟩
    have e : x - 1 + 1 < (g.xCoords_.length : Int) := by omega
    simp only [hasEdge, correct, hv, if_true, hn, hE, e, hx]
  · have hv : ¬ (isValid g (x - 1) 0 0 = true) := by
      rw [corridor_isValid g s t hc]
      omega
    simp only [hasEdge, correct, hv, Bool.false_eq_true, if_false, hx, decide_False]

theorem corridor_hasEdge_side (g : FlexGridGraph) (s t : Int)
    (hc : unobstructedCorridor g s t) (x : Int) (h0 : 0 ≤ x) (h1 : x < g.xCoords_.length)
    (dir : frDirEnum) (hE : dir ≠ frDirEnum.E) (hW : dir ≠ frDirEnum.W) :
    hasEdge g x 0 0 dir = some false := by
  obtain ⟨node, hn, -, hN, hU, -⟩ := corridor_node g s t hc x h0 h1
  have hv := (corridor_isValid g s t hc x 0 0).2 ⟨h0, h1, rfl, rfl⟩
  have hvS : ¬ (isValid g x (0 - 1) 0 = true) := by
    rw [corridor_isValid g s t hc]
    omega
  have hvD : ¬ (isValid g x 0 (0 - 1) = true) := by
    rw [corridor_isValid g s t hc]
    omega
  cases dir with
  | E => exact absurd rfl hE
  | W => exact absurd rfl hW
  | N => simp only [hasEdge, correct, hv, if_true, hn, hN]
  | U => simp only [hasEdge, correct, hv, if_true, hn, hU]
  | UNKNOWN => simp only [hasEdge, correct, hv, if_true, hn]
  | S => simp only [hasEdge, correct, hvS, Bool.false_eq_true, if_false]
  | D => simp only [hasEdge, correct, hvD, Bool.false_eq_true, if_false]

theorem corridor_isBlocked_E (g : FlexGridGraph) (s t : Int) (hc : unobstructedCorridor g s t)
    (x : Int) (h0 : 0 ≤ x) (h1 : x < g.xCoords_.length) :
    isBlocked g x 0 0 frDirEnum.E = some false := by
  obtain ⟨node, hn, -, -, -, hB, -⟩ := corridor_node g s t hc x h0 h1
  have hv := (corridor_isValid g s t hc x 0 0).2 ⟨h0, h1, rfl, rfl⟩
  simp only [isBlocked, correct, hv, if_true, hn, hB]

theorem corridor_isBlocked_W (g : FlexGridGraph) (s t : Int) (hc : unobstructedCorridor g s t)
    (x : Int) (h0 : 0 ≤ x - 1) (h1 : x < g.xCoords_.length) :
    isBlocked g x 0 0 frDirEnum.W = some false := by
  obtain ⟨node, hn, -, -, -, hB, -⟩ := corridor_node g s t hc (x - 1) h0 (by omega)
  have hv := (corridor_isValid g s t hc (x - 1) 0 0).2 ⟨h0, by omega, rfl, rfl⟩
  simp only [isBlocked, correct, hv, if_true, hn, hB]

theorem corridor_getEdgeLength_E (g : FlexGridGraph) (s t : Int)
    (hc : unobstructedCorridor g s t) (x : Int) (h0 : 0 ≤ x)
    (h1 : x + 1 < g.xCoords_.length) :
    getEdgeLength g x 0 0 frDirEnum.E
      = some (g.xCoords_.getD (x + 1).toNat 0 - g.xCoords_.getD x.toNat 0) := by
  have ea := corridor_xCoord g (x + 1) (by omega) h1
  have eb := corridor_xCoord g x h0 (by omega)
  have ra := corridor_coord_range g s t hc (x + 1) (by omega) h1
  have rb := corridor_coord_range g s t hc x h0 (by omega)
  simp only [xCoord] at ea eb
  have hfit : - 2 ^ 31 ≤ g.xCoords_.getD (x + 1).toNat 0 - g.xCoords_.getD x.toNat 0
      ∧ g.xCoords_.getD (x + 1).toNat 0 - g.xCoords_.getD x.toNat 0 < 2 ^ 31 := by omega
  simp only [getEdgeLength, correct, ea, eb, subCoord, hfit, and_self, if_true]

theorem corridor_getCosts_E (g : FlexGridGraph) (s t : Int) (hc : unobstructedCorridor g s t)
    (w : CostWeights) (x : Int) (h0 : 0 ≤ x) (h1 : x + 1 < g.xCoords_.length) :
    getCosts g w x 0 0 frDirEnum.E
      = some (g.xCoords_.getD (x + 1).toNat 0 - g.xCoords_.getD x.toNat 0) := by
  obtain ⟨node, hn, -, -, -, -, -, -, hG, -⟩ := corridor_node g s t hc x h0 (by omega)
  obtain ⟨node1, hn1, -, -, -, -, -, -, -, hM, hF⟩ :=
    corridor_node g s t hc (x + 1) (by omega) h1
  have e1 : hasGridCost g x 0 0 frDirEnum.E = some false := by
    simp only [hasGridCost, correct, hasGridCostE, hn, Option.map_some', hG]
  have e2 : getFixedShapeCostAdj g x 0 0 frDirEnum.E = some 0 := by
    simp [getFixedShapeCostAdj, reverse, hn1, hF]
  have e3 : getMarkerCostAdj g x 0 0 frDirEnum.E = some 0 := by
    simp [getMarkerCostAdj, reverse, hn1, hM]
  simp [getCosts, e1, e2, e3, corridor_getEdgeLength_E g s t hc x h0 h1]

theorem corridor_getCosts_W (g : FlexGridGraph) (s t : Int) (hc : unobstructedCorridor g s t)
    (w : CostWeights) (x : Int) (h0 : 0 ≤ x - 1) (h1 : x < g.xCoords_.length) :
    getCosts g w x 0 0 frDirEnum.W
      = some (g.xCoords_.getD x.toNat 0 - g.xCoords_.getD (x - 1).toNat 0) := by
  obtain ⟨node1, hn1, -, -, -, -, -, -, hG, hM, hF⟩ :=
    corridor_node g s t hc (x - 1) h0 (by omega)
  have e1 : hasGridCost g x 0 0 frDirEnum.W = some false := by
    simp only [hasGridCost, correct, hasGridCostE, hn1, Option.map_some', hG]
  have e2 : getFixedShapeCostAdj g x 0 0 frDirEnum.W = some 0 := by
    simp [getFixedShapeCostAdj, reverse, hn1, hF]
  have e3 : getMarkerCostAdj g x 0 0 frDirEnum.W = some 0 := by
    simp [getMarkerCostAdj, reverse, hn1, hM]
  have e4 : getEdgeLength g x 0 0 frDirEnum.W = getEdgeLength g (x - 1) 0 0 frDirEnum.E := by
    simp only [getEdgeLength, correct]
  have e5 := corridor_getEdgeLength_E g s t hc (x - 1) h0 (by omega)
  have e6 : x - 1 + 1 = x := by omega
  rw [e6] at e5
  simp [getCosts, e1, e2, e3, e4, e5]

theorem vecGet?_getD (v : List Int) (x : Int) (h0 : 0 ≤ x) (h1 : x < v.length) :
    vecGet? v x = some (v.getD x.toNat 0) := by
  have hlt : x.toNat < v.length := by omega
  simp only [vecGet?, h0, if_true, List.getD_eq_getElem _ _ hlt, List.getElem?_eq_getElem hlt]

theorem axisDist_point (c a : Int) : axisDist c a a = max (a - c) (c - a) := by
  unfold axisDist
  omega

/-- The heuristic of a column of a corridor is its distance to the destination column. -/
theorem corridor_getEstCost (g : FlexGridGraph) (s t : Int) (hc : unobstructedCorridor g s t)
    (x : Int) (h0 : 0 ≤ x) (h1 : x < g.xCoords_.length) :
    getEstCost g { x := x, y := 0, z := 0 } { x := t, y := 0, z := 0 }
        { x := t, y := 0, z := 0 }
      = some (max (g.xCoords_.getD t.toNat 0 - g.xCoords_.getD x.toNat 0)
          (g.xCoords_.getD x.toNat 0 - g.xCoords_.getD t.toNat 0)) := by
  obtain ⟨-, -, -, hH, -⟩ := corridor_sizes g s t hc
  have ex := vecGet?_getD g.xCoords_ x h0 h1
  have et := vecGet?_getD g.xCoords_ t hc.2.2.2.2.2.2.2.2.1.1 hc.2.2.2.2.2.2.2.2.1.2
  have ey := vecGet?_getD g.yCoords_ 0 (le_refl _) (by rw [hc.2.1]; decide)
  have ez := vecGet?_getD g.zHeights_ 0 (le_refl _) (by rw [hH]; decide)
  simp only [getEstCost, xCoord, yCoord, getZHeight, ex, et, ey, ez, axisDist_point]
  congr 1
  omega

/-- Storing a previous direction keeps a corridor a corridor. -/
theorem corridor_setPrev (g : FlexGridGraph) (s t : Int) (hc : unobstructedCorridor g s t)
    (x : Int) (h0 : 0 ≤ x) (h1 : x < g.xCoords_.length) (dir : Nat) (hd : dir < 8) :
    ∃ g1, setPrevAstarNodeDir g x 0 0 dir = some g1 ∧ unobstructedCorridor g1 s t
      ∧ g1.xCoords_ = g.xCoords_
      ∧ getPrevAstarNodeDir g1 x 0 0 = some dir
      ∧ ∀ x1 : Int, 0 ≤ x1 → x1 < g.xCoords_.length → x1 ≠ x →
          getPrevAstarNodeDir g1 x1 0 0 = getPrevAstarNodeDir g x1 0 0 := by
  have hv := (corridor_isValid g s t hc x 0 0).2 ⟨h0, h1, rfl, rfl⟩
  obtain ⟨p3, hset, hl3, hget, hframe⟩ :=
    setPrevAstarNodeDir_spec g hc.1 hc.2.2.2.1 x 0 0 hv dir hd
  refine ⟨_, hset, ?_, rfl, hget, ?_⟩
  · obtain ⟨⟨w1, w2, w3, w4, w5, w6, w7, w8, w9, w10, w11⟩, hY, hZ, hP, c5, c6, c7, c8, c9,
      c10, c11⟩ := hc
    have hP1 : (p3.length : Int) < 2 ^ 31 := by rw [hl3]; exact hP
    exact ⟨⟨w1, hl3.trans w2, w3, w4, w5, w6, w7, w8, w9, w10, w11⟩, hY, hZ, hP1, c5, c6, c7,
      c8, c9, c10, c11⟩
  · intro x1 q0 q1 hne
    have hv1 := (corridor_isValid g s t hc x1 0 0).2 ⟨q0, q1, rfl, rfl⟩
    exact hframe x1 0 0 hv1 (by
      intro e
      exact hne (congrArg Prod.fst e))

theorem popMin_mem (ws : List FlexWavefrontGrid) :
    ∀ m rest, popMin ws = some (m, rest) → m ∈ ws := by
  induction ws with
  | nil => intro m rest h; simp [popMin] at h
  | cons e tl ih =>
    intro m rest h
    simp only [popMin] at h
    cases hp : popMin tl with
    | none =>
      rw [hp] at h
      simp only [Option.some.injEq, Prod.mk.injEq] at h
      rw [← h.1]
      exact List.mem_cons_self _ _
    | some pr =>
      obtain ⟨m1, rest1⟩ := pr
      rw [hp] at h
      simp only at h
      by_cases hlt : m1.cost < e.cost
      · rw [if_pos hlt] at h
        simp only [Option.some.injEq, Prod.mk.injEq] at h
        rw [← h.1]
        exact List.mem_cons_of_mem _ (ih m1 rest1 hp)
      · rw [if_neg hlt] at h
        simp only [Option.some.injEq, Prod.mk.injEq] at h
        rw [← h.1]
        exact List.mem_cons_self _ _

theorem popMin_none (ws : List FlexWavefrontGrid) (h : popMin ws = none) : ws = [] := by
  cases ws with
  | nil => rfl
  | cons e tl =>
    simp only [popMin] at h
    cases hp : popMin tl with
    | none => rw [hp] at h; simp at h
    | some pr =>
      obtain ⟨m1, rest1⟩ := pr
      rw [hp] at h
      simp only at h
      by_cases hlt : m1.cost < e.cost
      · rw [if_pos hlt] at h; simp at h
      · rw [if_neg hlt] at h; simp at h

/-- The one entry of strictly lowest estimated cost is the entry that is popped. -/
theorem popMin_strict_min (f : FlexWavefrontGrid) (R : List FlexWavefrontGrid)
    (hR : ∀ e ∈ R, f.cost < e.cost) :
    ∀ L : List FlexWavefrontGrid, (∀ e ∈ L, f.cost < e.cost) →
      popMin (L ++ f :: R) = some (f, L ++ R) := by
  intro L
  induction L with
  | nil =>
    intro _
    simp only [List.nil_append, popMin]
    cases hp : popMin R with
    | none =>
      rw [popMin_none R hp]
    | some pr =>
      obtain ⟨m1, rest1⟩ := pr
      have hm := hR m1 (popMin_mem R m1 rest1 hp)
      simp only
      rw [if_neg (by omega)]
  | cons e tl ih =>
    intro hL
    have h1 := ih (fun a ha => hL a (List.mem_cons_of_mem _ ha))
    have h2 := hL e (List.mem_cons_self _ _)
    show popMin (e :: (tl ++ f :: R)) = some (f, e :: (tl ++ R))
    rw [popMin, h1]
    simp only [h2, if_true]

/-- The step towards the destination column inserts the entry of the next column. -/
theorem expand_forward (g : FlexGridGraph) (s t : Int) (hc : unobstructedCorridor g s t)
    (w : CostWeights) (legal : frDirEnum → frDirEnum → Bool) (vs : List VisitedNode)
    (ws : List FlexWavefrontGrid) (σ : Int) (d : frDirEnum)
    (hd : (d = frDirEnum.E ∧ σ = 1) ∨ (d = frDirEnum.W ∧ σ = -1))
    (x pc ec : Int) (ld : frDirEnum) (h0 : 0 ≤ x) (h1 : x < g.xCoords_.length)
    (hn0 : 0 ≤ x + σ) (hn1 : x + σ < g.xCoords_.length) (ht : 0 ≤ σ * (t - (x + σ)))
    (hlegal : legal ld d = true) (hnv : ∀ c, isVisitedAt vs (x + σ) 0 0 c = false) :
    expand g w legal { x := t, y := 0, z := 0 } { x := t, y := 0, z := 0 } vs
        { x := x, y := 0, z := 0, pathCost := pc, cost := ec, lastDir := ld } d ws
      = some (ws ++ [
        { x := x + σ, y := 0, z := 0,
          pathCost := pc + σ * (g.xCoords_.getD (x + σ).toNat 0 - g.xCoords_.getD x.toNat 0),
          cost := pc + σ * (g.xCoords_.getD t.toNat 0 - g.xCoords_.getD x.toNat 0),
          lastDir := d }]) := by
  have ht0 := hc.2.2.2.2.2.2.2.2.1.1
  have ht1 := hc.2.2.2.2.2.2.2.2.1.2
  have e4 := corridor_getEstCost g s t hc (x + σ) hn0 hn1
  rcases hd with ⟨rfl, rfl⟩ | ⟨rfl, rfl⟩
  · have e1 : hasEdge g x 0 0 frDirEnum.E = some true := by
      rw [corridor_hasEdge_E g s t hc x h0 h1]
      simp only [hn1, decide_True]
    have e2 := corridor_isBlocked_E g s t hc x h0 h1
    have e3 := corridor_getCosts_E g s t hc w x h0 hn1
    have hmono : g.xCoords_.getD (x + 1).toNat 0 ≤ g.xCoords_.getD t.toNat 0 := by
      rcases eq_or_lt_of_le (show x + 1 ≤ t by omega) with h | h
      · rw [h]
      · exact le_of_lt (corridor_coord_lt g s t hc (x + 1) t hn0 h ht1)
    simp only [expand, e1, e2, hlegal, if_true, reverse, e3, e4, hnv, Bool.false_eq_true,
      if_false]
    refine congrArg some (congrArg (fun e => ws ++ [e]) ?_)
    simp only [FlexWavefrontGrid.mk.injEq, true_and, and_true]
    constructor <;> omega
  · have hx1 : 0 ≤ x - 1 := by omega
    have e1 : hasEdge g x 0 0 frDirEnum.W = some true := by
      rw [corridor_hasEdge_W g s t hc x h0 h1]
      simp only [hx1, decide_True]
    have e2 := corridor_isBlocked_W g s t hc x hx1 h1
    have e3 := corridor_getCosts_W g s t hc w x hx1 h1
    have exx : x + -1 = x - 1 := by omega
    rw [exx] at e4 hnv
    have hmono : g.xCoords_.getD t.toNat 0 ≤ g.xCoords_.getD (x - 1).toNat 0 := by
      rcases eq_or_lt_of_le (show t ≤ x - 1 by omega) with h | h
      · rw [h]
      · exact le_of_lt (corridor_coord_lt g s t hc t (x - 1) ht0 h (by omega))
    simp only [expand, e1, e2, hlegal, if_true, reverse, e3, e4, hnv, Bool.false_eq_true,
      if_false, exx]
    refine congrArg some (congrArg (fun e => ws ++ [e]) ?_)
    simp only [FlexWavefrontGrid.mk.injEq, true_and, and_true]
    constructor <;> omega

/-- The step away from the destination column inserts nothing, or an entry whose estimated
cost is above the one of the expanded entry. -/
theorem expand_backward (g : FlexGridGraph) (s t : Int) (hc : unobstructedCorridor g s t)
    (w : CostWeights) (legal : frDirEnum → frDirEnum → Bool) (vs : List VisitedNode)
    (ws : List FlexWavefrontGrid) (σ : Int) (b : frDirEnum)
    (hb : (b = frDirEnum.W ∧ σ = 1) ∨ (b = frDirEnum.E ∧ σ = -1))
    (x pc ec : Int) (ld : frDirEnum) (h0 : 0 ≤ x) (h1 : x < g.xCoords_.length)
    (ht : 0 ≤ σ * (t - x)) :
    ∃ R, expand g w legal { x := t, y := 0, z := 0 } { x := t, y := 0, z := 0 } vs
          { x := x, y := 0, z := 0, pathCost := pc, cost := ec, lastDir := ld } b ws
        = some (ws ++ R)
      ∧ ∀ e ∈ R,
          pc + σ * (g.xCoords_.getD t.toNat 0 - g.xCoords_.getD x.toNat 0) < e.cost := by
  have ht0 := hc.2.2.2.2.2.2.2.2.1.1
  have ht1 := hc.2.2.2.2.2.2.2.2.1.2
  have hmono : ∀ a c : Int, 0 ≤ a → a ≤ c → c < g.xCoords_.length →
      g.xCoords_.getD a.toNat 0 ≤ g.xCoords_.getD c.toNat 0 := by
    intro a c ha hac hc1
    rcases eq_or_lt_of_le hac with h | h
    · rw [h]
    · exact le_of_lt (corridor_coord_lt g s t hc a c ha h hc1)
  rcases hb with ⟨rfl, rfl⟩ | ⟨rfl, rfl⟩
  · by_cases hx1 : 0 ≤ x - 1
    · have e1 : hasEdge g x 0 0 frDirEnum.W = some true := by
        rw [corridor_hasEdge_W g s t hc x h0 h1]
        simp only [hx1, decide_True]
      have e2 := corridor_isBlocked_W g s t hc x hx1 h1
      have e3 := corridor_getCosts_W g s t hc w x hx1 h1
      have e4 := corridor_getEstCost g s t hc (x - 1) hx1 (by omega)
      have m1 := corridor_coord_lt g s t hc (x - 1) x hx1 (by omega) h1
      have m2 := hmono x t h0 (by omega) ht1
      by_cases hl : legal ld frDirEnum.W = true
      · by_cases hvis : isVisitedAt vs (x - 1) 0 0
            (pc + (g.xCoords_.getD x.toNat 0 - g.xCoords_.getD (x - 1).toNat 0)) = true
        · refine ⟨[], ?_, by simp⟩
          simp only [expand, e1, e2, hl, if_true, reverse, e3, e4, hvis, List.append_nil]
        · refine ⟨[{ x := x - 1, y := 0, z := 0,
                     pathCost := pc
                       + (g.xCoords_.getD x.toNat 0 - g.xCoords_.getD (x - 1).toNat 0),
                     cost := pc
                       + (g.xCoords_.getD x.toNat 0 - g.xCoords_.getD (x - 1).toNat 0)
                       + max (g.xCoords_.getD t.toNat 0 - g.xCoords_.getD (x - 1).toNat 0)
                          (g.xCoords_.getD (x - 1).toNat 0 - g.xCoords_.getD t.toNat 0),
                     lastDir := frDirEnum.W }], ?_, ?_⟩
          · simp only [expand, e1, e2, hl, if_true, reverse, e3, e4, hvis, Bool.false_eq_true,
              if_false]
          · intro e he
            rw [List.mem_singleton] at he
            subst he
            show _ < _ + _ + max _ _
            omega
      · refine ⟨[], ?_, by simp⟩
        simp only [expand, e1, e2, hl, Bool.false_eq_true, if_false, List.append_nil]
    · have e1 : hasEdge g x 0 0 frDirEnum.W = some false := by
        rw [corridor_hasEdge_W g s t hc x h0 h1]
        simp only [hx1, decide_False]
      refine ⟨[], ?_, by simp⟩
      simp only [expand, e1, List.append_nil]
  · by_cases hx1 : x + 1 < g.xCoords_.length
    · have e1 : hasEdge g x 0 0 frDirEnum.E = some true := by
        rw [corridor_hasEdge_E g s t hc x h0 h1]
        simp only [hx1, decide_True]
      have e2 := corridor_isBlocked_E g s t hc x h0 h1
      have e3 := corridor_getCosts_E g s t hc w x h0 hx1
      have e4 := corridor_getEstCost g s t hc (x + 1) (by omega) hx1
      have m1 := corridor_coord_lt g s t hc x (x + 1) h0 (by omega) hx1
      have m2 := hmono t x ht0 (by omega) h1
      by_cases hl : legal ld frDirEnum.E = true
      · by_cases hvis : isVisitedAt vs (x + 1) 0 0
            (pc + (g.xCoords_.getD (x + 1).toNat 0 - g.xCoords_.getD x.toNat 0)) = true
        · refine ⟨[], ?_, by simp⟩
          simp only [expand, e1, e2, hl, if_true, reverse, e3, e4, hvis, List.append_nil]
        · refine ⟨[{ x := x + 1, y := 0, z := 0,
                     pathCost := pc
                       + (g.xCoords_.getD (x + 1).toNat 0 - g.xCoords_.getD x.toNat 0),
                     cost := pc
                       + (g.xCoords_.getD (x + 1).toNat 0 - g.xCoords_.getD x.toNat 0)
                       + max (g.xCoords_.getD t.toNat 0 - g.xCoords_.getD (x + 1).toNat 0)
                          (g.xCoords_.getD (x + 1).toNat 0 - g.xCoords_.getD t.toNat 0),
                     lastDir := frDirEnum.E }], ?_, ?_⟩
          · simp only [expand, e1, e2, hl, if_true, reverse, e3, e4, hvis, Bool.false_eq_true,
              if_false]
          · intro e he
            rw [List.mem_singleton] at he
            subst he
            show _ < _ + _ + max _ _
            omega
      · refine ⟨[], ?_, by simp⟩
        simp only [expand, e1, e2, hl, Bool.false_eq_true, if_false, List.append_nil]
    · have e1 : hasEdge g x 0 0 frDirEnum.E = some false := by
        rw [corridor_hasEdge_E g s t hc x h0 h1]
        simp only [hx1, decide_False]
      refine ⟨[], ?_, by simp⟩
      simp only [expand, e1, List.append_nil]

/-- The four directions out of the corridor have no edge. -/
theorem expand_side (g : FlexGridGraph) (s t : Int) (hc : unobstructedCorridor g s t)
    (w : CostWeights) (legal : frDirEnum → frDirEnum → Bool) (vs : List VisitedNode)
    (ws : List FlexWavefrontGrid) (x pc ec : Int) (ld : frDirEnum) (h0 : 0 ≤ x)
    (h1 : x < g.xCoords_.length) (dir : frDirEnum) (hE : dir ≠ frDirEnum.E)
    (hW : dir ≠ frDirEnum.W) :
    expand g w legal { x := t, y := 0, z := 0 } { x := t, y := 0, z := 0 } vs
        { x := x, y := 0, z := 0, pathCost := pc, cost := ec, lastDir := ld } dir ws
      = some ws := by
  simp only [expand, corridor_hasEdge_side g s t hc x h0 h1 dir hE hW]

/-- Expanding a column before the destination column inserts the entry of the next column
and nothing else of an estimated cost as low. -/
theorem expandWavefront_corridor (g : FlexGridGraph) (s t : Int)
    (hc : unobstructedCorridor g s t) (w : CostWeights)
    (legal : frDirEnum → frDirEnum → Bool) (vs : List VisitedNode)
    (ws : List FlexWavefrontGrid) (σ : Int) (d : frDirEnum)
    (hd : (d = frDirEnum.E ∧ σ = 1) ∨ (d = frDirEnum.W ∧ σ = -1))
    (x pc ec : Int) (ld : frDirEnum) (h0 : 0 ≤ x) (h1 : x < g.xCoords_.length)
    (hn0 : 0 ≤ x + σ) (hn1 : x + σ < g.xCoords_.length) (ht : 0 ≤ σ * (t - (x + σ)))
    (hlegal : legal ld d = true) (hnv : ∀ c, isVisitedAt vs (x + σ) 0 0 c = false) :
    ∃ A B, expandWavefront g w legal { x := t, y := 0, z := 0 } { x := t, y := 0, z := 0 } vs
          { x := x, y := 0, z := 0, pathCost := pc, cost := ec, lastDir := ld } ws
        = some ((ws ++ A) ++
            { x := x + σ, y := 0, z := 0,
              pathCost := pc
                + σ * (g.xCoords_.getD (x + σ).toNat 0 - g.xCoords_.getD x.toNat 0),
              cost := pc + σ * (g.xCoords_.getD t.toNat 0 - g.xCoords_.getD x.toNat 0),
              lastDir := d } :: B)
      ∧ ∀ e ∈ A ++ B,
          pc + σ * (g.xCoords_.getD t.toNat 0 - g.xCoords_.getD x.toNat 0) < e.cost := by
  rcases hd with ⟨hd1, hd2⟩ | ⟨hd1, hd2⟩
  · have hE := expand_forward g s t hc w legal vs ws σ d (Or.inl ⟨hd1, hd2⟩) x pc ec ld h0 h1
      hn0 hn1 ht hlegal hnv
    obtain ⟨R, hW, hR⟩ := expand_backward g s t hc w legal vs
      (ws ++ [{ x := x + σ, y := 0, z := 0,
                pathCost := pc
                  + σ * (g.xCoords_.getD (x + σ).toNat 0 - g.xCoords_.getD x.toNat 0),
                cost := pc + σ * (g.xCoords_.getD t.toNat 0 - g.xCoords_.getD x.toNat 0),
                lastDir := d }])
      σ frDirEnum.W (Or.inl ⟨rfl, hd2⟩) x pc ec ld h0 h1 (by subst hd2; omega)
    subst hd1
    refine ⟨[], R, ?_, ?_⟩
    · simp only [expandWavefront, hE, Option.some_bind, hW,
        expand_side g s t hc w legal vs _ x pc ec ld h0 h1 frDirEnum.S (by decide) (by decide),
        expand_side g s t hc w legal vs _ x pc ec ld h0 h1 frDirEnum.N (by decide) (by decide),
        expand_side g s t hc w legal vs _ x pc ec ld h0 h1 frDirEnum.U (by decide) (by decide),
        expand_side g s t hc w legal vs _ x pc ec ld h0 h1 frDirEnum.D (by decide) (by decide)]
      simp
    · simpa using hR
  · obtain ⟨R, hE, hR⟩ := expand_backward g s t hc w legal vs ws σ frDirEnum.E
      (Or.inr ⟨rfl, hd2⟩) x pc ec ld h0 h1 (by subst hd2; omega)
    have hW := expand_forward g s t hc w legal vs (ws ++ R) σ d (Or.inr ⟨hd1, hd2⟩) x pc ec ld
      h0 h1 hn0 hn1 ht hlegal hnv
    subst hd1
    refine ⟨R, [], ?_, ?_⟩
    · simp only [expandWavefront, hE, Option.some_bind, hW,
        expand_side g s t hc w legal vs _ x pc ec ld h0 h1 frDirEnum.S (by decide) (by decide),
        expand_side g s t hc w legal vs _ x pc ec ld h0 h1 frDirEnum.N (by decide) (by decide),
        expand_side g s t hc w legal vs _ x pc ec ld h0 h1 frDirEnum.U (by decide) (by decide),
        expand_side g s t hc w legal vs _ x pc ec ld h0 h1 frDirEnum.D (by decide) (by decide)]
    · simpa using hR

theorem isVisited_false (vs : List VisitedNode) (x y z : Int) (h : ∀ v ∈ vs, v.x ≠ x) :
    isVisited vs x y z = false := by
  induction vs with
  | nil => rfl
  | cons v tl ih =>
    have h1 := h v (List.mem_cons_self _ _)
    have h2 := ih (fun a ha => h a (List.mem_cons_of_mem _ ha))
    unfold isVisited at h2
    simp only [isVisited, List.any_cons, h2, Bool.or_false, decide_eq_false_iff_not]
    exact fun hh => h1 hh.1

theorem isVisitedAt_false (vs : List VisitedNode) (x y z c : Int) (h : ∀ v ∈ vs, v.x ≠ x) :
    isVisitedAt vs x y z c = false := by
  induction vs with
  | nil => rfl
  | cons v tl ih =>
    have h1 := h v (List.mem_cons_self _ _)
    have h2 := ih (fun a ha => h a (List.mem_cons_of_mem _ ha))
    unfold isVisitedAt at h2
    simp only [isVisitedAt, List.any_cons, h2, Bool.or_false, decide_eq_false_iff_not]
    exact fun hh => h1 hh.1

/-- The columns between the source and the destination are columns of the corridor. -/
theorem corridor_pos (σ : Int) (d : frDirEnum)
    (hd : (d = frDirEnum.E ∧ σ = 1) ∨ (d = frDirEnum.W ∧ σ = -1)) (s t X : Int) (n j : Nat)
    (htn : t = s + σ * (n : Int)) (hj : j ≤ n) (hs : 0 ≤ s ∧ s < X) (ht : 0 ≤ t ∧ t < X) :
    0 ≤ s + σ * (j : Int) ∧ s + σ * (j : Int) < X ∧ 0 ≤ σ * (t - (s + σ * (j : Int))) := by
  rcases hd with ⟨-, rfl⟩ | ⟨-, rfl⟩ <;> omega

theorem corridor_pos_ne (σ : Int) (d : frDirEnum)
    (hd : (d = frDirEnum.E ∧ σ = 1) ∨ (d = frDirEnum.W ∧ σ = -1)) (s : Int) (j k : Nat)
    (h : j ≠ k) : s + σ * (j : Int) ≠ s + σ * (k : Int) := by
  rcases hd with ⟨-, rfl⟩ | ⟨-, rfl⟩ <;> omega

theorem corridorEntry_succ (xs : List Int) (s t σ : Int) (d : frDirEnum) (k : Nat) :
    ({ x := s + σ * (k : Int) + σ, y := 0, z := 0,
       pathCost := σ * (xs.getD (s + σ * (k : Int)).toNat 0 - xs.getD s.toNat 0)
         + σ * (xs.getD (s + σ * (k : Int) + σ).toNat 0
            - xs.getD (s + σ * (k : Int)).toNat 0),
       cost := σ * (xs.getD (s + σ * (k : Int)).toNat 0 - xs.getD s.toNat 0)
         + σ * (xs.getD t.toNat 0 - xs.getD (s + σ * (k : Int)).toNat 0),
       lastDir := d } : FlexWavefrontGrid)
      = corridorEntry xs s t σ d (k + 1) := by
  have e : s + σ * ((k + 1 : Nat) : Int) = s + σ * (k : Int) + σ := by
    push_cast
    ring
  unfold corridorEntry
  rw [e]
  simp only [FlexWavefrontGrid.mk.injEq, true_and, Nat.add_one_ne_zero, if_false, and_true]
  constructor <;> ring

/-- The main loop on a corridor: from the state in which the entry of the column
`s + σ * k` is the one entry of lowest estimated cost, the loop pops the entries of the
columns up to the destination column, one per iteration, and ends there. -/
theorem searchLoop_corridor (xs : List Int) (s t σ : Int) (d : frDirEnum)
    (hd : (d = frDirEnum.E ∧ σ = 1) ∨ (d = frDirEnum.W ∧ σ = -1)) (n : Nat)
    (htn : t = s + σ * (n : Int)) (w : CostWeights) (legal : frDirEnum → frDirEnum → Bool)
    (hl0 : ∀ dir, legal frDirEnum.UNKNOWN dir = true) (hl1 : ∀ dir, legal dir dir = true)
    (m : Nat) :
    ∀ (k : Nat), k + m = n → ∀ (g : FlexGridGraph) (L R : List FlexWavefrontGrid)
      (vs : List VisitedNode), unobstructedCorridor g s t → g.xCoords_ = xs →
      (∀ e ∈ L, σ * (xs.getD t.toNat 0 - xs.getD s.toNat 0) < e.cost) →
      (∀ e ∈ R, σ * (xs.getD t.toNat 0 - xs.getD s.toNat 0) < e.cost) →
      (∀ v ∈ vs, ∀ j : Nat, k ≤ j → v.x ≠ s + σ * (j : Int)) →
      (∀ j : Nat, 1 ≤ j → j < k →
        getPrevAstarNodeDir g (s + σ * (j : Int)) 0 0 = some d.toNat) →
      ∀ fuel, m + 1 ≤ fuel →
      ∃ g1, searchLoop w legal { x := t, y := 0, z := 0 } { x := t, y := 0, z := 0 } fuel g
            (L ++ corridorEntry xs s t σ d k :: R) vs
          = some (some (g1, corridorEntry xs s t σ d n))
        ∧ unobstructedCorridor g1 s t ∧ g1.xCoords_ = xs
        ∧ ∀ j : Nat, 1 ≤ j → j ≤ n →
            getPrevAstarNodeDir g1 (s + σ * (j : Int)) 0 0 = some d.toNat := by
  induction m with
  | zero =>
    intro k hk g L R vs hc hxs hL hR hvs hprev fuel hfuel
    have hkn : k = n := by omega
    subst hkn
    subst hxs
    obtain ⟨f, rfl⟩ : ∃ f, fuel = f + 1 := ⟨fuel - 1, by omega⟩
    have hs := hc.2.2.2.2.2.2.2.1
    have ht := hc.2.2.2.2.2.2.2.2.1
    obtain ⟨p0, p1, -⟩ := corridor_pos σ d hd s t _ k k htn (le_refl _) hs ht
    have hpop := popMin_strict_min (corridorEntry g.xCoords_ s t σ d k) R hR L hL
    have hvis : isVisited vs (s + σ * (k : Int)) 0 0 = false :=
      isVisited_false vs _ 0 0 (fun v hv => hvs v hv k (le_refl _))
    have hdir : (if k = 0 then frDirEnum.UNKNOWN else d).toNat < 8 := by
      split <;> cases d <;> decide
    obtain ⟨g1, hset, hc1, hx1, hget, hframe⟩ :=
      corridor_setPrev g s t hc (s + σ * (k : Int)) p0 p1 _ hdir
    have hdst : isDst g1 (s + σ * (k : Int)) 0 0 = some true := by
      rw [corridor_isDst g1 s t hc1 _ p0 (by rw [hx1]; exact p1)]
      simp only [htn, decide_True]
    refine ⟨g1, ?_, hc1, hx1, ?_⟩
    · simp only [searchLoop, hpop]
      simp only [corridorEntry, hvis, Bool.false_eq_true, if_false, hset, hdst]
    · intro j hj1 hj2
      rcases Nat.lt_or_ge j k with hlt | hge
      · obtain ⟨q0, q1, -⟩ := corridor_pos σ d hd s t _ k j htn (by omega) hs ht
        rw [hframe _ q0 q1 (corridor_pos_ne σ d hd s j k (by omega))]
        exact hprev j hj1 hlt
      · have hjk : j = k := by omega
        subst hjk
        rw [hget, if_neg (by omega)]
  | succ m ih =>
    intro k hk g L R vs hc hxs hL hR hvs hprev fuel hfuel
    subst hxs
    obtain ⟨f, rfl⟩ : ∃ f, fuel = f + 1 := ⟨fuel - 1, by omega⟩
    have hs := hc.2.2.2.2.2.2.2.1
    have ht := hc.2.2.2.2.2.2.2.2.1
    obtain ⟨p0, p1, p2⟩ := corridor_pos σ d hd s t _ n k htn (by omega) hs ht
    obtain ⟨r0, r1, r2⟩ := corridor_pos σ d hd s t _ n (k + 1) htn (by omega) hs ht
    have esucc : s + σ * ((k + 1 : Nat) : Int) = s + σ * (k : Int) + σ := by
      push_cast
      ring
    rw [esucc] at r0 r1 r2
    have hpop := popMin_strict_min (corridorEntry g.xCoords_ s t σ d k) R hR L hL
    have hvis : isVisited vs (s + σ * (k : Int)) 0 0 = false :=
      isVisited_false vs _ 0 0 (fun v hv => hvs v hv k (le_refl _))
    have hdir : (if k = 0 then frDirEnum.UNKNOWN else d).toNat < 8 := by
      split <;> cases d <;> decide
    obtain ⟨g1, hset, hc1, hx1, hget, hframe⟩ :=
      corridor_setPrev g s t hc (s + σ * (k : Int)) p0 p1 _ hdir
    have hdst : isDst g1 (s + σ * (k : Int)) 0 0 = some false := by
      rw [corridor_isDst g1 s t hc1 _ p0 (by rw [hx1]; exact p1)]
      have hne : s + σ * (k : Int) ≠ t := by
        rw [htn]
        exact corridor_pos_ne σ d hd s k n (by omega)
      simp only [hne, decide_False]
    have hlegal : legal (if k = 0 then frDirEnum.UNKNOWN else d) d = true := by
      split
      · exact hl0 d
      · exact hl1 d
    have hvs1 : ∀ v ∈ VisitedNode.mk (s + σ * (k : Int)) 0 0
          (σ * (g.xCoords_.getD (s + σ * (k : Int)).toNat 0 - g.xCoords_.getD s.toNat 0))
          :: vs,
        ∀ j : Nat, k + 1 ≤ j → v.x ≠ s + σ * (j : Int) := by
      intro v hv j hj
      rcases List.mem_cons.1 hv with h | h
      · rw [h]
        exact corridor_pos_ne σ d hd s k j (by omega)
      · exact hvs v h j (by omega)
    obtain ⟨A, B, hexp, hAB⟩ := expandWavefront_corridor g1 s t hc1 w legal
      (VisitedNode.mk (s + σ * (k : Int)) 0 0
          (σ * (g.xCoords_.getD (s + σ * (k : Int)).toNat 0 - g.xCoords_.getD s.toNat 0))
          :: vs)
      (L ++ R) σ d hd (s + σ * (k : Int))
      (σ * (g.xCoords_.getD (s + σ * (k : Int)).toNat 0 - g.xCoords_.getD s.toNat 0))
      (σ * (g.xCoords_.getD t.toNat 0 - g.xCoords_.getD s.toNat 0))
      (if k = 0 then frDirEnum.UNKNOWN else d) p0 (by rw [hx1]; exact p1) r0
      (by rw [hx1]; exact r1) r2 hlegal
      (fun c => isVisitedAt_false _ _ 0 0 c (fun v hv => by
        have := hvs1 v hv (k + 1) (le_refl _)
        rw [esucc] at this
        exact this))
    rw [hx1, corridorEntry_succ] at hexp
    have hD : σ * (g.xCoords_.getD (s + σ * (k : Int)).toNat 0 - g.xCoords_.getD s.toNat 0)
        + σ * (g.xCoords_.getD t.toNat 0 - g.xCoords_.getD (s + σ * (k : Int)).toNat 0)
        = σ * (g.xCoords_.getD t.toNat 0 - g.xCoords_.getD s.toNat 0) := by ring
    rw [hx1, hD] at hAB
    obtain ⟨g2, hloop, hc2, hx2, hprev2⟩ := ih (k + 1) (by omega) g1 (L ++ R ++ A) B _ hc1 hx1
      (by
        intro e he
        rcases List.mem_append.1 he with h | h
        · rcases List.mem_append.1 h with h | h
          · exact hL e h
          · exact hR e h
        · exact hAB e (List.mem_append_left _ h))
      (fun e he => hAB e (List.mem_append_right _ he)) hvs1
      (by
        intro j hj1 hj2
        rcases Nat.lt_or_ge j k with hlt | hge
        · obtain ⟨q0, q1, -⟩ := corridor_pos σ d hd s t _ n j htn (by omega) hs ht
          rw [hframe _ q0 q1 (corridor_pos_ne σ d hd s j k (by omega))]
          exact hprev j hj1 hlt
        · have hjk : j = k := by omega
          subst hjk
          rw [hget, if_neg (by omega)])
      f (by omega)
    refine ⟨g2, ?_, hc2, hx2, hprev2⟩
    simp only [searchLoop, hpop]
    simp only [corridorEntry, hvis, Bool.false_eq_true, if_false, hset, hdst, hexp]
    exact hloop

theorem getPrevGrid_corridor (σ : Int) (d : frDirEnum)
    (hd : (d = frDirEnum.E ∧ σ = 1) ∨ (d = frDirEnum.W ∧ σ = -1)) (s : Int) (k : Nat) :
    getPrevGrid (s + σ * ((k + 1 : Nat) : Int)) 0 0 d.toNat
      = { x := s + σ * (k : Int), y := 0, z := 0 } := by
  rcases hd with ⟨rfl, rfl⟩ | ⟨rfl, rfl⟩
  · simp only [getPrevGrid, frDirEnum.toNat, if_true, FlexMazeIdx.mk.injEq, and_true]
    push_cast
    ring
  · have h1 : ¬ ((3 : Nat) = 4) := by decide
    simp only [getPrevGrid, frDirEnum.toNat, h1, if_false, if_true, FlexMazeIdx.mk.injEq,
      and_true]
    push_cast
    ring

/-- The trace back from a column of the corridor follows the stored directions to the
source column. -/
theorem traceBackPath_corridor (g : FlexGridGraph) (s t σ : Int) (d : frDirEnum)
    (hd : (d = frDirEnum.E ∧ σ = 1) ∨ (d = frDirEnum.W ∧ σ = -1)) (n : Nat)
    (htn : t = s + σ * (n : Int)) (hc : unobstructedCorridor g s t)
    (hprev : ∀ j : Nat, 1 ≤ j → j ≤ n →
      getPrevAstarNodeDir g (s + σ * (j : Int)) 0 0 = some d.toNat) (k : Nat) :
    k ≤ n → ∀ fuel, k + 1 ≤ fuel →
      traceBackPath g fuel (s + σ * (k : Int)) 0 0 = some (corridorPath s σ k) := by
  have hs := hc.2.2.2.2.2.2.2.1
  have ht := hc.2.2.2.2.2.2.2.2.1
  induction k with
  | zero =>
    intro _ fuel hfuel
    obtain ⟨f, rfl⟩ : ∃ f, fuel = f + 1 := ⟨fuel - 1, by omega⟩
    have e : s + σ * ((0 : Nat) : Int) = s := by simp
    rw [e]
    have hsrc := corridor_isSrc g s t hc s hs.1 hs.2
    simp only [decide_True] at hsrc
    simp only [traceBackPath, hsrc, corridorPath]
  | succ k ih =>
    intro hk fuel hfuel
    obtain ⟨f, rfl⟩ : ∃ f, fuel = f + 1 := ⟨fuel - 1, by omega⟩
    obtain ⟨p0, p1, -⟩ := corridor_pos σ d hd s t _ n (k + 1) htn hk hs ht
    have hne : s + σ * ((k + 1 : Nat) : Int) ≠ s := by
      have := corridor_pos_ne σ d hd s (k + 1) 0 (by omega)
      simpa using this
    have hsrc := corridor_isSrc g s t hc _ p0 p1
    simp only [hne, decide_False] at hsrc
    have hrec := ih (by omega) f (by omega)
    simp only [traceBackPath, hsrc, hprev (k + 1) (by omega) hk,
      getPrevGrid_corridor σ d hd s k, hrec, Option.map_some', corridorPath]

theorem corridorPath_length (s σ : Int) (k : Nat) : (corridorPath s σ k).length = k + 1 := by
  induction k with
  | zero => rfl
  | succ k ih => simp only [corridorPath, List.length_cons, ih]

theorem corridorPath_head (s σ : Int) (k : Nat) :
    ∃ rest, corridorPath s σ k = { x := s + σ * (k : Int), y := 0, z := 0 } :: rest := by
  cases k with
  | zero => exact ⟨[], by simp [corridorPath]⟩
  | succ k => exact ⟨corridorPath s σ k, rfl⟩

/-- The length of the edge from a column back to the column before it on the path. -/
theorem corridor_edge_back (g : FlexGridGraph) (s t : Int) (hc : unobstructedCorridor g s t)
    (σ : Int) (d : frDirEnum)
    (hd : (d = frDirEnum.E ∧ σ = 1) ∨ (d = frDirEnum.W ∧ σ = -1)) (x : Int)
    (h0 : 0 ≤ x) (h1 : x < g.xCoords_.length) (q0 : 0 ≤ x - σ)
    (q1 : x - σ < g.xCoords_.length) :
    getEdgeLength g x 0 0 (stepDir { x := x, y := 0, z := 0 } { x := x - σ, y := 0, z := 0 })
      = some (σ * (g.xCoords_.getD x.toNat 0 - g.xCoords_.getD (x - σ).toNat 0)) := by
  rcases hd with ⟨-, rfl⟩ | ⟨-, rfl⟩
  · have n1 : ¬ (x - 1 = x + 1) := by omega
    have e := corridor_getEdgeLength_E g s t hc (x - 1) q0 (by omega)
    have e1 : x - 1 + 1 = x := by omega
    rw [e1] at e
    have e2 : getEdgeLength g x 0 0 frDirEnum.W = getEdgeLength g (x - 1) 0 0 frDirEnum.E := by
      simp only [getEdgeLength, correct]
    simp only [stepDir, n1, if_false, if_true, e2, e, one_mul]
  · have e0 : x - -1 = x + 1 := by omega
    rw [e0] at q1 ⊢
    have e := corridor_getEdgeLength_E g s t hc x h0 q1
    simp only [stepDir, if_true, e]
    congr 1
    omega

/-- The edge lengths along the straight path add up to the distance of its end columns. -/
theorem pathEdgeLength_corridor (g : FlexGridGraph) (s t σ : Int) (d : frDirEnum)
    (hd : (d = frDirEnum.E ∧ σ = 1) ∨ (d = frDirEnum.W ∧ σ = -1)) (n : Nat)
    (htn : t = s + σ * (n : Int)) (hc : unobstructedCorridor g s t) (k : Nat) :
    k ≤ n → pathEdgeLength g (corridorPath s σ k)
      = some (σ * (g.xCoords_.getD (s + σ * (k : Int)).toNat 0 - g.xCoords_.getD s.toNat 0)) := by
  have hs := hc.2.2.2.2.2.2.2.1
  have ht := hc.2.2.2.2.2.2.2.2.1
  induction k with
  | zero =>
    intro _
    simp [corridorPath, pathEdgeLength]
  | succ k ih =>
    intro hk
    obtain ⟨rest, hrest⟩ := corridorPath_head s σ k
    have hrec := ih (by omega)
    rw [hrest] at hrec
    obtain ⟨p0, p1, -⟩ := corridor_pos σ d hd s t _ n (k + 1) htn hk hs ht
    obtain ⟨r0, r1, -⟩ := corridor_pos σ d hd s t _ n k htn (by omega) hs ht
    have e : s + σ * (k : Int) = s + σ * ((k + 1 : Nat) : Int) - σ := by
      push_cast
      ring
    have hedge := corridor_edge_back g s t hc σ d hd (s + σ * ((k + 1 : Nat) : Int)) p0 p1
      (by rw [← e]; exact r0) (by rw [← e]; exact r1)
    rw [← e] at hedge
    simp only [corridorPath, hrest, pathEdgeLength, hedge, hrec]
    congr 1
    ring

theorem corridorEntry_zero (xs : List Int) (s t σ : Int) (d : frDirEnum) :
    corridorEntry xs s t σ d 0
      = { x := s, y := 0, z := 0, pathCost := 0,
          cost := σ * (xs.getD t.toNat 0 - xs.getD s.toNat 0),
          lastDir := frDirEnum.UNKNOWN } := by
  simp [corridorEntry]

/-- The search on a corridor whose destination column lies `n` steps of direction `d` from
the source column. -/
theorem search_corridor_dir (g : FlexGridGraph) (s t : Int) (hc : unobstructedCorridor g s t)
    (w : CostWeights) (legal : frDirEnum → frDirEnum → Bool)
    (hl0 : ∀ dir, legal frDirEnum.UNKNOWN dir = true) (hl1 : ∀ dir, legal dir dir = true)
    (σ : Int) (d : frDirEnum)
    (hd : (d = frDirEnum.E ∧ σ = 1) ∨ (d = frDirEnum.W ∧ σ = -1)) (n : Nat)
    (htn : t = s + σ * (n : Int)) (fuel : Nat) (hf : n + 1 ≤ fuel) :
    search g w legal [{ x := s, y := 0, z := 0 }] { x := t, y := 0, z := 0 }
        { x := t, y := 0, z := 0 } fuel
      = some (true, corridorPath s σ n,
          σ * (g.xCoords_.getD t.toNat 0 - g.xCoords_.getD s.toNat 0)) := by
  have hs := hc.2.2.2.2.2.2.2.1
  have ht := hc.2.2.2.2.2.2.2.2.1
  have hest := corridor_getEstCost g s t hc s hs.1 hs.2
  have hmax : max (g.xCoords_.getD t.toNat 0 - g.xCoords_.getD s.toNat 0)
      (g.xCoords_.getD s.toNat 0 - g.xCoords_.getD t.toNat 0)
      = σ * (g.xCoords_.getD t.toNat 0 - g.xCoords_.getD s.toNat 0) := by
    rcases hd with ⟨-, rfl⟩ | ⟨-, rfl⟩
    · have hle : g.xCoords_.getD s.toNat 0 ≤ g.xCoords_.getD t.toNat 0 := by
        rcases eq_or_lt_of_le (show s ≤ t by omega) with h | h
        · rw [h]
        · exact le_of_lt (corridor_coord_lt g s t hc s t hs.1 h ht.2)
      omega
    · have hle : g.xCoords_.getD t.toNat 0 ≤ g.xCoords_.getD s.toNat 0 := by
        rcases eq_or_lt_of_le (show t ≤ s by omega) with h | h
        · rw [h]
        · exact le_of_lt (corridor_coord_lt g s t hc t s ht.1 h hs.2)
      omega
  rw [hmax] at hest
  have hseed : seedWavefront g { x := t, y := 0, z := 0 } { x := t, y := 0, z := 0 }
      [{ x := s, y := 0, z := 0 }] = some ([] ++ corridorEntry g.xCoords_ s t σ d 0 :: []) := by
    simp only [seedWavefront, hest, corridorEntry_zero, List.nil_append]
  obtain ⟨g1, hloop, hc1, -, hprev⟩ := searchLoop_corridor g.xCoords_ s t σ d hd n htn w legal
    hl0 hl1 n 0 (by omega) g [] [] [] hc rfl (by simp) (by simp) (by simp)
    (by intro j h1 h2; omega) fuel hf
  have htrace := traceBackPath_corridor g1 s t σ d hd n htn hc1 hprev n (le_refl _) fuel hf
  rw [← htn] at htrace
  simp only [search, hseed, hloop]
  simp only [corridorEntry, ← htn, htrace]

/-! ## Search on a straight corridor along y -/

theorem corridorY_sizes (g : FlexGridGraph) (s t : Int) (hc : unobstructedCorridorY g s t) :
    g.nodes_.length = g.yCoords_.length ∧ g.srcs_.length = g.yCoords_.length
      ∧ g.dsts_.length = g.yCoords_.length ∧ g.zHeights_.length = 1
      ∧ g.prevDirs_.length = 3 * g.yCoords_.length := by
  obtain ⟨⟨hN, hP, hS, hD, -, hH, -⟩, hY, hZ, -⟩ := hc
  rw [hY, hZ] at hN hP hS hD
  rw [hZ] at hH
  simp only [Nat.mul_one, Nat.one_mul] at hN hP hS hD
  exact ⟨hN, hS, hD, hH, hP⟩

theorem corridorY_isValid (g : FlexGridGraph) (s t : Int) (hc : unobstructedCorridorY g s t)
    (x y z : Int) :
    isValid g x y z = true ↔ 0 ≤ y ∧ y < g.yCoords_.length ∧ x = 0 ∧ z = 0 := by
  rw [isValid_iff g hc.1]
  obtain ⟨-, hY, hZ, -⟩ := hc
  rw [hY, hZ]
  constructor
  · rintro ⟨h1, h2, h3, h4, h5, h6⟩
    exact ⟨h3, h4, by omega, by omega⟩
  · rintro ⟨h1, h2, h3, h4⟩
    exact ⟨by omega, by omega, h1, h2, by omega, by omega⟩

theorem corridorY_getIdx (g : FlexGridGraph) (s t : Int) (hc : unobstructedCorridorY g s t)
    (x : Int) (h0 : 0 ≤ x) (h1 : x < g.yCoords_.length) : getIdx g 0 x 0 = some x := by
  have hv := (corridorY_isValid g s t hc 0 x 0).2 ⟨h0, h1, rfl, rfl⟩
  obtain ⟨zd, -, hi, -, -⟩ := getIdx_of_valid g hc.1 0 x 0 hv
  rw [hi]
  have hY : (g.xCoords_.length : Int) = 1 := by rw [hc.2.1]; rfl
  by_cases hd : zd = dbTechLayerDir.HORIZONTAL <;> simp [hd, hY]

theorem corridorY_nodeAt (g : FlexGridGraph) (s t : Int) (hc : unobstructedCorridorY g s t)
    (x : Int) (h0 : 0 ≤ x) (h1 : x < g.yCoords_.length) :
    nodeAt g 0 x 0 = some (if x + 1 < g.yCoords_.length then openNodeNorth else Node.zero) := by
  obtain ⟨hN, -⟩ := corridorY_sizes g s t hc
  have hn := hc.2.2.2.2.2.2.1 x.toNat (by omega)
  simp only [nodeAt, corridorY_getIdx g s t hc x h0 h1, vecGet?, h0, if_true, hn]
  by_cases hx : x + 1 < g.yCoords_.length
  · rw [if_pos hx, if_pos (by omega)]
  · rw [if_neg hx, if_neg (by omega)]

theorem corridorY_isSrc (g : FlexGridGraph) (s t : Int) (hc : unobstructedCorridorY g s t)
    (x : Int) (h0 : 0 ≤ x) (h1 : x < g.yCoords_.length) :
    isSrc g 0 x 0 = some (decide (x = s)) := by
  obtain ⟨-, hS, -⟩ := corridorY_sizes g s t hc
  have hn := hc.2.2.2.2.2.2.2.2.2.1 x.toNat (by omega)
  have e : ((x.toNat : Nat) : Int) = x := by omega
  rw [e] at hn
  simp only [isSrc, corridorY_getIdx g s t hc x h0 h1, vecGet?, h0, if_true, hn]

theorem corridorY_isDst (g : FlexGridGraph) (s t : Int) (hc : unobstructedCorridorY g s t)
    (x : Int) (h0 : 0 ≤ x) (h1 : x < g.yCoords_.length) :
    isDst g 0 x 0 = some (decide (x = t)) := by
  obtain ⟨-, -, hD, -⟩ := corridorY_sizes g s t hc
  have hn := hc.2.2.2.2.2.2.2.2.2.2 x.toNat (by omega)
  have e : ((x.toNat : Nat) : Int) = x := by omega
  rw [e] at hn
  simp only [isDst, corridorY_getIdx g s t hc x h0 h1, vecGet?, h0, if_true, hn]

theorem corridorY_yCoord (g : FlexGridGraph) (x : Int) (h0 : 0 ≤ x)
    (h1 : x < g.yCoords_.length) : yCoord g x = some (g.yCoords_.getD x.toNat 0) := by
  have hlt : x.toNat < g.yCoords_.length := by omega
  simp only [yCoord, vecGet?, h0, if_true, List.getD_eq_getElem _ _ hlt,
    List.getElem?_eq_getElem hlt]

theorem corridorY_coord_lt (g : FlexGridGraph) (s t : Int) (hc : unobstructedCorridorY g s t)
    (x x1 : Int) (h0 : 0 ≤ x) (h : x < x1) (h1 : x1 < g.yCoords_.length) :
    g.yCoords_.getD x.toNat 0 < g.yCoords_.getD x1.toNat 0 :=
  strictlyIncreasing_getD g.yCoords_ hc.2.2.2.2.1 x.toNat x1.toNat (by omega) (by omega)

theorem corridorY_coord_range (g : FlexGridGraph) (s t : Int) (hc : unobstructedCorridorY g s t)
    (x : Int) (h0 : 0 ≤ x) (h1 : x < g.yCoords_.length) :
    - 2 ^ 30 ≤ g.yCoords_.getD x.toNat 0 ∧ g.yCoords_.getD x.toNat 0 < 2 ^ 30 := by
  have hlt : x.toNat < g.yCoords_.length := by omega
  rw [List.getD_eq_getElem _ _ hlt]
  exact hc.2.2.2.2.2.1 _ (List.getElem_mem hlt)

/-- The node of a row of a corridor: only the North edge bit may be set. -/
theorem corridorY_node (g : FlexGridGraph) (s t : Int) (hc : unobstructedCorridorY g s t)
    (x : Int) (h0 : 0 ≤ x) (h1 : x < g.yCoords_.length) :
    ∃ node, nodeAt g 0 x 0 = some node
      ∧ node.hasNorthEdge = decide (x + 1 < g.yCoords_.length)
      ∧ node.hasEastEdge = false ∧ node.hasUpEdge = false
      ∧ node.isBlockedNorth = false ∧ node.isBlockedEast = false ∧ node.isBlockedUp = false
      ∧ node.hasGridCostNorth = false ∧ node.markerCostPlanar = 0
      ∧ node.fixedShapeCostPlanarVert = 0 := by
  refine ⟨_, corridorY_nodeAt g s t hc x h0 h1, ?_⟩
  by_cases hx : x + 1 < g.yCoords_.length
  · simp only [hx, if_true, decide_True]
    decide
  · simp only [hx, if_false, decide_False]
    decide

theorem corridorY_hasEdge_N (g : FlexGridGraph) (s t : Int) (hc : unobstructedCorridorY g s t)
    (x : Int) (h0 : 0 ≤ x) (h1 : x < g.yCoords_.length) :
    hasEdge g 0 x 0 frDirEnum.N = some (decide (x + 1 < g.yCoords_.length)) := by
  obtain ⟨node, hn, hE, -⟩ := corridorY_node g s t hc x h0 h1
  have hv := (corridorY_isValid g s t hc 0 x 0).2 ⟨h0, h1, rfl, rfl⟩
  simp only [hasEdge, correct, hv, if_true, hn, hE]

theorem corridorY_hasEdge_S (g : FlexGridGraph) (s t : Int) (hc : unobstructedCorridorY g s t)
    (x : Int) (h0 : 0 ≤ x) (h1 : x < g.yCoords_.length) :
    hasEdge g 0 x 0 frDirEnum.S = some (decide (0 ≤ x - 1)) := by
  by_cases hx : 0 ≤ x - 1
  · obtain ⟨node, hn, hE, -⟩ := corridorY_node g s t hc (x - 1) hx (by omega)
    have hv := (corridorY_isValid g s t hc 0 (x - 1) 0).2 ⟨hx, by omega, rfl, rfl⟩
    have e : x - 1 + 1 < (g.yCoords_.length : Int) := by omega
    simp only [hasEdge, correct, hv, if_true, hn, hE, e, hx]
  · have hv : ¬ (isValid g 0 (x - 1) 0 = true) := by
      rw [corridorY_isValid g s t hc]
      omega
    simp only [hasEdge, correct, hv, Bool.false_eq_true, if_false, hx, decide_False]

theorem corridorY_hasEdge_side (g : FlexGridGraph) (s t : Int)
    (hc : unobstructedCorridorY g s t) (x : Int) (h0 : 0 ≤ x) (h1 : x < g.yCoords_.length)
    (dir : frDirEnum) (hE : dir ≠ frDirEnum.N) (hW : dir ≠ frDirEnum.S) :
    hasEdge g 0 x 0 dir = some false := by
  obtain ⟨node, hn, -, hN, hU, -⟩ := corridorY_node g s t hc x h0 h1
  have hv := (corridorY_isValid g s t hc 0 x 0).2 ⟨h0, h1, rfl, rfl⟩
  have hvW : ¬ (isValid g (0 - 1) x 0 = true) := by
    rw [corridorY_isValid g s t hc]
    omega
  have hvD : ¬ (isValid g 0 x (0 - 1) = true) := by
    rw [corridorY_isValid g s t hc]
    omega
  cases dir with
  | N => exact absurd rfl hE
  | S => exact absurd rfl hW
  | E => simp only [hasEdge, correct, hv, if_true, hn, hN]
  | U => simp only [hasEdge, correct, hv, if_true, hn, hU]
  | UNKNOWN => simp only [hasEdge, correct, hv, if_true, hn]
  | W => simp only [hasEdge, correct, hvW, Bool.false_eq_true, if_false]
  | D => simp only [hasEdge, correct, hvD, Bool.false_eq_true, if_false]

theorem corridorY_isBlocked_N (g : FlexGridGraph) (s t : Int) (hc : unobstructedCorridorY g s t)
    (x : Int) (h0 : 0 ≤ x) (h1 : x < g.yCoords_.length) :
    isBlocked g 0 x 0 frDirEnum.N = some false := by
  obtain ⟨node, hn, -, -, -, hB, -⟩ := corridorY_node g s t hc x h0 h1
  have hv := (corridorY_isValid g s t hc 0 x 0).2 ⟨h0, h1, rfl, rfl⟩
  simp only [isBlocked, correct, hv, if_true, hn, hB]

theorem corridorY_isBlocked_S (g : FlexGridGraph) (s t : Int) (hc : unobstructedCorridorY g s t)
    (x : Int) (h0 : 0 ≤ x - 1) (h1 : x < g.yCoords_.length) :
    isBlocked g 0 x 0 frDirEnum.S = some false := by
  obtain ⟨node, hn, -, -, -, hB, -⟩ := corridorY_node g s t hc (x - 1) h0 (by omega)
  have hv := (corridorY_isValid g s t hc 0 (x - 1) 0).2 ⟨h0, by omega, rfl, rfl⟩
  simp only [isBlocked, correct, hv, if_true, hn, hB]

theorem corridorY_getEdgeLength_N (g : FlexGridGraph) (s t : Int)
    (hc : unobstructedCorridorY g s t) (x : Int) (h0 : 0 ≤ x)
    (h1 : x + 1 < g.yCoords_.length) :
    getEdgeLength g 0 x 0 frDirEnum.N
      = some (g.yCoords_.getD (x + 1).toNat 0 - g.yCoords_.getD x.toNat 0) := by
  have ea := corridorY_yCoord g (x + 1) (by omega) h1
  have eb := corridorY_yCoord g x h0 (by omega)
  have ra := corridorY_coord_range g s t hc (x + 1) (by omega) h1
  have rb := corridorY_coord_range g s t hc x h0 (by omega)
  simp only [yCoord] at ea eb
  have hfit : - 2 ^ 31 ≤ g.yCoords_.getD (x + 1).toNat 0 - g.yCoords_.getD x.toNat 0
      ∧ g.yCoords_.getD (x + 1).toNat 0 - g.yCoords_.getD x.toNat 0 < 2 ^ 31 := by omega
  simp only [getEdgeLength, correct, ea, eb, subCoord, hfit, and_self, if_true]

theorem corridorY_getCosts_N (g : FlexGridGraph) (s t : Int) (hc : unobstructedCorridorY g s t)
    (w : CostWeights) (x : Int) (h0 : 0 ≤ x) (h1 : x + 1 < g.yCoords_.length) :
    getCosts g w 0 x 0 frDirEnum.N
      = some (g.yCoords_.getD (x + 1).toNat 0 - g.yCoords_.getD x.toNat 0) := by
  obtain ⟨node, hn, -, -, -, -, -, -, hG, -⟩ := corridorY_node g s t hc x h0 (by omega)
  obtain ⟨node1, hn1, -, -, -, -, -, -, -, hM, hF⟩ :=
    corridorY_node g s t hc (x + 1) (by omega) h1
  have e1 : hasGridCost g 0 x 0 frDirEnum.N = some false := by
    simp only [hasGridCost, correct, hasGridCostN, hn, Option.map_some', hG]
  have e2 : getFixedShapeCostAdj g 0 x 0 frDirEnum.N = some 0 := by
    simp [getFixedShapeCostAdj, reverse, hn1, hF]
  have e3 : getMarkerCostAdj g 0 x 0 frDirEnum.N = some 0 := by
    simp [getMarkerCostAdj, reverse, hn1, hM]
  simp [getCosts, e1, e2, e3, corridorY_getEdgeLength_N g s t hc x h0 h1]

theorem corridorY_getCosts_S (g : FlexGridGraph) (s t : Int) (hc : unobstructedCorridorY g s t)
    (w : CostWeights) (x : Int) (h0 : 0 ≤ x - 1) (h1 : x < g.yCoords_.length) :
    getCosts g w 0 x 0 frDirEnum.S
      = some (g.yCoords_.getD x.toNat 0 - g.yCoords_.getD (x - 1).toNat 0) := by
  obtain ⟨node1, hn1, -, -, -, -, -, -, hG, hM, hF⟩ :=
    corridorY_node g s t hc (x - 1) h0 (by omega)
  have e1 : hasGridCost g 0 x 0 frDirEnum.S = some false := by
    simp only [hasGridCost, correct, hasGridCostN, hn1, Option.map_some', hG]
  have e2 : getFixedShapeCostAdj g 0 x 0 frDirEnum.S = some 0 := by
    simp [getFixedShapeCostAdj, reverse, hn1, hF]
  have e3 : getMarkerCostAdj g 0 x 0 frDirEnum.S = some 0 := by
    simp [getMarkerCostAdj, reverse, hn1, hM]
  have e4 : getEdgeLength g 0 x 0 frDirEnum.S = getEdgeLength g 0 (x - 1) 0 frDirEnum.N := by
    simp only [getEdgeLength, correct]
  have e5 := corridorY_getEdgeLength_N g s t hc (x - 1) h0 (by omega)
  have e6 : x - 1 + 1 = x := by omega
  rw [e6] at e5
  simp [getCosts, e1, e2, e3, e4, e5]

/-- The heuristic of a row of a corridor is its distance to the destination row. -/
theorem corridorY_getEstCost (g : FlexGridGraph) (s t : Int) (hc : unobstructedCorridorY g s t)
    (x : Int) (h0 : 0 ≤ x) (h1 : x < g.yCoords_.length) :
    getEstCost g { x := 0, y := x, z := 0 } { x := 0, y := t, z := 0 }
        { x := 0, y := t, z := 0 }
      = some (max (g.yCoords_.getD t.toNat 0 - g.yCoords_.getD x.toNat 0)
          (g.yCoords_.getD x.toNat 0 - g.yCoords_.getD t.toNat 0)) := by
  obtain ⟨-, -, -, hH, -⟩ := corridorY_sizes g s t hc
  have ex := vecGet?_getD g.yCoords_ x h0 h1
  have et := vecGet?_getD g.yCoords_ t hc.2.2.2.2.2.2.2.2.1.1 hc.2.2.2.2.2.2.2.2.1.2
  have ey := vecGet?_getD g.xCoords_ 0 (le_refl _) (by rw [hc.2.1]; decide)
  have ez := vecGet?_getD g.zHeights_ 0 (le_refl _) (by rw [hH]; decide)
  simp only [getEstCost, yCoord, xCoord, getZHeight, ex, et, ey, ez, axisDist_point]
  congr 1
  omega

/-- Storing a previous direction keeps a corridor a corridor. -/
theorem corridorY_setPrev (g : FlexGridGraph) (s t : Int) (hc : unobstructedCorridorY g s t)
    (x : Int) (h0 : 0 ≤ x) (h1 : x < g.yCoords_.length) (dir : Nat) (hd : dir < 8) :
    ∃ g1, setPrevAstarNodeDir g 0 x 0 dir = some g1 ∧ unobstructedCorridorY g1 s t
      ∧ g1.yCoords_ = g.yCoords_
      ∧ getPrevAstarNodeDir g1 0 x 0 = some dir
      ∧ ∀ x1 : Int, 0 ≤ x1 → x1 < g.yCoords_.length → x1 ≠ x →
          getPrevAstarNodeDir g1 0 x1 0 = getPrevAstarNodeDir g 0 x1 0 := by
  have hv := (corridorY_isValid g s t hc 0 x 0).2 ⟨h0, h1, rfl, rfl⟩
  obtain ⟨p3, hset, hl3, hget, hframe⟩ :=
    setPrevAstarNodeDir_spec g hc.1 hc.2.2.2.1 0 x 0 hv dir hd
  refine ⟨_, hset, ?_, rfl, hget, ?_⟩
  · obtain ⟨⟨w1, w2, w3, w4, w5, w6, w7, w8, w9, w10, w11⟩, hY, hZ, hP, c5, c6, c7, c8, c9,
      c10, c11⟩ := hc
    have hP1 : (p3.length : Int) < 2 ^ 31 := by rw [hl3]; exact hP
    exact ⟨⟨w1, hl3.trans w2, w3, w4, w5, w6, w7, w8, w9, w10, w11⟩, hY, hZ, hP1, c5, c6, c7,
      c8, c9, c10, c11⟩
  · intro x1 q0 q1 hne
    have hv1 := (corridorY_isValid g s t hc 0 x1 0).2 ⟨q0, q1, rfl, rfl⟩
    exact hframe 0 x1 0 hv1 (by
      intro e
      exact hne (congrArg (fun p => p.2.1) e))

/-- The step towards the destination row inserts the entry of the next row. -/
theorem expandY_forward (g : FlexGridGraph) (s t : Int) (hc : unobstructedCorridorY g s t)
    (w : CostWeights) (legal : frDirEnum → frDirEnum → Bool) (vs : List VisitedNode)
    (ws : List FlexWavefrontGrid) (σ : Int) (d : frDirEnum)
    (hd : (d = frDirEnum.N ∧ σ = 1) ∨ (d = frDirEnum.S ∧ σ = -1))
    (x pc ec : Int) (ld : frDirEnum) (h0 : 0 ≤ x) (h1 : x < g.yCoords_.length)
    (hn0 : 0 ≤ x + σ) (hn1 : x + σ < g.yCoords_.length) (ht : 0 ≤ σ * (t - (x + σ)))
    (hlegal : legal ld d = true) (hnv : ∀ c, isVisitedAt vs 0 (x + σ) 0 c = false) :
    expand g w legal { x := 0, y := t, z := 0 } { x := 0, y := t, z := 0 } vs
        { x := 0, y := x, z := 0, pathCost := pc, cost := ec, lastDir := ld } d ws
      = some (ws ++ [
        { x := 0, y := x + σ, z := 0,
          pathCost := pc + σ * (g.yCoords_.getD (x + σ).toNat 0 - g.yCoords_.getD x.toNat 0),
          cost := pc + σ * (g.yCoords_.getD t.toNat 0 - g.yCoords_.getD x.toNat 0),
          lastDir := d }]) := by
  have ht0 := hc.2.2.2.2.2.2.2.2.1.1
  have ht1 := hc.2.2.2.2.2.2.2.2.1.2
  have e4 := corridorY_getEstCost g s t hc (x + σ) hn0 hn1
  rcases hd with ⟨rfl, rfl⟩ | ⟨rfl, rfl⟩
  · have e1 : hasEdge g 0 x 0 frDirEnum.N = some true := by
      rw [corridorY_hasEdge_N g s t hc x h0 h1]
      simp only [hn1, decide_True]
    have e2 := corridorY_isBlocked_N g s t hc x h0 h1
    have e3 := corridorY_getCosts_N g s t hc w x h0 hn1
    have hmono : g.yCoords_.getD (x + 1).toNat 0 ≤ g.yCoords_.getD t.toNat 0 := by
      rcases eq_or_lt_of_le (show x + 1 ≤ t by omega) with h | h
      · rw [h]
      · exact le_of_lt (corridorY_coord_lt g s t hc (x + 1) t hn0 h ht1)
    simp only [expand, e1, e2, hlegal, if_true, reverse, e3, e4, hnv, Bool.false_eq_true,
      if_false]
    refine congrArg some (congrArg (fun e => ws ++ [e]) ?_)
    simp only [FlexWavefrontGrid.mk.injEq, true_and, and_true]
    constructor <;> omega
  · have hx1 : 0 ≤ x - 1 := by omega
    have e1 : hasEdge g 0 x 0 frDirEnum.S = some true := by
      rw [corridorY_hasEdge_S g s t hc x h0 h1]
      simp only [hx1, decide_True]
    have e2 := corridorY_isBlocked_S g s t hc x hx1 h1
    have e3 := corridorY_getCosts_S g s t hc w x hx1 h1
    have exx : x + -1 = x - 1 := by omega
    rw [exx] at e4 hnv
    have hmono : g.yCoords_.getD t.toNat 0 ≤ g.yCoords_.getD (x - 1).toNat 0 := by
      rcases eq_or_lt_of_le (show t ≤ x - 1 by omega) with h | h
      · rw [h]
      · exact le_of_lt (corridorY_coord_lt g s t hc t (x - 1) ht0 h (by omega))
    simp only [expand, e1, e2, hlegal, if_true, reverse, e3, e4, hnv, Bool.false_eq_true,
      if_false, exx]
    refine congrArg some (congrArg (fun e => ws ++ [e]) ?_)
    simp only [FlexWavefrontGrid.mk.injEq, true_and, and_true]
    constructor <;> omega

/-- The step away from the destination row inserts nothing, or an entry whose estimated
cost is above the one of the expanded entry. -/
theorem expandY_backward (g : FlexGridGraph) (s t : Int) (hc : unobstructedCorridorY g s t)
    (w : CostWeights) (legal : frDirEnum → frDirEnum → Bool) (vs : List VisitedNode)
    (ws : List FlexWavefrontGrid) (σ : Int) (b : frDirEnum)
    (hb : (b = frDirEnum.S ∧ σ = 1) ∨ (b = frDirEnum.N ∧ σ = -1))
    (x pc ec : Int) (ld : frDirEnum) (h0 : 0 ≤ x) (h1 : x < g.yCoords_.length)
    (ht : 0 ≤ σ * (t - x)) :
    ∃ R, expand g w legal { x := 0, y := t, z := 0 } { x := 0, y := t, z := 0 } vs
          { x := 0, y := x, z := 0, pathCost := pc, cost := ec, lastDir := ld } b ws
        = some (ws ++ R)
      ∧ ∀ e ∈ R,
          pc + σ * (g.yCoords_.getD t.toNat 0 - g.yCoords_.getD x.toNat 0) < e.cost := by
  have ht0 := hc.2.2.2.2.2.2.2.2.1.1
  have ht1 := hc.2.2.2.2.2.2.2.2.1.2
  have hmono : ∀ a c : Int, 0 ≤ a → a ≤ c → c < g.yCoords_.length →
      g.yCoords_.getD a.toNat 0 ≤ g.yCoords_.getD c.toNat 0 := by
    intro a c ha hac hc1
    rcases eq_or_lt_of_le hac with h | h
    · rw [h]
    · exact le_of_lt (corridorY_coord_lt g s t hc a c ha h hc1)
  rcases hb with ⟨rfl, rfl⟩ | ⟨rfl, rfl⟩
  · by_cases hx1 : 0 ≤ x - 1
    · have e1 : hasEdge g 0 x 0 frDirEnum.S = some true := by
        rw [corridorY_hasEdge_S g s t hc x h0 h1]
        simp only [hx1, decide_True]
      have e2 := corridorY_isBlocked_S g s t hc x hx1 h1
      have e3 := corridorY_getCosts_S g s t hc w x hx1 h1
      have e4 := corridorY_getEstCost g s t hc (x - 1) hx1 (by omega)
      have m1 := corridorY_coord_lt g s t hc (x - 1) x hx1 (by omega) h1
      have m2 := hmono x t h0 (by omega) ht1
      by_cases hl : legal ld frDirEnum.S = true
      · by_cases hvis : isVisitedAt vs 0 (x - 1) 0
            (pc + (g.yCoords_.getD x.toNat 0 - g.yCoords_.getD (x - 1).toNat 0)) = true
        · refine ⟨[], ?_, by simp⟩
          simp only [expand, e1, e2, hl, if_true, reverse, e3, e4, hvis, List.append_nil]
        · refine ⟨[{ x := 0, y := x - 1, z := 0,
                     pathCost := pc
                       + (g.yCoords_.getD x.toNat 0 - g.yCoords_.getD (x - 1).toNat 0),
                     cost := pc
                       + (g.yCoords_.getD x.toNat 0 - g.yCoords_.getD (x - 1).toNat 0)
                       + max (g.yCoords_.getD t.toNat 0 - g.yCoords_.getD (x - 1).toNat 0)
                          (g.yCoords_.getD (x - 1).toNat 0 - g.yCoords_.getD t.toNat 0),
                     lastDir := frDirEnum.S }], ?_, ?_⟩
          · simp only [expand, e1, e2, hl, if_true, reverse, e3, e4, hvis, Bool.false_eq_true,
              if_false]
          · intro e he
            rw [List.mem_singleton] at he
            subst he
            show _ < _ + _ + max _ _
            omega
      · refine ⟨[], ?_, by simp⟩
        simp only [expand, e1, e2, hl, Bool.false_eq_true, if_false, List.append_nil]
    · have e1 : hasEdge g 0 x 0 frDirEnum.S = some false := by
        rw [corridorY_hasEdge_S g s t hc x h0 h1]
        simp only [hx1, decide_False]
      refine ⟨[], ?_, by simp⟩
      simp only [expand, e1, List.append_nil]
  · by_cases hx1 : x + 1 < g.yCoords_.length
    · have e1 : hasEdge g 0 x 0 frDirEnum.N = some true := by
        rw [corridorY_hasEdge_N g s t hc x h0 h1]
        simp only [hx1, decide_True]
      have e2 := corridorY_isBlocked_N g s t hc x h0 h1
      have e3 := corridorY_getCosts_N g s t hc w x h0 hx1
      have e4 := corridorY_getEstCost g s t hc (x + 1) (by omega) hx1
      have m1 := corridorY_coord_lt g s t hc x (x + 1) h0 (by omega) hx1
      have m2 := hmono t x ht0 (by omega) h1
      by_cases hl : legal ld frDirEnum.N = true
      · by_cases hvis : isVisitedAt vs 0 (x + 1) 0
            (pc + (g.yCoords_.getD (x + 1).toNat 0 - g.yCoords_.getD x.toNat 0)) = true
        · refine ⟨[], ?_, by simp⟩
          simp only [expand, e1, e2, hl, if_true, reverse, e3, e4, hvis, List.append_nil]
        · refine ⟨[{ x := 0, y := x + 1, z := 0,
                     pathCost := pc
                       + (g.yCoords_.getD (x + 1).toNat 0 - g.yCoords_.getD x.toNat 0),
                     cost := pc
                       + (g.yCoords_.getD (x + 1).toNat 0 - g.yCoords_.getD x.toNat 0)
                       + max (g.yCoords_.getD t.toNat 0 - g.yCoords_.getD (x + 1).toNat 0)
                          (g.yCoords_.getD (x + 1).toNat 0 - g.yCoords_.getD t.toNat 0),
                     lastDir := frDirEnum.N }], ?_, ?_⟩
          · simp only [expand, e1, e2, hl, if_true, reverse, e3, e4, hvis, Bool.false_eq_true,
              if_false]
          · intro e he
            rw [List.mem_singleton] at he
            subst he
            show _ < _ + _ + max _ _
            omega
      · refine ⟨[], ?_, by simp⟩
        simp only [expand, e1, e2, hl, Bool.false_eq_true, if_false, List.append_nil]
    · have e1 : hasEdge g 0 x 0 frDirEnum.N = some false := by
        rw [corridorY_hasEdge_N g s t hc x h0 h1]
        simp only [hx1, decide_False]
      refine ⟨[], ?_, by simp⟩
      simp only [expand, e1, List.append_nil]

/-- The four directions out of the corridor have no edge. -/
theorem expandY_side (g : FlexGridGraph) (s t : Int) (hc : unobstructedCorridorY g s t)
    (w : CostWeights) (legal : frDirEnum → frDirEnum → Bool) (vs : List VisitedNode)
    (ws : List FlexWavefrontGrid) (x pc ec : Int) (ld : frDirEnum) (h0 : 0 ≤ x)
    (h1 : x < g.yCoords_.length) (dir : frDirEnum) (hE : dir ≠ frDirEnum.N)
    (hW : dir ≠ frDirEnum.S) :
    expand g w legal { x := 0, y := t, z := 0 } { x := 0, y := t, z := 0 } vs
        { x := 0, y := x, z := 0, pathCost := pc, cost := ec, lastDir := ld } dir ws
      = some ws := by
  simp only [expand, corridorY_hasEdge_side g s t hc x h0 h1 dir hE hW]

/-- Expanding a row before the destination row inserts the entry of the next row
and nothing else of an estimated cost as low. -/
theorem expandWavefrontY_corridor (g : FlexGridGraph) (s t : Int)
    (hc : unobstructedCorridorY g s t) (w : CostWeights)
    (legal : frDirEnum → frDirEnum → Bool) (vs : List VisitedNode)
    (ws : List FlexWavefrontGrid) (σ : Int) (d : frDirEnum)
    (hd : (d = frDirEnum.N ∧ σ = 1) ∨ (d = frDirEnum.S ∧ σ = -1))
    (x pc ec : Int) (ld : frDirEnum) (h0 : 0 ≤ x) (h1 : x < g.yCoords_.length)
    (hn0 : 0 ≤ x + σ) (hn1 : x + σ < g.yCoords_.length) (ht : 0 ≤ σ * (t - (x + σ)))
    (hlegal : legal ld d = true) (hnv : ∀ c, isVisitedAt vs 0 (x + σ) 0 c = false) :
    ∃ A B, expandWavefront g w legal { x := 0, y := t, z := 0 } { x := 0, y := t, z := 0 } vs
          { x := 0, y := x, z := 0, pathCost := pc, cost := ec, lastDir := ld } ws
        = some ((ws ++ A) ++
            { x := 0, y := x + σ, z := 0,
              pathCost := pc
                + σ * (g.yCoords_.getD (x + σ).toNat 0 - g.yCoords_.getD x.toNat 0),
              cost := pc + σ * (g.yCoords_.getD t.toNat 0 - g.yCoords_.getD x.toNat 0),
              lastDir := d } :: B)
      ∧ ∀ e ∈ A ++ B,
          pc + σ * (g.yCoords_.getD t.toNat 0 - g.yCoords_.getD x.toNat 0) < e.cost := by
  rcases hd with ⟨hd1, hd2⟩ | ⟨hd1, hd2⟩
  · obtain ⟨R, hS, hR⟩ := expandY_backward g s t hc w legal vs ws σ frDirEnum.S
      (Or.inl ⟨rfl, hd2⟩) x pc ec ld h0 h1 (by subst hd2; omega)
    have hN := expandY_forward g s t hc w legal vs (ws ++ R) σ d (Or.inl ⟨hd1, hd2⟩) x pc ec ld
      h0 h1 hn0 hn1 ht hlegal hnv
    subst hd1
    refine ⟨R, [], ?_, ?_⟩
    · simp only [expandWavefront, hS, Option.some_bind, hN,
        expandY_side g s t hc w legal vs _ x pc ec ld h0 h1 frDirEnum.E (by decide) (by decide),
        expandY_side g s t hc w legal vs _ x pc ec ld h0 h1 frDirEnum.W (by decide) (by decide),
        expandY_side g s t hc w legal vs _ x pc ec ld h0 h1 frDirEnum.U (by decide) (by decide),
        expandY_side g s t hc w legal vs _ x pc ec ld h0 h1 frDirEnum.D (by decide) (by decide)]
    · simpa using hR
  · have hS := expandY_forward g s t hc w legal vs ws σ d (Or.inr ⟨hd1, hd2⟩) x pc ec ld h0 h1
      hn0 hn1 ht hlegal hnv
    obtain ⟨R, hN, hR⟩ := expandY_backward g s t hc w legal vs
      (ws ++ [{ x := 0, y := x + σ, z := 0,
                pathCost := pc
                  + σ * (g.yCoords_.getD (x + σ).toNat 0 - g.yCoords_.getD x.toNat 0),
                cost := pc + σ * (g.yCoords_.getD t.toNat 0 - g.yCoords_.getD x.toNat 0),
                lastDir := d }])
      σ frDirEnum.N (Or.inr ⟨rfl, hd2⟩) x pc ec ld h0 h1 (by subst hd2; omega)
    subst hd1
    refine ⟨[], R, ?_, ?_⟩
    · simp only [expandWavefront, hS, Option.some_bind, hN,
        expandY_side g s t hc w legal vs _ x pc ec ld h0 h1 frDirEnum.E (by decide) (by decide),
        expandY_side g s t hc w legal vs _ x pc ec ld h0 h1 frDirEnum.W (by decide) (by decide),
        expandY_side g s t hc w legal vs _ x pc ec ld h0 h1 frDirEnum.U (by decide) (by decide),
        expandY_side g s t hc w legal vs _ x pc ec ld h0 h1 frDirEnum.D (by decide) (by decide)]
      simp
    · simpa using hR

theorem isVisitedY_false (vs : List VisitedNode) (x y z : Int) (h : ∀ v ∈ vs, v.y ≠ y) :
    isVisited vs x y z = false := by
  induction vs with
  | nil => rfl
  | cons v tl ih =>
    have h1 := h v (List.mem_cons_self _ _)
    have h2 := ih (fun a ha => h a (List.mem_cons_of_mem _ ha))
    unfold isVisited at h2
    simp only [isVisited, List.any_cons, h2, Bool.or_false, decide_eq_false_iff_not]
    exact fun hh => h1 hh.2.1

theorem isVisitedAtY_false (vs : List VisitedNode) (x y z c : Int) (h : ∀ v ∈ vs, v.y ≠ y) :
    isVisitedAt vs x y z c = false := by
  induction vs with
  | nil => rfl
  | cons v tl ih =>
    have h1 := h v (List.mem_cons_self _ _)
    have h2 := ih (fun a ha => h a (List.mem_cons_of_mem _ ha))
    unfold isVisitedAt at h2
    simp only [isVisitedAt, List.any_cons, h2, Bool.or_false, decide_eq_false_iff_not]
    exact fun hh => h1 hh.2.1

/-- The rows between the source and the destination are rows of the corridor. -/
theorem corridorY_pos (σ : Int) (d : frDirEnum)
    (hd : (d = frDirEnum.N ∧ σ = 1) ∨ (d = frDirEnum.S ∧ σ = -1)) (s t X : Int) (n j : Nat)
    (htn : t = s + σ * (n : Int)) (hj : j ≤ n) (hs : 0 ≤ s ∧ s < X) (ht : 0 ≤ t ∧ t < X) :
    0 ≤ s + σ * (j : Int) ∧ s + σ * (j : Int) < X ∧ 0 ≤ σ * (t - (s + σ * (j : Int))) := by
  rcases hd with ⟨-, rfl⟩ | ⟨-, rfl⟩ <;> omega

theorem corridorY_pos_ne (σ : Int) (d : frDirEnum)
    (hd : (d = frDirEnum.N ∧ σ = 1) ∨ (d = frDirEnum.S ∧ σ = -1)) (s : Int) (j k : Nat)
    (h : j ≠ k) : s + σ * (j : Int) ≠ s + σ * (k : Int) := by
  rcases hd with ⟨-, rfl⟩ | ⟨-, rfl⟩ <;> omega

theorem corridorEntryY_succ (xs : List Int) (s t σ : Int) (d : frDirEnum) (k : Nat) :
    ({ x := 0, y := s + σ * (k : Int) + σ, z := 0,
       pathCost := σ * (xs.getD (s + σ * (k : Int)).toNat 0 - xs.getD s.toNat 0)
         + σ * (xs.getD (s + σ * (k : Int) + σ).toNat 0
            - xs.getD (s + σ * (k : Int)).toNat 0),
       cost := σ * (xs.getD (s + σ * (k : Int)).toNat 0 - xs.getD s.toNat 0)
         + σ * (xs.getD t.toNat 0 - xs.getD (s + σ * (k : Int)).toNat 0),
       lastDir := d } : FlexWavefrontGrid)
      = corridorEntryY xs s t σ d (k + 1) := by
  have e : s + σ * ((k + 1 : Nat) : Int) = s + σ * (k : Int) + σ := by
    push_cast
    ring
  unfold corridorEntryY
  rw [e]
  simp only [FlexWavefrontGrid.mk.injEq, true_and, Nat.add_one_ne_zero, if_false, and_true]
  constructor <;> ring

/-- The main loop on a corridor: from the state in which the entry of the row
`s + σ * k` is the one entry of lowest estimated cost, the loop pops the entries of the
rows up to the destination row, one per iteration, and ends there. -/
theorem searchLoopY_corridor (xs : List Int) (s t σ : Int) (d : frDirEnum)
    (hd : (d = frDirEnum.N ∧ σ = 1) ∨ (d = frDirEnum.S ∧ σ = -1)) (n : Nat)
    (htn : t = s + σ * (n : Int)) (w : CostWeights) (legal : frDirEnum → frDirEnum → Bool)
    (hl0 : ∀ dir, legal frDirEnum.UNKNOWN dir = true) (hl1 : ∀ dir, legal dir dir = true)
    (m : Nat) :
    ∀ (k : Nat), k + m = n → ∀ (g : FlexGridGraph) (L R : List FlexWavefrontGrid)
      (vs : List VisitedNode), unobstructedCorridorY g s t → g.yCoords_ = xs →
      (∀ e ∈ L, σ * (xs.getD t.toNat 0 - xs.getD s.toNat 0) < e.cost) →
      (∀ e ∈ R, σ * (xs.getD t.toNat 0 - xs.getD s.toNat 0) < e.cost) →
      (∀ v ∈ vs, ∀ j : Nat, k ≤ j → v.y ≠ s + σ * (j : Int)) →
      (∀ j : Nat, 1 ≤ j → j < k →
        getPrevAstarNodeDir g 0 (s + σ * (j : Int)) 0 = some d.toNat) →
      ∀ fuel, m + 1 ≤ fuel →
      ∃ g1, searchLoop w legal { x := 0, y := t, z := 0 } { x := 0, y := t, z := 0 } fuel g
            (L ++ corridorEntryY xs s t σ d k :: R) vs
          = some (some (g1, corridorEntryY xs s t σ d n))
        ∧ unobstructedCorridorY g1 s t ∧ g1.yCoords_ = xs
        ∧ ∀ j : Nat, 1 ≤ j → j ≤ n →
            getPrevAstarNodeDir g1 0 (s + σ * (j : Int)) 0 = some d.toNat := by
  induction m with
  | zero =>
    intro k hk g L R vs hc hxs hL hR hvs hprev fuel hfuel
    have hkn : k = n := by omega
    subst hkn
    subst hxs
    obtain ⟨f, rfl⟩ : ∃ f, fuel = f + 1 := ⟨fuel - 1, by omega⟩
    have hs := hc.2.2.2.2.2.2.2.1
    have ht := hc.2.2.2.2.2.2.2.2.1
    obtain ⟨p0, p1, -⟩ := corridorY_pos σ d hd s t _ k k htn (le_refl _) hs ht
    have hpop := popMin_strict_min (corridorEntryY g.yCoords_ s t σ d k) R hR L hL
    have hvis : isVisited vs 0 (s + σ * (k : Int)) 0 = false :=
      isVisitedY_false vs 0 _ 0 (fun v hv => hvs v hv k (le_refl _))
    have hdir : (if k = 0 then frDirEnum.UNKNOWN else d).toNat < 8 := by
      split <;> cases d <;> decide
    obtain ⟨g1, hset, hc1, hx1, hget, hframe⟩ :=
      corridorY_setPrev g s t hc (s + σ * (k : Int)) p0 p1 _ hdir
    have hdst : isDst g1 0 (s + σ * (k : Int)) 0 = some true := by
      rw [corridorY_isDst g1 s t hc1 _ p0 (by rw [hx1]; exact p1)]
      simp only [htn, decide_True]
    refine ⟨g1, ?_, hc1, hx1, ?_⟩
    · simp only [searchLoop, hpop]
      simp only [corridorEntryY, hvis, Bool.false_eq_true, if_false, hset, hdst]
    · intro j hj1 hj2
      rcases Nat.lt_or_ge j k with hlt | hge
      · obtain ⟨q0, q1, -⟩ := corridorY_pos σ d hd s t _ k j htn (by omega) hs ht
        rw [hframe _ q0 q1 (corridorY_pos_ne σ d hd s j k (by omega))]
        exact hprev j hj1 hlt
      · have hjk : j = k := by omega
        subst hjk
        rw [hget, if_neg (by omega)]
  | succ m ih =>
    intro k hk g L R vs hc hxs hL hR hvs hprev fuel hfuel
    subst hxs
    obtain ⟨f, rfl⟩ : ∃ f, fuel = f + 1 := ⟨fuel - 1, by omega⟩
    have hs := hc.2.2.2.2.2.2.2.1
    have ht := hc.2.2.2.2.2.2.2.2.1
    obtain ⟨p0, p1, p2⟩ := corridorY_pos σ d hd s t _ n k htn (by omega) hs ht
    obtain ⟨r0, r1, r2⟩ := corridorY_pos σ d hd s t _ n (k + 1) htn (by omega) hs ht
    have esucc : s + σ * ((k + 1 : Nat) : Int) = s + σ * (k : Int) + σ := by
      push_cast
      ring
    rw [esucc] at r0 r1 r2
    have hpop := popMin_strict_min (corridorEntryY g.yCoords_ s t σ d k) R hR L hL
    have hvis : isVisited vs 0 (s + σ * (k : Int)) 0 = false :=
      isVisitedY_false vs 0 _ 0 (fun v hv => hvs v hv k (le_refl _))
    have hdir : (if k = 0 then frDirEnum.UNKNOWN else d).toNat < 8 := by
      split <;> cases d <;> decide
    obtain ⟨g1, hset, hc1, hx1, hget, hframe⟩ :=
      corridorY_setPrev g s t hc (s + σ * (k : Int)) p0 p1 _ hdir
    have hdst : isDst g1 0 (s + σ * (k : Int)) 0 = some false := by
      rw [corridorY_isDst g1 s t hc1 _ p0 (by rw [hx1]; exact p1)]
      have hne : s + σ * (k : Int) ≠ t := by
        rw [htn]
        exact corridorY_pos_ne σ d hd s k n (by omega)
      simp only [hne, decide_False]
    have hlegal : legal (if k = 0 then frDirEnum.UNKNOWN else d) d = true := by
      split
      · exact hl0 d
      · exact hl1 d
    have hvs1 : ∀ v ∈ VisitedNode.mk 0 (s + σ * (k : Int)) 0
          (σ * (g.yCoords_.getD (s + σ * (k : Int)).toNat 0 - g.yCoords_.getD s.toNat 0))
          :: vs,
        ∀ j : Nat, k + 1 ≤ j → v.y ≠ s + σ * (j : Int) := by
      intro v hv j hj
      rcases List.mem_cons.1 hv with h | h
      · rw [h]
        exact corridorY_pos_ne σ d hd s k j (by omega)
      · exact hvs v h j (by omega)
    obtain ⟨A, B, hexp, hAB⟩ := expandWavefrontY_corridor g1 s t hc1 w legal
      (VisitedNode.mk 0 (s + σ * (k : Int)) 0
          (σ * (g.yCoords_.getD (s + σ * (k : Int)).toNat 0 - g.yCoords_.getD s.toNat 0))
          :: vs)
      (L ++ R) σ d hd (s + σ * (k : Int))
      (σ * (g.yCoords_.getD (s + σ * (k : Int)).toNat 0 - g.yCoords_.getD s.toNat 0))
      (σ * (g.yCoords_.getD t.toNat 0 - g.yCoords_.getD s.toNat 0))
      (if k = 0 then frDirEnum.UNKNOWN else d) p0 (by rw [hx1]; exact p1) r0
      (by rw [hx1]; exact r1) r2 hlegal
      (fun c => isVisitedAtY_false _ 0 _ 0 c (fun v hv => by
        have := hvs1 v hv (k + 1) (le_refl _)
        rw [esucc] at this
        exact this))
    rw [hx1, corridorEntryY_succ] at hexp
    have hD : σ * (g.yCoords_.getD (s + σ * (k : Int)).toNat 0 - g.yCoords_.getD s.toNat 0)
        + σ * (g.yCoords_.getD t.toNat 0 - g.yCoords_.getD (s + σ * (k : Int)).toNat 0)
        = σ * (g.yCoords_.getD t.toNat 0 - g.yCoords_.getD s.toNat 0) := by ring
    rw [hx1, hD] at hAB
    obtain ⟨g2, hloop, hc2, hx2, hprev2⟩ := ih (k + 1) (by omega) g1 (L ++ R ++ A) B _ hc1 hx1
      (by
        intro e he
        rcases List.mem_append.1 he with h | h
        · rcases List.mem_append.1 h with h | h
          · exact hL e h
          · exact hR e h
        · exact hAB e (List.mem_append_left _ h))
      (fun e he => hAB e (List.mem_append_right _ he)) hvs1
      (by
        intro j hj1 hj2
        rcases Nat.lt_or_ge j k with hlt | hge
        · obtain ⟨q0, q1, -⟩ := corridorY_pos σ d hd s t _ n j htn (by omega) hs ht
          rw [hframe _ q0 q1 (corridorY_pos_ne σ d hd s j k (by omega))]
          exact hprev j hj1 hlt
        · have hjk : j = k := by omega
          subst hjk
          rw [hget, if_neg (by omega)])
      f (by omega)
    refine ⟨g2, ?_, hc2, hx2, hprev2⟩
    simp only [searchLoop, hpop]
    simp only [corridorEntryY, hvis, Bool.false_eq_true, if_false, hset, hdst, hexp]
    exact hloop

theorem getPrevGridY_corridor (σ : Int) (d : frDirEnum)
    (hd : (d = frDirEnum.N ∧ σ = 1) ∨ (d = frDirEnum.S ∧ σ = -1)) (s : Int) (k : Nat) :
    getPrevGrid 0 (s + σ * ((k + 1 : Nat) : Int)) 0 d.toNat
      = { x := 0, y := s + σ * (k : Int), z := 0 } := by
  rcases hd with ⟨rfl, rfl⟩ | ⟨rfl, rfl⟩
  · have h1 : ¬ ((5 : Nat) = 4) := by decide
    have h2 : ¬ ((5 : Nat) = 3) := by decide
    simp only [getPrevGrid, frDirEnum.toNat, h1, h2, if_false, if_true, FlexMazeIdx.mk.injEq,
      true_and, and_true]
    push_cast
    ring
  · have h1 : ¬ ((2 : Nat) = 4) := by decide
    have h2 : ¬ ((2 : Nat) = 3) := by decide
    have h3 : ¬ ((2 : Nat) = 5) := by decide
    simp only [getPrevGrid, frDirEnum.toNat, h1, h2, h3, if_false, if_true,
      FlexMazeIdx.mk.injEq, true_and, and_true]
    push_cast
    ring

/-- The trace back from a row of the corridor follows the stored directions to the
source row. -/
theorem traceBackPathY_corridor (g : FlexGridGraph) (s t σ : Int) (d : frDirEnum)
    (hd : (d = frDirEnum.N ∧ σ = 1) ∨ (d = frDirEnum.S ∧ σ = -1)) (n : Nat)
    (htn : t = s + σ * (n : Int)) (hc : unobstructedCorridorY g s t)
    (hprev : ∀ j : Nat, 1 ≤ j → j ≤ n →
      getPrevAstarNodeDir g 0 (s + σ * (j : Int)) 0 = some d.toNat) (k : Nat) :
    k ≤ n → ∀ fuel, k + 1 ≤ fuel →
      traceBackPath g fuel 0 (s + σ * (k : Int)) 0 = some (corridorPathY s σ k) := by
  have hs := hc.2.2.2.2.2.2.2.1
  have ht := hc.2.2.2.2.2.2.2.2.1
  induction k with
  | zero =>
    intro _ fuel hfuel
    obtain ⟨f, rfl⟩ : ∃ f, fuel = f + 1 := ⟨fuel - 1, by omega⟩
    have e : s + σ * ((0 : Nat) : Int) = s := by simp
    rw [e]
    have hsrc := corridorY_isSrc g s t hc s hs.1 hs.2
    simp only [decide_True] at hsrc
    simp only [traceBackPath, hsrc, corridorPathY]
  | succ k ih =>
    intro hk fuel hfuel
    obtain ⟨f, rfl⟩ : ∃ f, fuel = f + 1 := ⟨fuel - 1, by omega⟩
    obtain ⟨p0, p1, -⟩ := corridorY_pos σ d hd s t _ n (k + 1) htn hk hs ht
    have hne : s + σ * ((k + 1 : Nat) : Int) ≠ s := by
      have := corridorY_pos_ne σ d hd s (k + 1) 0 (by omega)
      simpa using this
    have hsrc := corridorY_isSrc g s t hc _ p0 p1
    simp only [hne, decide_False] at hsrc
    have hrec := ih (by omega) f (by omega)
    simp only [traceBackPath, hsrc, hprev (k + 1) (by omega) hk,
      getPrevGridY_corridor σ d hd s k, hrec, Option.map_some', corridorPathY]

theorem corridorPathY_length (s σ : Int) (k : Nat) : (corridorPathY s σ k).length = k + 1 := by
  induction k with
  | zero => rfl
  | succ k ih => simp only [corridorPathY, List.length_cons, ih]

theorem corridorPathY_head (s σ : Int) (k : Nat) :
    ∃ rest, corridorPathY s σ k = { x := 0, y := s + σ * (k : Int), z := 0 } :: rest := by
  cases k with
  | zero => exact ⟨[], by simp [corridorPathY]⟩
  | succ k => exact ⟨corridorPathY s σ k, rfl⟩

/-- The length of the edge from a row back to the row before it on the path. -/
theorem corridorY_edge_back (g : FlexGridGraph) (s t : Int) (hc : unobstructedCorridorY g s t)
    (σ : Int) (d : frDirEnum)
    (hd : (d = frDirEnum.N ∧ σ = 1) ∨ (d = frDirEnum.S ∧ σ = -1)) (x : Int)
    (h0 : 0 ≤ x) (h1 : x < g.yCoords_.length) (q0 : 0 ≤ x - σ)
    (q1 : x - σ < g.yCoords_.length) :
    getEdgeLength g 0 x 0 (stepDir { x := 0, y := x, z := 0 } { x := 0, y := x - σ, z := 0 })
      = some (σ * (g.yCoords_.getD x.toNat 0 - g.yCoords_.getD (x - σ).toNat 0)) := by
  have z1 : ¬ ((0 : Int) = 0 + 1) := by decide
  have z2 : ¬ ((0 : Int) = 0 - 1) := by decide
  rcases hd with ⟨-, rfl⟩ | ⟨-, rfl⟩
  · have n1 : ¬ (x - 1 = x + 1) := by omega
    have e := corridorY_getEdgeLength_N g s t hc (x - 1) q0 (by omega)
    have e1 : x - 1 + 1 = x := by omega
    rw [e1] at e
    have e2 : getEdgeLength g 0 x 0 frDirEnum.S = getEdgeLength g 0 (x - 1) 0 frDirEnum.N := by
      simp only [getEdgeLength, correct]
    simp only [stepDir, z1, z2, n1, if_false, if_true, e2, e, one_mul]
  · have e0 : x - -1 = x + 1 := by omega
    rw [e0] at q1 ⊢
    have e := corridorY_getEdgeLength_N g s t hc x h0 q1
    simp only [stepDir, z1, z2, if_false, if_true, e]
    congr 1
    omega

/-- The edge lengths along the straight path add up to the distance of its end rows. -/
theorem pathEdgeLengthY_corridor (g : FlexGridGraph) (s t σ : Int) (d : frDirEnum)
    (hd : (d = frDirEnum.N ∧ σ = 1) ∨ (d = frDirEnum.S ∧ σ = -1)) (n : Nat)
    (htn : t = s + σ * (n : Int)) (hc : unobstructedCorridorY g s t) (k : Nat) :
    k ≤ n → pathEdgeLength g (corridorPathY s σ k)
      = some (σ * (g.yCoords_.getD (s + σ * (k : Int)).toNat 0 - g.yCoords_.getD s.toNat 0)) := by
  have hs := hc.2.2.2.2.2.2.2.1
  have ht := hc.2.2.2.2.2.2.2.2.1
  induction k with
  | zero =>
    intro _
    simp [corridorPathY, pathEdgeLength]
  | succ k ih =>
    intro hk
    obtain ⟨rest, hrest⟩ := corridorPathY_head s σ k
    have hrec := ih (by omega)
    rw [hrest] at hrec
    obtain ⟨p0, p1, -⟩ := corridorY_pos σ d hd s t _ n (k + 1) htn hk hs ht
    obtain ⟨r0, r1, -⟩ := corridorY_pos σ d hd s t _ n k htn (by omega) hs ht
    have e : s + σ * (k : Int) = s + σ * ((k + 1 : Nat) : Int) - σ := by
      push_cast
      ring
    have hedge := corridorY_edge_back g s t hc σ d hd (s + σ * ((k + 1 : Nat) : Int)) p0 p1
      (by rw [← e]; exact r0) (by rw [← e]; exact r1)
    rw [← e] at hedge
    simp only [corridorPathY, hrest, pathEdgeLength, hedge, hrec]
    congr 1
    ring

theorem corridorEntryY_zero (xs : List Int) (s t σ : Int) (d : frDirEnum) :
    corridorEntryY xs s t σ d 0
      = { x := 0, y := s, z := 0, pathCost := 0,
          cost := σ * (xs.getD t.toNat 0 - xs.getD s.toNat 0),
          lastDir := frDirEnum.UNKNOWN } := by
  simp [corridorEntryY]

/-- The search on a corridor whose destination row lies `n` steps of direction `d` from
the source row. -/
theorem search_corridorY_dir (g : FlexGridGraph) (s t : Int) (hc : unobstructedCorridorY g s t)
    (w : CostWeights) (legal : frDirEnum → frDirEnum → Bool)
    (hl0 : ∀ dir, legal frDirEnum.UNKNOWN dir = true) (hl1 : ∀ dir, legal dir dir = true)
    (σ : Int) (d : frDirEnum)
    (hd : (d = frDirEnum.N ∧ σ = 1) ∨ (d = frDirEnum.S ∧ σ = -1)) (n : Nat)
    (htn : t = s + σ * (n : Int)) (fuel : Nat) (hf : n + 1 ≤ fuel) :
    search g w legal [{ x := 0, y := s, z := 0 }] { x := 0, y := t, z := 0 }
        { x := 0, y := t, z := 0 } fuel
      = some (true, corridorPathY s σ n,
          σ * (g.yCoords_.getD t.toNat 0 - g.yCoords_.getD s.toNat 0)) := by
  have hs := hc.2.2.2.2.2.2.2.1
  have ht := hc.2.2.2.2.2.2.2.2.1
  have hest := corridorY_getEstCost g s t hc s hs.1 hs.2
  have hmax : max (g.yCoords_.getD t.toNat 0 - g.yCoords_.getD s.toNat 0)
      (g.yCoords_.getD s.toNat 0 - g.yCoords_.getD t.toNat 0)
      = σ * (g.yCoords_.getD t.toNat 0 - g.yCoords_.getD s.toNat 0) := by
    rcases hd with ⟨-, rfl⟩ | ⟨-, rfl⟩
    · have hle : g.yCoords_.getD s.toNat 0 ≤ g.yCoords_.getD t.toNat 0 := by
        rcases eq_or_lt_of_le (show s ≤ t by omega) with h | h
        · rw [h]
        · exact le_of_lt (corridorY_coord_lt g s t hc s t hs.1 h ht.2)
      omega
    · have hle : g.yCoords_.getD t.toNat 0 ≤ g.yCoords_.getD s.toNat 0 := by
        rcases eq_or_lt_of_le (show t ≤ s by omega) with h | h
        · rw [h]
        · exact le_of_lt (corridorY_coord_lt g s t hc t s ht.1 h hs.2)
      omega
  rw [hmax] at hest
  have hseed : seedWavefront g { x := 0, y := t, z := 0 } { x := 0, y := t, z := 0 }
      [{ x := 0, y := s, z := 0 }] = some ([] ++ corridorEntryY g.yCoords_ s t σ d 0 :: []) := by
    simp only [seedWavefront, hest, corridorEntryY_zero, List.nil_append]
  obtain ⟨g1, hloop, hc1, -, hprev⟩ := searchLoopY_corridor g.yCoords_ s t σ d hd n htn w legal
    hl0 hl1 n 0 (by omega) g [] [] [] hc rfl (by simp) (by simp) (by simp)
    (by intro j h1 h2; omega) fuel hf
  have htrace := traceBackPathY_corridor g1 s t σ d hd n htn hc1 hprev n (le_refl _) fuel hf
  rw [← htn] at htrace
  simp only [search, hseed, hloop]
  simp only [corridorEntryY, ← htn, htrace]

/-! ## The search claim -/

/-- The search on a corridor along x. -/
theorem search_corridor_x (g : FlexGridGraph) (s t : Int)
    (hc : unobstructedCorridor g s t) (w : CostWeights)
    (legal : frDirEnum → frDirEnum → Bool)
    (hl0 : ∀ dir, legal frDirEnum.UNKNOWN dir = true) (hl1 : ∀ dir, legal dir dir = true)
    (fuel : Nat) (hf : (t - s).natAbs + 1 ≤ fuel) :
    ∃ path a b, xCoord g s = some a ∧ xCoord g t = some b
      ∧ search g w legal [{ x := s, y := 0, z := 0 }] { x := t, y := 0, z := 0 }
          { x := t, y := 0, z := 0 } fuel = some (true, path, |b - a|)
      ∧ path = corridorPath s (if s ≤ t then 1 else -1) (t - s).natAbs
      ∧ path.length = (t - s).natAbs + 1
      ∧ pathEdgeLength g path = some |b - a| := by
  have hs := hc.2.2.2.2.2.2.2.1
  have ht := hc.2.2.2.2.2.2.2.2.1
  refine ⟨_, _, _, corridor_xCoord g s hs.1 hs.2, corridor_xCoord g t ht.1 ht.2, ?_, rfl,
    corridorPath_length _ _ _, ?_⟩
  · by_cases hst : s ≤ t
    · have htn : t = s + 1 * (((t - s).natAbs : Nat) : Int) := by omega
      have hle : g.xCoords_.getD s.toNat 0 ≤ g.xCoords_.getD t.toNat 0 := by
        rcases eq_or_lt_of_le hst with h | h
        · rw [h]
        · exact le_of_lt (corridor_coord_lt g s t hc s t hs.1 h ht.2)
      rw [if_pos hst, abs_of_nonneg (by omega),
        search_corridor_dir g s t hc w legal hl0 hl1 1 frDirEnum.E (Or.inl ⟨rfl, rfl⟩) _ htn
          fuel hf, one_mul]
    · have htn : t = s + -1 * (((t - s).natAbs : Nat) : Int) := by omega
      have hlt := corridor_coord_lt g s t hc t s ht.1 (by omega) hs.2
      rw [if_neg hst, abs_of_neg (by omega),
        search_corridor_dir g s t hc w legal hl0 hl1 (-1) frDirEnum.W (Or.inr ⟨rfl, rfl⟩) _ htn
          fuel hf]
      congr 3
      ring
  · by_cases hst : s ≤ t
    · have htn : t = s + 1 * (((t - s).natAbs : Nat) : Int) := by omega
      have hle : g.xCoords_.getD s.toNat 0 ≤ g.xCoords_.getD t.toNat 0 := by
        rcases eq_or_lt_of_le hst with h | h
        · rw [h]
        · exact le_of_lt (corridor_coord_lt g s t hc s t hs.1 h ht.2)
      rw [if_pos hst, abs_of_nonneg (by omega),
        pathEdgeLength_corridor g s t 1 frDirEnum.E (Or.inl ⟨rfl, rfl⟩) _ htn hc _ (le_refl _),
        ← htn, one_mul]
    · have htn : t = s + -1 * (((t - s).natAbs : Nat) : Int) := by omega
      have hlt := corridor_coord_lt g s t hc t s ht.1 (by omega) hs.2
      rw [if_neg hst, abs_of_neg (by omega),
        pathEdgeLength_corridor g s t (-1) frDirEnum.W (Or.inr ⟨rfl, rfl⟩) _ htn hc _
          (le_refl _), ← htn]
      congr 1
      ring

/-- The search on a corridor along y. -/
theorem search_corridor_y (g : FlexGridGraph) (s t : Int)
    (hc : unobstructedCorridorY g s t) (w : CostWeights)
    (legal : frDirEnum → frDirEnum → Bool)
    (hl0 : ∀ dir, legal frDirEnum.UNKNOWN dir = true) (hl1 : ∀ dir, legal dir dir = true)
    (fuel : Nat) (hf : (t - s).natAbs + 1 ≤ fuel) :
    ∃ path a b, yCoord g s = some a ∧ yCoord g t = some b
      ∧ search g w legal [{ x := 0, y := s, z := 0 }] { x := 0, y := t, z := 0 }
          { x := 0, y := t, z := 0 } fuel = some (true, path, |b - a|)
      ∧ path = corridorPathY s (if s ≤ t then 1 else -1) (t - s).natAbs
      ∧ path.length = (t - s).natAbs + 1
      ∧ pathEdgeLength g path = some |b - a| := by
  have hs := hc.2.2.2.2.2.2.2.1
  have ht := hc.2.2.2.2.2.2.2.2.1
  refine ⟨_, _, _, corridorY_yCoord g s hs.1 hs.2, corridorY_yCoord g t ht.1 ht.2, ?_, rfl,
    corridorPathY_length _ _ _, ?_⟩
  · by_cases hst : s ≤ t
    · have htn : t = s + 1 * (((t - s).natAbs : Nat) : Int) := by omega
      have hle : g.yCoords_.getD s.toNat 0 ≤ g.yCoords_.getD t.toNat 0 := by
        rcases eq_or_lt_of_le hst with h | h
        · rw [h]
        · exact le_of_lt (corridorY_coord_lt g s t hc s t hs.1 h ht.2)
      rw [if_pos hst, abs_of_nonneg (by omega),
        search_corridorY_dir g s t hc w legal hl0 hl1 1 frDirEnum.N (Or.inl ⟨rfl, rfl⟩) _ htn
          fuel hf, one_mul]
    · have htn : t = s + -1 * (((t - s).natAbs : Nat) : Int) := by omega
      have hlt := corridorY_coord_lt g s t hc t s ht.1 (by omega) hs.2
      rw [if_neg hst, abs_of_neg (by omega),
        search_corridorY_dir g s t hc w legal hl0 hl1 (-1) frDirEnum.S (Or.inr ⟨rfl, rfl⟩) _ htn
          fuel hf]
      congr 3
      ring
  · by_cases hst : s ≤ t
    · have htn : t = s + 1 * (((t - s).natAbs : Nat) : Int) := by omega
      have hle : g.yCoords_.getD s.toNat 0 ≤ g.yCoords_.getD t.toNat 0 := by
        rcases eq_or_lt_of_le hst with h | h
        · rw [h]
        · exact le_of_lt (corridorY_coord_lt g s t hc s t hs.1 h ht.2)
      rw [if_pos hst, abs_of_nonneg (by omega),
        pathEdgeLengthY_corridor g s t 1 frDirEnum.N (Or.inl ⟨rfl, rfl⟩) _ htn hc _ (le_refl _),
        ← htn, one_mul]
    · have htn : t = s + -1 * (((t - s).natAbs : Nat) : Int) := by omega
      have hlt := corridorY_coord_lt g s t hc t s ht.1 (by omega) hs.2
      rw [if_neg hst, abs_of_neg (by omega),
        pathEdgeLengthY_corridor g s t (-1) frDirEnum.S (Or.inr ⟨rfl, rfl⟩) _ htn hc _
          (le_refl _), ← htn]
      congr 1
      ring

/-- C21: on an unobstructed straight corridor (one row or one column, one layer, every edge
between neighbouring grid points present, none blocked, every flag and cost counter zero)
with the source mask at the grid point of index s and the destination mask at the grid point
of index t, whatever the cost weights and whatever the direction-change rules as long as
they allow the first step and going straight, the search with enough fuel (one more than
the number of steps between s and t) returns true; the path is the straight sequence of the
grid points from t back to s, of |t - s| edges; and the cost is the distance between the
coordinates of t and s, which is the sum of the edge lengths along the path. The first part
is the corridor along x, the second part the corridor along y. -/
theorem search_straight_corridor (g : FlexGridGraph) (s t : Int) (w : CostWeights)
    (legal : frDirEnum → frDirEnum → Bool)
    (hl0 : ∀ dir, legal frDirEnum.UNKNOWN dir = true) (hl1 : ∀ dir, legal dir dir = true)
    (fuel : Nat) (hf : (t - s).natAbs + 1 ≤ fuel) :
    (unobstructedCorridor g s t →
      ∃ path a b, xCoord g s = some a ∧ xCoord g t = some b
        ∧ search g w legal [{ x := s, y := 0, z := 0 }] { x := t, y := 0, z := 0 }
            { x := t, y := 0, z := 0 } fuel = some (true, path, |b - a|)
        ∧ path = corridorPath s (if s ≤ t then 1 else -1) (t - s).natAbs
        ∧ path.length = (t - s).natAbs + 1
        ∧ pathEdgeLength g path = some |b - a|)
    ∧ (unobstructedCorridorY g s t →
      ∃ path a b, yCoord g s = some a ∧ yCoord g t = some b
        ∧ search g w legal [{ x := 0, y := s, z := 0 }] { x := 0, y := t, z := 0 }
            { x := 0, y := t, z := 0 } fuel = some (true, path, |b - a|)
        ∧ path = corridorPathY s (if s ≤ t then 1 else -1) (t - s).natAbs
        ∧ path.length = (t - s).natAbs + 1
        ∧ pathEdgeLength g path = some |b - a|) :=
  ⟨fun hc => search_corridor_x g s t hc w legal hl0 hl1 fuel hf,
    fun hc => search_corridor_y g s t hc w legal hl0 hl1 fuel hf⟩

/-- Witness for C21: the corridor of four columns at x = 0, 10, 25, 45 with the source at
column 1 and the destination at column 3, and the corridor of three rows at y = 0, 7, 30
with the source at row 2 and the destination at row 0, with a rule that forbids reversals
and fuel 3. -/
theorem search_straight_corridor_witness :
    (unobstructedCorridor corridorGrid 1 3
      ∧ search corridorGrid sampleWeights noReversal [{ x := 1, y := 0, z := 0 }]
          { x := 3, y := 0, z := 0 } { x := 3, y := 0, z := 0 } 3
        = some (true, [{ x := 3, y := 0, z := 0 }, { x := 2, y := 0, z := 0 },
            { x := 1, y := 0, z := 0 }], 35)
      ∧ ∃ path a b, xCoord corridorGrid 1 = some a ∧ xCoord corridorGrid 3 = some b
        ∧ search corridorGrid sampleWeights noReversal [{ x := 1, y := 0, z := 0 }]
            { x := 3, y := 0, z := 0 } { x := 3, y := 0, z := 0 } 3 = some (true, path, |b - a|)
        ∧ path = corridorPath 1 (if (1 : Int) ≤ 3 then 1 else -1) ((3 : Int) - 1).natAbs
        ∧ path.length = ((3 : Int) - 1).natAbs + 1
        ∧ pathEdgeLength corridorGrid path = some |b - a|)
    ∧ (unobstructedCorridorY corridorGridY 2 0
      ∧ search corridorGridY sampleWeights noReversal [{ x := 0, y := 2, z := 0 }]
          { x := 0, y := 0, z := 0 } { x := 0, y := 0, z := 0 } 3
        = some (true, [{ x := 0, y := 0, z := 0 }, { x := 0, y := 1, z := 0 },
            { x := 0, y := 2, z := 0 }], 30)
      ∧ ∃ path a b, yCoord corridorGridY 2 = some a ∧ yCoord corridorGridY 0 = some b
        ∧ search corridorGridY sampleWeights noReversal [{ x := 0, y := 2, z := 0 }]
            { x := 0, y := 0, z := 0 } { x := 0, y := 0, z := 0 } 3 = some (true, path, |b - a|)
        ∧ path = corridorPathY 2 (if (2 : Int) ≤ 0 then 1 else -1) ((0 : Int) - 2).natAbs
        ∧ path.length = ((0 : Int) - 2).natAbs + 1
        ∧ pathEdgeLength corridorGridY path = some |b - a|) :=
  ⟨⟨by decide, by decide,
    (search_straight_corridor corridorGrid 1 3 sampleWeights noReversal
      (fun dir => by cases dir <;> rfl) (fun dir => by cases dir <;> rfl) 3 (by decide)).1
      (by decide)⟩,
   ⟨by decide, by decide,
    (search_straight_corridor corridorGridY 2 0 sampleWeights noReversal
      (fun dir => by cases dir <;> rfl) (fun dir => by cases dir <;> rfl) 3 (by decide)).2
      (by decide)⟩⟩

/-! ## The index box as element counts -/

theorem nonDecreasing_getD (v : List Int) (hs : nonDecreasing v) :
    ∀ i j, i ≤ j → j < v.length → v.getD i 0 ≤ v.getD j 0 := by
  intro i j hij hj
  have hi : i < v.length := by omega
  rw [List.getD_eq_getElem v 0 hi, List.getD_eq_getElem v 0 hj]
  rcases Nat.lt_or_ge i j with h | h
  · exact (List.pairwise_iff_getElem.1 hs) i j hi hj h
  · have e : i = j := by omega
    subst e
    exact le_refl _

/-- A list that a predicate splits at the index `k` has `k` elements with the predicate. -/
theorem countP_of_split (p : Int → Bool) (v : List Int) :
    ∀ k, k ≤ v.length → (∀ j, j < k → p (v.getD j 0) = true) →
      (∀ j, k ≤ j → j < v.length → p (v.getD j 0) = false) → v.countP p = k := by
  induction v with
  | nil =>
    intro k hk _ _
    simp only [List.length_nil, Nat.le_zero_eq] at hk
    rw [hk]
    rfl
  | cons a tl ih =>
    intro k hk hlo hhi
    cases k with
    | zero =>
      have ha := hhi 0 (le_refl _) (by simp)
      simp only [List.getD_cons_zero] at ha
      have ht := ih 0 (Nat.zero_le _) (fun j hj => absurd hj (Nat.not_lt_zero _))
        (fun j _ hj => by
          have := hhi (j + 1) (Nat.zero_le _) (by simpa using hj)
          simpa using this)
      rw [List.countP_cons_of_neg _ _ (by simp [ha]), ht]
    | succ k =>
      have ha := hlo 0 (Nat.succ_pos _)
      simp only [List.getD_cons_zero] at ha
      have ht := ih k (by simpa using hk)
        (fun j hj => by
          have := hlo (j + 1) (by omega)
          simpa using this)
        (fun j hj1 hj2 => by
          have := hhi (j + 1) (by omega) (by simpa using hj2)
          simpa using this)
      rw [List.countP_cons_of_pos _ _ ha, ht]

/-- On a sorted array `lower_bound` is the number of elements below the value. -/
theorem lower_bound_eq_countP (v : List Int) (hs : nonDecreasing v) (val : Int) :
    lower_bound v val = v.countP (fun c => decide (c < val)) := by
  obtain ⟨hle, hlo, hhi⟩ := lower_bound_spec v val (nonDecreasing_getD v hs)
  symm
  apply countP_of_split _ v _ hle
  · intro j hj
    simp only [decide_eq_true_eq]
    exact hlo j hj
  · intro j hj1 hj2
    simp only [decide_eq_false_iff_not, not_lt]
    exact hhi j hj1 hj2

/-- On a sorted array `upper_bound` is the number of elements not above the value. -/
theorem upper_bound_eq_countP (v : List Int) (hs : nonDecreasing v) (val : Int) :
    upper_bound v val = v.countP (fun c => decide (c ≤ val)) := by
  obtain ⟨hle, hlo, hhi⟩ := upper_bound_spec v val (nonDecreasing_getD v hs)
  symm
  apply countP_of_split _ v _ hle
  · intro j hj
    simp only [decide_eq_true_eq]
    exact hlo j hj
  · intro j hj1 hj2
    simp only [decide_eq_false_iff_not, not_le]
    exact hhi j hj1 hj2

/-- The adjustment of the isEnclosed policy never moves the upper index of a non-empty
sorted array. -/
theorem upper_step_fixed (v : List Int)
    (hs : ∀ i j, i ≤ j → j < v.length → v.getD i 0 ≤ v.getD j 0)
    (hne : 0 < v.length) (hlen : (v.length : Int) < 2 ^ 31) (hi : Int) :
    stepBackIfAbove v (max 0 (toInt32 (upper_bound v hi) - 1)) hi
      = some (max 0 (toInt32 (upper_bound v hi) - 1)) := by
  obtain ⟨hub, hlo, hhi⟩ := upper_bound_spec v hi hs
  have ht : toInt32 (upper_bound v hi : Int) = (upper_bound v hi : Int) :=
    toInt32_of_range _ (by omega) (by omega)
  have hidx : max 0 (toInt32 (upper_bound v hi : Int) - 1)
      = ((upper_bound v hi - 1 : Nat) : Int) := by
    rw [ht]; omega
  rw [hidx]
  have hlt : upper_bound v hi - 1 < v.length := by omega
  have hget := vecGet?_natCast v _ hlt
  unfold stepBackIfAbove
  rw [hget]
  simp only
  by_cases h0 : upper_bound v hi = 0
  · have e : ((upper_bound v hi - 1 : Nat) : Int) = 0 := by omega
    rw [e]
    split <;> rfl
  · have hval := hlo (upper_bound v hi - 1) (by omega)
    rw [if_neg (by omega)]

/-- The index box of every policy, given the outcome of the two adjustments of the lower
indices and that the adjustments of the upper indices leave them as they are. -/
theorem getIdxBox_of_steps (g : FlexGridGraph) (mIdx1 mIdx2 : FlexMazeIdx) (box : Rect)
    (e : getIdxBox_EnclosureType) (a b : Int)
    (hxl : e = getIdxBox_EnclosureType.enclose →
      stepBackIfAbove g.xCoords_ (toInt32 (lower_bound g.xCoords_ box.xMin)) box.xMin = some a)
    (hyl : e = getIdxBox_EnclosureType.enclose →
      stepBackIfAbove g.yCoords_ (toInt32 (lower_bound g.yCoords_ box.yMin)) box.yMin = some b)
    (hx : e = getIdxBox_EnclosureType.isEnclosed →
      stepBackIfAbove g.xCoords_ (max 0 (toInt32 (upper_bound g.xCoords_ box.xMax) - 1)) box.xMax
        = some (max 0 (toInt32 (upper_bound g.xCoords_ box.xMax) - 1)))
    (hy : e = getIdxBox_EnclosureType.isEnclosed →
      stepBackIfAbove g.yCoords_ (max 0 (toInt32 (upper_bound g.yCoords_ box.yMax) - 1)) box.yMax
        = some (max 0 (toInt32 (upper_bound g.yCoords_ box.yMax) - 1))) :
    getIdxBox g mIdx1 mIdx2 box e
      = some ({ x := if e = getIdxBox_EnclosureType.enclose then a
                     else toInt32 (lower_bound g.xCoords_ box.xMin),
                y := if e = getIdxBox_EnclosureType.enclose then b
                     else toInt32 (lower_bound g.yCoords_ box.yMin), z := mIdx1.z },
              { x := max 0 (toInt32 (upper_bound g.xCoords_ box.xMax) - 1),
                y := max 0 (toInt32 (upper_bound g.yCoords_ box.yMax) - 1), z := mIdx2.z }) := by
  by_cases hen : e = getIdxBox_EnclosureType.enclose
  · have hne : ¬ e = getIdxBox_EnclosureType.isEnclosed := by
      rw [hen]; decide
    unfold getIdxBox
    simp only [hen, if_true, hxl hen, hyl hen]
    rw [← hen]
    simp only [hne, if_false]
  · rw [getIdxBox_of_upper_steps g mIdx1 mIdx2 box e hen hx hy]
    simp only [hen, if_false]

/-- The adjustment of the enclose policy reads inside the array and yields an index between
0 and the lower bound when some coordinate is not below the value. -/
theorem lower_step_bounds (v : List Int)
    (hs : ∀ i j, i ≤ j → j < v.length → v.getD i 0 ≤ v.getD j 0)
    (hlen : (v.length : Int) < 2 ^ 31) (lo : Int) (i : Nat) (hi : i < v.length)
    (h1 : lo ≤ v.getD i 0) :
    toInt32 (lower_bound v lo : Int) = (lower_bound v lo : Int) ∧ lower_bound v lo ≤ i
      ∧ ∃ a, stepBackIfAbove v (toInt32 (lower_bound v lo)) lo = some a
          ∧ 0 ≤ a ∧ a ≤ (lower_bound v lo : Int) := by
  obtain ⟨-, hlo, hhi⟩ := lower_bound_spec v lo hs
  have hle : lower_bound v lo ≤ i := by
    by_contra hc
    have := hlo i (by omega)
    omega
  have hlt : lower_bound v lo < v.length := by omega
  have ht : toInt32 (lower_bound v lo : Int) = (lower_bound v lo : Int) :=
    toInt32_of_range _ (by omega) (by omega)
  refine ⟨ht, hle, ?_⟩
  rw [ht]
  unfold stepBackIfAbove
  rw [vecGet?_natCast v _ hlt]
  simp only
  refine ⟨_, rfl, ?_, ?_⟩
  · split <;> omega
  · split <;> omega

/-- The upper index of an index box lies inside the array, at or after every coordinate that
is at most the value. -/
theorem upper_side_bounds (v : List Int)
    (hs : ∀ i j, i ≤ j → j < v.length → v.getD i 0 ≤ v.getD j 0)
    (hlen : (v.length : Int) < 2 ^ 31) (hi : Int) (i : Nat) (hiv : i < v.length)
    (h1 : v.getD i 0 ≤ hi) :
    (i : Int) ≤ max 0 (toInt32 (upper_bound v hi) - 1)
      ∧ max 0 (toInt32 (upper_bound v hi) - 1) < (v.length : Int) := by
  obtain ⟨hub, -, hhi⟩ := upper_bound_spec v hi hs
  have hpos : i < upper_bound v hi := by
    by_contra hc
    have := hhi i (by omega) hiv
    omega
  have ht : toInt32 (upper_bound v hi : Int) = (upper_bound v hi : Int) :=
    toInt32_of_range _ (by omega) (by omega)
  rw [ht]
  omega

/-- C31: for sorted x and y coordinate arrays (of sizes that are frMIdx values) getIdxBox
with the uncertain policy sets mIdx1.x to the number of x coordinates strictly less than
box.xMin, mIdx1.y to the number of y coordinates strictly less than box.yMin, mIdx2.x to
max(0, (number of x coordinates <= box.xMax) - 1) and mIdx2.y likewise; under every policy
the z components of mIdx1 and mIdx2 are returned unchanged. -/
theorem getIdxBox_uncertain_counts (g : FlexGridGraph) (mIdx1 mIdx2 : FlexMazeIdx)
    (box : Rect)
    (hsx : nonDecreasing g.xCoords_) (hsy : nonDecreasing g.yCoords_)
    (hlx : (g.xCoords_.length : Int) < 2 ^ 31) (hly : (g.yCoords_.length : Int) < 2 ^ 31) :
    getIdxBox g mIdx1 mIdx2 box getIdxBox_EnclosureType.uncertain
        = some ({ x := (g.xCoords_.countP (fun c => decide (c < box.xMin)) : Nat),
                  y := (g.yCoords_.countP (fun c => decide (c < box.yMin)) : Nat),
                  z := mIdx1.z },
                { x := max 0 ((g.xCoords_.countP (fun c => decide (c ≤ box.xMax)) : Nat) - 1),
                  y := max 0 ((g.yCoords_.countP (fun c => decide (c ≤ box.yMax)) : Nat) - 1),
                  z := mIdx2.z })
      ∧ ∀ e m1 m2, getIdxBox g mIdx1 mIdx2 box e = some (m1, m2) →
          m1.z = mIdx1.z ∧ m2.z = mIdx2.z := by
  constructor
  · rw [getIdxBox_of_upper_steps g mIdx1 mIdx2 box getIdxBox_EnclosureType.uncertain
      (by decide) (fun h => absurd h (by decide)) (fun h => absurd h (by decide))]
    have bx1 := (lower_bound_spec g.xCoords_ box.xMin (nonDecreasing_getD _ hsx)).1
    have by1 := (lower_bound_spec g.yCoords_ box.yMin (nonDecreasing_getD _ hsy)).1
    have bx2 := (upper_bound_spec g.xCoords_ box.xMax (nonDecreasing_getD _ hsx)).1
    have by2 := (upper_bound_spec g.yCoords_ box.yMax (nonDecreasing_getD _ hsy)).1
    rw [toInt32_of_range (lower_bound g.xCoords_ box.xMin : Int) (by omega) (by omega),
      toInt32_of_range (lower_bound g.yCoords_ box.yMin : Int) (by omega) (by omega),
      toInt32_of_range (upper_bound g.xCoords_ box.xMax : Int) (by omega) (by omega),
      toInt32_of_range (upper_bound g.yCoords_ box.yMax : Int) (by omega) (by omega),
      lower_bound_eq_countP _ hsx, lower_bound_eq_countP _ hsy,
      upper_bound_eq_countP _ hsx, upper_bound_eq_countP _ hsy]
  · intro e m1 m2 h
    unfold getIdxBox at h
    simp only at h
    split at h
    · simp only [Option.some.injEq, Prod.mk.injEq] at h
      rw [← h.1, ← h.2]
      exact ⟨rfl, rfl⟩
    · exact absurd h (by simp)

theorem getIdxBox_uncertain_counts_witness :
    getIdxBox sampleGrid { x := 7, y := 7, z := 3 } { x := 8, y := 8, z := 4 } halfBox
          getIdxBox_EnclosureType.uncertain
        = some ({ x := (sampleGrid.xCoords_.countP (fun c => decide (c < halfBox.xMin)) : Nat),
                  y := (sampleGrid.yCoords_.countP (fun c => decide (c < halfBox.yMin)) : Nat),
                  z := 3 },
                { x := max 0
                    ((sampleGrid.xCoords_.countP (fun c => decide (c ≤ halfBox.xMax)) : Nat) - 1),
                  y := max 0
                    ((sampleGrid.yCoords_.countP (fun c => decide (c ≤ halfBox.yMax)) : Nat) - 1),
                  z := 4 })
      ∧ ∀ e m1 m2,
          getIdxBox sampleGrid { x := 7, y := 7, z := 3 } { x := 8, y := 8, z := 4 } halfBox e
            = some (m1, m2) → m1.z = 3 ∧ m2.z = 4 :=
  getIdxBox_uncertain_counts sampleGrid { x := 7, y := 7, z := 3 } { x := 8, y := 8, z := 4 }
    halfBox (by decide) (by decide) (by decide) (by decide)

/-- C33: for every non-empty sorted pair of coordinate arrays (of sizes that are frMIdx
values), every box and every initial mIdx1 and mIdx2, getIdxBox with the isEnclosed policy
returns the same result as with the uncertain policy, and that result is defined. -/
theorem getIdxBox_isEnclosed_eq_uncertain (g : FlexGridGraph) (mIdx1 mIdx2 : FlexMazeIdx)
    (box : Rect)
    (hsx : nonDecreasing g.xCoords_) (hsy : nonDecreasing g.yCoords_)
    (hnx : g.xCoords_ ≠ []) (hny : g.yCoords_ ≠ [])
    (hlx : (g.xCoords_.length : Int) < 2 ^ 31) (hly : (g.yCoords_.length : Int) < 2 ^ 31) :
    getIdxBox g mIdx1 mIdx2 box getIdxBox_EnclosureType.isEnclosed
        = getIdxBox g mIdx1 mIdx2 box getIdxBox_EnclosureType.uncertain
      ∧ ∃ m1 m2, getIdxBox g mIdx1 mIdx2 box getIdxBox_EnclosureType.isEnclosed
          = some (m1, m2) := by
  have sx := upper_step_fixed g.xCoords_ (nonDecreasing_getD _ hsx)
    (List.length_pos.2 hnx) hlx box.xMax
  have sy := upper_step_fixed g.yCoords_ (nonDecreasing_getD _ hsy)
    (List.length_pos.2 hny) hly box.yMax
  have h1 := getIdxBox_of_upper_steps g mIdx1 mIdx2 box getIdxBox_EnclosureType.isEnclosed
    (by decide) (fun _ => sx) (fun _ => sy)
  have h2 := getIdxBox_of_upper_steps g mIdx1 mIdx2 box getIdxBox_EnclosureType.uncertain
    (by decide) (fun h => absurd h (by decide)) (fun h => absurd h (by decide))
  exact ⟨h1.trans h2.symm, _, _, h1⟩

theorem getIdxBox_isEnclosed_eq_uncertain_witness :
    getIdxBox sampleGrid { x := 0, y := 0, z := 0 } { x := 0, y := 0, z := 0 }
          { xMin := -7, yMin := 3, xMax := -2, yMax := 4 } getIdxBox_EnclosureType.isEnclosed
        = getIdxBox sampleGrid { x := 0, y := 0, z := 0 } { x := 0, y := 0, z := 0 }
          { xMin := -7, yMin := 3, xMax := -2, yMax := 4 } getIdxBox_EnclosureType.uncertain
      ∧ ∃ m1 m2, getIdxBox sampleGrid { x := 0, y := 0, z := 0 } { x := 0, y := 0, z := 0 }
          { xMin := -7, yMin := 3, xMax := -2, yMax := 4 } getIdxBox_EnclosureType.isEnclosed
          = some (m1, m2) :=
  getIdxBox_isEnclosed_eq_uncertain sampleGrid { x := 0, y := 0, z := 0 }
    { x := 0, y := 0, z := 0 } { xMin := -7, yMin := 3, xMax := -2, yMax := 4 }
    (by decide) (by decide) (by decide) (by decide) (by decide) (by decide)

/-- C36: for strictly increasing x and y coordinate arrays (of sizes that are frMIdx
values), every policy and every rectangle that contains at least one grid x coordinate and
at least one grid y coordinate, getIdxBox reads no coordinate array out of bounds and
returns indices with 0 <= mIdx1.x <= mIdx2.x < xSize and 0 <= mIdx1.y <= mIdx2.y < ySize. -/
theorem getIdxBox_box_in_range (g : FlexGridGraph) (mIdx1 mIdx2 : FlexMazeIdx)
    (box : Rect) (e : getIdxBox_EnclosureType)
    (hsx : strictlyIncreasing g.xCoords_) (hsy : strictlyIncreasing g.yCoords_)
    (hlx : (g.xCoords_.length : Int) < 2 ^ 31) (hly : (g.yCoords_.length : Int) < 2 ^ 31)
    (hx : ∃ c ∈ g.xCoords_, box.xMin ≤ c ∧ c ≤ box.xMax)
    (hy : ∃ c ∈ g.yCoords_, box.yMin ≤ c ∧ c ≤ box.yMax) :
    ∃ m1 m2, getIdxBox g mIdx1 mIdx2 box e = some (m1, m2)
      ∧ 0 ≤ m1.x ∧ m1.x ≤ m2.x ∧ m2.x < (g.xCoords_.length : Int)
      ∧ 0 ≤ m1.y ∧ m1.y ≤ m2.y ∧ m2.y < (g.yCoords_.length : Int) := by
  obtain ⟨cx, hcx, hx1, hx2⟩ := hx
  obtain ⟨cy, hcy, hy1, hy2⟩ := hy
  obtain ⟨i, hi, hix⟩ := mem_getD g.xCoords_ cx hcx
  obtain ⟨j, hj, hjy⟩ := mem_getD g.yCoords_ cy hcy
  have mx := strictlyIncreasing_mono g.xCoords_ hsx
  have my := strictlyIncreasing_mono g.yCoords_ hsy
  obtain ⟨tx, lx, a, sa, a0, a1⟩ := lower_step_bounds g.xCoords_ mx hlx box.xMin i hi (by omega)
  obtain ⟨ty, ly, b, sb, b0, b1⟩ := lower_step_bounds g.yCoords_ my hly box.yMin j hj (by omega)
  obtain ⟨ux0, ux1⟩ := upper_side_bounds g.xCoords_ mx hlx box.xMax i hi (by omega)
  obtain ⟨uy0, uy1⟩ := upper_side_bounds g.yCoords_ my hly box.yMax j hj (by omega)
  have sx := upper_step_fixed g.xCoords_ mx (by omega) hlx box.xMax
  have sy := upper_step_fixed g.yCoords_ my (by omega) hly box.yMax
  have hbox := getIdxBox_of_steps g mIdx1 mIdx2 box e a b (fun _ => sa) (fun _ => sb)
    (fun _ => sx) (fun _ => sy)
  rw [tx, ty] at hbox
  have lx1 : (lower_bound g.xCoords_ box.xMin : Int) ≤ i := by omega
  have ly1 : (lower_bound g.yCoords_ box.yMin : Int) ≤ j := by omega
  clear hlx hly tx ty sa sb sx sy
  refine ⟨_, _, hbox, ?_, ?_, ux1, ?_, ?_, uy1⟩
  · show 0 ≤ (if e = getIdxBox_EnclosureType.enclose then a else _)
    split
    · exact a0
    · exact Int.natCast_nonneg _
  · show (if e = getIdxBox_EnclosureType.enclose then a else _) ≤ _
    split
    · exact le_trans a1 (le_trans lx1 ux0)
    · exact le_trans lx1 ux0
  · show 0 ≤ (if e = getIdxBox_EnclosureType.enclose then b else _)
    split
    · exact b0
    · exact Int.natCast_nonneg _
  · show (if e = getIdxBox_EnclosureType.enclose then b else _) ≤ _
    split
    · exact le_trans b1 (le_trans ly1 uy0)
    · exact le_trans ly1 uy0

theorem getIdxBox_box_in_range_witness :
    ∃ m1 m2, getIdxBox sampleGrid { x := 0, y := 0, z := 0 } { x := 0, y := 0, z := 0 }
        { xMin := 3, yMin := -4, xMax := 12, yMax := 0 } getIdxBox_EnclosureType.enclose
        = some (m1, m2)
      ∧ 0 ≤ m1.x ∧ m1.x ≤ m2.x ∧ m2.x < (sampleGrid.xCoords_.length : Int)
      ∧ 0 ≤ m1.y ∧ m1.y ≤ m2.y ∧ m2.y < (sampleGrid.yCoords_.length : Int) :=
  getIdxBox_box_in_range sampleGrid { x := 0, y := 0, z := 0 } { x := 0, y := 0, z := 0 }
    { xMin := 3, yMin := -4, xMax := 12, yMax := 0 } getIdxBox_EnclosureType.enclose
    (by decide) (by decide) (by decide) (by decide)
    ⟨10, by decide, by decide, by decide⟩ ⟨0, by decide, by decide, by decide⟩

/-! ## Adjacent-cost getters -/

/-- C32: getRouteShapeCostAdj and getMarkerCostAdj return, for the planar directions E, W,
N and S, the planar counter (routeShapeCostPlanar / markerCostPlanar) of the node adjacent
to (x,y,z) in that direction, and for U and D the via counter of the lower node of the via
edge ((x,y,z) for U, (x,y,z-1) for D), so that the U query at (x,y,z) and the D query at
(x,y,z+1) return the same value; on a built grid the node read is present whenever the
point is valid. -/
theorem adjacent_cost_getters (g : FlexGridGraph) (hwf : g.wellFormed) (x y z : Int) :
    getRouteShapeCostAdj g x y z frDirEnum.E
        = (nodeAt g (x + 1) y z).map (fun node => node.routeShapeCostPlanar)
      ∧ getRouteShapeCostAdj g x y z frDirEnum.W
        = (nodeAt g (x - 1) y z).map (fun node => node.routeShapeCostPlanar)
      ∧ getRouteShapeCostAdj g x y z frDirEnum.N
        = (nodeAt g x (y + 1) z).map (fun node => node.routeShapeCostPlanar)
      ∧ getRouteShapeCostAdj g x y z frDirEnum.S
        = (nodeAt g x (y - 1) z).map (fun node => node.routeShapeCostPlanar)
      ∧ getRouteShapeCostAdj g x y z frDirEnum.U
        = (nodeAt g x y z).map (fun node => node.routeShapeCostVia)
      ∧ getRouteShapeCostAdj g x y z frDirEnum.D
        = (nodeAt g x y (z - 1)).map (fun node => node.routeShapeCostVia)
      ∧ getRouteShapeCostAdj g x y z frDirEnum.U
        = getRouteShapeCostAdj g x y (z + 1) frDirEnum.D
      ∧ getMarkerCostAdj g x y z frDirEnum.E
        = (nodeAt g (x + 1) y z).map (fun node => node.markerCostPlanar)
      ∧ getMarkerCostAdj g x y z frDirEnum.W
        = (nodeAt g (x - 1) y z).map (fun node => node.markerCostPlanar)
      ∧ getMarkerCostAdj g x y z frDirEnum.N
        = (nodeAt g x (y + 1) z).map (fun node => node.markerCostPlanar)
      ∧ getMarkerCostAdj g x y z frDirEnum.S
        = (nodeAt g x (y - 1) z).map (fun node => node.markerCostPlanar)
      ∧ getMarkerCostAdj g x y z frDirEnum.U
        = (nodeAt g x y z).map (fun node => node.markerCostVia)
      ∧ getMarkerCostAdj g x y z frDirEnum.D
        = (nodeAt g x y (z - 1)).map (fun node => node.markerCostVia)
      ∧ getMarkerCostAdj g x y z frDirEnum.U = getMarkerCostAdj g x y (z + 1) frDirEnum.D
      ∧ ∀ a b c, isValid g a b c = true → ∃ node, nodeAt g a b c = some node := by
  have hz : z + 1 - 1 = z := by omega
  refine ⟨rfl, rfl, rfl, rfl, rfl, rfl, ?_, rfl, rfl, rfl, rfl, rfl, rfl, ?_, ?_⟩
  · show (nodeAt g x y z).map _ = (nodeAt g x y (z + 1 - 1)).map _
    rw [hz]
  · show (nodeAt g x y z).map _ = (nodeAt g x y (z + 1 - 1)).map _
    rw [hz]
  · intro a b c hv
    exact nodeAt_of_valid g hwf a b c hv

theorem adjacent_cost_getters_witness :
    getRouteShapeCostAdj guideGrid 0 0 0 frDirEnum.E
        = (nodeAt guideGrid (0 + 1) 0 0).map (fun node => node.routeShapeCostPlanar)
      ∧ getRouteShapeCostAdj guideGrid 0 0 0 frDirEnum.W
        = (nodeAt guideGrid (0 - 1) 0 0).map (fun node => node.routeShapeCostPlanar)
      ∧ getRouteShapeCostAdj guideGrid 0 0 0 frDirEnum.N
        = (nodeAt guideGrid 0 (0 + 1) 0).map (fun node => node.routeShapeCostPlanar)
      ∧ getRouteShapeCostAdj guideGrid 0 0 0 frDirEnum.S
        = (nodeAt guideGrid 0 (0 - 1) 0).map (fun node => node.routeShapeCostPlanar)
      ∧ getRouteShapeCostAdj guideGrid 0 0 0 frDirEnum.U
        = (nodeAt guideGrid 0 0 0).map (fun node => node.routeShapeCostVia)
      ∧ getRouteShapeCostAdj guideGrid 0 0 0 frDirEnum.D
        = (nodeAt guideGrid 0 0 (0 - 1)).map (fun node => node.routeShapeCostVia)
      ∧ getRouteShapeCostAdj guideGrid 0 0 0 frDirEnum.U
        = getRouteShapeCostAdj guideGrid 0 0 (0 + 1) frDirEnum.D
      ∧ getMarkerCostAdj guideGrid 0 0 0 frDirEnum.E
        = (nodeAt guideGrid (0 + 1) 0 0).map (fun node => node.markerCostPlanar)
      ∧ getMarkerCostAdj guideGrid 0 0 0 frDirEnum.W
        = (nodeAt guideGrid (0 - 1) 0 0).map (fun node => node.markerCostPlanar)
      ∧ getMarkerCostAdj guideGrid 0 0 0 frDirEnum.N
        = (nodeAt guideGrid 0 (0 + 1) 0).map (fun node => node.markerCostPlanar)
      ∧ getMarkerCostAdj guideGrid 0 0 0 frDirEnum.S
        = (nodeAt guideGrid 0 (0 - 1) 0).map (fun node => node.markerCostPlanar)
      ∧ getMarkerCostAdj guideGrid 0 0 0 frDirEnum.U
        = (nodeAt guideGrid 0 0 0).map (fun node => node.markerCostVia)
      ∧ getMarkerCostAdj guideGrid 0 0 0 frDirEnum.D
        = (nodeAt guideGrid 0 0 (0 - 1)).map (fun node => node.markerCostVia)
      ∧ getMarkerCostAdj guideGrid 0 0 0 frDirEnum.U
        = getMarkerCostAdj guideGrid 0 0 (0 + 1) frDirEnum.D
      ∧ ∀ a b c, isValid guideGrid a b c = true → ∃ node, nodeAt guideGrid a b c = some node :=
  adjacent_cost_getters guideGrid (by decide) 0 0 0

/-! ## Sums of edge lengths -/

/-- A sum of `n` values that are the differences of consecutive elements of an array is the
difference of the last and the first element. -/
theorem edgeLengthSum_telescope (v : List Int) (len : Int → Option Int) :
    ∀ (n a : Nat), a + n < v.length →
      (∀ i : Nat, a ≤ i → i < a + n → len (i : Int) = some (v.getD (i + 1) 0 - v.getD i 0)) →
      edgeLengthSum len (a : Int) n = some (v.getD (a + n) 0 - v.getD a 0) := by
  intro n
  induction n with
  | zero =>
    intro a _ _
    simp only [edgeLengthSum, Nat.add_zero, sub_self]
  | succ n ih =>
    intro a ha hl
    have h1 := hl a (le_refl _) (by omega)
    have h2 := ih (a + 1) (by omega) (fun i hi1 hi2 => hl i (by omega) (by omega))
    have e : ((a + 1 : Nat) : Int) = (a : Int) + 1 := by push_cast; rfl
    rw [e] at h2
    have e2 : a + 1 + n = a + (n + 1) := by omega
    rw [e2] at h2
    simp only [edgeLengthSum, h1, h2]
    congr 1
    omega

/-- An edge length read from two consecutive places of an array. -/
theorem subCoord_consecutive (v : List Int) (i : Nat) (hi : i + 1 < v.length)
    (hfit : - 2 ^ 31 ≤ v.getD (i + 1) 0 - v.getD i 0 ∧ v.getD (i + 1) 0 - v.getD i 0 < 2 ^ 31) :
    (match vecGet? v ((i : Int) + 1), vecGet? v (i : Int) with
      | some a, some b => subCoord a b
      | _, _ => none) = some (v.getD (i + 1) 0 - v.getD i 0) := by
  have e : (i : Int) + 1 = ((i + 1 : Nat) : Int) := by push_cast; rfl
  rw [e, vecGet?_natCast v (i + 1) hi, vecGet?_natCast v i (by omega)]
  simp only [subCoord, hfit, and_self, if_true]

/-- C37: edge lengths telescope. For every row (y,z) and indices a <= b within the x array
such that each East edge length between them is an frCoord value, the sum over i in [a, b)
of getEdgeLength(i,y,z,E) equals xCoord(b) - xCoord(a); likewise the sum of the North edge
lengths from y = a to y = b equals yCoord(b) - yCoord(a) and the sum of the Up edge lengths
from z = a to z = b equals getZHeight(b) - getZHeight(a). -/
theorem edge_lengths_telescope (g : FlexGridGraph) (x y z : Int) (a b : Nat) (hab : a ≤ b) :
    (b < g.xCoords_.length →
      (∀ i : Nat, i < b → a ≤ i →
        - 2 ^ 31 ≤ g.xCoords_.getD (i + 1) 0 - g.xCoords_.getD i 0
          ∧ g.xCoords_.getD (i + 1) 0 - g.xCoords_.getD i 0 < 2 ^ 31) →
      ∃ ca cb, xCoord g a = some ca ∧ xCoord g b = some cb
        ∧ edgeLengthSum (fun i => getEdgeLength g i y z frDirEnum.E) a (b - a)
            = some (cb - ca))
    ∧ (b < g.yCoords_.length →
      (∀ i : Nat, i < b → a ≤ i →
        - 2 ^ 31 ≤ g.yCoords_.getD (i + 1) 0 - g.yCoords_.getD i 0
          ∧ g.yCoords_.getD (i + 1) 0 - g.yCoords_.getD i 0 < 2 ^ 31) →
      ∃ ca cb, yCoord g a = some ca ∧ yCoord g b = some cb
        ∧ edgeLengthSum (fun i => getEdgeLength g x i z frDirEnum.N) a (b - a)
            = some (cb - ca))
    ∧ (b < g.zHeights_.length →
      (∀ i : Nat, i < b → a ≤ i →
        - 2 ^ 31 ≤ g.zHeights_.getD (i + 1) 0 - g.zHeights_.getD i 0
          ∧ g.zHeights_.getD (i + 1) 0 - g.zHeights_.getD i 0 < 2 ^ 31) →
      ∃ ca cb, getZHeight g a = some ca ∧ getZHeight g b = some cb
        ∧ edgeLengthSum (fun i => getEdgeLength g x y i frDirEnum.U) a (b - a)
            = some (cb - ca)) := by
  have hb : a + (b - a) = b := by omega
  refine ⟨?_, ?_, ?_⟩
  · intro hlen hfit
    refine ⟨g.xCoords_.getD a 0, g.xCoords_.getD b 0, ?_, ?_, ?_⟩
    · simp only [xCoord]
      exact vecGet?_natCast _ a (by omega)
    · simp only [xCoord]
      exact vecGet?_natCast _ b hlen
    · have h := edgeLengthSum_telescope g.xCoords_
        (fun i => getEdgeLength g i y z frDirEnum.E) (b - a) a (by omega)
        (fun i hi1 hi2 => by
          simp only [getEdgeLength, correct]
          exact subCoord_consecutive g.xCoords_ i (by omega) (hfit i (by omega) hi1))
      rw [hb] at h
      exact h
  · intro hlen hfit
    refine ⟨g.yCoords_.getD a 0, g.yCoords_.getD b 0, ?_, ?_, ?_⟩
    · simp only [yCoord]
      exact vecGet?_natCast _ a (by omega)
    · simp only [yCoord]
      exact vecGet?_natCast _ b hlen
    · have h := edgeLengthSum_telescope g.yCoords_
        (fun i => getEdgeLength g x i z frDirEnum.N) (b - a) a (by omega)
        (fun i hi1 hi2 => by
          simp only [getEdgeLength, correct]
          exact subCoord_consecutive g.yCoords_ i (by omega) (hfit i (by omega) hi1))
      rw [hb] at h
      exact h
  · intro hlen hfit
    refine ⟨g.zHeights_.getD a 0, g.zHeights_.getD b 0, ?_, ?_, ?_⟩
    · simp only [getZHeight]
      exact vecGet?_natCast _ a (by omega)
    · simp only [getZHeight]
      exact vecGet?_natCast _ b hlen
    · have h := edgeLengthSum_telescope g.zHeights_
        (fun i => getEdgeLength g x y i frDirEnum.U) (b - a) a (by omega)
        (fun i hi1 hi2 => by
          simp only [getEdgeLength, correct]
          exact subCoord_consecutive g.zHeights_ i (by omega) (hfit i (by omega) hi1))
      rw [hb] at h
      exact h

theorem edge_lengths_telescope_witness :
    (∃ ca cb, xCoord guideGrid (0 : Nat) = some ca ∧ xCoord guideGrid (2 : Nat) = some cb
        ∧ edgeLengthSum (fun i => getEdgeLength guideGrid i 0 0 frDirEnum.E) (0 : Nat) (2 - 0)
            = some (cb - ca))
      ∧ (∃ ca cb, yCoord guideGrid (0 : Nat) = some ca ∧ yCoord guideGrid (1 : Nat) = some cb
        ∧ edgeLengthSum (fun i => getEdgeLength guideGrid 0 i 0 frDirEnum.N) (0 : Nat) (1 - 0)
            = some (cb - ca))
      ∧ (∃ ca cb, getZHeight guideGrid (0 : Nat) = some ca
        ∧ getZHeight guideGrid (1 : Nat) = some cb
        ∧ edgeLengthSum (fun i => getEdgeLength guideGrid 0 0 i frDirEnum.U) (0 : Nat) (1 - 0)
            = some (cb - ca)) :=
  ⟨(edge_lengths_telescope guideGrid 0 0 0 0 2 (by decide)).1 (by decide) (by decide),
   (edge_lengths_telescope guideGrid 0 0 0 0 1 (by decide)).2.1 (by decide) (by decide),
   (edge_lengths_telescope guideGrid 0 0 0 0 1 (by decide)).2.2 (by decide) (by decide)⟩

/-! ## Add followed by subtract -/

/-- Two updates in a row of the node of a point that has a node: both are defined, the node
reads back as the composition, and the grid is the initial one exactly when the node is. -/
theorem updNode_twice (g : FlexGridGraph) (x y z : Int) (node : Node)
    (hn : nodeAt g x y z = some node) (f1 f2 : Node → Node) :
    ∃ g2, (updNode g x y z f1).bind (fun g1 => updNode g1 x y z f2) = some g2
      ∧ nodeAt g2 x y z = some (f2 (f1 node))
      ∧ (g2 = g ↔ f2 (f1 node) = node) := by
  obtain ⟨i, hi, h0, hlt, hget, hu⟩ := updNode_of_nodeAt g x y z f1 node hn
  have hn1 : nodeAt (writeNode g i (f1 node)) x y z = some (f1 node) :=
    nodeAt_set_same g x y z i (f1 node) hi h0 hlt
  obtain ⟨j, hj, hu2, hn2⟩ := updNode_nodeAt (writeNode g i (f1 node)) x y z f2 (f1 node) hn1
  have hij : j = i := by
    have e : getIdx (writeNode g i (f1 node)) x y z = getIdx g x y z := rfl
    rw [e, hi] at hj
    exact (Option.some.inj hj).symm
  subst hij
  refine ⟨_, by rw [hu]; exact hu2, hn2, ?_⟩
  constructor
  · intro h
    rw [h, hn] at hn2
    exact (Option.some.inj hn2).symm
  · intro h
    rw [h]
    unfold writeNode
    simp only [List.set_set]
    rw [list_set_self g.nodes_ j.toNat node hget]

theorem add_then_sub_counter (v : Nat) (hv : v < 2 ^ cost_bits) :
    storeCost (subFromByte (storeCost (addToByte v 1)) 1) = v ↔ v < 2 ^ cost_bits - 1 := by
  rw [storeCost_addToByte_one v hv]
  have h : min (v + 1) (2 ^ cost_bits - 1) < 2 ^ cost_bits := by
    rw [pow_cost_bits] at hv ⊢
    omega
  rw [storeCost_subFromByte_one _ h]
  rw [pow_cost_bits] at hv ⊢
  omega

theorem sub_then_add_counter (v : Nat) (hv : v < 2 ^ cost_bits) :
    storeCost (addToByte (storeCost (subFromByte v 1)) 1) = v ↔ 0 < v := by
  rw [storeCost_subFromByte_one v hv]
  have h : v - 1 < 2 ^ cost_bits := by omega
  rw [storeCost_addToByte_one _ h]
  rw [pow_cost_bits] at hv ⊢
  omega

/-- C38: for a valid point whose node holds counters that fit their bit-field, an add
followed by the matching subtract is defined and gives back the node (and the whole grid)
exactly when the counter is below 2^cost_bits - 1, and a subtract followed by the matching
add exactly when the counter is above 0: for routeShapeCostPlanar, for routeShapeCostVia and
for fixedShapeCostVia; addFixedShapeCostPlanar and subFixedShapeCostPlanar act on the two
counters fixedShapeCostPlanarHorz and fixedShapeCostPlanarVert, and the node is given back
exactly when both counters are away from the bound. -/
theorem add_sub_inverse_off_bounds (g : FlexGridGraph) (x y z : Int) (node : Node)
    (hv : isValid g x y z = true) (hn : nodeAt g x y z = some node) (hr : node.inRange) :
    (∃ g2, (addRouteShapeCostPlanar g x y z).bind (fun g1 => subRouteShapeCostPlanar g1 x y z)
        = some g2
      ∧ (nodeAt g2 x y z = some node ↔ node.routeShapeCostPlanar < 2 ^ cost_bits - 1)
      ∧ (g2 = g ↔ node.routeShapeCostPlanar < 2 ^ cost_bits - 1))
    ∧ (∃ g2, (subRouteShapeCostPlanar g x y z).bind (fun g1 => addRouteShapeCostPlanar g1 x y z)
        = some g2
      ∧ (nodeAt g2 x y z = some node ↔ 0 < node.routeShapeCostPlanar)
      ∧ (g2 = g ↔ 0 < node.routeShapeCostPlanar))
    ∧ (∃ g2, (addRouteShapeCostVia g x y z).bind (fun g1 => subRouteShapeCostVia g1 x y z)
        = some g2
      ∧ (nodeAt g2 x y z = some node ↔ node.routeShapeCostVia < 2 ^ cost_bits - 1)
      ∧ (g2 = g ↔ node.routeShapeCostVia < 2 ^ cost_bits - 1))
    ∧ (∃ g2, (subRouteShapeCostVia g x y z).bind (fun g1 => addRouteShapeCostVia g1 x y z)
        = some g2
      ∧ (nodeAt g2 x y z = some node ↔ 0 < node.routeShapeCostVia)
      ∧ (g2 = g ↔ 0 < node.routeShapeCostVia))
    ∧ (∃ g2, (addFixedShapeCostVia g x y z).bind (fun g1 => subFixedShapeCostVia g1 x y z)
        = some g2
      ∧ (nodeAt g2 x y z = some node ↔ node.fixedShapeCostVia < 2 ^ cost_bits - 1)
      ∧ (g2 = g ↔ node.fixedShapeCostVia < 2 ^ cost_bits - 1))
    ∧ (∃ g2, (subFixedShapeCostVia g x y z).bind (fun g1 => addFixedShapeCostVia g1 x y z)
        = some g2
      ∧ (nodeAt g2 x y z = some node ↔ 0 < node.fixedShapeCostVia)
      ∧ (g2 = g ↔ 0 < node.fixedShapeCostVia))
    ∧ (∃ g2, (addFixedShapeCostPlanar g x y z).bind
          (fun g1 => subFixedShapeCostPlanar g1 x y z) = some g2
      ∧ (nodeAt g2 x y z = some node ↔
          node.fixedShapeCostPlanarHorz < 2 ^ cost_bits - 1
            ∧ node.fixedShapeCostPlanarVert < 2 ^ cost_bits - 1)
      ∧ (g2 = g ↔
          node.fixedShapeCostPlanarHorz < 2 ^ cost_bits - 1
            ∧ node.fixedShapeCostPlanarVert < 2 ^ cost_bits - 1))
    ∧ (∃ g2, (subFixedShapeCostPlanar g x y z).bind
          (fun g1 => addFixedShapeCostPlanar g1 x y z) = some g2
      ∧ (nodeAt g2 x y z = some node ↔
          0 < node.fixedShapeCostPlanarHorz ∧ 0 < node.fixedShapeCostPlanarVert)
      ∧ (g2 = g ↔
          0 < node.fixedShapeCostPlanarHorz ∧ 0 < node.fixedShapeCostPlanarVert)) := by
  obtain ⟨r1, r2, -, -, r5, r6, r7⟩ := hr
  have key : ∀ (f1 f2 : Node → Node) (P : Prop), (f2 (f1 node) = node ↔ P) →
      ∃ g2, (updNode g x y z f1).bind (fun g1 => updNode g1 x y z f2) = some g2
        ∧ (nodeAt g2 x y z = some node ↔ P) ∧ (g2 = g ↔ P) := by
    intro f1 f2 P hP
    obtain ⟨g2, h1, h2, h3⟩ := updNode_twice g x y z node hn f1 f2
    refine ⟨g2, h1, ?_, h3.trans hP⟩
    rw [h2]
    constructor
    · intro h
      exact hP.1 (Option.some.inj h)
    · intro h
      rw [hP.2 h]
  have hv1 : ∀ (f1 : Node → Node) (g1 : FlexGridGraph), updNode g x y z f1 = some g1 →
      isValid g1 x y z = true := by
    intro f1 g1 h
    obtain ⟨i, nd, -, -, -, -, hw⟩ := updNode_eq_some g g1 x y z f1 h
    rw [hw]
    exact hv
  have keyv : ∀ (f1 f2 : Node → Node) (P : Prop), (f2 (f1 node) = node ↔ P) →
      ∃ g2, ((if isValid g x y z = true then updNode g x y z f1 else some g).bind
          (fun g1 => if isValid g1 x y z = true then updNode g1 x y z f2 else some g1)) = some g2
        ∧ (nodeAt g2 x y z = some node ↔ P) ∧ (g2 = g ↔ P) := by
    intro f1 f2 P hP
    obtain ⟨g2, h1, h2, h3⟩ := key f1 f2 P hP
    refine ⟨g2, ?_, h2, h3⟩
    rw [if_pos hv]
    cases hu : updNode g x y z f1 with
    | none => rw [hu] at h1; exact absurd h1 (by simp)
    | some g1 =>
      rw [hu] at h1
      simp only [Option.some_bind] at h1 ⊢
      rw [if_pos (hv1 f1 g1 hu)]
      exact h1
  refine ⟨?_, ?_, ?_, ?_, ?_, ?_, ?_, ?_⟩
  · apply key
    rw [← add_then_sub_counter _ r1]
    cases node
    simp only [Node.mk.injEq, true_and, and_true]
  · apply key
    rw [← sub_then_add_counter _ r1]
    cases node
    simp only [Node.mk.injEq, true_and, and_true]
  · apply key
    rw [← add_then_sub_counter _ r2]
    cases node
    simp only [Node.mk.injEq, true_and, and_true]
  · apply key
    rw [← sub_then_add_counter _ r2]
    cases node
    simp only [Node.mk.injEq, true_and, and_true]
  · apply keyv
    rw [← add_then_sub_counter _ r5]
    cases node
    simp only [Node.mk.injEq, true_and, and_true]
  · apply keyv
    rw [← sub_then_add_counter _ r5]
    cases node
    simp only [Node.mk.injEq, true_and, and_true]
  · apply keyv
    rw [← add_then_sub_counter _ r6, ← add_then_sub_counter _ r7]
    cases node
    simp only [Node.mk.injEq, true_and, and_true]
  · apply keyv
    rw [← sub_then_add_counter _ r6, ← sub_then_add_counter _ r7]
    cases node
    simp only [Node.mk.injEq, true_and, and_true]

/-- Witness for C38: node (0,0,0) of the sample grid, whose counters are all 0: add then
subtract gives the node back, subtract then add does not. -/
theorem add_sub_inverse_off_bounds_witness :
    isValid sampleGrid 0 0 0 = true ∧ nodeAt sampleGrid 0 0 0 = some Node.zero
      ∧ Node.zero.inRange
      ∧ (∃ g2, (addRouteShapeCostPlanar sampleGrid 0 0 0).bind
            (fun g1 => subRouteShapeCostPlanar g1 0 0 0) = some g2
          ∧ (nodeAt g2 0 0 0 = some Node.zero ↔
              Node.zero.routeShapeCostPlanar < 2 ^ cost_bits - 1)
          ∧ (g2 = sampleGrid ↔ Node.zero.routeShapeCostPlanar < 2 ^ cost_bits - 1))
      ∧ (∃ g2, (subRouteShapeCostPlanar sampleGrid 0 0 0).bind
            (fun g1 => addRouteShapeCostPlanar g1 0 0 0) = some g2
          ∧ (nodeAt g2 0 0 0 = some Node.zero ↔ 0 < Node.zero.routeShapeCostPlanar)
          ∧ (g2 = sampleGrid ↔ 0 < Node.zero.routeShapeCostPlanar)) :=
  have h := add_sub_inverse_off_bounds sampleGrid 0 0 0 Node.zero (by decide) (by decide)
    (by decide)
  ⟨by decide, by decide, by decide, h.1, h.2.1⟩

/-! ## Footprint of the cost mutators -/

theorem decayCasePlanarWith_erase {F : Type} (conv : Int → F → Option Int) (node : Node)
    (d : F) (r : Node × Int) (hr : decayCasePlanarWith conv node d = some r) :
    ({ r.1 with markerCostPlanar := 0, markerCostVia := 0 } : Node)
      = { node with markerCostPlanar := 0, markerCostVia := 0 } := by
  unfold decayCasePlanarWith at hr
  simp only at hr
  cases hc : conv (node.markerCostPlanar : Int) d with
  | none => simp [hc] at hr
  | some c =>
    simp only [hc, Option.some.injEq] at hr
    rw [← hr]

theorem decayCaseViaWith_erase {F : Type} (conv : Int → F → Option Int) (node : Node)
    (d : F) (r : Node × Int) (hr : decayCaseViaWith conv node d = some r) :
    ({ r.1 with markerCostPlanar := 0, markerCostVia := 0 } : Node)
      = { node with markerCostPlanar := 0, markerCostVia := 0 } := by
  unfold decayCaseViaWith at hr
  simp only at hr
  cases hc : conv (node.markerCostVia : Int) d with
  | none => simp [hc] at hr
  | some c =>
    simp only [hc, Option.some.injEq] at hr
    rw [← hr]

theorem decayMarkerCostSwitchWith_erase {F : Type} (conv : Int → F → Option Int)
    (node : Node) (dir : frDirEnum) (d : F) (r : Node × Int)
    (hr : decayMarkerCostSwitchWith conv node dir d = some r) :
    ({ r.1 with markerCostPlanar := 0, markerCostVia := 0 } : Node)
      = { node with markerCostPlanar := 0, markerCostVia := 0 } := by
  cases dir
  case E =>
    simp only [decayMarkerCostSwitchWith] at hr
    cases h1 : decayCasePlanarWith conv node d with
    | none => simp [h1] at hr
    | some r1 =>
      simp only [h1] at hr
      cases h2 : decayCasePlanarWith conv r1.1 d with
      | none => simp [h2] at hr
      | some r2 =>
        simp only [h2] at hr
        exact (decayCaseViaWith_erase conv _ d r hr).trans
          ((decayCasePlanarWith_erase conv _ d r2 h2).trans
            (decayCasePlanarWith_erase conv node d r1 h1))
  case N =>
    simp only [decayMarkerCostSwitchWith] at hr
    cases h1 : decayCasePlanarWith conv node d with
    | none => simp [h1] at hr
    | some r1 =>
      simp only [h1] at hr
      exact (decayCaseViaWith_erase conv _ d r hr).trans
        (decayCasePlanarWith_erase conv node d r1 h1)
  case U =>
    simp only [decayMarkerCostSwitchWith] at hr
    exact decayCaseViaWith_erase conv node d r hr
  all_goals
    simp only [decayMarkerCostSwitchWith, Option.some.injEq] at hr
    rw [← hr]

/-- A cost mutator called for a valid point that has a node rewrites, when it is defined,
the node of that point, and the new node differs from the old one in the named counters
only. -/
theorem applyCostOp_footprint {F : Type} (conv : Int → F → Option Int) (g g1 : FlexGridGraph)
    (op : CostOp F) (node : Node)
    (hv : isValid g op.target.1 op.target.2.1 op.target.2.2 = true)
    (hn : nodeAt g op.target.1 op.target.2.1 op.target.2.2 = some node)
    (ha : applyCostOp conv g op = some g1) :
    ∃ i nd, getIdx g op.target.1 op.target.2.1 op.target.2.2 = some i ∧ 0 ≤ i
      ∧ i.toNat < g.nodes_.length
      ∧ g1 = writeNode g i nd
      ∧ op.eraseNamed nd = op.eraseNamed node := by
  have H : ∀ (x y z : Int) (f : Node → Node) (er : Node → Node),
      nodeAt g x y z = some node → er (f node) = er node →
      updNode g x y z f = some g1 →
      ∃ i nd, getIdx g x y z = some i ∧ 0 ≤ i ∧ i.toNat < g.nodes_.length
        ∧ g1 = writeNode g i nd ∧ er nd = er node := by
    intro x y z f er h1 h2 h3
    obtain ⟨i, hi, h0, hlt, -, hu⟩ := updNode_of_nodeAt g x y z f node h1
    rw [hu] at h3
    exact ⟨i, f node, hi, h0, hlt, (Option.some.inj h3).symm, h2⟩
  have H2 : ∀ (x y z : Int) (f : Node → Node) (er : Node → Node) (b : Bool),
      nodeAt g x y z = some node → er (f node) = er node →
      ((updNode g x y z f).map fun g2 => (g2, b)).map Prod.fst = some g1 →
      ∃ i nd, getIdx g x y z = some i ∧ 0 ≤ i ∧ i.toNat < g.nodes_.length
        ∧ g1 = writeNode g i nd ∧ er nd = er node := by
    intro x y z f er b h1 h2 h3
    exact H x y z f er h1 h2 (map_fst_pair_eq_some _ _ _ h3)
  cases op with
  | addRouteShapeCostPlanar x y z => exact H x y z _ _ hn rfl ha
  | addRouteShapeCostVia x y z => exact H x y z _ _ hn rfl ha
  | subRouteShapeCostPlanar x y z => exact H x y z _ _ hn rfl ha
  | subRouteShapeCostVia x y z => exact H x y z _ _ hn rfl ha
  | resetRouteShapeCostPlanar x y z => exact H x y z _ _ hn rfl ha
  | resetRouteShapeCostVia x y z => exact H x y z _ _ hn rfl ha
  | addMarkerCostPlanar x y z => exact H x y z _ _ hn rfl ha
  | addMarkerCostVia x y z => exact H x y z _ _ hn rfl ha
  | addMarkerCost x y z dir =>
    simp only [CostOp.target] at hv hn ⊢
    simp only [applyCostOp, addMarkerCost, hv, if_true] at ha
    split at ha
    · exact H _ _ _ _ _ hn rfl ha
    · exact H _ _ _ _ _ hn rfl ha
    · exact H _ _ _ _ _ hn rfl ha
    · exact H _ _ _ _ _ hn rfl ha
  | decayMarkerCostPlanar x y z d =>
    simp only [CostOp.target] at hv hn ⊢
    simp only [applyCostOp, decayMarkerCostPlanarWith, hn] at ha
    cases hc : conv (node.markerCostPlanar : Int) d with
    | none => simp [hc] at ha
    | some c =>
      simp only [hc] at ha
      exact H2 x y z _ _ _ hn rfl ha
  | decayMarkerCostVia x y z d =>
    simp only [CostOp.target] at hv hn ⊢
    simp only [applyCostOp, decayMarkerCostViaWith, hn] at ha
    cases hc : conv (node.markerCostVia : Int) d with
    | none => simp [hc] at ha
    | some c =>
      simp only [hc] at ha
      exact H2 x y z _ _ _ hn rfl ha
  | decayMarkerCostPlanarUnit x y z =>
    simp only [CostOp.target] at hv hn ⊢
    simp only [applyCostOp, decayMarkerCostPlanarUnit, hn] at ha
    exact H2 x y z _ _ _ hn rfl ha
  | decayMarkerCostViaUnit x y z =>
    simp only [CostOp.target] at hv hn ⊢
    simp only [applyCostOp, decayMarkerCostViaUnit, hn] at ha
    exact H2 x y z _ _ _ hn rfl ha
  | decayMarkerCost x y z dir d =>
    simp only [CostOp.target] at hv hn ⊢
    simp only [applyCostOp, decayMarkerCostWith, hv, if_true, hn] at ha
    cases hsw : decayMarkerCostSwitchWith conv node (correct x y z dir).2.2.2 d with
    | none => simp [hsw] at ha
    | some r =>
      simp only [hsw] at ha
      exact H2 _ _ _ (fun _ => r.1) _ _ hn
        (decayMarkerCostSwitchWith_erase conv node _ d r hsw) ha
  | addFixedShapeCostPlanar x y z =>
    simp only [CostOp.target] at hv hn ⊢
    simp only [applyCostOp, addFixedShapeCostPlanar, hv, if_true] at ha
    exact H x y z _ _ hn rfl ha
  | setFixedShapeCostPlanarVert x y z c =>
    simp only [CostOp.target] at hv hn ⊢
    simp only [applyCostOp, setFixedShapeCostPlanarVert, hv, if_true] at ha
    exact H x y z _ _ hn rfl ha
  | setFixedShapeCostPlanarHorz x y z c =>
    simp only [CostOp.target] at hv hn ⊢
    simp only [applyCostOp, setFixedShapeCostPlanarHorz, hv, if_true] at ha
    exact H x y z _ _ hn rfl ha
  | addFixedShapeCostVia x y z =>
    simp only [CostOp.target] at hv hn ⊢
    simp only [applyCostOp, addFixedShapeCostVia, hv, if_true] at ha
    exact H x y z _ _ hn rfl ha
  | setFixedShapeCostVia x y z c =>
    simp only [CostOp.target] at hv hn ⊢
    simp only [applyCostOp, setFixedShapeCostVia, hv, if_true] at ha
    exact H x y z _ _ hn rfl ha
  | subFixedShapeCostPlanar x y z =>
    simp only [CostOp.target] at hv hn ⊢
    simp only [applyCostOp, subFixedShapeCostPlanar, hv, if_true] at ha
    exact H x y z _ _ hn rfl ha
  | subFixedShapeCostVia x y z =>
    simp only [CostOp.target] at hv hn ⊢
    simp only [applyCostOp, subFixedShapeCostVia, hv, if_true] at ha
    exact H x y z _ _ hn rfl ha

/-- C35: on a built grid whose counters are bit-field values, every cost mutator
(addRouteShapeCostPlanar/Via, subRouteShapeCostPlanar/Via, resetRouteShapeCostPlanar/Via,
addMarkerCostPlanar/Via, both overloads of decayMarkerCostPlanar/Via,
addFixedShapeCostPlanar/Via, subFixedShapeCostPlanar/Via,
setFixedShapeCostPlanarHorz/PlanarVert/Via, and the direction-aware ones at their canonical
point) called for a valid point is defined, provided the statement currCost *= d of a decay
with a factor is defined (the product converts to an int) on the counter values, whatever
the float arithmetic yields there (conv); and it changes only the named counter(s) of node
getIdx(x,y,z): the new node agrees with the old one once the named counters are set aside
(so in every flag and every other counter), every other node is as before, and the
previous-direction bits, the src/dst/guide masks, the coordinate arrays, the layer heights
and the routing directions are unchanged. -/
theorem cost_mutators_one_node_footprint {F : Type} (conv : Int → F → Option Int)
    (g : FlexGridGraph) (hwf : g.wellFormed) (hrange : ∀ n ∈ g.nodes_, n.inRange)
    (op : CostOp F) (hv : isValid g op.target.1 op.target.2.1 op.target.2.2 = true)
    (hconv : ∀ d, op.factor = some d →
      ∀ c : Int, 0 ≤ c → c < 2 ^ cost_bits → (conv c d).isSome = true) :
    ∃ i node node1 g1,
      getIdx g op.target.1 op.target.2.1 op.target.2.2 = some i
        ∧ nodeAt g op.target.1 op.target.2.1 op.target.2.2 = some node
        ∧ applyCostOp conv g op = some g1
        ∧ nodeAt g1 op.target.1 op.target.2.1 op.target.2.2 = some node1
        ∧ op.eraseNamed node1 = op.eraseNamed node
        ∧ (∀ a b c, getIdx g a b c ≠ some i → nodeAt g1 a b c = nodeAt g a b c)
        ∧ (∀ j : Nat, (j : Int) ≠ i → g1.nodes_[j]? = g.nodes_[j]?)
        ∧ g1.nodes_.length = g.nodes_.length
        ∧ g1.prevDirs_ = g.prevDirs_ ∧ g1.srcs_ = g.srcs_ ∧ g1.dsts_ = g.dsts_
        ∧ g1.guides_ = g.guides_ ∧ g1.xCoords_ = g.xCoords_ ∧ g1.yCoords_ = g.yCoords_
        ∧ g1.zCoords_ = g.zCoords_ ∧ g1.zHeights_ = g.zHeights_
        ∧ g1.layerRouteDirections_ = g.layerRouteDirections_ := by
  obtain ⟨node, hn⟩ := nodeAt_of_valid g hwf _ _ _ hv
  obtain ⟨i0, nd0, ha⟩ := applyCostOp_defined conv g op node hv hn
    (hrange node (nodeAt_mem g _ _ _ node hn)) hconv
  obtain ⟨i, nd, hi, h0, hlt, hw, he⟩ := applyCostOp_footprint conv g _ op node hv hn ha
  rw [hw] at ha
  refine ⟨i, node, nd, writeNode g i nd, hi, hn, ha,
    nodeAt_set_same g _ _ _ i nd hi h0 hlt, he, ?_, ?_, ?_,
    rfl, rfl, rfl, rfl, rfl, rfl, rfl, rfl, rfl⟩
  · intro a b c hne
    rw [nodeAt_writeNode g i nd h0 hlt a b c, if_neg hne]
  · intro j hj
    have hne : i.toNat ≠ j := by omega
    simp only [writeNode]
    rw [List.getElem?_set_ne hne]
  · simp only [writeNode, List.length_set]

/-- Witness for C35: the direction-aware decay by the factor 1/2 seen from column 1 of the
sample grid westwards, on the node of column 0 with both marker counters at 10, with the
exact product for the statement currCost *= d (the halves of 10 and 5 are binary32
values). -/
theorem cost_mutators_one_node_footprint_witness :
    ∃ i node node1 g1,
      getIdx markedBothGrid
          (CostOp.decayMarkerCost 1 0 0 frDirEnum.W (mkRat 1 2)).target.1
          (CostOp.decayMarkerCost 1 0 0 frDirEnum.W (mkRat 1 2)).target.2.1
          (CostOp.decayMarkerCost 1 0 0 frDirEnum.W (mkRat 1 2)).target.2.2 = some i
        ∧ nodeAt markedBothGrid
          (CostOp.decayMarkerCost 1 0 0 frDirEnum.W (mkRat 1 2)).target.1
          (CostOp.decayMarkerCost 1 0 0 frDirEnum.W (mkRat 1 2)).target.2.1
          (CostOp.decayMarkerCost 1 0 0 frDirEnum.W (mkRat 1 2)).target.2.2 = some node
        ∧ applyCostOp exactProduct markedBothGrid
            (CostOp.decayMarkerCost 1 0 0 frDirEnum.W (mkRat 1 2)) = some g1
        ∧ nodeAt g1 (CostOp.decayMarkerCost 1 0 0 frDirEnum.W (mkRat 1 2)).target.1
          (CostOp.decayMarkerCost 1 0 0 frDirEnum.W (mkRat 1 2)).target.2.1
          (CostOp.decayMarkerCost 1 0 0 frDirEnum.W (mkRat 1 2)).target.2.2 = some node1
        ∧ (CostOp.decayMarkerCost 1 0 0 frDirEnum.W (mkRat 1 2)).eraseNamed node1
            = (CostOp.decayMarkerCost 1 0 0 frDirEnum.W (mkRat 1 2)).eraseNamed node
        ∧ (∀ a b c, getIdx markedBothGrid a b c ≠ some i →
            nodeAt g1 a b c = nodeAt markedBothGrid a b c)
        ∧ (∀ j : Nat, (j : Int) ≠ i → g1.nodes_[j]? = markedBothGrid.nodes_[j]?)
        ∧ g1.nodes_.length = markedBothGrid.nodes_.length
        ∧ g1.prevDirs_ = markedBothGrid.prevDirs_ ∧ g1.srcs_ = markedBothGrid.srcs_
        ∧ g1.dsts_ = markedBothGrid.dsts_
        ∧ g1.guides_ = markedBothGrid.guides_ ∧ g1.xCoords_ = markedBothGrid.xCoords_
        ∧ g1.yCoords_ = markedBothGrid.yCoords_
        ∧ g1.zCoords_ = markedBothGrid.zCoords_ ∧ g1.zHeights_ = markedBothGrid.zHeights_
        ∧ g1.layerRouteDirections_ = markedBothGrid.layerRouteDirections_ :=
  cost_mutators_one_node_footprint exactProduct markedBothGrid (by decide) (by decide)
    (CostOp.decayMarkerCost 1 0 0 frDirEnum.W (mkRat 1 2)) (by decide)
    (fun _ _ _ _ _ => rfl)

/-! ## No dangling edges -/

theorem hasEdge_correct (g : FlexGridGraph) (x y z : Int) (dir : frDirEnum) :
    hasEdge g x y z dir
      = hasEdge g (correct x y z dir).1 (correct x y z dir).2.1 (correct x y z dir).2.2.1
          (correct x y z dir).2.2.2 := by
  cases dir <;> rfl

theorem isValidDir_correct (g : FlexGridGraph) (x y z : Int) (dir : frDirEnum) :
    isValidDir g x y z dir
      = isValidDir g (correct x y z dir).1 (correct x y z dir).2.1 (correct x y z dir).2.2.1
          (correct x y z dir).2.2.2 := by
  cases dir
  · rfl
  · simp only [isValidDir, correct, reverse, sub_add_cancel]
    exact Bool.and_comm _ _
  · simp only [isValidDir, correct, reverse, sub_add_cancel]
    exact Bool.and_comm _ _
  · simp only [isValidDir, correct, reverse, sub_add_cancel]
    exact Bool.and_comm _ _
  · rfl
  · rfl
  · rfl

/-- A canonical direction other than UNKNOWN is East, North or Up. -/
theorem canonical_dir (x y z : Int) (cdir : frDirEnum)
    (hcan : correct x y z cdir = (x, y, z, cdir)) (hne : cdir ≠ frDirEnum.UNKNOWN) :
    cdir = frDirEnum.E ∨ cdir = frDirEnum.N ∨ cdir = frDirEnum.U := by
  cases cdir
  · exact absurd rfl hne
  · simp only [correct, Prod.mk.injEq] at hcan
    exact absurd hcan.2.2.2 (by decide)
  · simp only [correct, Prod.mk.injEq] at hcan
    exact absurd hcan.2.2.2 (by decide)
  · simp only [correct, Prod.mk.injEq] at hcan
    exact absurd hcan.2.2.2 (by decide)
  · exact Or.inl rfl
  · exact Or.inr (Or.inl rfl)
  · exact Or.inr (Or.inr rfl)

/-- Writing a canonical edge bit of a valid node keeps the grid free of dangling edges when
the bit is only set for an edge with two valid end points. -/
theorem noDangling_withEdge (g : FlexGridGraph) (hwf : g.wellFormed) (x0 y0 z0 : Int)
    (cdir : frDirEnum) (hc : cdir = frDirEnum.E ∨ cdir = frDirEnum.N ∨ cdir = frDirEnum.U)
    (i : Int) (node : Node) (b : Bool) (hv : isValid g x0 y0 z0 = true)
    (hi : getIdx g x0 y0 z0 = some i) (hn : nodeAt g x0 y0 z0 = some node)
    (hInv : ∀ x y z dir, hasEdge g x y z dir = some true → isValidDir g x y z dir = true)
    (hb : b = true → isValidDir g x0 y0 z0 cdir = true) :
    ∀ x y z dir, hasEdge (writeNode g i (node.withEdge cdir b)) x y z dir = some true →
      isValidDir (writeNode g i (node.withEdge cdir b)) x y z dir = true := by
  obtain ⟨ha, hf⟩ := hasEdge_after_withEdge g hwf x0 y0 z0 cdir hc i node b hv hi hn
  intro x y z dir h
  have hvd : isValidDir (writeNode g i (node.withEdge cdir b)) x y z dir
      = isValidDir g x y z dir := rfl
  rw [hvd]
  by_cases hcq : correct x y z dir = (x0, y0, z0, cdir)
  · rw [hasEdge_correct, hcq] at h
    simp only at h
    rw [ha] at h
    have hbt : b = true := Option.some.inj h
    rw [isValidDir_correct, hcq]
    exact hb hbt
  · rw [hf x y z dir hcq] at h
    exact hInv x y z dir h

/-- One `addEdge` on a built grid without dangling edges is defined and leaves a built grid
without dangling edges. -/
theorem addEdge_noDangling (g : FlexGridGraph) (hwf : g.wellFormed)
    (hInv : ∀ x y z dir, hasEdge g x y z dir = some true → isValidDir g x y z dir = true)
    (x y z : Int) (dir : frDirEnum) (box : Rect) (initDR : Bool) :
    ∃ g1, (addEdge g x y z dir box initDR).map Prod.fst = some g1 ∧ g1.wellFormed
      ∧ ∀ x y z dir, hasEdge g1 x y z dir = some true → isValidDir g1 x y z dir = true := by
  have hform : addEdge g x y z dir box initDR
      = addEdge g (correct x y z dir).1 (correct x y z dir).2.1 (correct x y z dir).2.2.1
          (correct x y z dir).2.2.2 box initDR := by
    cases dir <;> rfl
  have hcan : correct (correct x y z dir).1 (correct x y z dir).2.1 (correct x y z dir).2.2.1
      (correct x y z dir).2.2.2
      = ((correct x y z dir).1, (correct x y z dir).2.1, (correct x y z dir).2.2.1,
          (correct x y z dir).2.2.2) := by
    cases dir <;> rfl
  obtain ⟨g1, b, h1, h2, h3, h4⟩ := addEdge_core g hwf _ _ _ _ hcan box initDR
  refine ⟨g1, by rw [hform, h1]; rfl, ?_⟩
  cases b with
  | false =>
    rw [h3 rfl]
    exact ⟨hwf, hInv⟩
  | true =>
    obtain ⟨i, node, hi, hn, hw⟩ := h4 rfl
    obtain ⟨hne, hv, hv1, -⟩ := h2.1 rfl
    rw [hw]
    refine ⟨wellFormed_writeNode g i _ hwf, ?_⟩
    apply noDangling_withEdge g hwf _ _ _ _ (canonical_dir _ _ _ _ hcan hne) i node true hv hi hn
      hInv
    intro _
    simp only [isValidDir, hv, hv1, Bool.and_self]

/-- One `removeEdge` on a built grid without dangling edges is defined and leaves a built
grid without dangling edges. -/
theorem removeEdge_noDangling (g : FlexGridGraph) (hwf : g.wellFormed)
    (hInv : ∀ x y z dir, hasEdge g x y z dir = some true → isValidDir g x y z dir = true)
    (x y z : Int) (dir : frDirEnum) :
    ∃ g1, (removeEdge g x y z dir).map Prod.fst = some g1 ∧ g1.wellFormed
      ∧ ∀ x y z dir, hasEdge g1 x y z dir = some true → isValidDir g1 x y z dir = true := by
  have hform : removeEdge g x y z dir
      = removeEdge g (correct x y z dir).1 (correct x y z dir).2.1 (correct x y z dir).2.2.1
          (correct x y z dir).2.2.2 := by
    cases dir <;> rfl
  have hcan : correct (correct x y z dir).1 (correct x y z dir).2.1 (correct x y z dir).2.2.1
      (correct x y z dir).2.2.2
      = ((correct x y z dir).1, (correct x y z dir).2.1, (correct x y z dir).2.2.1,
          (correct x y z dir).2.2.2) := by
    cases dir <;> rfl
  obtain ⟨g1, b, h1, h2, h3, h4⟩ := removeEdge_core g hwf _ _ _ _ hcan
  refine ⟨g1, by rw [hform, h1]; rfl, ?_⟩
  cases b with
  | false =>
    rw [h3 rfl]
    exact ⟨hwf, hInv⟩
  | true =>
    obtain ⟨i, node, hi, hn, hw, hc⟩ := h4 rfl
    obtain ⟨-, hv, -⟩ := h2.1 rfl
    rw [hw]
    refine ⟨wellFormed_writeNode g i _ hwf, ?_⟩
    apply noDangling_withEdge g hwf _ _ _ _ hc i node false hv hi hn hInv
    intro h
    exact absurd h (by decide)

/-- A sequence of edge mutators on a built grid without dangling edges is defined and ends
in a grid without dangling edges. -/
theorem runEdgeOps_noDangling (ops : List EdgeOp) :
    ∀ (g : FlexGridGraph), g.wellFormed →
      (∀ x y z dir, hasEdge g x y z dir = some true → isValidDir g x y z dir = true) →
      ∃ g1, runEdgeOps g ops = some g1 ∧ g1.wellFormed
        ∧ ∀ x y z dir, hasEdge g1 x y z dir = some true → isValidDir g1 x y z dir = true := by
  induction ops with
  | nil =>
    intro g hwf hInv
    exact ⟨g, rfl, hwf, hInv⟩
  | cons op ops ih =>
    intro g hwf hInv
    have hstep : ∃ g1, applyEdgeOp g op = some g1 ∧ g1.wellFormed
        ∧ ∀ x y z dir, hasEdge g1 x y z dir = some true → isValidDir g1 x y z dir = true := by
      cases op with
      | addEdge x y z dir box initDR => exact addEdge_noDangling g hwf hInv x y z dir box initDR
      | removeEdge x y z dir => exact removeEdge_noDangling g hwf hInv x y z dir
    obtain ⟨g1, h1, hwf1, hInv1⟩ := hstep
    obtain ⟨g2, h2, hwf2, hInv2⟩ := ih g1 hwf1 hInv1
    exact ⟨g2, by simp only [runEdgeOps, h1, h2], hwf2, hInv2⟩

/-- A grid whose nodes have no edge bit set answers no edge query with true. -/
theorem hasEdge_fresh (g : FlexGridGraph)
    (hfresh : ∀ n ∈ g.nodes_,
      n.hasEastEdge = false ∧ n.hasNorthEdge = false ∧ n.hasUpEdge = false)
    (x y z : Int) (dir : frDirEnum) : hasEdge g x y z dir ≠ some true := by
  intro h
  unfold hasEdge at h
  simp only at h
  split at h
  · cases hn : nodeAt g (correct x y z dir).1 (correct x y z dir).2.1 (correct x y z dir).2.2.1 with
    | none => simp [hn] at h
    | some node =>
      obtain ⟨hE, hN, hU⟩ := hfresh node (nodeAt_mem g _ _ _ node hn)
      simp only [hn] at h
      split at h
      · rw [hE] at h; exact absurd h (by simp)
      · rw [hN] at h; exact absurd h (by simp)
      · rw [hU] at h; exact absurd h (by simp)
      · exact absurd h (by simp)
  · exact absurd h (by simp)

/-- C34: no dangling edges. From a built grid whose nodes have no edge bit set (as after
construction), every sequence of addEdge and removeEdge calls, with any arguments, is
defined, and in the resulting grid hasEdge(x,y,z,dir) == true implies that both (x,y,z)
and its neighbour in direction dir are valid grid points. -/
theorem no_dangling_edges (g : FlexGridGraph) (hwf : g.wellFormed)
    (hfresh : ∀ n ∈ g.nodes_,
      n.hasEastEdge = false ∧ n.hasNorthEdge = false ∧ n.hasUpEdge = false)
    (ops : List EdgeOp) :
    ∃ g1, runEdgeOps g ops = some g1
      ∧ ∀ x y z dir, hasEdge g1 x y z dir = some true →
          isValid g1 x y z = true
            ∧ isValid g1 (reverse x y z dir).1 (reverse x y z dir).2.1
                (reverse x y z dir).2.2.1 = true := by
  obtain ⟨g1, h1, -, hInv⟩ := runEdgeOps_noDangling ops g hwf
    (fun x y z dir h => absurd h (hasEdge_fresh g hfresh x y z dir))
  refine ⟨g1, h1, ?_⟩
  intro x y z dir h
  have hv := hInv x y z dir h
  simp only [isValidDir, Bool.and_eq_true] at hv
  exact hv

/-- Witness for C34: on the sample grid, an edge added from column 0 eastwards, an attempt
to add an edge out of the grid, and a removal seen from column 1. -/
theorem no_dangling_edges_witness :
    ∃ g1, runEdgeOps sampleGrid
        [EdgeOp.addEdge 0 0 0 frDirEnum.E sampleBox false,
         EdgeOp.addEdge 1 0 0 frDirEnum.E sampleBox false,
         EdgeOp.removeEdge 1 0 0 frDirEnum.W,
         EdgeOp.addEdge 1 0 0 frDirEnum.W sampleBox true] = some g1
      ∧ ∀ x y z dir, hasEdge g1 x y z dir = some true →
          isValid g1 x y z = true
            ∧ isValid g1 (reverse x y z dir).1 (reverse x y z dir).2.1
                (reverse x y z dir).2.2.1 = true :=
  no_dangling_edges sampleGrid (by decide) (by decide)
    [EdgeOp.addEdge 0 0 0 frDirEnum.E sampleBox false,
     EdgeOp.addEdge 1 0 0 frDirEnum.E sampleBox false,
     EdgeOp.removeEdge 1 0 0 frDirEnum.W,
     EdgeOp.addEdge 1 0 0 frDirEnum.W sampleBox true]

/-! ## Sink clustering -/

theorem u32_of_lt (v : Nat) (h : v < 2 ^ 32) : u32 v = v := Nat.mod_eq_of_lt h

theorem listSameExcept_refl {α : Type} (v : List α) (j : Nat) : ListSameExcept v v j :=
  ⟨rfl, fun _ _ => rfl⟩

theorem listSameExcept_set {α : Type} (v : List α) (j : Nat) (a : α) :
    ListSameExcept v (v.set j a) j :=
  ⟨List.length_set _ _ _, fun _ hk => List.getElem?_set_ne (Ne.symm hk)⟩

theorem listSameExcept_trans {α : Type} (v v1 v2 : List α) (j : Nat)
    (h1 : ListSameExcept v v1 j) (h2 : ListSameExcept v1 v2 j) : ListSameExcept v v2 j :=
  ⟨h2.1.trans h1.1, fun k hk => (h2.2 k hk).trans (h1.2 k hk)⟩

theorem sameExcept_refl {F P : Type} (st : MatchState F P) (j : Nat) : SameExcept st st j :=
  ⟨listSameExcept_refl _ _, listSameExcept_refl _ _, listSameExcept_refl _ _,
    listSameExcept_refl _ _, listSameExcept_refl _ _, listSameExcept_refl _ _⟩

theorem sameExcept_trans {F P : Type} (st st1 st2 : MatchState F P) (j : Nat)
    (h1 : SameExcept st st1 j) (h2 : SameExcept st1 st2 j) : SameExcept st st2 j :=
  ⟨listSameExcept_trans _ _ _ j h1.1 h2.1, listSameExcept_trans _ _ _ j h1.2.1 h2.2.1,
    listSameExcept_trans _ _ _ j h1.2.2.1 h2.2.2.1,
    listSameExcept_trans _ _ _ j h1.2.2.2.1 h2.2.2.2.1,
    listSameExcept_trans _ _ _ j h1.2.2.2.2.1 h2.2.2.2.2.1,
    listSameExcept_trans _ _ _ j h1.2.2.2.2.2 h2.2.2.2.2.2⟩

theorem getElem?_set_same {α : Type} (v : List α) (j : Nat) (x a : α) (h : v[j]? = some x) :
    (v.set j a)[j]? = some a := by
  obtain ⟨hlt, -⟩ := List.getElem?_eq_some_iff.1 h
  simp [List.getElem?_set, hlt]

theorem set_concat_last {α : Type} (front : List α) (x a : α) :
    (front ++ [x]).set front.length a = front ++ [a] := by
  induction front with
  | nil => rfl
  | cons b tl ih =>
    simp only [List.cons_append, List.length_cons, List.set_cons_succ, ih]

theorem pushBackAt_last {α : Type} (front : List (List α)) (cur : List α) (a : α) :
    pushBackAt (front ++ [cur]) front.length a = some (front ++ [cur ++ [a]]) := by
  unfold pushBackAt
  rw [List.getElem?_concat_length]
  simp only [set_concat_last]

/-- An untouched row reads the same after a change at index `j`. -/
theorem rowIs_of_sameExcept {F P : Type} (st st1 : MatchState F P) (j k c : Nat) (co pc : F)
    (pts : List (List P)) (pidx sol : List (List Nat)) (h : SameExcept st st1 j)
    (hk : k ≠ j) (hr : RowIs st k c co pc pts pidx sol) : RowIs st1 k c co pc pts pidx sol := by
  obtain ⟨h1, h2, h3, h4, h5, h6⟩ := h
  obtain ⟨r1, r2, r3, r4, r5, r6⟩ := hr
  exact ⟨(h1.2 k hk).trans r1, (h2.2 k hk).trans r2, (h3.2 k hk).trans r3,
    (h4.2 k hk).trans r4, (h5.2 k hk).trans r5, (h6.2 k hk).trans r6⟩

theorem rowOpen_of_sameExcept {F P : Type} (sc : SinkClustering F P) (groupSize : Nat)
    (st st1 : MatchState F P) (j k : Nat) (content : List Nat) (h : SameExcept st st1 j)
    (hk : k ≠ j) (hr : RowOpen sc groupSize st k content) :
    RowOpen sc groupSize st1 k content := by
  obtain ⟨co, pc, frontP, curP, front, cur, hrow, rest⟩ := hr
  exact ⟨co, pc, frontP, curP, front, cur,
    rowIs_of_sameExcept st st1 j k _ co pc _ _ _ h hk hrow, rest⟩

/-- The allocation block does nothing when the current cluster exists. -/
theorem allocCluster_id {F P : Type} (st : MatchState F P) (j c : Nat) (co pc : F)
    (pts : List (List P)) (pidx sol : List (List Nat)) (hr : RowIs st j c co pc pts pidx sol)
    (hlen : sol.length = c + 1) (hc : c + 1 < 2 ^ 32) : allocCluster st j = some st := by
  obtain ⟨r1, -, -, -, -, r6⟩ := hr
  unfold allocCluster
  rw [r6, r1]
  simp only
  rw [u32_of_lt _ hc, if_neg (by omega)]

/-- The allocation block adds an empty cluster when the counter has just been advanced. -/
theorem allocCluster_push {F P : Type} (st : MatchState F P) (j c : Nat) (co pc : F)
    (pts : List (List P)) (pidx sol : List (List Nat)) (hr : RowIs st j c co pc pts pidx sol)
    (hlen : sol.length = c) (hc : c + 1 < 2 ^ 32) :
    ∃ st1, allocCluster st j = some st1 ∧ SameExcept st st1 j
      ∧ RowIs st1 j c co pc (pts ++ [[]]) (pidx ++ [[]]) (sol ++ [[]]) := by
  obtain ⟨r1, r2, r3, r4, r5, r6⟩ := hr
  refine ⟨{ st with solutions := st.solutions.set j (sol ++ [[]]),
                    solutionPoints := st.solutionPoints.set j (pts ++ [[]]),
                    solutionPointsIdx := st.solutionPointsIdx.set j (pidx ++ [[]]) }, ?_, ?_, ?_⟩
  · unfold allocCluster
    rw [r6, r1]
    simp only
    rw [u32_of_lt _ hc, if_pos (by omega)]
    simp only [pushBackAt, r6, r4, r5]
  · exact ⟨listSameExcept_refl _ _, listSameExcept_refl _ _, listSameExcept_refl _ _,
      listSameExcept_set _ _ _, listSameExcept_set _ _ _, listSameExcept_set _ _ _⟩
  · exact ⟨r1, r2, r3, getElem?_set_same _ _ _ _ r4, getElem?_set_same _ _ _ _ r5,
      getElem?_set_same _ _ _ _ r6⟩

/-- The loop over the current cluster is defined when every index it reads is an index of
`_pointsCap`. -/
theorem costLoop_defined {F P : Type} (ops : DoubleOps F) (sc : SinkClustering F P) (p : P)
    (idxAt : Nat → Option Nat) :
    ∀ (pts : List P) (pointIdx : Nat) (d cc : F),
      (∀ k, k < pts.length → ∃ m, idxAt (pointIdx + k) = some m ∧ m < sc._pointsCap.length) →
      pointIdx + pts.length < 2 ^ 32 →
      ∃ r, costLoop ops sc p idxAt pts pointIdx d cc = some r := by
  intro pts
  induction pts with
  | nil =>
    intro pointIdx d cc _ _
    exact ⟨_, rfl⟩
  | cons q rest ih =>
    intro pointIdx d cc hidx hlen
    simp only [List.length_cons] at hidx hlen
    obtain ⟨m, hm, hmlt⟩ := hidx 0 (by omega)
    simp only [Nat.add_zero] at hm
    obtain ⟨cap, hcap⟩ : ∃ cap, sc._pointsCap[m]? = some cap :=
      ⟨sc._pointsCap[m], List.getElem?_eq_getElem hmlt⟩
    have hnext : ∀ d1 cc1, ∃ r, costLoop ops sc p idxAt rest (u32 (pointIdx + 1)) d1 cc1
        = some r := by
      intro d1 cc1
      rw [u32_of_lt _ (by omega)]
      apply ih
      · intro k hk
        have := hidx (k + 1) (by omega)
        have e : pointIdx + (k + 1) = pointIdx + 1 + k := by omega
        rw [e] at this
        exact this
      · omega
    unfold costLoop
    simp only
    by_cases hu : sc._useMaxCapLimit = true
    · simp only [hu, if_true, hm, hcap]
      exact hnext _ _
    · simp only [hu, Bool.false_eq_true, if_false]
      exact hnext _ _

/-- The cost of the current cluster is defined, and the size it reports is that of the
cluster. -/
theorem clusterCost_defined {F P : Type} (ops : DoubleOps F) (sc : SinkClustering F P)
    (st : MatchState F P) (j : Nat) (co pc : F) (frontP : List (List P)) (curP : List P)
    (front sol : List (List Nat)) (cur : List Nat) (p : P) (cap : F)
    (hr : RowIs st j front.length co pc (frontP ++ [curP]) (front ++ [cur]) sol)
    (hfl : frontP.length = front.length) (hcl : curP.length = cur.length)
    (hcap : ∀ x ∈ cur, x < sc._pointsCap.length) (hlen : cur.length + 1 < 2 ^ 32) :
    ∃ d cc, clusterCost ops sc st j p cap = some (cur.length, d, cc) := by
  obtain ⟨r1, -, -, r4, r5, -⟩ := hr
  have hp : (frontP ++ [curP])[front.length]? = some curP := by
    rw [← hfl]
    exact List.getElem?_concat_length _ _
  have hi : (front ++ [cur])[front.length]? = some cur := List.getElem?_concat_length _ _
  obtain ⟨r, hrr⟩ := costLoop_defined ops sc p
    (fun k =>
      match st.solutionPointsIdx[j]? with
      | none => none
      | some rowI =>
        match rowI[front.length]? with
        | none => none
        | some cl => cl[k]?) curP 0 ops.zero cap
    (by
      intro k hk
      simp only [r5, hi, Nat.zero_add]
      have hk1 : k < cur.length := by omega
      exact ⟨cur[k], List.getElem?_eq_getElem hk1, hcap _ (List.getElem_mem _)⟩)
    (by omega)
  refine ⟨r.1, r.2, ?_⟩
  unfold clusterCost
  simp only [r1, r4, hp, hrr]
  rw [u32_of_lt _ (by omega), hcl]

/-- The decision on the current cluster is defined; it changes at most the counters of
solution `j`, and the cluster counter advances exactly when the limit is exceeded. -/
theorem closeOrKeep_spec {F P : Type} (ops : DoubleOps F) (sc : SinkClustering F P)
    (groupSize : Nat) (st : MatchState F P) (j c : Nat) (co pc : F) (pts : List (List P))
    (pidx sol : List (List Nat)) (size : Nat) (d cc : F)
    (hr : RowIs st j c co pc pts pidx sol) :
    ∃ st1 co1 pc1, closeOrKeep ops sc groupSize st j size d cc = some st1
      ∧ SameExcept st st1 j
      ∧ RowIs st1 j (if isLimitExceeded ops sc size d cc groupSize = true then u32 (c + 1)
          else c) co1 pc1 pts pidx sol := by
  obtain ⟨r1, r2, r3, r4, r5, r6⟩ := hr
  unfold closeOrKeep
  by_cases hex : isLimitExceeded ops sc size d cc groupSize = true
  · simp only [hex, if_true, r3, r2, r1]
    refine ⟨_, ops.add co (if ops.isZero pc = true then sc._maxInternalDiameter else pc),
      ops.zero, rfl, ?_, ?_⟩
    · exact ⟨listSameExcept_set _ _ _, listSameExcept_set _ _ _, listSameExcept_set _ _ _,
        listSameExcept_refl _ _, listSameExcept_refl _ _, listSameExcept_refl _ _⟩
    · exact ⟨getElem?_set_same _ _ _ _ r1, getElem?_set_same _ _ _ _ r2,
        getElem?_set_same _ _ _ _ r3, r4, r5, r6⟩
  · simp only [hex, Bool.false_eq_true, if_false, r3]
    by_cases hgt : ops.gt d pc = true
    · simp only [hgt, if_true]
      refine ⟨_, co, d, rfl, ?_, ?_⟩
      · exact ⟨listSameExcept_refl _ _, listSameExcept_refl _ _, listSameExcept_set _ _ _,
          listSameExcept_refl _ _, listSameExcept_refl _ _, listSameExcept_refl _ _⟩
      · exact ⟨r1, r2, getElem?_set_same _ _ _ _ r3, r4, r5, r6⟩
    · simp only [hgt, Bool.false_eq_true, if_false]
      exact ⟨st, co, pc, rfl, sameExcept_refl st j, r1, r2, r3, r4, r5, r6⟩

/-- The three `push_back` statements are defined when the current cluster is the last one
of each of the three vectors of the solution. -/
theorem pushPoint_spec {F P : Type} (st : MatchState F P) (j : Nat) (co pc : F)
    (fp : List (List P)) (cp : List P) (fi fs : List (List Nat)) (ci cs : List Nat)
    (p : P) (idx : Nat)
    (hr : RowIs st j fs.length co pc (fp ++ [cp]) (fi ++ [ci]) (fs ++ [cs]))
    (hfp : fp.length = fs.length) (hfi : fi.length = fs.length) :
    ∃ st1, pushPoint st j p idx = some st1 ∧ SameExcept st st1 j
      ∧ RowIs st1 j fs.length co pc (fp ++ [cp ++ [p]]) (fi ++ [ci ++ [idx]])
          (fs ++ [cs ++ [idx]]) := by
  obtain ⟨r1, r2, r3, r4, r5, r6⟩ := hr
  have e1 : pushBackAt2 st.solutionPoints j fs.length p
      = some (st.solutionPoints.set j (fp ++ [cp ++ [p]])) := by
    unfold pushBackAt2
    rw [r4, ← hfp]
    simp only [pushBackAt_last]
  have e2 : pushBackAt2 st.solutionPointsIdx j fs.length idx
      = some (st.solutionPointsIdx.set j (fi ++ [ci ++ [idx]])) := by
    unfold pushBackAt2
    rw [r5, ← hfi]
    simp only [pushBackAt_last]
  have e3 : pushBackAt2 st.solutions j fs.length idx
      = some (st.solutions.set j (fs ++ [cs ++ [idx]])) := by
    unfold pushBackAt2
    rw [r6]
    simp only [pushBackAt_last]
  refine ⟨{ st with solutionPoints := st.solutionPoints.set j (fp ++ [cp ++ [p]]),
                    solutionPointsIdx := st.solutionPointsIdx.set j (fi ++ [ci ++ [idx]]),
                    solutions := st.solutions.set j (fs ++ [cs ++ [idx]]) }, ?_, ?_, ?_⟩
  · unfold pushPoint
    simp only [r1, e1, e2, e3]
  · exact ⟨listSameExcept_refl _ _, listSameExcept_refl _ _, listSameExcept_refl _ _,
      listSameExcept_set _ _ _, listSameExcept_set _ _ _, listSameExcept_set _ _ _⟩
  · exact ⟨r1, r2, r3, getElem?_set_same _ _ _ _ r4, getElem?_set_same _ _ _ _ r5,
      getElem?_set_same _ _ _ _ r6⟩

/-- The part of the shared body after the first allocation block, on a solution that is in
step with its counters: the point is appended to the sink indexes of the solution. -/
theorem assignPoint_open {F P : Type} (ops : DoubleOps F) (sc : SinkClustering F P)
    (groupSize : Nat) (hg : 1 ≤ groupSize) (st : MatchState F P) (j pos : Nat)
    (content : List Nat) (ti : F × Nat)
    (hopen : RowOpen sc groupSize st j content)
    (hth : sc._thetaIndexVector[pos]? = some ti)
    (hp : ti.2 < sc._points.length) (hc : ti.2 < sc._pointsCap.length)
    (hlen : content.length + 2 < 2 ^ 32) :
    ∃ st1, assignPoint ops sc groupSize st j pos = some st1 ∧ SameExcept st st1 j
      ∧ RowOpen sc groupSize st1 j (content ++ [ti.2]) := by
  obtain ⟨co, pc, frontP, curP, front, cur, hrow, hfl, hcl, hcont, hfront, hcaps, hsize⟩ := hopen
  have hcurlen : cur.length ≤ content.length := by
    rw [← hcont, List.length_append]
    omega
  have hcurcap : ∀ x ∈ cur, x < sc._pointsCap.length := by
    intro x hx
    apply hcaps
    rw [← hcont]
    exact List.mem_append_right _ hx
  have ha1 := allocCluster_id st j front.length co pc _ _ _ hrow
    (by simp only [List.length_append, List.length_singleton]) (by omega)
  obtain ⟨p, hpt⟩ : ∃ p, sc._points[ti.2]? = some p :=
    ⟨sc._points[ti.2], List.getElem?_eq_getElem hp⟩
  obtain ⟨cap, hcp⟩ : ∃ cap, sc._pointsCap[ti.2]? = some cap :=
    ⟨sc._pointsCap[ti.2], List.getElem?_eq_getElem hc⟩
  obtain ⟨d, cc, hcost⟩ := clusterCost_defined ops sc st j co pc frontP curP front _ cur p cap
    hrow hfl hcl hcurcap (by omega)
  obtain ⟨st2, co2, pc2, hclose, hs2, hrow2⟩ := closeOrKeep_spec ops sc groupSize st j
    front.length co pc _ _ _ cur.length d cc hrow
  have hnewcaps : ∀ x ∈ content ++ [ti.2], x < sc._pointsCap.length := by
    intro x hx
    rcases List.mem_append.1 hx with h | h
    · exact hcaps x h
    · rw [List.mem_singleton.1 h]
      exact hc
  by_cases hex : isLimitExceeded ops sc cur.length d cc groupSize = true
  · rw [if_pos hex, u32_of_lt _ (by omega)] at hrow2
    obtain ⟨st3, ha3, hs3, hrow3⟩ := allocCluster_push st2 j (front.length + 1) co2 pc2 _ _ _
      hrow2 (by simp only [List.length_append, List.length_singleton]) (by omega)
    have e : front.length + 1 = (front ++ [cur]).length := by
      simp only [List.length_append, List.length_singleton]
    rw [e] at hrow3
    obtain ⟨st4, hpush, hs4, hrow4⟩ := pushPoint_spec st3 j co2 pc2 (frontP ++ [curP]) []
      (front ++ [cur]) (front ++ [cur]) [] [] p ti.2 hrow3
      (by simp only [List.length_append, List.length_singleton, hfl]) rfl
    refine ⟨st4, ?_, sameExcept_trans _ _ _ j hs2 (sameExcept_trans _ _ _ j hs3 hs4), ?_⟩
    · unfold assignPoint
      simp only [ha1, hth, hpt, hcp, hcost, hclose, ha3, hpush]
    · refine ⟨co2, pc2, frontP ++ [curP], [] ++ [p], front ++ [cur], [] ++ [ti.2], hrow4,
        by simp only [List.length_append, List.length_singleton, hfl], rfl, ?_, ?_,
        hnewcaps, ?_⟩
      · rw [← hcont]
        simp only [List.flatten_append, List.flatten_cons, List.flatten_nil, List.append_nil,
          List.nil_append]
      · simp only [List.length_append, List.length_singleton]
        omega
      · intro hu
        obtain ⟨h1, h2⟩ := hsize hu
        refine ⟨?_, ?_⟩
        · intro cl hcl1
          rcases List.mem_append.1 hcl1 with h | h
          · exact h1 cl h
          · rw [List.mem_singleton.1 h]
            exact h2
        · simp only [List.nil_append, List.length_singleton]
          exact hg
  · rw [if_neg hex] at hrow2
    have ha3 := allocCluster_id st2 j front.length co2 pc2 _ _ _ hrow2
      (by simp only [List.length_append, List.length_singleton]) (by omega)
    obtain ⟨st4, hpush, hs4, hrow4⟩ := pushPoint_spec st2 j co2 pc2 frontP curP
      front front cur cur p ti.2 hrow2 hfl rfl
    refine ⟨st4, ?_, sameExcept_trans _ _ _ j hs2 hs4, ?_⟩
    · unfold assignPoint
      simp only [ha1, hth, hpt, hcp, hcost, hclose, ha3, hpush]
    · refine ⟨co2, pc2, frontP, curP ++ [p], front, cur ++ [ti.2], hrow4, hfl,
        by simp only [List.length_append, List.length_singleton, hcl], ?_, ?_,
        hnewcaps, ?_⟩
      · rw [← hcont, List.append_assoc]
      · simp only [List.length_append, List.length_singleton]
        omega
      · intro hu
        obtain ⟨h1, h2⟩ := hsize hu
        refine ⟨h1, ?_⟩
        simp only [List.length_append, List.length_singleton]
        have hnot : ¬ (cur.length ≥ groupSize) := by
          intro hge
          apply hex
          unfold isLimitExceeded
          simp only [hu, Bool.false_eq_true, if_false, Bool.or_eq_true, decide_eq_true_eq]
          exact Or.inl hge
        omega

theorem assignPoint_after_alloc {F P : Type} (ops : DoubleOps F) (sc : SinkClustering F P)
    (groupSize : Nat) (st st1 : MatchState F P) (j pos : Nat)
    (h1 : allocCluster st j = some st1) (h2 : allocCluster st1 j = some st1) :
    assignPoint ops sc groupSize st j pos = assignPoint ops sc groupSize st1 j pos := by
  unfold assignPoint
  simp only [h1, h2]

theorem candInv_congr {F P : Type} (sc : SinkClustering F P) (groupSize : Nat)
    (st : MatchState F P) (m : Nat) (content content1 : Nat → List Nat)
    (h : ∀ k, k < m → content1 k = content k)
    (hinv : CandInv sc groupSize st m content) : CandInv sc groupSize st m content1 := by
  obtain ⟨h1, h2, h3, h4, h5, h6, h7, h8⟩ := hinv
  refine ⟨h1, h2, h3, h4, h5, h6, h7, ?_⟩
  intro k hk
  rw [h k hk]
  exact h8 k hk

/-- One assignment to an allocated solution keeps the local vectors in step. -/
theorem candInv_assign {F P : Type} (ops : DoubleOps F) (sc : SinkClustering F P)
    (groupSize : Nat) (hg : 1 ≤ groupSize) (st : MatchState F P) (m j pos : Nat)
    (content content1 : Nat → List Nat) (ti : F × Nat)
    (hinv : CandInv sc groupSize st m content) (hj : j < m)
    (hth : sc._thetaIndexVector[pos]? = some ti)
    (hp : ti.2 < sc._points.length) (hc : ti.2 < sc._pointsCap.length)
    (hlen : (content j).length + 2 < 2 ^ 32)
    (hc1 : content1 j = content j ++ [ti.2])
    (hc2 : ∀ k, k < m → k ≠ j → content1 k = content k) :
    ∃ st1, assignPoint ops sc groupSize st j pos = some st1
      ∧ CandInv sc groupSize st1 m content1 := by
  obtain ⟨h1, h2, h3, h4, h5, h6, h7, h8⟩ := hinv
  obtain ⟨st1, ha, hs, hrow⟩ := assignPoint_open ops sc groupSize hg st j pos (content j) ti
    (h8 j hj) hth hp hc hlen
  refine ⟨st1, ha, ?_⟩
  obtain ⟨s1, s2, s3, s4, s5, s6⟩ := hs
  refine ⟨s1.1.trans h1, s2.1.trans h2, s3.1.trans h3, s4.1.trans h4, s5.1.trans h5,
    s6.1.trans h6, ?_, ?_⟩
  · intro k hk1 hk2
    rw [s1.2 k (by omega)]
    exact h7 k hk1 hk2
  · intro k hk
    by_cases hkj : k = j
    · subst hkj
      rw [hc1]
      exact hrow
    · rw [hc2 k hk hkj]
      exact rowOpen_of_sameExcept sc groupSize st st1 j k _ ⟨s1, s2, s3, s4, s5, s6⟩ hkj
        (h8 k hk)

/-- The first assignment to solution `j` allocates the solution and its first cluster. -/
theorem candInv_alloc {F P : Type} (sc : SinkClustering F P) (groupSize : Nat)
    (st : MatchState F P) (j : Nat) (content : Nat → List Nat)
    (hinv : CandInv sc groupSize st j content) (hj : j < groupSize) (hlt : j + 1 < 2 ^ 32)
    (hcont : content j = []) :
    ∃ st2, allocCluster (allocSolution st j) j = some st2 ∧ allocCluster st2 j = some st2
      ∧ CandInv sc groupSize st2 (j + 1) content := by
  obtain ⟨h1, h2, h3, h4, h5, h6, h7, h8⟩ := hinv
  have hst : allocSolution st j
      = { st with solutions := st.solutions ++ [[]],
                  solutionPoints := st.solutionPoints ++ [[]],
                  solutionPointsIdx := st.solutionPointsIdx ++ [[]] } := by
    unfold allocSolution
    rw [h6, u32_of_lt _ hlt, if_pos (by omega)]
  have l4 : (st.solutionPoints ++ [[]])[j]? = some [] := by
    rw [← h4]
    exact List.getElem?_concat_length _ _
  have l5 : (st.solutionPointsIdx ++ [[]])[j]? = some [] := by
    rw [← h5]
    exact List.getElem?_concat_length _ _
  have l6 : (st.solutions ++ [[]])[j]? = some [] := by
    rw [← h6]
    exact List.getElem?_concat_length _ _
  have l2 : st.costs[j]? = some (st.costs[j]) := List.getElem?_eq_getElem (by omega)
  have l3 : st.previousCosts[j]? = some (st.previousCosts[j]) :=
    List.getElem?_eq_getElem (by omega)
  have hrow : RowIs (allocSolution st j) j 0 (st.costs[j]) (st.previousCosts[j]) [] [] [] := by
    rw [hst]
    exact ⟨h7 j (le_refl _) hj, l2, l3, l4, l5, l6⟩
  obtain ⟨st2, ha, hs, hrow2⟩ := allocCluster_push (allocSolution st j) j 0 _ _ [] [] [] hrow
    rfl (by omega)
  have ha2 := allocCluster_id st2 j 0 _ _ _ _ _ hrow2 rfl (by omega)
  refine ⟨st2, ha, ha2, ?_⟩
  obtain ⟨s1, s2, s3, s4, s5, s6⟩ := hs
  rw [hst] at s1 s2 s3 s4 s5 s6
  refine ⟨s1.1.trans h1, s2.1.trans h2, s3.1.trans h3,
    by rw [s4.1, List.length_append, List.length_singleton, h4],
    by rw [s5.1, List.length_append, List.length_singleton, h5],
    by rw [s6.1, List.length_append, List.length_singleton, h6], ?_, ?_⟩
  · intro k hk1 hk2
    rw [s1.2 k (by omega)]
    exact h7 k (by omega) hk2
  · intro k hk
    by_cases hkj : k = j
    · subst hkj
      rw [hcont]
      refine ⟨_, _, [], [], [], [], hrow2, rfl, rfl, rfl, le_refl _, ?_, ?_⟩
      · intro x hx
        exact absurd hx (List.not_mem_nil x)
      · intro _
        exact ⟨fun cl hcl => absurd hcl (List.not_mem_nil cl), Nat.zero_le _⟩
    · have hkl : k < j := by omega
      obtain ⟨co, pc, frontP, curP, front, cur, ⟨r1, r2, r3, r4, r5, r6⟩, rest⟩ := h8 k hkl
      refine ⟨co, pc, frontP, curP, front, cur, ⟨?_, ?_, ?_, ?_, ?_, ?_⟩, rest⟩
      · rw [s1.2 k hkj]; exact r1
      · rw [s2.2 k hkj]; exact r2
      · rw [s3.2 k hkj]; exact r3
      · rw [s4.2 k hkj, List.getElem?_append_left (by omega)]; exact r4
      · rw [s5.2 k hkj, List.getElem?_append_left (by omega)]; exact r5
      · rw [s6.2 k hkj, List.getElem?_append_left (by omega)]; exact r6

/-- The allocation block of the first loop does nothing for an allocated solution. -/
theorem allocSolution_id {F P : Type} (st : MatchState F P) (j : Nat)
    (h : j < st.solutions.length) (hlt : j + 1 < 2 ^ 32) : allocSolution st j = st := by
  unfold allocSolution
  rw [u32_of_lt _ hlt, if_neg (by omega)]

/-- One run of the body of the first loop nest for counters with `i + j` inside the theta
vector: either solution `j` is allocated by it (`m = j`) or it was (`j < m`). -/
theorem firstLoopBody_step {F P : Type} (ops : DoubleOps F) (sc : SinkClustering F P)
    (groupSize : Nat) (hg : 1 ≤ groupSize) (st : MatchState F P) (m i j : Nat)
    (content content1 : Nat → List Nat) (ti : F × Nat)
    (hinv : CandInv sc groupSize st m content) (hj : j < groupSize)
    (hcase : (m = j ∧ content j = []) ∨ j < m)
    (hij : i + j < 2 ^ 31)
    (hth : sc._thetaIndexVector[i + j]? = some ti)
    (hp : ti.2 < sc._points.length) (hc : ti.2 < sc._pointsCap.length)
    (hlen : (content j).length + 2 < 2 ^ 32)
    (hc1 : content1 j = content j ++ [ti.2])
    (hc2 : ∀ k, k ≠ j → content1 k = content k) :
    ∃ st1, firstLoopBody ops sc groupSize i j st = some st1
      ∧ CandInv sc groupSize st1 (max m (j + 1)) content1 := by
  have hin : i + j < sc._thetaIndexVector.length :=
    (List.getElem?_eq_some_iff.1 hth).1
  have hu : u32 (i + j) = i + j := u32_of_lt _ (by omega)
  unfold firstLoopBody
  rw [hu, if_pos (by omega)]
  rcases hcase with ⟨hm, hcont⟩ | hjm
  · subst hm
    obtain ⟨st2, ha, ha2, hinv2⟩ := candInv_alloc sc groupSize st m content hinv hj (by omega)
      hcont
    rw [assignPoint_after_alloc ops sc groupSize _ st2 m (i + m) ha ha2]
    have e : max m (m + 1) = m + 1 := by omega
    rw [e]
    exact candInv_assign ops sc groupSize hg st2 (m + 1) m (i + m) content content1 ti hinv2
      (by omega) hth hp hc hlen hc1 (fun k _ hk => hc2 k hk)
  · have hsl : st.solutions.length = m := hinv.2.2.2.2.2.1
    rw [allocSolution_id st j (by omega) (by omega)]
    have e : max m (j + 1) = m := by omega
    rw [e]
    exact candInv_assign ops sc groupSize hg st m j (i + j) content content1 ti hinv
      hjm hth hp hc hlen hc1 (fun k _ hk => hc2 k hk)

/-- A counting loop whose body keeps an invariant ends in a state with the invariant. -/
theorem forLoop_inv {σ : Type} (bound : Nat) (body : Nat → σ → Option σ)
    (I : Nat → σ → Prop) (hb : bound < 2 ^ 32)
    (hstep : ∀ i st, i < bound → I i st → ∃ st1, body i st = some st1 ∧ I (i + 1) st1) :
    ∀ (fuel i : Nat) (st : σ), i ≤ bound → bound - i < fuel → I i st →
      ∃ st1, forLoop bound body fuel i st = some st1 ∧ I bound st1 := by
  intro fuel
  induction fuel with
  | zero =>
    intro i st _ hf _
    exact absurd hf (Nat.not_lt_zero _)
  | succ fuel ih =>
    intro i st hi hf hI
    unfold forLoop
    by_cases hlt : i < bound
    · rw [if_pos hlt]
      obtain ⟨st1, hb1, hI1⟩ := hstep i st hlt hI
      rw [hb1]
      simp only
      rw [u32_of_lt _ (by omega)]
      exact ih (i + 1) st1 (by omega) (by omega) hI1
    · rw [if_neg hlt]
      have e : i = bound := by omega
      subst e
      exact ⟨st, rfl, hI⟩

theorem take_succ_drop (l : List Nat) (j i x : Nat) (h : l[i + j]? = some x) :
    (l.drop j).take (i + 1) = (l.drop j).take i ++ [x] := by
  rw [List.take_succ, List.getElem?_drop, Nat.add_comm j i, h]
  rfl

theorem take_succ_of_get (l : List Nat) (i x : Nat) (h : l[i]? = some x) :
    l.take (i + 1) = l.take i ++ [x] := by
  rw [List.take_succ, h]
  rfl

/-- The inner loop of the first loop nest, for one value of the outer counter: solution `k`
gets the sink at place `i + k` of the theta vector, when there is one. -/
theorem firstInner_spec {F P : Type} (ops : DoubleOps F) (sc : SinkClustering F P)
    (groupSize fuel : Nat)
    (hlen : sc._thetaIndexVector.length = sc._points.length)
    (hlt : ∀ (pos : Nat) (ti : F × Nat), sc._thetaIndexVector[pos]? = some ti →
      ti.2 < sc._points.length)
    (hcap : sc._pointsCap.length = sc._points.length)
    (hn : sc._points.length < 2 ^ 31)
    (hg1 : 1 ≤ groupSize) (hg2 : groupSize ≤ sc._points.length)
    (hfuel : sc._points.length < fuel) (i : Nat) (hi : i < sc._points.length)
    (st : MatchState F P)
    (hinv : CandInv sc groupSize st (if i = 0 then 0 else groupSize)
      (fun k => ((sc._thetaIndexVector.map Prod.snd).drop k).take i)) :
    ∃ st1, forLoop groupSize (fun j st1 => firstLoopBody ops sc groupSize i j st1) fuel 0 st
        = some st1
      ∧ CandInv sc groupSize st1 groupSize
          (fun k => ((sc._thetaIndexVector.map Prod.snd).drop k).take (i + 1)) := by
  obtain ⟨st1, h1, h2⟩ := forLoop_inv groupSize
    (fun j st1 => firstLoopBody ops sc groupSize i j st1)
    (fun j s => CandInv sc groupSize s (if i = 0 then j else groupSize)
      (fun k => ((sc._thetaIndexVector.map Prod.snd).drop k).take (if k < j then i + 1 else i)))
    (by omega)
    (by
      intro j s hj hI
      by_cases hij : i + j < sc._points.length
      · obtain ⟨ti, hti⟩ : ∃ ti, sc._thetaIndexVector[i + j]? = some ti :=
          ⟨sc._thetaIndexVector[i + j], List.getElem?_eq_getElem (by omega)⟩
        have hth : (sc._thetaIndexVector.map Prod.snd)[i + j]? = some ti.2 := by
          rw [List.getElem?_map, hti]
          rfl
        obtain ⟨s1, hb, hinv1⟩ := firstLoopBody_step ops sc groupSize hg1 s
          (if i = 0 then j else groupSize) i j _
          (fun k => ((sc._thetaIndexVector.map Prod.snd).drop k).take
            (if k < j + 1 then i + 1 else i)) ti hI hj
          (by
            by_cases h0 : i = 0
            · left
              simp only [h0, if_true, lt_self_iff_false, if_false, List.take_zero, and_self]
            · right
              simp only [h0, if_false]
              exact hj)
          (by omega) hti (hlt _ _ hti) (by rw [hcap]; exact hlt _ _ hti)
          (by
            simp only [lt_self_iff_false, if_false, List.length_take, List.length_drop,
              List.length_map]
            omega)
          (by
            simp only [lt_self_iff_false, if_false, Nat.lt_succ_self, if_true]
            exact take_succ_drop _ j i ti.2 hth)
          (by
            intro k hk
            have e : (k < j + 1) = (k < j) := by
              apply propext
              constructor <;> intro h <;> omega
            simp only [e])
        refine ⟨s1, hb, ?_⟩
        have e : max (if i = 0 then j else groupSize) (j + 1)
            = if i = 0 then j + 1 else groupSize := by
          split <;> omega
        rw [e] at hinv1
        exact hinv1
      · have h0 : ¬ i = 0 := by omega
        refine ⟨s, ?_, ?_⟩
        · show firstLoopBody ops sc groupSize i j s = some s
          unfold firstLoopBody
          rw [u32_of_lt _ (by omega), if_neg (by rw [hlen]; omega)]
        · simp only [h0, if_false] at hI ⊢
          apply candInv_congr sc groupSize s groupSize _ _ _ hI
          intro k _
          by_cases hkj : k = j
          · subst hkj
            simp only [Nat.lt_succ_self, if_true, lt_self_iff_false, if_false]
            rw [List.take_of_length_le, List.take_of_length_le]
            · simp only [List.length_drop, List.length_map]
              omega
            · simp only [List.length_drop, List.length_map]
              omega
          · have e : (k < j + 1) = (k < j) := by
              apply propext
              constructor <;> intro h <;> omega
            simp only [e])
    fuel 0 st (Nat.zero_le _) (by omega)
    (by
      apply candInv_congr sc groupSize st _ _ _ _ hinv
      intro k _
      simp only [Nat.not_lt_zero, if_false])
  refine ⟨st1, h1, ?_⟩
  simp only [ite_self] at h2
  apply candInv_congr sc groupSize st1 groupSize _ _ _ h2
  intro k hk
  simp only [hk, if_true]

/-- The first loop nest: solution `k` holds the sinks from place `k` of the theta vector
on. -/
theorem firstLoop_spec {F P : Type} (ops : DoubleOps F) (sc : SinkClustering F P)
    (groupSize fuel : Nat)
    (hlen : sc._thetaIndexVector.length = sc._points.length)
    (hlt : ∀ (pos : Nat) (ti : F × Nat), sc._thetaIndexVector[pos]? = some ti →
      ti.2 < sc._points.length)
    (hcap : sc._pointsCap.length = sc._points.length)
    (hn : sc._points.length < 2 ^ 31)
    (hg1 : 1 ≤ groupSize) (hg2 : groupSize ≤ sc._points.length)
    (hfuel : sc._points.length < fuel) :
    ∃ st1, forLoop sc._thetaIndexVector.length
        (fun i st => forLoop groupSize (fun j st1 => firstLoopBody ops sc groupSize i j st1)
          fuel 0 st) fuel 0
        { clusters := List.replicate groupSize 0,
          costs := List.replicate groupSize ops.zero,
          previousCosts := List.replicate groupSize ops.zero,
          solutionPoints := [], solutionPointsIdx := [], solutions := [] } = some st1
      ∧ CandInv sc groupSize st1 groupSize
          (fun k => (sc._thetaIndexVector.map Prod.snd).drop k) := by
  have hst0 : CandInv sc groupSize
      ({ clusters := List.replicate groupSize 0,
         costs := List.replicate groupSize ops.zero,
         previousCosts := List.replicate groupSize ops.zero,
         solutionPoints := [], solutionPointsIdx := [], solutions := [] } : MatchState F P)
      0 (fun k => ((sc._thetaIndexVector.map Prod.snd).drop k).take 0) := by
    refine ⟨List.length_replicate _ _, List.length_replicate _ _, List.length_replicate _ _,
      rfl, rfl, rfl, ?_, ?_⟩
    · intro k _ hk
      simp only [List.getElem?_replicate, hk, if_true]
    · intro k hk
      exact absurd hk (Nat.not_lt_zero _)
  obtain ⟨st1, h1, h2⟩ := forLoop_inv sc._thetaIndexVector.length
    (fun i st => forLoop groupSize (fun j st1 => firstLoopBody ops sc groupSize i j st1)
      fuel 0 st)
    (fun i s => CandInv sc groupSize s (if i = 0 then 0 else groupSize)
      (fun k => ((sc._thetaIndexVector.map Prod.snd).drop k).take i))
    (by omega)
    (by
      intro i s hi hI
      obtain ⟨s1, hb, hinv1⟩ := firstInner_spec ops sc groupSize fuel hlen hlt hcap hn hg1 hg2
        hfuel i (by omega) s hI
      refine ⟨s1, hb, ?_⟩
      show CandInv sc groupSize s1 (if i + 1 = 0 then 0 else groupSize) _
      rw [if_neg (Nat.succ_ne_zero i)]
      exact hinv1)
    fuel 0
    { clusters := List.replicate groupSize 0,
      costs := List.replicate groupSize ops.zero,
      previousCosts := List.replicate groupSize ops.zero,
      solutionPoints := [], solutionPointsIdx := [], solutions := [] }
    (Nat.zero_le _) (by omega)
    (by
      show CandInv sc groupSize _ (if 0 = 0 then 0 else groupSize) _
      rw [if_pos rfl]
      exact hst0)
  refine ⟨st1, h1, ?_⟩
  have h3 : CandInv sc groupSize st1
      (if sc._thetaIndexVector.length = 0 then 0 else groupSize)
      (fun k => ((sc._thetaIndexVector.map Prod.snd).drop k).take
        sc._thetaIndexVector.length) := h2
  rw [if_neg (by omega)] at h3
  apply candInv_congr sc groupSize st1 groupSize _ _ _ h3
  intro k _
  show _ = ((sc._thetaIndexVector.map Prod.snd).drop k).take sc._thetaIndexVector.length
  rw [List.take_of_length_le]
  simp only [List.length_drop, List.length_map]
  omega

/-- The inner loop of the second loop nest, for one value of the outer counter: every
solution after solution `i` gets the sink at place `i` of the theta vector. -/
theorem secondInner_spec {F P : Type} (ops : DoubleOps F) (sc : SinkClustering F P)
    (groupSize fuel : Nat)
    (hlen : sc._thetaIndexVector.length = sc._points.length)
    (hlt : ∀ (pos : Nat) (ti : F × Nat), sc._thetaIndexVector[pos]? = some ti →
      ti.2 < sc._points.length)
    (hcap : sc._pointsCap.length = sc._points.length)
    (hn : sc._points.length < 2 ^ 31)
    (hg1 : 1 ≤ groupSize) (hg2 : groupSize ≤ sc._points.length)
    (hfuel : sc._points.length < fuel) (i : Nat) (hi : i < groupSize)
    (st : MatchState F P)
    (hinv : CandInv sc groupSize st groupSize
      (fun k => (sc._thetaIndexVector.map Prod.snd).drop k
        ++ (sc._thetaIndexVector.map Prod.snd).take (min k i))) :
    ∃ st1, forLoop groupSize (fun j st2 => assignPoint ops sc groupSize st2 j i) fuel
        (u32 (i + 1)) st = some st1
      ∧ CandInv sc groupSize st1 groupSize
          (fun k => (sc._thetaIndexVector.map Prod.snd).drop k
            ++ (sc._thetaIndexVector.map Prod.snd).take (min k (i + 1))) := by
  obtain ⟨ti, hti⟩ : ∃ ti, sc._thetaIndexVector[i]? = some ti :=
    ⟨sc._thetaIndexVector[i], List.getElem?_eq_getElem (by omega)⟩
  have hth : (sc._thetaIndexVector.map Prod.snd)[i]? = some ti.2 := by
    rw [List.getElem?_map, hti]
    rfl
  obtain ⟨st1, h1, h2⟩ := forLoop_inv groupSize
    (fun j st2 => assignPoint ops sc groupSize st2 j i)
    (fun j s => i + 1 ≤ j ∧ CandInv sc groupSize s groupSize
      (fun k => (sc._thetaIndexVector.map Prod.snd).drop k
        ++ (sc._thetaIndexVector.map Prod.snd).take (min k (if k < j then i + 1 else i))))
    (by omega)
    (by
      intro j s hj hI
      obtain ⟨hij, hI⟩ := hI
      obtain ⟨s1, hb, hinv1⟩ := candInv_assign ops sc groupSize hg1 s groupSize j i _
        (fun k => (sc._thetaIndexVector.map Prod.snd).drop k
          ++ (sc._thetaIndexVector.map Prod.snd).take (min k (if k < j + 1 then i + 1 else i)))
        ti hI hj hti (hlt _ _ hti) (by rw [hcap]; exact hlt _ _ hti)
        (by
          simp only [lt_self_iff_false, if_false, List.length_append, List.length_take,
            List.length_drop, List.length_map]
          omega)
        (by
          simp only [lt_self_iff_false, if_false, Nat.lt_succ_self, if_true]
          have e1 : min j (i + 1) = i + 1 := by omega
          have e2 : min j i = i := by omega
          rw [e1, e2, take_succ_of_get _ i ti.2 hth, List.append_assoc])
        (by
          intro k _ hk
          have e : (k < j + 1) = (k < j) := by
            apply propext
            constructor <;> intro h <;> omega
          simp only [e])
      exact ⟨s1, hb, by omega, hinv1⟩)
    fuel (u32 (i + 1)) st (by rw [u32_of_lt _ (by omega)]; omega)
    (by rw [u32_of_lt _ (by omega)]; omega)
    (by
      rw [u32_of_lt _ (by omega)]
      refine ⟨le_refl _, ?_⟩
      apply candInv_congr sc groupSize st groupSize _ _ _ hinv
      intro k _
      have e : min k (if k < i + 1 then i + 1 else i) = min k i := by
        split <;> omega
      simp only [e])
  refine ⟨st1, h1, ?_⟩
  apply candInv_congr sc groupSize st1 groupSize _ _ _ h2.2
  intro k hk
  simp only [hk, if_true]

/-- The two loop nests: solution `k` holds the sinks of the theta vector from place `k` on,
followed by those before place `k`. -/
theorem matchingCandidates_spec {F P : Type} (ops : DoubleOps F) (sc : SinkClustering F P)
    (groupSize fuel : Nat)
    (hlen : sc._thetaIndexVector.length = sc._points.length)
    (hlt : ∀ (pos : Nat) (ti : F × Nat), sc._thetaIndexVector[pos]? = some ti →
      ti.2 < sc._points.length)
    (hcap : sc._pointsCap.length = sc._points.length)
    (hn : sc._points.length < 2 ^ 31)
    (hg1 : 1 ≤ groupSize) (hg2 : groupSize ≤ sc._points.length)
    (hfuel : sc._points.length < fuel) :
    ∃ st, matchingCandidates ops sc groupSize fuel = some st
      ∧ CandInv sc groupSize st groupSize
          (fun k => (sc._thetaIndexVector.map Prod.snd).drop k
            ++ (sc._thetaIndexVector.map Prod.snd).take k) := by
  obtain ⟨st1, h1, hinv1⟩ := firstLoop_spec ops sc groupSize fuel hlen hlt hcap hn hg1 hg2 hfuel
  obtain ⟨st2, h2, hinv2⟩ := forLoop_inv groupSize
    (fun i st => forLoop groupSize (fun j st2 => assignPoint ops sc groupSize st2 j i)
      fuel (u32 (i + 1)) st)
    (fun i s => CandInv sc groupSize s groupSize
      (fun k => (sc._thetaIndexVector.map Prod.snd).drop k
        ++ (sc._thetaIndexVector.map Prod.snd).take (min k i)))
    (by omega)
    (by
      intro i s hi hI
      exact secondInner_spec ops sc groupSize fuel hlen hlt hcap hn hg1 hg2 hfuel i hi s hI)
    fuel 0 st1 (Nat.zero_le _) (by omega)
    (by
      apply candInv_congr sc groupSize st1 groupSize _ _ _ hinv1
      intro k _
      simp only [Nat.min_zero, List.take_zero, List.append_nil])
  refine ⟨st2, ?_, ?_⟩
  · unfold matchingCandidates
    simp only [h1, h2]
  · apply candInv_congr sc groupSize st2 groupSize _ _ _ hinv2
    intro k hk
    have e : min k groupSize = k := by omega
    simp only [e]

/-- The loop that finds the solution with minimum cost yields an index of a solution. -/
theorem bestSolutionLoop_spec {F : Type} (ops : DoubleOps F) (costs : List F)
    (groupSize fuel : Nat) (hlen : costs.length = groupSize) (hg1 : 1 ≤ groupSize)
    (hg2 : groupSize < 2 ^ 32) (hfuel : groupSize ≤ fuel) :
    ∃ b, bestSolutionLoop ops costs groupSize fuel = some b ∧ b < groupSize := by
  obtain ⟨c0, hc0⟩ : ∃ c0, costs[0]? = some c0 :=
    ⟨costs[0], List.getElem?_eq_getElem (by omega)⟩
  obtain ⟨r, h1, h2⟩ := forLoop_inv groupSize
    (fun j (b : Nat × F) =>
      match costs[j]? with
      | none => none
      | some cj => some (if ops.lt cj b.2 then (j, cj) else b))
    (fun _ b => b.1 < groupSize) hg2
    (by
      intro j b hj hb
      have hcj : costs[j]? = some (costs[j]) := List.getElem?_eq_getElem (by omega)
      refine ⟨if ops.lt (costs[j]) b.2 = true then (j, costs[j]) else b, ?_, ?_⟩
      · simp only [hcj]
      · show (if ops.lt (costs[j]) b.2 = true then (j, costs[j]) else b).1 < groupSize
        split
        · exact hj
        · exact hb)
    fuel 1 (0, c0) hg1 (by omega) (by show 0 < groupSize; omega)
  refine ⟨r.1, ?_, h2⟩
  unfold bestSolutionLoop
  simp only [hc0, h1, Option.map_some']

/-- C39: sink clustering produces a partition. For n sinks (n below 2^31, one capacitance
per sink) whose theta-sorted index vector holds each index 0..n-1 exactly once and every
groupSize with 1 <= groupSize <= n, findBestMatching terminates (any fuel above n is enough)
with all vector accesses in bounds, there are groupSize candidate solutions, _bestSolution
is one of them, and in every candidate solution the clusters, one after the other, hold
each sink index 0..n-1 exactly once; this holds for every choice of the double arithmetic,
of computeDist and of the capacitance values, and with the max-cap limit disabled every
cluster holds at most groupSize sinks. -/
theorem findBestMatching_partition {F P : Type} (ops : DoubleOps F) (sc : SinkClustering F P)
    (groupSize fuel : Nat)
    (hperm : (sc._thetaIndexVector.map Prod.snd).Perm (List.range sc._points.length))
    (hcap : sc._pointsCap.length = sc._points.length)
    (hn : sc._points.length < 2 ^ 31)
    (hg1 : 1 ≤ groupSize) (hg2 : groupSize ≤ sc._points.length)
    (hfuel : sc._points.length < fuel) :
    ∃ st best, matchingCandidates ops sc groupSize fuel = some st
      ∧ findBestMatching ops sc groupSize fuel = some best
      ∧ st.solutions.length = groupSize ∧ best ∈ st.solutions
      ∧ ∀ sol ∈ st.solutions, sol.flatten.Perm (List.range sc._points.length)
          ∧ (sc._useMaxCapLimit = false → ∀ cl ∈ sol, cl.length ≤ groupSize) := by
  have hlen : sc._thetaIndexVector.length = sc._points.length := by
    have h := hperm.length_eq
    rw [List.length_map, List.length_range] at h
    exact h
  have hlt : ∀ (pos : Nat) (ti : F × Nat), sc._thetaIndexVector[pos]? = some ti →
      ti.2 < sc._points.length := by
    intro pos ti h
    have hmem : ti.2 ∈ sc._thetaIndexVector.map Prod.snd :=
      List.mem_map_of_mem Prod.snd (List.getElem?_mem h)
    exact List.mem_range.1 (hperm.mem_iff.1 hmem)
  obtain ⟨st, hm, hinv⟩ := matchingCandidates_spec ops sc groupSize fuel hlen hlt hcap hn hg1
    hg2 hfuel
  obtain ⟨-, h2, -, -, -, h6, -, h8⟩ := hinv
  obtain ⟨b, hb, hblt⟩ := bestSolutionLoop_spec ops st.costs groupSize fuel h2 hg1 (by omega)
    (by omega)
  have hbest : st.solutions[b]? = some (st.solutions[b]) :=
    List.getElem?_eq_getElem (by omega)
  refine ⟨st, st.solutions[b], hm, ?_, h6, List.getElem?_mem hbest, ?_⟩
  · unfold findBestMatching
    simp only [hm, hb, hbest]
  · intro sol hsol
    obtain ⟨k, hk⟩ := List.mem_iff_getElem?.1 hsol
    have hklt : k < groupSize := by
      rw [← h6]
      exact (List.getElem?_eq_some_iff.1 hk).1
    obtain ⟨co, pc, frontP, curP, front, cur, ⟨-, -, -, -, -, r6⟩, -, -, hcont, -, -, hsize⟩ :=
      h8 k hklt
    rw [hk] at r6
    have hs : sol = front ++ [cur] := Option.some.inj r6
    subst hs
    constructor
    · have hfl : (front ++ [cur]).flatten = front.flatten ++ cur := by
        simp only [List.flatten_append, List.flatten_cons, List.flatten_nil, List.append_nil]
      rw [hfl, hcont]
      have hrot : ((sc._thetaIndexVector.map Prod.snd).drop k
          ++ (sc._thetaIndexVector.map Prod.snd).take k).Perm
          (sc._thetaIndexVector.map Prod.snd) := by
        have h := @List.perm_append_comm _ ((sc._thetaIndexVector.map Prod.snd).drop k)
          ((sc._thetaIndexVector.map Prod.snd).take k)
        rw [List.take_append_drop] at h
        exact h
      exact hrot.trans hperm
    · intro hu cl hcl
      obtain ⟨s1, s2⟩ := hsize hu
      rcases List.mem_append.1 hcl with h | h
      · exact s1 cl h
      · rw [List.mem_singleton.1 h]
        exact s2

/-- Witness for C39: five sinks on a line, clusters of at most two sinks. -/
theorem findBestMatching_partition_witness :
    ∃ st best, matchingCandidates intOps sampleSinks 2 6 = some st
      ∧ findBestMatching intOps sampleSinks 2 6 = some best
      ∧ st.solutions.length = 2 ∧ best ∈ st.solutions
      ∧ ∀ sol ∈ st.solutions, sol.flatten.Perm (List.range sampleSinks._points.length)
          ∧ (sampleSinks._useMaxCapLimit = false → ∀ cl ∈ sol, cl.length ≤ 2) :=
  findBestMatching_partition intOps sampleSinks 2 6 (by decide) (by decide) (by decide)
    (by decide) (by decide) (by decide)

end fr
